import Mathlib

/-! The page-family memory manager of `mm.c`

A shallow embedding of `Custom Memory Management Functions APIs/mm.c`.

* Memory is a set of mapped regions plus, for every address, the block header
  and the page record that the C code would read there.  Reading or writing
  through a pointer into a region that is not mapped is a `Fault.unmapped`,
  through `NULL` a `Fault.null_deref`, and a failed `assert` a
  `Fault.assertion`.  Every function returns in `Except Fault`.
* `mm.h` and the glue-thread list library are not part of the sources at hand.
  Their sizes and offsets are the fields of `Layout`; their helper macros and
  the priority list are modelled from the specification, each one marked so.
* Addresses are natural numbers.  The state holds three views of the memory:
  the block header read at an address, the page record read at an address, and
  the byte stored at an address.  Zero-filling a range (`mmap`, `memset`)
  zeroes the bytes of the range and every header and page record that starts
  in it.
-/

namespace MM

/-- The three ways in which the C program stops. -/
inductive Fault where
  | assertion
  | null_deref
  | unmapped
deriving DecidableEq, Repr

/-- Sizes and offsets that `mm.h` fixes: `H` is `sizeof(block_meta_data_t)`,
`BMO` is `offset_of(vm_page_t, block_meta_data)`, `PMO` is
`offset_of(vm_page_t, page_memory)`; the last two are the macros of the same
name. -/
structure Layout where
  H : Nat
  BMO : Nat
  PMO : Nat
  MM_MAX_STRUCT_NAME : Nat
  MAX_FAMILIES_PER_VM_PAGE : Nat
deriving DecidableEq, Repr

/-- Conversion of a C integer expression to `uint32_t`. -/
def u32 (z : Int) : Nat := (z % 4294967296).toNat

/-- Conversion of a C integer expression to `int`. -/
def i32 (z : Int) : Int := (z + 2147483648) % 4294967296 - 2147483648

structure block_meta_data_t where
  is_free : Bool
  block_size : Nat
  offset : Nat
  prev_block : Option Nat
  next_block : Option Nat
deriving DecidableEq, Repr

/-- A pointer to a page family: the registry page and the slot in it. -/
abbrev FamPtr := Nat × Nat

/-- The link fields of `vm_page_t`; its first block header is the header
stored at the page address plus `BMO`. -/
structure vm_page_t where
  next : Option Nat
  prev : Option Nat
  pg_family : Option FamPtr
deriving DecidableEq, Repr

structure vm_page_family_t where
  struct_name : List Char
  struct_size : Nat
  first_page : Option Nat
  free_block_priority_list_head : List Nat
deriving DecidableEq, Repr

structure vm_page_for_families_t where
  addr : Nat
  vm_page_family : List vm_page_family_t
deriving DecidableEq, Repr

/-- The whole state of the manager and of the memory it touches.
`kernel` lists the answers of the coming `mmap` calls (`none` is
`MAP_FAILED`), `returned` the pages given back by `munmap`, newest first. -/
structure mm_state where
  SYSTEM_PAGE_SIZE : Nat
  first_vm_page_for_families : List vm_page_for_families_t
  mapped : List (Nat × Nat)
  page : Nat → vm_page_t
  block : Nat → block_meta_data_t
  kernel : List (Option Nat)
  returned : List Nat
  byte : Nat → Nat

/-- A header whose bytes are all zero. -/
def zero_block : block_meta_data_t :=
  { is_free := false, block_size := 0, offset := 0, prev_block := none, next_block := none }

/-- A page record whose bytes are all zero. -/
def zero_page : vm_page_t := { next := none, prev := none, pg_family := none }

/-- The state before `mm_init`, over a page source answering `kernel`. -/
def boot (kernel : List (Option Nat)) : mm_state :=
  { SYSTEM_PAGE_SIZE := 0, first_vm_page_for_families := [], mapped := [],
    page := fun _ => zero_page, block := fun _ => zero_block,
    kernel := kernel, returned := [], byte := fun _ => 0 }

def mm_init (pagesize : Nat) (s : mm_state) : mm_state :=
  { s with SYSTEM_PAGE_SIZE := pagesize }

/-! ## Memory access -/

def in_region (a : Nat) (r : Nat × Nat) : Bool := decide (r.1 ≤ a) && decide (a < r.1 + r.2)

def is_mapped (s : mm_state) (a : Nat) : Bool := s.mapped.any (in_region a)

def read_block (s : mm_state) (a : Nat) : Except Fault block_meta_data_t :=
  if is_mapped s a then .ok (s.block a) else .error .unmapped

def set_block (s : mm_state) (a : Nat) (b : block_meta_data_t) : mm_state :=
  { s with block := fun x => if x = a then b else s.block x }

def write_block (s : mm_state) (a : Nat) (b : block_meta_data_t) : Except Fault mm_state :=
  if is_mapped s a then .ok (set_block s a b) else .error .unmapped

def read_page (s : mm_state) (p : Nat) : Except Fault vm_page_t :=
  if is_mapped s p then .ok (s.page p) else .error .unmapped

def set_page (s : mm_state) (p : Nat) (v : vm_page_t) : mm_state :=
  { s with page := fun x => if x = p then v else s.page x }

def write_page (s : mm_state) (p : Nat) (v : vm_page_t) : Except Fault mm_state :=
  if is_mapped s p then .ok (set_page s p v) else .error .unmapped

def get_family_in : List vm_page_for_families_t → FamPtr → Option vm_page_family_t
  | [], _ => none
  | pg :: rest, f => if pg.addr = f.1 then pg.vm_page_family[f.2]? else get_family_in rest f

def get_family (s : mm_state) (f : FamPtr) : Option vm_page_family_t :=
  get_family_in s.first_vm_page_for_families f

def read_family (s : mm_state) (f : FamPtr) : Except Fault vm_page_family_t :=
  match get_family s f with
  | some fam => .ok fam
  | none => .error .unmapped

def set_family_in :
    List vm_page_for_families_t → FamPtr → vm_page_family_t → List vm_page_for_families_t
  | [], _, _ => []
  | pg :: rest, f, v =>
    if pg.addr = f.1 then { pg with vm_page_family := pg.vm_page_family.set f.2 v } :: rest
    else pg :: set_family_in rest f v

def set_family (s : mm_state) (f : FamPtr) (v : vm_page_family_t) : mm_state :=
  { s with first_vm_page_for_families := set_family_in s.first_vm_page_for_families f v }

def write_family (s : mm_state) (f : FamPtr) (v : vm_page_family_t) : Except Fault mm_state :=
  match get_family s f with
  | some _ => .ok (set_family s f v)
  | none => .error .unmapped

/-! ## The page source -/

def mm_max_page_allocatable_memory (L : Layout) (s : mm_state) (units : Int) : Nat :=
  u32 ((s.SYSTEM_PAGE_SIZE : Int) * units - (L.PMO : Int))

/-- The state after the page source has handed out the region `r`: it is
mapped and zero-filled, and `k` is what the page source will answer next. -/
def map_region (s : mm_state) (r : Nat × Nat) (k : List (Option Nat)) : mm_state :=
  { s with
    kernel := k
    mapped := r :: s.mapped
    block := fun x => if in_region x r then zero_block else s.block x
    page := fun x => if in_region x r then zero_page else s.page x
    byte := fun x => if in_region x r then 0 else s.byte x }

/-- One `mmap` call for `units` pages: the page source answers with the head
of `kernel`; a page it hands out is mapped and zero-filled. -/
def mm_get_new_vm_page_from_kernel (s : mm_state) (units : Nat) : Option Nat × mm_state :=
  match s.kernel with
  | [] => (none, s)
  | none :: k => (none, { s with kernel := k })
  | some p :: k => (some p, map_region s (p, units * s.SYSTEM_PAGE_SIZE) k)

/-- The state after the region `r` starting at `p` has been given back. -/
def unmap_region (s : mm_state) (p : Nat) (r : Nat × Nat) : mm_state :=
  { s with mapped := s.mapped.erase r, returned := p :: s.returned }

/-- One `munmap` call; when it fails the C code prints a message and goes on. -/
def mm_return_vm_page_to_kernel (s : mm_state) (p : Nat) (units : Nat) : mm_state :=
  unmap_region s p (p, units * s.SYSTEM_PAGE_SIZE)

/-! ## Helpers of `mm.h` and the free-block priority list -/

/-- Modelled from the spec: the macro `NEXT_META_BLOCK_BY_SIZE` of `mm.h`, the
address right behind the usable bytes of the block at `a`, where a split
carves the next header. -/
def NEXT_META_BLOCK_BY_SIZE (L : Layout) (a : Nat) (b : block_meta_data_t) : Nat :=
  a + L.H + b.block_size

/-- Modelled from the spec: the macro `MM_GET_PAGE_FROM_META_BLOCK` of `mm.h`;
a block records its offset from the start of its page. -/
def MM_GET_PAGE_FROM_META_BLOCK (a : Nat) (b : block_meta_data_t) : Nat :=
  a - b.offset

/-- Modelled from the spec: the macro `MARK_VM_PAGE_EMPTY` of `mm.h`; the
first block of the page becomes a free block without chain neighbours, which
is what `mm_is_vm_page_empty` tests. -/
def MARK_VM_PAGE_EMPTY (L : Layout) (s : mm_state) (p : Nat) : Except Fault mm_state := do
  let b ← read_block s (p + L.BMO)
  write_block s (p + L.BMO) { b with next_block := none, prev_block := none, is_free := true }

/-- Modelled from the spec: the macro `mm_bind_blocks_for_allocation` of
`mm.h`; the new free block is linked address-wise after the allocated one and
before its former successor. -/
def mm_bind_blocks_for_allocation (s : mm_state) (allocated free : Nat) :
    Except Fault mm_state := do
  let fb ← read_block s free
  let s ← write_block s free { fb with prev_block := some allocated }
  let ab ← read_block s allocated
  let fb ← read_block s free
  let s ← write_block s free { fb with next_block := ab.next_block }
  let ab ← read_block s allocated
  let s ← write_block s allocated { ab with next_block := some free }
  let fb ← read_block s free
  match fb.next_block with
  | some n =>
    let nb ← read_block s n
    write_block s n { nb with prev_block := some free }
  | none => pure s

def free_blocks_comparison_function (s : mm_state) (b1 b2 : Nat) : Except Fault Int := do
  let block_meta_data1 ← read_block s b1
  let block_meta_data2 ← read_block s b2
  if block_meta_data1.block_size > block_meta_data2.block_size then pure (-1)
  else if block_meta_data1.block_size < block_meta_data2.block_size then pure 1
  else pure 0

/-- Modelled from the spec: `glthread_priority_insert` of the glue-thread
library.  The index is kept in descending order of usable size: the new
entry goes in front of the first entry that the comparison function ranks
behind it, and at the end when there is none. -/
def glthread_priority_insert (s : mm_state) (a : Nat) : List Nat → Except Fault (List Nat)
  | [] => pure [a]
  | x :: xs => do
    let c ← free_blocks_comparison_function s a x
    if c = -1 then pure (a :: x :: xs)
    else do
      let r ← glthread_priority_insert s a xs
      pure (x :: r)

/-- Modelled from the spec: `remove_glthread` of the glue-thread library;
afterwards the block is not in the index. -/
def remove_glthread (a : Nat) (l : List Nat) : List Nat := l.filter (fun x => x != a)

/-- Modelled from the spec: `mm_get_biggest_free_block_page_family` of
`mm.h`, the head of the family's index. -/
def mm_get_biggest_free_block_page_family (fam : vm_page_family_t) : Option Nat :=
  fam.free_block_priority_list_head.head?

/-! ## The functions of `mm.c` -/

def mm_get_hard_internal_memory_frag_size (L : Layout) (s : mm_state) (first second : Nat) :
    Except Fault Int := do
  let fb ← read_block s first
  pure (i32 ((second : Int) - (NEXT_META_BLOCK_BY_SIZE L first fb : Int)))

def mm_union_free_blocks (L : Layout) (s : mm_state) (first second : Nat) :
    Except Fault mm_state := do
  let fb ← read_block s first
  let sb ← read_block s second
  if !(fb.is_free && sb.is_free) then throw Fault.assertion
  else
    let s ← write_block s first
      { fb with block_size := u32 ((fb.block_size : Int) + (L.H : Int) + (sb.block_size : Int)) }
    let sb ← read_block s second
    let fb ← read_block s first
    let s ← write_block s first { fb with next_block := sb.next_block }
    let sb ← read_block s second
    match sb.next_block with
    | some n =>
      let nb ← read_block s n
      write_block s n { nb with prev_block := some first }
    | none => pure s

def allocate_vm_page (L : Layout) (s : mm_state) (vm_page_family : FamPtr) :
    Except Fault (Nat × mm_state) := do
  match mm_get_new_vm_page_from_kernel s 1 with
  | (none, _) => throw Fault.null_deref
  | (some vm_page, s) =>
    let s ← MARK_VM_PAGE_EMPTY L s vm_page
    let b ← read_block s (vm_page + L.BMO)
    let s ← write_block s (vm_page + L.BMO)
      { b with block_size := mm_max_page_allocatable_memory L s 1 }
    let b ← read_block s (vm_page + L.BMO)
    let s ← write_block s (vm_page + L.BMO) { b with offset := L.BMO }
    let pg ← read_page s vm_page
    let s ← write_page s vm_page { pg with next := none, prev := none }
    let pg ← read_page s vm_page
    let s ← write_page s vm_page { pg with pg_family := some vm_page_family }
    let fam ← read_family s vm_page_family
    match fam.first_page with
    | none =>
      let s ← write_family s vm_page_family { fam with first_page := some vm_page }
      pure (vm_page, s)
    | some first_page =>
      let pg ← read_page s vm_page
      let s ← write_page s vm_page { pg with next := some first_page }
      let fp ← read_page s first_page
      let s ← write_page s first_page { fp with prev := some vm_page }
      let fam ← read_family s vm_page_family
      let s ← write_family s vm_page_family { fam with first_page := some vm_page }
      pure (vm_page, s)

def mm_vm_page_delete_and_free (s : mm_state) (vm_page : Nat) : Except Fault mm_state := do
  let pg ← read_page s vm_page
  match pg.pg_family with
  | none => throw Fault.null_deref
  | some vm_page_family =>
    let fam ← read_family s vm_page_family
    if fam.first_page = some vm_page then
      let s ← write_family s vm_page_family { fam with first_page := pg.next }
      let s ← (match pg.next with
        | some n => do
          let np ← read_page s n
          write_page s n { np with prev := none }
        | none => pure s)
      let pg ← read_page s vm_page
      let s ← write_page s vm_page { pg with next := none, prev := none }
      pure (mm_return_vm_page_to_kernel s vm_page 1)
    else
      let s ← (match pg.next with
        | some n => do
          let np ← read_page s n
          write_page s n { np with prev := pg.prev }
        | none => pure s)
      let pg ← read_page s vm_page
      match pg.prev with
      | none => throw Fault.null_deref
      | some q =>
        let qp ← read_page s q
        let s ← write_page s q { qp with next := pg.next }
        pure (mm_return_vm_page_to_kernel s vm_page 1)

def mm_add_free_block_meta_data_to_free_block_list (s : mm_state) (vm_page_family : FamPtr)
    (free_block : Nat) : Except Fault mm_state := do
  let b ← read_block s free_block
  if !b.is_free then throw Fault.assertion
  else
    let fam ← read_family s vm_page_family
    let l ← glthread_priority_insert s free_block fam.free_block_priority_list_head
    write_family s vm_page_family { fam with free_block_priority_list_head := l }

def mm_family_new_page_add (L : Layout) (s : mm_state) (vm_page_family : FamPtr) :
    Except Fault (Nat × mm_state) := do
  let (vm_page, s) ← allocate_vm_page L s vm_page_family
  let s ← mm_add_free_block_meta_data_to_free_block_list s vm_page_family (vm_page + L.BMO)
  pure (vm_page, s)

def mm_split_free_data_block_for_allocation (L : Layout) (s : mm_state)
    (vm_page_family : FamPtr) (block_meta_data : Nat) (size : Nat) :
    Except Fault (Bool × mm_state) := do
  let b ← read_block s block_meta_data
  if !b.is_free then throw Fault.assertion
  else if b.block_size < size then
    pure (false, s)
  else
    let remaining_size := b.block_size - size
    let s ← write_block s block_meta_data { b with is_free := false }
    let b ← read_block s block_meta_data
    let s ← write_block s block_meta_data { b with block_size := size }
    let fam ← read_family s vm_page_family
    let s ← write_family s vm_page_family
      { fam with free_block_priority_list_head :=
          remove_glthread block_meta_data fam.free_block_priority_list_head }
    let fam ← read_family s vm_page_family
    /- Case 1 : No Split -/
    if remaining_size = 0 then
      pure (true, s)
    /- Case 3 : Partial Split : Soft Internal Fragmentation -/
    else if L.H < remaining_size ∧ remaining_size < L.H + fam.struct_size then
      let b ← read_block s block_meta_data
      let next_block_meta_data := NEXT_META_BLOCK_BY_SIZE L block_meta_data b
      let nb ← read_block s next_block_meta_data
      let s ← write_block s next_block_meta_data { nb with is_free := true }
      let nb ← read_block s next_block_meta_data
      let s ← write_block s next_block_meta_data
        { nb with block_size := u32 ((remaining_size : Int) - (L.H : Int)) }
      let b ← read_block s block_meta_data
      let nb ← read_block s next_block_meta_data
      let s ← write_block s next_block_meta_data
        { nb with offset := u32 ((b.offset : Int) + (L.H : Int) + (b.block_size : Int)) }
      let s ← mm_add_free_block_meta_data_to_free_block_list s vm_page_family next_block_meta_data
      let s ← mm_bind_blocks_for_allocation s block_meta_data next_block_meta_data
      pure (true, s)
    /- Case 3 : Partial Split : Hard Internal Fragmentation -/
    else if remaining_size < L.H then
      pure (true, s)
    /- Case 2 : Full Split : New Meta block is Created -/
    else
      let b ← read_block s block_meta_data
      let next_block_meta_data := NEXT_META_BLOCK_BY_SIZE L block_meta_data b
      let nb ← read_block s next_block_meta_data
      let s ← write_block s next_block_meta_data { nb with is_free := true }
      let nb ← read_block s next_block_meta_data
      let s ← write_block s next_block_meta_data
        { nb with block_size := u32 ((remaining_size : Int) - (L.H : Int)) }
      let b ← read_block s block_meta_data
      let nb ← read_block s next_block_meta_data
      let s ← write_block s next_block_meta_data
        { nb with offset := u32 ((b.offset : Int) + (L.H : Int) + (b.block_size : Int)) }
      let s ← mm_add_free_block_meta_data_to_free_block_list s vm_page_family next_block_meta_data
      let s ← mm_bind_blocks_for_allocation s block_meta_data next_block_meta_data
      pure (true, s)

def mm_allocate_free_data_block (L : Layout) (s : mm_state) (vm_page_family : FamPtr)
    (req_size : Nat) : Except Fault (Option Nat × mm_state) := do
  let fam ← read_family s vm_page_family
  let biggest_block_meta_data := mm_get_biggest_free_block_page_family fam
  let too_small ← (match biggest_block_meta_data with
    | none => pure true
    | some big => do
      let bb ← read_block s big
      pure (decide (bb.block_size < req_size)))
  if too_small then
    /- Time to add a new page to Page family to satisfy the request -/
    let (vm_page, s) ← mm_family_new_page_add L s vm_page_family
    let (status, s) ←
      mm_split_free_data_block_for_allocation L s vm_page_family (vm_page + L.BMO) req_size
    if status then pure (some (vm_page + L.BMO), s) else pure (none, s)
  else
    /- The biggest block meta data can satisfy the request -/
    match biggest_block_meta_data with
    | some big =>
      let (status, s) ←
        mm_split_free_data_block_for_allocation L s vm_page_family big req_size
      if status then pure (some big, s) else pure (none, s)
    | none => pure (none, s)

/-- The test `strncmp(a, b, n) == 0` on names without a NUL character. -/
def strncmp_eq (a b : List Char) (n : Nat) : Bool := a.take n == b.take n

/-- Modelled from the spec: the iteration macro `ITERATE_PAGE_FAMILIES_BEGIN`
of `mm.h` as a walk over the registered slots of one registry page, in slot
order; the test is the `strncmp` of `lookup_page_family_by_name`. -/
def lookup_in_page (L : Layout) (struct_name : List Char) (pg : Nat) :
    List vm_page_family_t → Nat → Option FamPtr
  | [], _ => none
  | fam :: rest, i =>
    if strncmp_eq fam.struct_name struct_name L.MM_MAX_STRUCT_NAME then some (pg, i)
    else lookup_in_page L struct_name pg rest (i + 1)

def lookup_in_pages (L : Layout) (struct_name : List Char) :
    List vm_page_for_families_t → Option FamPtr
  | [] => none
  | pg :: rest =>
    match lookup_in_page L struct_name pg.addr pg.vm_page_family 0 with
    | some f => some f
    | none => lookup_in_pages L struct_name rest

def lookup_page_family_by_name (L : Layout) (s : mm_state) (struct_name : List Char) :
    Option FamPtr :=
  lookup_in_pages L struct_name s.first_vm_page_for_families

/-- Whether the `n` bytes from `p` on all lie in mapped memory. -/
def range_mapped (s : mm_state) (p n : Nat) : Bool :=
  (List.range n).all (fun i => is_mapped s (p + i))

/-- The state after the bytes of the range `r` have been set to zero. -/
def zero_fill (s : mm_state) (r : Nat × Nat) : mm_state :=
  { s with
    block := fun x => if in_region x r then zero_block else s.block x
    page := fun x => if in_region x r then zero_page else s.page x
    byte := fun x => if in_region x r then 0 else s.byte x }

/-- The call `memset(p, 0, n)`. -/
def memset_zero (s : mm_state) (p n : Nat) : Except Fault mm_state :=
  if range_mapped s p n then .ok (zero_fill s (p, n)) else .error .unmapped

/-- The public allocation function: `none` is the `NULL` result. -/
def xcalloc (L : Layout) (s : mm_state) (struct_name : List Char) (units : Int) :
    Except Fault (Option Nat × mm_state) := do
  match lookup_page_family_by_name L s struct_name with
  | none => pure (none, s)
  | some pg_family =>
    let fam ← read_family s pg_family
    if u32 (units * (fam.struct_size : Int)) > mm_max_page_allocatable_memory L s 1 then
      pure (none, s)
    else
      let (free_block_meta_data, s) ←
        mm_allocate_free_data_block L s pg_family (u32 (units * (fam.struct_size : Int)))
      match free_block_meta_data with
      | some b =>
        let blk ← read_block s b
        let s ← memset_zero s (b + L.H) blk.block_size
        pure (some (b + L.H), s)
      | none => pure (none, s)

def mm_is_vm_page_empty (L : Layout) (s : mm_state) (vm_page : Nat) : Except Fault Bool := do
  let b ← read_block s (vm_page + L.BMO)
  pure (b.next_block.isNone && b.prev_block.isNone && b.is_free)

def mm_free_blocks (L : Layout) (s : mm_state) (to_be_free_block : Nat) :
    Except Fault (Option Nat × mm_state) := do
  let b ← read_block s to_be_free_block
  if b.is_free then throw Fault.assertion
  else
    let hosting_page := MM_GET_PAGE_FROM_META_BLOCK to_be_free_block b
    let _ ← read_page s hosting_page
    let s ← write_block s to_be_free_block { b with is_free := true }
    let b ← read_block s to_be_free_block
    let next_block := b.next_block
    /- Handling Hard IF memory -/
    let s ← (match next_block with
      | some n => do
        let frag ← mm_get_hard_internal_memory_frag_size L s to_be_free_block n
        let b ← read_block s to_be_free_block
        write_block s to_be_free_block { b with block_size := u32 ((b.block_size : Int) + frag) }
      | none => do
        let b ← read_block s to_be_free_block
        let end_address_of_vm_page := hosting_page + s.SYSTEM_PAGE_SIZE
        let end_address_of_free_data_block := to_be_free_block + L.H + b.block_size
        let internal_mem_fragmentation :=
          i32 ((end_address_of_vm_page : Int) - (end_address_of_free_data_block : Int))
        write_block s to_be_free_block
          { b with block_size := u32 ((b.block_size : Int) + internal_mem_fragmentation) })
    /- Now perform Merging -/
    let s ← (match next_block with
      | some n => do
        let nb ← read_block s n
        if nb.is_free then mm_union_free_blocks L s to_be_free_block n else pure s
      | none => pure s)
    /- Check the previous block if it was free -/
    let b ← read_block s to_be_free_block
    let (return_block, s) ← (match b.prev_block with
      | some p => do
        let pb ← read_block s p
        if pb.is_free then
          let s ← mm_union_free_blocks L s p to_be_free_block
          pure (p, s)
        else pure (to_be_free_block, s)
      | none => pure (to_be_free_block, s))
    let empty ← mm_is_vm_page_empty L s hosting_page
    if empty then
      let s ← mm_vm_page_delete_and_free s hosting_page
      pure (none, s)
    else
      let hp ← read_page s hosting_page
      match hp.pg_family with
      | none => throw Fault.null_deref
      | some fam =>
        let s ← mm_add_free_block_meta_data_to_free_block_list s fam return_block
        pure (some return_block, s)

def xfree (L : Layout) (s : mm_state) (app_data : Nat) : Except Fault mm_state := do
  let block_meta_data := app_data - L.H
  let b ← read_block s block_meta_data
  if b.is_free then throw Fault.assertion
  else
    let (_, s) ← mm_free_blocks L s block_meta_data
    pure s

/-- A registry slot as `mm_instantiate_new_page_family` fills it. -/
def new_family (L : Layout) (struct_name : List Char) (struct_size : Nat) : vm_page_family_t :=
  { struct_name := struct_name.take L.MM_MAX_STRUCT_NAME, struct_size := struct_size,
    first_page := none, free_block_priority_list_head := [] }

/-- Registration.  The slots of a registry page are filled in order; the
counting loop leaves `vm_page_family_curr` behind the last filled slot of the
first registry page, and the C code writes the new family there also after it
has linked a further registry page, which is a write behind the slot array. -/
def mm_instantiate_new_page_family (L : Layout) (s : mm_state) (struct_name : List Char)
    (struct_size : Nat) : Except Fault mm_state := do
  if struct_size > s.SYSTEM_PAGE_SIZE then
    pure s
  else
    match s.first_vm_page_for_families with
    | [] =>
      match mm_get_new_vm_page_from_kernel s 1 with
      | (none, _) => throw Fault.null_deref
      | (some p, s) =>
        pure { s with first_vm_page_for_families :=
          [{ addr := p, vm_page_family := [new_family L struct_name struct_size] }] }
    | first :: rest =>
      match lookup_page_family_by_name L s struct_name with
      | some _ => throw Fault.assertion
      | none =>
        let count := first.vm_page_family.length
        if count = L.MAX_FAMILIES_PER_VM_PAGE then
          match mm_get_new_vm_page_from_kernel s 1 with
          | (none, _) => throw Fault.null_deref
          | (some _, _) => throw Fault.unmapped
        else
          pure { s with first_vm_page_for_families :=
            { first with vm_page_family :=
                first.vm_page_family ++ [new_family L struct_name struct_size] } :: rest }

/-! ## Observations used by the statements -/

/-- The pages of a family, walked from `first_page` along `next` for at most
`fuel` steps (the loop of `ITERATE_VM_PAGE_BEGIN`). -/
def family_pages (s : mm_state) : Nat → Option Nat → List Nat
  | 0, _ => []
  | _, none => []
  | fuel + 1, some p => p :: family_pages s fuel (s.page p).next

/-- The blocks of a chain, walked along `next_block` for at most `fuel` steps
(the loop of `ITERATE_VM_PAGE_ALL_BLOCKS_BEGIN`). -/
def page_blocks (s : mm_state) : Nat → Option Nat → List Nat
  | 0, _ => []
  | _, none => []
  | fuel + 1, some a => a :: page_blocks s fuel (s.block a).next_block

/-- A name is registered when some slot of the registry carries it, names
being compared the way `strncmp` with `MM_MAX_STRUCT_NAME` compares them. -/
def registered (L : Layout) (s : mm_state) (struct_name : List Char) : Prop :=
  ∃ pg ∈ s.first_vm_page_for_families, ∃ fam ∈ pg.vm_page_family,
    strncmp_eq fam.struct_name struct_name L.MM_MAX_STRUCT_NAME = true

/-- The layout used in the worked scenarios: header size 40 and a usable page
capacity of 4096 - 40 = 4056. -/
def L40 : Layout :=
  { H := 40, BMO := 0, PMO := 40, MM_MAX_STRUCT_NAME := 32, MAX_FAMILIES_PER_VM_PAGE := 64 }

/-- A page source that hands out the pages 4096, 8192, ... in turn. -/
def pages_from : Nat → Nat → List (Option Nat)
  | 0, _ => []
  | n + 1, k => some (4096 * (k + 1)) :: pages_from n (k + 1)

/-- Repeated `xcalloc` of the same request; the pointers come back oldest
first. -/
def xcalloc_many (L : Layout) (struct_name : List Char) (units : Int) :
    Nat → mm_state → Except Fault (List (Option Nat) × mm_state)
  | 0, s => pure ([], s)
  | n + 1, s => do
    let (p, s) ← xcalloc L s struct_name units
    let (ps, s) ← xcalloc_many L struct_name units n s
    pure (p :: ps, s)

/-- The state after `mm_init` with 4 KiB pages and the registration of one
family, over a page source with `n` pages. -/
def one_family (n : Nat) (struct_name : List Char) (struct_size : Nat) : Except Fault mm_state :=
  mm_instantiate_new_page_family L40 (mm_init 4096 (boot (pages_from n 0))) struct_name struct_size

/-- The registry holding the single family `Employee`; `Student` is not in it. -/
def registry_demo : mm_state :=
  { boot [some 8192] with
    SYSTEM_PAGE_SIZE := 4096
    first_vm_page_for_families :=
      [{ addr := 4096, vm_page_family := [new_family L40 "Employee".toList 64] }] }


/-- The family `Employee` of unit size 64 is asked for 67108864 units, which
is 2^32 bytes.  Observed: the result of `xcalloc`, the number of mapped
regions before and after, and the usable size recorded in the block. -/
def scenario_wrapped_request : Except Fault (Option Nat × Nat × Nat × Nat) := do
  let s ← one_family 3 "Employee".toList 64
  let (p, s') ← xcalloc L40 s "Employee".toList 67108864
  pure (p, s.mapped.length, s'.mapped.length, (s'.block 8192).block_size)

/-- The family `Employee` asks for one unit when the page source has no page
left after the registry page. -/
def scenario_page_source_fails : Except Fault (Option Nat) := do
  let s ← one_family 1 "Employee".toList 64
  let (p, _) ← xcalloc L40 s "Employee".toList 1
  pure p

/-- The fault with which a computation stopped, if it did. -/
def fault_of {α : Type} (r : Except Fault α) : Option Fault :=
  match r with
  | Except.ok _ => none
  | Except.error e => some e

/-- One unit of `Employee` is allocated from a fresh page and released, which
returns the page to the page source; then the same pointer is released again.
Observed: the fault of the second release. -/
def scenario_double_release : Except Fault (Option Fault) := do
  let s ← one_family 3 "Employee".toList 64
  let (p, s) ← xcalloc L40 s "Employee".toList 1
  match p with
  | none => pure none
  | some p =>
    let s ← xfree L40 s p
    pure (fault_of (xfree L40 s p))

/-- The state in which a computation ended; the boot state when it faulted. -/
def the_state (r : Except Fault mm_state) : mm_state :=
  match r with
  | Except.ok s => s
  | Except.error _ => boot []

/-- Two units of `Employee` allocated from one page. -/
def two_allocated : mm_state :=
  the_state (do
    let s ← one_family 3 "Employee".toList 64
    let (_, s) ← xcalloc_many L40 "Employee".toList 1 2 s
    pure s)

/-- The first page on the page list of the family `f`. -/
def first_page_of (s : mm_state) (f : FamPtr) : Option Nat :=
  match get_family s f with
  | some fam => fam.first_page
  | none => none

/-- The state that `allocate_vm_page` leaves when the page source hands out
the page `P` to the family `f`, whose slot held `fam`: the page is mapped and
zeroed, its first header describes one free block of the full capacity, and
the page is linked in front of the family's page list. -/
def with_new_page (L : Layout) (s : mm_state) (f : FamPtr) (fam : vm_page_family_t) (P : Nat)
    (k : List (Option Nat)) : mm_state :=
  let s1 := set_page (set_block (map_region s (P, s.SYSTEM_PAGE_SIZE) k) (P + L.BMO)
      { is_free := true, block_size := mm_max_page_allocatable_memory L s 1, offset := L.BMO,
        prev_block := none, next_block := none })
      P { next := fam.first_page, prev := none, pg_family := some f }
  let s2 := match fam.first_page with
    | some q => set_page s1 q { s1.page q with prev := some P }
    | none => s1
  set_family s2 f { fam with first_page := some P }

/-- The state `xcalloc` leaves when it serves a request for a whole page
capacity from the new page `P`: the page of `with_new_page` with its first
block marked allocated and the bytes of the block set to zero. -/
def with_full_page (L : Layout) (s : mm_state) (f : FamPtr) (fam : vm_page_family_t) (P : Nat)
    (k : List (Option Nat)) : mm_state :=
  zero_fill
    (set_family
      (set_block (with_new_page L s f fam P k) (P + L.BMO)
        { is_free := false, block_size := mm_max_page_allocatable_memory L s 1, offset := L.BMO,
          prev_block := none, next_block := none })
      f { fam with first_page := some P })
    (P + L.BMO + L.H, mm_max_page_allocatable_memory L s 1)

/-- The state after the registration of the family `Row` of unit size 1014,
four units of which fill the capacity 4056 of a page. -/
def row_registered : mm_state := the_state (one_family 3 "Row".toList 1014)

/-- The number of pages on the page list of the family `f`. -/
def family_page_count (s : mm_state) (f : FamPtr) : Nat :=
  (family_pages s s.mapped.length (first_page_of s f)).length

/-- The page count of the family `f` after each of `n` successive calls
`xcalloc(name, units)`. -/
def page_counts (L : Layout) (name : List Char) (units : Int) (f : FamPtr) :
    Nat → mm_state → Except Fault (List Nat)
  | 0, _ => pure []
  | n + 1, s => do
    let (_, s) ← xcalloc L s name units
    let rest ← page_counts L name units f n s
    pure (family_page_count s f :: rest)

/-- The scenario of the specification: header size 40, page capacity 4056,
the family `Employee` of unit size 64 without pages, and `n` calls
`xcalloc("Employee", 1)`.  Observed: the page count after each call. -/
def employee_page_counts (n : Nat) : Except Fault (List Nat) := do
  let s ← one_family 4 "Employee".toList 64
  page_counts L40 "Employee".toList 1 (4096, 0) n s

/-- Three units of `Employee` allocated from one page: the blocks at 8192,
8296 and 8400, followed by the free rest of the page at 8504. -/
def three_allocated : mm_state :=
  the_state (do
    let s ← one_family 3 "Employee".toList 64
    let (_, s) ← xcalloc_many L40 "Employee".toList 1 3 s
    pure s)

/-- The free-block index of the family `f`. -/
def free_list_of (s : mm_state) (f : FamPtr) : List Nat :=
  match get_family s f with
  | some fam => fam.free_block_priority_list_head
  | none => []

/-- The blocks of the page `p` with their `is_free` flag and usable size, in
chain order. -/
def page_chain (L : Layout) (s : mm_state) (p : Nat) : List (Nat × Bool × Nat) :=
  (page_blocks s s.SYSTEM_PAGE_SIZE (some (p + L.BMO))).map
    (fun a => (a, (s.block a).is_free, (s.block a).block_size))

/-- Two units of `Employee` are allocated from one page, `A` at 8192 and `B`
at 8296, followed by the free rest `R` at 8400; then `B` is released and
absorbs `R`.  Observed: the family's index and the chain of the page. -/
def scenario_absorbed_block : Except Fault (List Nat × List (Nat × Bool × Nat)) := do
  let s ← one_family 3 "Employee".toList 64
  let (ps, s) ← xcalloc_many L40 "Employee".toList 1 2 s
  match ps with
  | [some _, some b] =>
    let s ← xfree L40 s b
    pure (free_list_of s (4096, 0), page_chain L40 s 8192)
  | _ => throw Fault.assertion

/-- Four units of the family `Big` of unit size 1000: three fill the page at
8192 up to a free rest of 936 bytes at 11312, the fourth comes from a second
page at 12288 and is released again, which returns that page.  Observed: the
family's index, whether its head lies in mapped memory, the chain of the
first page, and the fault of a further `xcalloc`. -/
def scenario_stale_head :
    Except Fault (List Nat × Option Bool × List (Nat × Bool × Nat) × Option Fault) := do
  let s ← one_family 4 "Big".toList 1000
  let (ps, s) ← xcalloc_many L40 "Big".toList 1 4 s
  match ps with
  | [some _, some _, some _, some d] =>
    let s ← xfree L40 s d
    pure (free_list_of s (4096, 0), (free_list_of s (4096, 0)).head?.map (is_mapped s),
      page_chain L40 s 8192, fault_of (xcalloc L40 s "Big".toList 1))
  | _ => throw Fault.assertion

/-! ## The block chain of one page -/

/-- The headers at the addresses `l`, in this order, form the block chain of
the page `P` behind a block `prev`: the links agree with the order, every
header records its offset from `P`, and no block reaches over its successor,
the last one not over the address `hi`. -/
def chain_ok (L : Layout) (s : mm_state) (P hi : Nat) : Option Nat → List Nat → Prop
  | _, [] => True
  | prev, a :: rest =>
    (s.block a).prev_block = prev ∧ (s.block a).next_block = rest.head? ∧
    a = P + (s.block a).offset ∧
    a + L.H + (s.block a).block_size ≤ rest.head?.getD hi ∧
    chain_ok L s P hi (some a) rest

/-- The bytes between the end of the usable bytes of the block `a` and the
next header of the chain, or the end of the page behind the last block. -/
def block_slack (L : Layout) (s : mm_state) (P : Nat) (a : Nat) : Nat :=
  (match (s.block a).next_block with
    | some n => n
    | none => P + s.SYSTEM_PAGE_SIZE) - (a + L.H + (s.block a).block_size)

/-- The sum over the chain of the page `P` of header size plus recorded
usable size. -/
def chain_footprint (L : Layout) (s : mm_state) (P : Nat) : Nat :=
  ((page_blocks s s.SYSTEM_PAGE_SIZE (some (P + L.BMO))).map
    (fun a => L.H + (s.block a).block_size)).sum

/-- The slack bytes of the page `P`, summed over its chain. -/
def chain_slack (L : Layout) (s : mm_state) (P : Nat) : Nat :=
  ((page_blocks s s.SYSTEM_PAGE_SIZE (some (P + L.BMO))).map (block_slack L s P)).sum

/-- The states of the page `P` of the family `f`, with page size `PS`: the
page as `mm_family_new_page_add` creates it, and then any sequence of splits
for an allocation and of releases of blocks of its chain that leave the page
in use. -/
inductive page_reachable (L : Layout) (f : FamPtr) (P PS : Nat) : mm_state → Prop
  | fresh (s0 s : mm_state) (hps : s0.SYSTEM_PAGE_SIZE = PS)
      (h : mm_family_new_page_add L s0 f = Except.ok (P, s)) : page_reachable L f P PS s
  | alloc (s s' : mm_state) (a size : Nat) (status : Bool) (hr : page_reachable L f P PS s)
      (ha : a ∈ page_blocks s PS (some (P + L.BMO)))
      (h : mm_split_free_data_block_for_allocation L s f a size = Except.ok (status, s')) :
      page_reachable L f P PS s'
  | release (s s' : mm_state) (a r : Nat) (hr : page_reachable L f P PS s)
      (ha : a ∈ page_blocks s PS (some (P + L.BMO)))
      (h : mm_free_blocks L s a = Except.ok (some r, s')) : page_reachable L f P PS s'

/-- The list `l` with `n` put in behind `a`. -/
def insert_after (a n : Nat) : List Nat → List Nat
  | [] => []
  | x :: xs => if x = a then x :: n :: xs else x :: insert_after a n xs

/-- The list `l` without the element that follows `x`. -/
def drop_after (x : Nat) : List Nat → List Nat
  | [] => []
  | h :: t => if h = x then h :: t.tail else h :: drop_after x t

/-- The chain invariant of the page `P` with page size `PS`: its headers,
walked from the first one, form a well-ordered chain inside the page. -/
def page_inv (L : Layout) (P PS : Nat) (s : mm_state) : Prop :=
  s.SYSTEM_PAGE_SIZE = PS ∧
    ∃ l : List Nat, l.head? = some (P + L.BMO) ∧ chain_ok L s P (P + PS) none l

/-- A family of unit size `struct_size` is registered and `n` single units
are allocated, all from the page at 8192.  Observed: the footprint of the
page's chain, its slack, and the usable capacity of a page. -/
def scenario_footprint (struct_size n : Nat) : Except Fault (Nat × Nat × Nat) := do
  let s ← one_family 3 "Employee".toList struct_size
  let (_, s) ← xcalloc_many L40 "Employee".toList 1 n s
  pure (chain_footprint L40 s 8192, chain_slack L40 s 8192,
    mm_max_page_allocatable_memory L40 s 1)

/-- The state in which a step ended; the boot state when it faulted. -/
def state_after {α : Type} (r : Except Fault (α × mm_state)) : mm_state :=
  match r with
  | Except.ok (_, s) => s
  | Except.error _ => boot []

/-- The family `Employee` of unit size 64 is registered in the slot (4096, 0). -/
def page_walk_0 : mm_state := the_state (one_family 3 "Employee".toList 64)

/-- The family gets the fresh page 8192. -/
def page_walk_1 : mm_state := state_after (mm_family_new_page_add L40 page_walk_0 (4096, 0))

/-- The block at 8192 is split for an allocation of 64 bytes. -/
def page_walk_2 : mm_state :=
  state_after (mm_split_free_data_block_for_allocation L40 page_walk_1 (4096, 0) 8192 64)

/-- The block at 8296 is split for an allocation of 64 bytes. -/
def page_walk_3 : mm_state :=
  state_after (mm_split_free_data_block_for_allocation L40 page_walk_2 (4096, 0) 8296 64)

/-- The block at 8192 is released. -/
def page_walk_4 : mm_state := state_after (mm_free_blocks L40 page_walk_3 8192)

/-- The state `s'` differs from `s` at most in block headers and in the
registry. -/
def same_frame (s s' : mm_state) : Prop :=
  s'.SYSTEM_PAGE_SIZE = s.SYSTEM_PAGE_SIZE ∧ s'.mapped = s.mapped ∧ s'.page = s.page ∧
    s'.byte = s.byte ∧ s'.kernel = s.kernel ∧ s'.returned = s.returned

/-! ## Scenarios of the registry -/

/-- The registry is empty, pages have 4096 bytes and a usable capacity of
4056; the family `Wide` of unit size 4080 is registered.  Observed: the usable
capacity, the unit size of the family that the lookup of `Wide` finds
afterwards, and the result of asking for one unit of it. -/
def scenario_oversized_family : Except Fault (Nat × Option Nat × Option Nat) := do
  let s0 := mm_init 4096 (boot (pages_from 3 0))
  let s ← mm_instantiate_new_page_family L40 s0 "Wide".toList 4080
  let found := (lookup_page_family_by_name L40 s "Wide".toList).bind (get_family s)
  let (p, _) ← xcalloc L40 s "Wide".toList 1
  pure (mm_max_page_allocatable_memory L40 s0 1, found.map (fun fam => fam.struct_size), p)

/-- The name of the `i`-th family of `register_many`: `f0`, `f1`, ... -/
def family_name (i : Nat) : List Char := 'f' :: Nat.toDigits 10 i

/-- The registration of the `n` families `family_name i`, `family_name (i + 1)`,
..., each of unit size 64. -/
def register_many : Nat → Nat → mm_state → Except Fault mm_state
  | 0, _, s => pure s
  | n + 1, i, s => do
    let s ← mm_instantiate_new_page_family L40 s (family_name i) 64
    register_many n (i + 1) s

/-- As many families as one registry page has slots are registered, then the
family `Employee`.  Observed: the number of registry pages and of families in
the first one before the last registration, whether `Employee` is registered
then, and the fault of the last registration. -/
def scenario_full_registry : Except Fault (Nat × Nat × Bool × Option Fault) := do
  let s ← register_many L40.MAX_FAMILIES_PER_VM_PAGE 0 (mm_init 4096 (boot (pages_from 3 0)))
  pure (s.first_vm_page_for_families.length,
    (s.first_vm_page_for_families.head?.map (fun pg => pg.vm_page_family.length)).getD 0,
    (lookup_page_family_by_name L40 s "Employee".toList).isSome,
    fault_of (mm_instantiate_new_page_family L40 s "Employee".toList 64))


/-! ## Scenarios of the allocation -/

/-- One unit of `Employee` is allocated from the fresh page 8192 and released
again, which gives the page back to the page source; then one unit is asked
for once more.  Observed before the last call: the slot in which the name is
registered, the unit size of the family and the capacity of a page, the next
answer of the page source, the family's index and whether its head lies in
mapped memory; and the fault of the last call. -/
def scenario_alloc_after_release :
    Except Fault
      (Option FamPtr × Option Nat × Nat × Option (Option Nat) × List Nat × Option Bool ×
        Option Fault) := do
  let s ← one_family 3 "Employee".toList 64
  let (p, s) ← xcalloc L40 s "Employee".toList 1
  match p with
  | some p =>
    let s ← xfree L40 s p
    let f := lookup_page_family_by_name L40 s "Employee".toList
    pure (f, (f.bind (get_family s)).map (fun fam => fam.struct_size),
      mm_max_page_allocatable_memory L40 s 1, s.kernel.head?, free_list_of s (4096, 0),
      (free_list_of s (4096, 0)).head?.map (is_mapped s),
      fault_of (xcalloc L40 s "Employee".toList 1))
  | none => throw Fault.assertion

/-! ## The split with a single carving rule -/

/-- The carving of a new free block behind the block at `block_meta_data`,
which has just been marked allocated with its new size: the new header stands
right behind the usable bytes, takes `remaining_size` less one header as its
usable size, is put into the family's index and linked into the chain. -/
def carve_remainder (L : Layout) (s : mm_state) (vm_page_family : FamPtr)
    (block_meta_data remaining_size : Nat) : Except Fault (Bool × mm_state) := do
  let b ← read_block s block_meta_data
  let next_block_meta_data := NEXT_META_BLOCK_BY_SIZE L block_meta_data b
  let nb ← read_block s next_block_meta_data
  let s ← write_block s next_block_meta_data { nb with is_free := true }
  let nb ← read_block s next_block_meta_data
  let s ← write_block s next_block_meta_data
    { nb with block_size := u32 ((remaining_size : Int) - (L.H : Int)) }
  let b ← read_block s block_meta_data
  let nb ← read_block s next_block_meta_data
  let s ← write_block s next_block_meta_data
    { nb with offset := u32 ((b.offset : Int) + (L.H : Int) + (b.block_size : Int)) }
  let s ← mm_add_free_block_meta_data_to_free_block_list s vm_page_family next_block_meta_data
  let s ← mm_bind_blocks_for_allocation s block_meta_data next_block_meta_data
  pure (true, s)

/-- The split as the specification words it, steps 1 to 5 with step 5 as a
single rule: a request above the usable size fails; otherwise the block is
marked allocated with the requested size and unlinked from the index; a
remainder of zero creates nothing, a remainder below one header is left as
slack, and every remainder of at least one header is carved into a new free
block. -/
def split_single_rule (L : Layout) (s : mm_state) (vm_page_family : FamPtr)
    (block_meta_data : Nat) (size : Nat) : Except Fault (Bool × mm_state) := do
  let b ← read_block s block_meta_data
  if !b.is_free then throw Fault.assertion
  else if b.block_size < size then
    pure (false, s)
  else
    let remaining_size := b.block_size - size
    let s ← write_block s block_meta_data { b with is_free := false }
    let b ← read_block s block_meta_data
    let s ← write_block s block_meta_data { b with block_size := size }
    let fam ← read_family s vm_page_family
    let s ← write_family s vm_page_family
      { fam with free_block_priority_list_head :=
          remove_glthread block_meta_data fam.free_block_priority_list_head }
    if remaining_size = 0 then
      pure (true, s)
    else if remaining_size < L.H then
      pure (true, s)
    else
      carve_remainder L s vm_page_family block_meta_data remaining_size

/-! ## Scenarios of the release -/

/-- Three units of `Employee` are allocated from one page, `A` at 8192, `B`
at 8296 and `C` at 8400, in front of the free rest at 8504; then `B` is
released and after it `A`, whose chain successor `B` is free at that moment.
Observed: the family's index before the release of `A`, whether `B` is free
then, the index after the release of `A`, and the chain of the page. -/
def scenario_forward_absorbed :
    Except Fault (List Nat × Bool × List Nat × List (Nat × Bool × Nat)) := do
  let s ← one_family 3 "Employee".toList 64
  let (ps, s) ← xcalloc_many L40 "Employee".toList 1 3 s
  match ps with
  | [some a, some b, some _] =>
    let s ← xfree L40 s b
    let before := free_list_of s (4096, 0)
    let free_b := (s.block (b - L40.H)).is_free
    let s ← xfree L40 s a
    pure (before, free_b, free_list_of s (4096, 0), page_chain L40 s 8192)
  | _ => throw Fault.assertion

/-- The blocks `A`, `B`, `C` of `scenario_forward_absorbed`; here `A` is
released first and then `B`, whose chain predecessor `A` is free at that
moment and survives the merge.  Observed: the block that `mm_free_blocks`
returns for `B`, the family's index after it, how often the surviving block
occurs in the index, and the chain of the page. -/
def scenario_backward_reinserted :
    Except Fault (Option Nat × List Nat × Nat × List (Nat × Bool × Nat)) := do
  let s ← one_family 3 "Employee".toList 64
  let (ps, s) ← xcalloc_many L40 "Employee".toList 1 3 s
  match ps with
  | [some a, some b, some _] =>
    let s ← xfree L40 s a
    let (r, s) ← mm_free_blocks L40 s (b - L40.H)
    pure (r, free_list_of s (4096, 0), (free_list_of s (4096, 0)).count (a - L40.H),
      page_chain L40 s 8192)
  | _ => throw Fault.assertion

/-- Two units of `Employee` are allocated from one page, `A` at 8192 and `B`
at 8296, in front of the free rest; `A` is released, then `B`.  Observed
before the release of `B`: its chain predecessor and whether that block is
free; and then the block that `mm_free_blocks` returns for `B` and the pages
given back to the page source. -/
def scenario_backward_reclaims :
    Except Fault (Option Nat × Bool × Option Nat × List Nat) := do
  let s ← one_family 3 "Employee".toList 64
  let (ps, s) ← xcalloc_many L40 "Employee".toList 1 2 s
  match ps with
  | [some a, some b] =>
    let s ← xfree L40 s a
    let p := (s.block (b - L40.H)).prev_block
    let free_p := (s.block (a - L40.H)).is_free
    let (r, s) ← mm_free_blocks L40 s (b - L40.H)
    pure (p, free_p, r, s.returned)
  | _ => throw Fault.assertion

/-- Two units of `Employee` are allocated from one page, the second one is
released and absorbs the free rest of the page, whose header at 8400 stays in
the family's index; then two units are asked for in one call.  Observed: the
pointer returned, the recorded size of its block, the family's index, and the
entries of the index that lie inside the bytes of the new allocation. -/
def scenario_allocation_over_indexed_header :
    Except Fault (Option Nat × Nat × List Nat × List Nat) := do
  let s ← one_family 3 "Employee".toList 64
  let (ps, s) ← xcalloc_many L40 "Employee".toList 1 2 s
  match ps with
  | [some _, some b] =>
    let s ← xfree L40 s b
    let (p, s) ← xcalloc L40 s "Employee".toList 2
    let size := (s.block (p.getD 0 - L40.H)).block_size
    pure (p, size, free_list_of s (4096, 0),
      (free_list_of s (4096, 0)).filter
        (fun x => decide (p.getD 0 ≤ x) && decide (x < p.getD 0 + size)))
  | _ => throw Fault.assertion

/-! ## The page list of a family -/

/-- The pages `l`, in this order, are linked as the page list of the family
`f` behind a page `prev`: every page points back to its predecessor and on to
its successor, the last one to no page, and carries the family as its owner. -/
def page_links (s : mm_state) (f : FamPtr) : Option Nat → List Nat → Prop
  | _, [] => True
  | prev, p :: rest =>
    (s.page p).prev = prev ∧ (s.page p).next = rest.head? ∧ (s.page p).pg_family = some f ∧
    page_links s f (some p) rest

/-- Three pages 8192, 12288 and 16384 linked in this order as the page list
of the family in the slot (4096, 0). -/
def three_pages : mm_state :=
  { boot [] with
    SYSTEM_PAGE_SIZE := 4096
    first_vm_page_for_families :=
      [{ addr := 4096,
         vm_page_family := [{ struct_name := "Employee".toList, struct_size := 64,
                               first_page := some 8192, free_block_priority_list_head := [] }] }]
    mapped := [(16384, 4096), (12288, 4096), (8192, 4096), (4096, 4096)]
    page := fun x =>
      if x = 8192 then { next := some 12288, prev := none, pg_family := some (4096, 0) }
      else if x = 12288 then { next := some 16384, prev := some 8192, pg_family := some (4096, 0) }
      else if x = 16384 then { next := none, prev := some 12288, pg_family := some (4096, 0) }
      else zero_page }

/-! ## The steps of `mm_free_blocks` -/

/-- The step "Handling Hard IF memory" of `mm_free_blocks`: the block takes
up the bytes between its end and its chain successor, or the end of the page
when it is the last block. -/
def free_reclaim_slack (L : Layout) (s : mm_state) (to_be_free_block hosting_page : Nat)
    (next_block : Option Nat) : Except Fault mm_state :=
  match next_block with
  | some n => do
    let frag ← mm_get_hard_internal_memory_frag_size L s to_be_free_block n
    let b ← read_block s to_be_free_block
    write_block s to_be_free_block { b with block_size := u32 ((b.block_size : Int) + frag) }
  | none => do
    let b ← read_block s to_be_free_block
    let end_address_of_vm_page := hosting_page + s.SYSTEM_PAGE_SIZE
    let end_address_of_free_data_block := to_be_free_block + L.H + b.block_size
    let internal_mem_fragmentation :=
      i32 ((end_address_of_vm_page : Int) - (end_address_of_free_data_block : Int))
    write_block s to_be_free_block
      { b with block_size := u32 ((b.block_size : Int) + internal_mem_fragmentation) }

/-- The step of `mm_free_blocks` that merges a free chain successor into the
block. -/
def free_merge_forward (L : Layout) (s : mm_state) (to_be_free_block : Nat)
    (next_block : Option Nat) : Except Fault mm_state :=
  match next_block with
  | some n => do
    let nb ← read_block s n
    if nb.is_free then mm_union_free_blocks L s to_be_free_block n else pure s
  | none => pure s

/-- The step of `mm_free_blocks` that merges the block into a free chain
predecessor; the result names the surviving block. -/
def free_merge_backward (L : Layout) (s : mm_state) (to_be_free_block : Nat)
    (prev_block : Option Nat) : Except Fault (Nat × mm_state) :=
  match prev_block with
  | some p => do
    let pb ← read_block s p
    if pb.is_free then
      let s ← mm_union_free_blocks L s p to_be_free_block
      pure (p, s)
    else pure (to_be_free_block, s)
  | none => pure (to_be_free_block, s)

/-- The last step of `mm_free_blocks`: an empty page is given back, and
otherwise the surviving block is put into the index of the page's family. -/
def free_finish (L : Layout) (s : mm_state) (hosting_page return_block : Nat) :
    Except Fault (Option Nat × mm_state) := do
  let empty ← mm_is_vm_page_empty L s hosting_page
  if empty then
    let s ← mm_vm_page_delete_and_free s hosting_page
    pure (none, s)
  else
    let hp ← read_page s hosting_page
    match hp.pg_family with
    | none => throw Fault.null_deref
    | some fam =>
      let s ← mm_add_free_block_meta_data_to_free_block_list s fam return_block
      pure (some return_block, s)

/-! ## Gaps in the chain of a page -/

/-- The bytes between the end of the usable bytes of the block `a` and the
offset of its chain successor, or the end of the page behind the last block,
computed from the recorded offsets. -/
def gap_behind (L : Layout) (s : mm_state) (a : Nat) : Int :=
  (match (s.block a).next_block with
    | some n => ((s.block n).offset : Int)
    | none => (s.SYSTEM_PAGE_SIZE : Int)) -
  (((s.block a).offset : Int) + (L.H : Int) + ((s.block a).block_size : Int))

/-- A free block reaches exactly up to `e`, an allocated one leaves fewer
bytes than a header in front of `e`. -/
def tight (L : Layout) (s : mm_state) (hi a : Nat) : Prop :=
  ((s.block a).is_free = true →
    a + L.H + (s.block a).block_size = ((s.block a).next_block).getD hi) ∧
  ((s.block a).is_free = false →
    ((s.block a).next_block).getD hi < a + L.H + (s.block a).block_size + L.H)

/-- The chain invariant of `page_inv` together with the absence of gaps: every
block of the chain is `tight` against its successor or the end of the page. -/
def page_gapless (L : Layout) (P PS : Nat) (s : mm_state) : Prop :=
  s.SYSTEM_PAGE_SIZE = PS ∧
    ∃ l : List Nat, l.head? = some (P + L.BMO) ∧ chain_ok L s P (P + PS) none l ∧
      ∀ a ∈ l, tight L s (P + PS) a

/-- The state of `three_allocated` after the release of the first block: the
chain of the page 8192 is the free block at 8192, the allocated blocks at
8296 and 8400, and the free rest at 8504. -/
def first_released : mm_state := state_after (mm_free_blocks L40 three_allocated 8192)

/-! ## Free neighbours in the chain of a page -/

/-- The block `a` and its chain successor are not both free. -/
def separated (s : mm_state) (a : Nat) : Prop :=
  ∀ n : Nat, (s.block a).next_block = some n →
    ¬ ((s.block a).is_free = true ∧ (s.block n).is_free = true)

/-- The chain invariant of `page_inv` together with the absence of free
neighbours: no block of the chain is free together with its successor. -/
def page_separated (L : Layout) (P PS : Nat) (s : mm_state) : Prop :=
  s.SYSTEM_PAGE_SIZE = PS ∧
    ∃ l : List Nat, l.head? = some (P + L.BMO) ∧ chain_ok L s P (P + PS) none l ∧
      ∀ a ∈ l, separated s a

/-- One unit of `Employee` is allocated from the fresh page 8192 and released
again, which gives the page back to the page source.  Observed: the pages
given back, the family's index afterwards, and the entries of the index that
lie inside a page given back. -/
def scenario_reclaimed_page_indexed : Except Fault (List Nat × List Nat × List Nat) := do
  let s ← one_family 3 "Employee".toList 64
  let (p, s) ← xcalloc L40 s "Employee".toList 1
  match p with
  | some p =>
    let s ← xfree L40 s p
    pure (s.returned, free_list_of s (4096, 0),
      (free_list_of s (4096, 0)).filter
        (fun x => s.returned.any
          (fun pg => decide (pg ≤ x) && decide (x < pg + s.SYSTEM_PAGE_SIZE))))
  | none => throw Fault.assertion

/-! ## The state in which a stopped registration leaves the program -/

/-- Registration once more, with the memory at the point where the call
stops: where `mm_instantiate_new_page_family` ends in a fault, this function
gives the fault together with the state that the statements executed up to
there have left.  The duplicate name stops at `assert(0)` right behind
`lookup_page_family_by_name`; a failed `mmap` stops at the write through the
`NULL` result; with a full first registry page the new page has been linked
in front when the write through `vm_page_family_curr` stops. -/
def mm_instantiate_new_page_family_at_stop (L : Layout) (s : mm_state)
    (struct_name : List Char) (struct_size : Nat) : Except (Fault × mm_state) mm_state :=
  if struct_size > s.SYSTEM_PAGE_SIZE then
    pure s
  else
    match s.first_vm_page_for_families with
    | [] =>
      match mm_get_new_vm_page_from_kernel s 1 with
      | (none, s) => throw (Fault.null_deref, s)
      | (some p, s) =>
        pure { s with first_vm_page_for_families :=
          [{ addr := p, vm_page_family := [new_family L struct_name struct_size] }] }
    | first :: rest =>
      match lookup_page_family_by_name L s struct_name with
      | some _ => throw (Fault.assertion, s)
      | none =>
        let count := first.vm_page_family.length
        if count = L.MAX_FAMILIES_PER_VM_PAGE then
          match mm_get_new_vm_page_from_kernel s 1 with
          | (none, s) => throw (Fault.null_deref, s)
          | (some p, s) =>
            throw (Fault.unmapped,
              { s with first_vm_page_for_families :=
                  { addr := p, vm_page_family := [] } :: s.first_vm_page_for_families })
        else
          pure { s with first_vm_page_for_families :=
            { first with vm_page_family :=
                first.vm_page_family ++ [new_family L struct_name struct_size] } :: rest }

/-! ## Slack behind allocated blocks -/

/-- The slack bytes behind the allocated blocks of the chain of the page `P`:
`block_slack` summed over the blocks of the chain that are not free. -/
def allocated_slack (L : Layout) (s : mm_state) (P : Nat) : Nat :=
  ((page_blocks s s.SYSTEM_PAGE_SIZE (some (P + L.BMO))).map
    (fun a => if (s.block a).is_free then 0 else block_slack L s P a)).sum

/-! ## An index entry that outlives its page -/

/-- The family `Row` has the unit size 1014, four units of which are the
capacity 4056 of a page.  One unit is allocated from the fresh page 8192 and
released, which gives the page back; then four units are asked for.  Observed
before the last call: the capacity of a page and the bytes asked for, the
pages given back, the first page of the family, the next answer of the page
source, the family's index and whether its head lies in mapped memory; and
the fault of the last call. -/
def scenario_full_page_after_release :
    Except Fault
      (Nat × Nat × List Nat × Option Nat × Option (Option Nat) × List Nat × Option Bool ×
        Option Fault) := do
  let s ← one_family 3 "Row".toList 1014
  let (p, s) ← xcalloc L40 s "Row".toList 1
  match p with
  | some p =>
    let s ← xfree L40 s p
    pure (mm_max_page_allocatable_memory L40 s 1, 4 * 1014, s.returned,
      first_page_of s (4096, 0), s.kernel.head?, free_list_of s (4096, 0),
      (free_list_of s (4096, 0)).head?.map (is_mapped s),
      fault_of (xcalloc L40 s "Row".toList 4))
  | none => throw Fault.assertion

/-- One unit of `Employee` is allocated from the fresh page 8192 and released,
which gives the page back; then `mm_allocate_free_data_block` is called for
the family with 64 bytes.  Observed before that call: the capacity of a page,
the first page of the family, the next answer of the page source, the
family's index and whether its head lies in mapped memory; and the fault of
the call. -/
def scenario_capacity_check_after_release :
    Except Fault
      (Nat × Option Nat × Option (Option Nat) × List Nat × Option Bool × Option Fault) := do
  let s ← one_family 3 "Employee".toList 64
  let (p, s) ← xcalloc L40 s "Employee".toList 1
  match p with
  | some p =>
    let s ← xfree L40 s p
    pure (mm_max_page_allocatable_memory L40 s 1, first_page_of s (4096, 0), s.kernel.head?,
      free_list_of s (4096, 0), (free_list_of s (4096, 0)).head?.map (is_mapped s),
      fault_of (mm_allocate_free_data_block L40 s (4096, 0) 64))
  | none => throw Fault.assertion

/-! ## Two families and a page that is handed out twice -/

/-- The families `Employee` of unit size 64 and `Badge` of unit size 8 are
registered, in the slots (4096, 0) and (4096, 1).  The page source answers
4096 for the registry page, then 8192, and 8192 once more. -/
def two_families : Except Fault mm_state := do
  let s ← mm_instantiate_new_page_family L40
    (mm_init 4096 (boot [some 4096, some 8192, some 8192])) "Employee".toList 64
  mm_instantiate_new_page_family L40 s "Badge".toList 8

/-- The result of `xcalloc`, which must be a pointer. -/
def the_pointer (r : Option Nat × mm_state) : Except Fault (Nat × mm_state) :=
  match r with
  | (some p, s) => pure (p, s)
  | (none, _) => throw Fault.assertion

/-- The calls that lead to a split through an index entry that has outlived
its page.  `Employee` allocates one unit from the fresh page 8192 and releases
it: the page goes back to the page source, the family's index keeps the rest
block 8296.  `Badge` is given the page 8192 again and allocates 8, 16 and 8
units there, the blocks 8192, 8296 and 8464; it releases the second and then
the first, which absorbs the second.  Now `Employee` allocates one unit, which
splits the block 8296 found at the head of its index.  The result: the pages
given back and the index of `Employee` when `Badge` makes its first call, the
pointer of the last allocation of `Employee`, the pointer of the third
allocation of `Badge`, and the state. -/
def stale_split : Except Fault (List Nat × List Nat × Nat × Nat × mm_state) := do
  let s ← two_families
  let (p, s) ← (xcalloc L40 s "Employee".toList 1) >>= the_pointer
  let s ← xfree L40 s p
  let returned := s.returned
  let index := free_list_of s (4096, 0)
  let (b0, s) ← (xcalloc L40 s "Badge".toList 8) >>= the_pointer
  let (b1, s) ← (xcalloc L40 s "Badge".toList 16) >>= the_pointer
  let (b2, s) ← (xcalloc L40 s "Badge".toList 8) >>= the_pointer
  let s ← xfree L40 s b1
  let s ← xfree L40 s b0
  let (a1, s) ← (xcalloc L40 s "Employee".toList 1) >>= the_pointer
  pure (returned, index, a1, b2, s)

/-- After the calls of `stale_split`, `Badge` releases its third block.
Observed: the pages given back and the index of `Employee` when `Badge` makes
its first call, the pointers of the last allocation of `Employee` and of the
third allocation of `Badge`, the first page of `Badge` at the end, and the
chain of the page 8192 before and after the release. -/
def scenario_free_neighbours :
    Except Fault
      (List Nat × List Nat × Nat × Nat × Option Nat × List (Nat × Bool × Nat) ×
        List (Nat × Bool × Nat)) := do
  let (returned, index, a1, b2, s) ← stale_split
  let s' ← xfree L40 s b2
  pure (returned, index, a1, b2, first_page_of s' (4096, 1), page_chain L40 s 8192,
    page_chain L40 s' 8192)

/-- After the calls of `stale_split`, `Employee` releases the block it was
given last.  Observed: the pages given back and the index of `Employee` when
`Badge` makes its first call, the pointer that `Employee` releases, the first
page of `Badge` at the end, the chain of the page 8192 at the end and, for
each block of it, the bytes between its end and its successor. -/
def scenario_chain_overlap :
    Except Fault
      (List Nat × List Nat × Nat × Option Nat × List (Nat × Bool × Nat) × List Int) := do
  let (returned, index, a1, _, s) ← stale_split
  let s' ← xfree L40 s a1
  pure (returned, index, a1, first_page_of s' (4096, 1), page_chain L40 s' 8192,
    (page_blocks s' s'.SYSTEM_PAGE_SIZE (some (8192 + L40.BMO))).map (gap_behind L40 s'))

/-- The state of `scenario_chain_overlap` once more.  Observed: the sum over
the chain of the page 8192 of header size plus recorded size, the slack of the
chain, and the capacity of a page. -/
def scenario_footprint_after_stale_split : Except Fault (Nat × Nat × Nat) := do
  let (_, _, a1, _, s) ← stale_split
  let s' ← xfree L40 s a1
  pure (chain_footprint L40 s' 8192, chain_slack L40 s' 8192,
    mm_max_page_allocatable_memory L40 s' 1)

/-! ## A page with slack behind its last block -/

/-- The family `Employee` of unit size 2000 is registered in the slot
(4096, 0). -/
def slack_walk_0 : mm_state := the_state (one_family 3 "Employee".toList 2000)

/-- The family gets the fresh page 8192. -/
def slack_walk_1 : mm_state := state_after (mm_family_new_page_add L40 slack_walk_0 (4096, 0))

/-- The block at 8192 is split for an allocation of 2000 bytes. -/
def slack_walk_2 : mm_state :=
  state_after (mm_split_free_data_block_for_allocation L40 slack_walk_1 (4096, 0) 8192 2000)

/-- The block at 10232, of 2016 bytes, is split for an allocation of 2000
bytes; the 16 bytes behind it hold no header. -/
def slack_walk_3 : mm_state :=
  state_after (mm_split_free_data_block_for_allocation L40 slack_walk_2 (4096, 0) 10232 2000)

end MM

/-! # The page-protection checker of `mem_prot2.c` -/

namespace MemProt

def NUM_PAGES : Int := 1024
def PAGE_SIZE : Int := 4096
def PERMISSION_READ : Int := 1
def PERMISSION_WRITE : Int := 2
def PERMISSION_EXECUTE : Int := 4

structure PageTableEntry where
  valid_bit : Bool
  dirty_bit : Bool
  frame_number : Int
  last_accessed_time : Int
  permissions : Int
deriving DecidableEq, Repr

/-- The global `page_table`, indexed by the page number.  The mutex
`page_table_lock` is taken and released again on every path that reads the
table; the model is single-threaded and leaves it out. -/
structure kernel_state where
  page_table : Nat → PageTableEntry

def initialize_page_table (_s : kernel_state) : kernel_state :=
  { page_table := fun _ =>
      { valid_bit := false, dirty_bit := false, frame_number := -1, last_accessed_time := 0,
        permissions := Int.lor (Int.lor PERMISSION_READ PERMISSION_WRITE) PERMISSION_EXECUTE } }

def set_page_permissions (s : kernel_state) (virtual_page_number permissions : Int) :
    kernel_state :=
  if virtual_page_number ≥ 0 ∧ virtual_page_number < NUM_PAGES then
    { s with page_table := fun i =>
        if i = virtual_page_number.toNat then
          { s.page_table i with permissions := permissions, valid_bit := true }
        else s.page_table i }
  else s

/-- The result code together with the state the call leaves; `/` on `int` is
the truncating division of C. -/
def check_permissions (s : kernel_state) (virtual_address access_type : Int) :
    Int × kernel_state :=
  let virtual_page_number := Int.tdiv virtual_address PAGE_SIZE
  if virtual_page_number < 0 ∨ virtual_page_number ≥ NUM_PAGES then
    (-1, s)
  else
    let entry := s.page_table virtual_page_number.toNat
    if !entry.valid_bit then
      (-2, s)
    else
      let required_permissions : Option Int :=
        if access_type = PERMISSION_READ then some PERMISSION_READ
        else if access_type = PERMISSION_WRITE then some PERMISSION_WRITE
        else if access_type = PERMISSION_EXECUTE then some PERMISSION_EXECUTE
        else none
      match required_permissions with
      | none => (-3, s)
      | some required_permissions =>
        if Int.land entry.permissions required_permissions ≠ required_permissions then
          (-4, s)
        else
          (0, s)

/-- The position of the bit that an access type stands for. -/
def access_bit (access_type : Int) : Nat :=
  if access_type = 1 then 0 else if access_type = 2 then 1 else 2

end MemProt

/-! # The address translator of `addrTranslate.c` -/

namespace AddrTranslate

def NUM_PAGES : Int := 256
def TLB_SIZE : Nat := 16
def PAGE_SIZE : Int := 256
def NUM_FRAMES : Nat := 256

/-- The way in which the program ends early: `exit(1)`. -/
inductive Stop where
  | exit_1
deriving DecidableEq, Repr

structure PageTableEntry where
  valid_bit : Int
  dirty_bit : Int
  frame_number : Int
  last_accessed_time : Int
deriving DecidableEq, Repr

structure TLBEntry where
  virtual_page_number : Int
  physical_frame_number : Int
  last_accessed_time : Int
deriving DecidableEq, Repr

/-- The globals of the program and its environment: `clock n` is what the
`n`-th call of `time(NULL)` answers, `ticks` counts these calls, and
`fopen_ok`, `fseek_ok` say whether the backing store can be opened and
positioned. -/
structure vm_state where
  page_table : Nat → PageTableEntry
  tlb : Nat → TLBEntry
  page_faults : Int
  tlb_hits : Int
  memory_access_times : Nat → Int
  clock : Nat → Int
  ticks : Nat
  fopen_ok : Bool
  fseek_ok : Bool

/-- The call `time(NULL)`. -/
def time (s : vm_state) : Int × vm_state := (s.clock s.ticks, { s with ticks := s.ticks + 1 })

def initialize_page_table (s : vm_state) : vm_state :=
  { s with page_table := fun _ =>
      { valid_bit := 0, dirty_bit := 0, frame_number := -1, last_accessed_time := 0 } }

def initialize_tlb (s : vm_state) : vm_state :=
  { s with tlb := fun _ =>
      { virtual_page_number := -1, physical_frame_number := -1, last_accessed_time := 0 } }

/-- The index of the TLB entry found, `none` for `NULL`. -/
def get_tlb_entry (s : vm_state) (virtual_page_number : Int) : Option Nat :=
  (List.range TLB_SIZE).find? (fun i => (s.tlb i).virtual_page_number = virtual_page_number)

/-- The index of the page-table entry returned, `none` for `NULL`. -/
def get_page_table_entry (s : vm_state) (virtual_page_number : Int) : Option Nat × vm_state :=
  if virtual_page_number < 0 ∨ virtual_page_number ≥ NUM_PAGES then
    (none, s)
  else
    match get_tlb_entry s virtual_page_number with
    | some t =>
      (some (s.tlb t).virtual_page_number.toNat, { s with tlb_hits := MM.i32 (s.tlb_hits + 1) })
    | none => (some virtual_page_number.toNat, s)

def set_page_table_entry (s : vm_state) (virtual_page_number valid_bit dirty_bit
    frame_number : Int) : vm_state :=
  match get_page_table_entry s virtual_page_number with
  | (some e, s) =>
    let (t, s) := time s
    { s with page_table := fun i =>
        if i = e then
          { valid_bit := valid_bit, dirty_bit := dirty_bit, frame_number := frame_number,
            last_accessed_time := t }
        else s.page_table i }
  | (none, s) => s

def add_tlb_entry (s : vm_state) (virtual_page_number physical_frame_number : Int) :
    vm_state :=
  let oldest := (List.range' 1 (TLB_SIZE - 1)).foldl
    (fun (acc : Nat × Int) i =>
      if (s.tlb i).last_accessed_time < acc.2 then (i, (s.tlb i).last_accessed_time) else acc)
    (0, (s.tlb 0).last_accessed_time)
  let oldest_index := oldest.1
  let (t, s) := time s
  { s with tlb := fun i =>
      if i = oldest_index then
        { virtual_page_number := virtual_page_number,
          physical_frame_number := physical_frame_number, last_accessed_time := t }
      else s.tlb i }

def findLRUFrame (s : vm_state) : Int × vm_state :=
  let lru := (List.range' 1 (NUM_FRAMES - 1)).foldl
    (fun (acc : Nat × Int) i =>
      if s.memory_access_times i < acc.2 then (i, s.memory_access_times i) else acc)
    (0, s.memory_access_times 0)
  let lru_frame := lru.1
  ((lru_frame : Int), { s with memory_access_times := fun i =>
      if i = lru_frame then MM.i32 (s.memory_access_times i + 1) else s.memory_access_times i })

def handle_page_fault (s : vm_state) (virtual_page_number : Int) : Except Stop vm_state :=
  if !s.fopen_ok then throw Stop.exit_1
  else if !s.fseek_ok then throw Stop.exit_1
  else
    let (frame_number, s) := findLRUFrame s
    if frame_number = -1 then throw Stop.exit_1
    else
      let s := set_page_table_entry s virtual_page_number 1 0 frame_number
      pure (add_tlb_entry s virtual_page_number frame_number)

def translate_address (s : vm_state) (virtual_address : Int) : Except Stop (Int × vm_state) :=
  let virtual_page_number := Int.tdiv virtual_address PAGE_SIZE
  let offset := Int.tmod virtual_address PAGE_SIZE
  match get_page_table_entry s virtual_page_number with
  | (none, s) => pure (-1, s)
  | (some entry, s) =>
    if (s.page_table entry).valid_bit = 0 then
      let s := { s with page_faults := MM.i32 (s.page_faults + 1) }
      match handle_page_fault s virtual_page_number with
      | Except.error e => Except.error e
      | Except.ok s =>
        match get_page_table_entry s virtual_page_number with
        | (none, s) => pure (-1, s)
        | (some entry, s) =>
          let physical_frame_number := (s.page_table entry).frame_number
          let physical_address := MM.i32 (physical_frame_number * PAGE_SIZE + offset)
          pure (physical_address, s)
    else
      let physical_frame_number := (s.page_table entry).frame_number
      let physical_address := MM.i32 (physical_frame_number * PAGE_SIZE + offset)
      pure (physical_address, s)

/-- A state in which only page 3 is loaded, in frame 7, and the TLB is empty. -/
def one_page_loaded : vm_state :=
  { page_table := fun i =>
      if i = 3 then { valid_bit := 1, dirty_bit := 0, frame_number := 7, last_accessed_time := 0 }
      else { valid_bit := 0, dirty_bit := 0, frame_number := -1, last_accessed_time := 0 }
    tlb := fun _ =>
      { virtual_page_number := -1, physical_frame_number := -1, last_accessed_time := 0 }
    page_faults := 0, tlb_hits := 0, memory_access_times := fun _ => 0,
    clock := fun _ => 0, ticks := 0, fopen_ok := true, fseek_ok := true }

end AddrTranslate

/-! # The fixed-size storage manager of `sm.cpp` -/

namespace SM

/-- The ways in which the program stops: `abort()`, and the division by a
pool size of zero. -/
inductive Stop where
  | abort
  | division_by_zero
deriving DecidableEq, Repr

/-- Conversion to `unsigned int`. -/
def to_unsigned (z : Int) : Nat := (z % 4294967296).toNat

/-- Conversion to `int`. -/
def to_int (z : Int) : Int := (z + 2147483648) % 4294967296 - 2147483648

/-- Conversion to `size_t`, which has 64 bits. -/
def to_size_t (z : Int) : Nat := (z % 18446744073709551616).toNat

/-- Conversion to `ptrdiff_t`, the signed type of 64 bits in which the
difference of two `char *` is computed. -/
def to_ptrdiff (z : Int) : Int :=
  (z + 9223372036854775808) % 18446744073709551616 - 9223372036854775808

/-- The fields of `PoolData_t` that the code uses; addresses are natural
numbers, `nullptr` is 0. -/
structure PoolData_t where
  poolSize : Nat
  startAddress : Nat
  endAddress : Nat
  totalSize : Nat
  remainingSpace : Nat
  totalBlocks : Nat
  freeBlocks : Nat
  usedBlocks : Nat
  nextFreeBlockInSequence : Nat
  nextFreeBlock : Int
  isFreedBlockBlockAvailable : Bool
  totalAllocationsFromThisPool : Nat
deriving DecidableEq, Repr

/-- The globals of the storage manager.  `m_PoolMap` lists the pools in the
order of their keys, as the iteration over a `std::map` visits them; `heap`
lists the answers of the coming `malloc` calls, `none` for a failed one. -/
structure sm_state where
  m_initialPoolSize : Nat
  m_PoolMap : List (Nat × PoolData_t)
  heap : List (Option Nat)
deriving DecidableEq, Repr

/-- One call of `malloc`; when the list of answers is used up it fails. -/
def malloc (s : sm_state) : Option Nat × sm_state :=
  match s.heap with
  | [] => (none, s)
  | a :: rest => (a, { s with heap := rest })

/-- The pool stored under a key, `none` when the map has no pool there. -/
def map_find (m : List (Nat × PoolData_t)) (key : Nat) : Option PoolData_t :=
  (m.find? (fun e => e.1 = key)).map (fun e => e.2)

/-- The assignment `m_PoolMap[key] = poolData`, which keeps the keys in
ascending order. -/
def map_set : List (Nat × PoolData_t) → Nat → PoolData_t → List (Nat × PoolData_t)
  | [], key, v => [(key, v)]
  | e :: rest, key, v =>
    if e.1 = key then (key, v) :: rest
    else if key < e.1 then (key, v) :: e :: rest
    else e :: map_set rest key v

def initializePoolData (s : sm_state) (sizeOfPoolInBytes : Nat) (ptr : Nat) (sizeId : Nat) :
    Except Stop sm_state :=
  let startAddress := ptr
  let endAddress := ptr + sizeOfPoolInBytes
  if sizeId = 0 then throw Stop.division_by_zero
  else
    let totalBlocks :=
      to_unsigned
        (Int.tdiv (to_ptrdiff ((endAddress : Int) - (startAddress : Int))) (sizeId : Int))
    let poolData : PoolData_t :=
      { poolSize := sizeId, startAddress := startAddress, endAddress := endAddress,
        totalSize := to_unsigned sizeOfPoolInBytes,
        remainingSpace := to_unsigned sizeOfPoolInBytes,
        totalBlocks := totalBlocks, freeBlocks := totalBlocks, usedBlocks := 0,
        nextFreeBlock := -1, nextFreeBlockInSequence := 0,
        isFreedBlockBlockAvailable := false, totalAllocationsFromThisPool := 0 }
    pure { s with m_PoolMap := map_set s.m_PoolMap sizeId poolData }

def createNewPool (s : sm_state) (sizeId : Nat) : Except Stop sm_state :=
  match malloc s with
  | (none, _) => throw Stop.abort
  | (some _, s) =>
    let sizeOfPoolInBytes := to_size_t ((sizeId : Int) * 1 * (s.m_initialPoolSize : Int))
    match malloc s with
    | (ptr, s) => initializePoolData s sizeOfPoolInBytes (ptr.getD 0) sizeId

def findAddressFromBlock (block : Nat) (poolData : PoolData_t) : Nat :=
  poolData.startAddress + to_unsigned ((block : Int) * (poolData.poolSize : Int))

def findBlockFromAddress (addr : Nat) (poolData : PoolData_t) : Except Stop Nat :=
  if poolData.poolSize = 0 then throw Stop.division_by_zero
  else pure (to_unsigned (Int.tdiv (to_ptrdiff ((addr : Int) - (poolData.startAddress : Int)))
    (poolData.poolSize : Int)))

def findPoolFromAddress (s : sm_state) (ptr : Nat) : Except Stop Nat :=
  match s.m_PoolMap.find? (fun e => decide (ptr ≥ e.2.startAddress) && decide (ptr ≤ e.2.endAddress))
  with
  | some e => pure e.2.poolSize
  | none => throw Stop.abort

def SM_alloc (s : sm_state) (size : Nat) : Except Stop (Nat × sm_state) := do
  let key := to_unsigned size
  let s ← (match map_find s.m_PoolMap key with
    | some poolData =>
      if poolData.freeBlocks = 0 then throw Stop.abort else pure s
    | none => createNewPool s key)
  match map_find s.m_PoolMap key with
  | none => throw Stop.abort
  | some poolData =>
    let (ptr, poolData) :=
      if poolData.isFreedBlockBlockAvailable && decide (poolData.nextFreeBlock ≥ 0) then
        (findAddressFromBlock (to_unsigned poolData.nextFreeBlock) poolData,
          { poolData with isFreedBlockBlockAvailable := false, nextFreeBlock := -1 })
      else
        (findAddressFromBlock poolData.nextFreeBlockInSequence poolData,
          { poolData with
            nextFreeBlockInSequence := to_unsigned ((poolData.nextFreeBlockInSequence : Int) + 1) })
    let poolData : PoolData_t :=
      { poolData with
        freeBlocks := to_unsigned ((poolData.freeBlocks : Int) - 1)
        usedBlocks := to_unsigned ((poolData.usedBlocks : Int) + 1)
        remainingSpace := to_unsigned ((poolData.remainingSpace : Int) - (size : Int))
        totalAllocationsFromThisPool :=
          to_unsigned ((poolData.totalAllocationsFromThisPool : Int) + 1) }
    pure (ptr, { s with m_PoolMap := map_set s.m_PoolMap key poolData })

def SM_dealloc (s : sm_state) (ptr : Nat) : Except Stop sm_state := do
  if ptr = 0 then pure s
  else
    let poolSize ← findPoolFromAddress s ptr
    match map_find s.m_PoolMap poolSize with
    | none => throw Stop.abort
    | some poolData =>
      let block ← findBlockFromAddress ptr poolData
      let poolData : PoolData_t :=
        { poolData with
          freeBlocks := to_unsigned ((poolData.freeBlocks : Int) + 1)
          usedBlocks := to_unsigned ((poolData.usedBlocks : Int) - 1)
          nextFreeBlock := to_int block
          isFreedBlockBlockAvailable := true
          remainingSpace := to_unsigned ((poolData.remainingSpace : Int) + (poolSize : Int)) }
      pure { s with m_PoolMap := map_set s.m_PoolMap poolSize poolData }

/-- The state after two allocations of 8 bytes from a fresh storage manager
with four blocks per pool, whose pool of 8-byte blocks lies at 1000: the
blocks at 1000 and 1008 are in use. -/
def two_in_use : sm_state :=
  match (do
    let (_, s) ← SM_alloc { m_initialPoolSize := 4, m_PoolMap := [], heap := [some 100, some 1000] } 8
    let (_, s) ← SM_alloc s 8
    pure s : Except Stop sm_state) with
  | Except.ok s => s
  | Except.error _ => { m_initialPoolSize := 0, m_PoolMap := [], heap := [] }

end SM

/-! # Further states and drivers of the small programs -/

namespace MemProt

/-- The page table as `main` sets it up: `initialize_page_table()` followed by
`set_page_permissions(0, PERMISSION_READ)`. -/
def main_table : kernel_state :=
  set_page_permissions
    (initialize_page_table
      { page_table := fun _ =>
          { valid_bit := false, dirty_bit := false, frame_number := 0, last_accessed_time := 0,
            permissions := 0 } })
    0 PERMISSION_READ

end MemProt

namespace AddrTranslate

/-- The globals as the program starts: every access count is zero, as the
initializer of `memory_access_times` says, the counters are zero, the clock
stands at 0 and the backing store can be opened and positioned. -/
def at_start : vm_state :=
  { page_table := fun _ =>
      { valid_bit := 0, dirty_bit := 0, frame_number := 0, last_accessed_time := 0 }
    tlb := fun _ =>
      { virtual_page_number := 0, physical_frame_number := 0, last_accessed_time := 0 }
    page_faults := 0, tlb_hits := 0, memory_access_times := fun _ => 0,
    clock := fun _ => 0, ticks := 0, fopen_ok := true, fseek_ok := true }

/-- The loop of `main`: `translate_address` is called for one address after
the other; the addresses it returns go to the output file and are left out
here. -/
def translate_all : vm_state → List Int → Except Stop vm_state
  | s, [] => pure s
  | s, virtual_address :: rest =>
    match translate_address s virtual_address with
    | Except.error e => Except.error e
    | Except.ok (_, s) => translate_all s rest

/-- The frames 0, 1 and 2 have been used five times, the frames 3 and 7
twice, every other frame three times. -/
def counted : vm_state :=
  { at_start with
    memory_access_times := fun i => if i < 3 then 5 else if i = 3 ∨ i = 7 then 2 else 3 }

/-- The state `s'` has the page table, the access counts and the backing
store of `s`. -/
def same_tables (s s' : vm_state) : Prop :=
  s'.page_table = s.page_table ∧ s'.memory_access_times = s.memory_access_times ∧
    s'.fopen_ok = s.fopen_ok ∧ s'.fseek_ok = s.fseek_ok

/-- The pages of `order` are the valid ones, loaded in this order: the page
at position `j` of `order` holds the frame `j`, the frames below the length of
`order` have the access count 1 and the other frames the count 0; the backing
store can be opened and positioned. -/
def loaded_in_order (s : vm_state) (order : List Nat) : Prop :=
  order.Nodup ∧ (∀ p ∈ order, p < 256) ∧
    (∀ i : Nat, (s.page_table i).valid_bit ≠ 0 ↔ i ∈ order) ∧
    (∀ i ∈ order, (s.page_table i).frame_number = ((order.indexOf i : Nat) : Int)) ∧
    (∀ i : Nat, i < 256 → s.memory_access_times i = if i < order.length then 1 else 0) ∧
    s.fopen_ok = true ∧ s.fseek_ok = true

end AddrTranslate

namespace SM

/-- The loop of `initStorageManager` over the entries of `pools` that are
still to come; the sum `totalClaimedMemory` is only printed and left out. -/
def init_pools (initialPoolSize : Nat) : sm_state → List Nat → Except Stop sm_state
  | s, [] => pure s
  | s, pool_i :: rest =>
    match malloc s with
    | (none, _) => throw Stop.abort
    | (some _, s) =>
      let sizeOfPoolInBytes := to_size_t ((pool_i : Int) * 1 * (initialPoolSize : Int))
      match malloc s with
      | (ptr, s) =>
        match initializePoolData s sizeOfPoolInBytes (ptr.getD 0) pool_i with
        | Except.error e => Except.error e
        | Except.ok s => init_pools initialPoolSize s rest

/-- The array `pools` with its length `numPools` is the list `pools`. -/
def initStorageManager (s : sm_state) (initialPoolSize : Nat) (pools : List Nat) :
    Except Stop sm_state :=
  init_pools initialPoolSize { s with m_initialPoolSize := initialPoolSize } pools

/-- A call of the storage manager by its user. -/
inductive Call where
  | alloc (size : Nat)
  | dealloc (ptr : Nat)
deriving DecidableEq, Repr

/-- A sequence of calls, one after the other; the pointers that `SM_alloc`
returns are left out here. -/
def run_calls : sm_state → List Call → Except Stop sm_state
  | s, [] => pure s
  | s, Call.alloc size :: rest =>
    match SM_alloc s size with
    | Except.error e => Except.error e
    | Except.ok (_, s) => run_calls s rest
  | s, Call.dealloc ptr :: rest =>
    match SM_dealloc s ptr with
    | Except.error e => Except.error e
    | Except.ok s => run_calls s rest

/-- The storage manager is started with two blocks per pool and the pool of
8-byte blocks, which lies at 1000; two blocks are allocated, both are given
back, the first one first, and two blocks are allocated again.  Observed: the
four pointers in the order of the calls, the start and the end address of the
pool, its number of blocks, and its count of free blocks before the last
call. -/
def scenario_past_the_pool : Except Stop (List Nat × Nat × Nat × Nat × Nat) := do
  let s ← initStorageManager { m_initialPoolSize := 0, m_PoolMap := [], heap := [some 100, some 1000] }
    2 [8]
  let (a, s) ← SM_alloc s 8
  let (b, s) ← SM_alloc s 8
  let s ← SM_dealloc s a
  let s ← SM_dealloc s b
  let (c, s) ← SM_alloc s 8
  let free_before := ((map_find s.m_PoolMap 8).map (fun pd => pd.freeBlocks)).getD 0
  let (d, s) ← SM_alloc s 8
  match map_find s.m_PoolMap 8 with
  | some pd => pure ([a, b, c, d], pd.startAddress, pd.endAddress, pd.totalBlocks, free_before)
  | none => throw Stop.abort

/-- The counters of a pool agree, as `unsigned int` values: free plus used
blocks are the total, and the remaining space is the free blocks times the
block size. -/
def accounted (pd : PoolData_t) : Prop :=
  (pd.freeBlocks + pd.usedBlocks) % 4294967296 = pd.totalBlocks ∧
    pd.remainingSpace = (pd.freeBlocks * pd.poolSize) % 4294967296

/-- Every pool of the map is stored under its block size and its counters
agree; the initial pool size is below 2^31, so that a pool of `unsigned int`
blocks has fewer than 2^63 bytes. -/
def pools_accounted (s : sm_state) : Prop :=
  s.m_initialPoolSize < 2147483648 ∧
    ∀ e ∈ s.m_PoolMap, e.2.poolSize = e.1 ∧ accounted e.2

/-- The state in which a run of the storage manager ended; the empty
storage manager when it stopped early. -/
def state_of (r : Except Stop sm_state) : sm_state :=
  match r with
  | Except.ok s => s
  | Except.error _ => { m_initialPoolSize := 0, m_PoolMap := [], heap := [] }

/-- The storage manager after `initStorageManager` with two blocks per pool
and the one pool of 8-byte blocks, which lies at 1000. -/
def pool_started : sm_state :=
  state_of (initStorageManager
    { m_initialPoolSize := 0, m_PoolMap := [], heap := [some 100, some 1000] } 2 [8])

/-- The calls of `scenario_past_the_pool`, and one more release. -/
def calls_past_the_pool : List Call :=
  [Call.alloc 8, Call.alloc 8, Call.dealloc 1000, Call.dealloc 1008, Call.alloc 8, Call.alloc 8,
    Call.dealloc 1016]

/-- What is observed of a pool: its key in the map, its start and end
address, its block of the freed-block marker and the marker itself. -/
def pool_view (e : Nat × PoolData_t) : Nat × Nat × Nat × Int × Bool :=
  (e.1, e.2.startAddress, e.2.endAddress, e.2.nextFreeBlock, e.2.isFreedBlockBlockAvailable)

/-- The storage manager is started with two blocks per pool and the pools of
8-byte and of 16-byte blocks; `malloc` places the first pool at 1000 and the
second one directly behind it, at 1016.  A block of 16 bytes is allocated,
given back, and a block of 16 bytes is allocated again.  Observed: the two
pointers, and the pools after the release. -/
def scenario_adjacent_pools :
    Except Stop (Nat × Nat × List (Nat × Nat × Nat × Int × Bool)) := do
  let s ← initStorageManager
    { m_initialPoolSize := 0, m_PoolMap := [], heap := [some 100, some 1000, some 200, some 1016] }
    2 [8, 16]
  let (p, s) ← SM_alloc s 16
  let s ← SM_dealloc s p
  let pools := s.m_PoolMap.map pool_view
  let (q, _) ← SM_alloc s 16
  pure (p, q, pools)

/-- The counters of a pool that the accounting relates: `totalBlocks`,
`freeBlocks`, `usedBlocks`, `remainingSpace`, and the product of `freeBlocks`
and `poolSize` as an `unsigned int`. -/
def counters (pd : PoolData_t) : Nat × Nat × Nat × Nat × Nat :=
  (pd.totalBlocks, pd.freeBlocks, pd.usedBlocks, pd.remainingSpace,
    (pd.freeBlocks * pd.poolSize) % 4294967296)

/-- The storage manager is started with 2147483649 blocks per pool and the
one pool of blocks of 4294967295 bytes, which are 2^63 + 2^31 - 1 bytes;
`malloc` answers the request for the pool record and fails for the pool,
which the code does not check.  Then one block is allocated.  Observed: the
bytes asked for, and the counters of the pool after the start and after the
allocation. -/
def scenario_giant_pool :
    Except Stop (Nat × List (Nat × Nat × Nat × Nat × Nat) × List (Nat × Nat × Nat × Nat × Nat)) := do
  let s ← initStorageManager { m_initialPoolSize := 0, m_PoolMap := [], heap := [some 100] }
    2147483649 [4294967295]
  let (_, s') ← SM_alloc s 4294967295
  pure (to_size_t ((4294967295 : Int) * 1 * 2147483649),
    s.m_PoolMap.map (fun e => counters e.2), s'.m_PoolMap.map (fun e => counters e.2))

end SM

namespace MM

/-! ## Basic facts about the memory model -/

section basics

variable (L : Layout) (s : mm_state)

@[simp] theorem bind_ok_eq {α β : Type} (a : α) (f : α → Except Fault β) :
    (Except.ok a >>= f) = f a := rfl

@[simp] theorem bind_error_eq {α β : Type} (e : Fault) (f : α → Except Fault β) :
    (Except.error e >>= f) = Except.error e := rfl

@[simp] theorem pure_eq_ok {α : Type} (a : α) : (pure a : Except Fault α) = Except.ok a := rfl

@[simp] theorem throw_eq_error {α : Type} (e : Fault) :
    (throw e : Except Fault α) = Except.error e := rfl

theorem bind_eq_ok_iff {α β : Type} (x : Except Fault α) (f : α → Except Fault β) (b : β) :
    (x >>= f) = Except.ok b ↔ ∃ a, x = Except.ok a ∧ f a = Except.ok b := by
  cases x with
  | error e => simp
  | ok a => simp

@[simp] theorem set_block_block (a : Nat) (b : block_meta_data_t) (x : Nat) :
    (set_block s a b).block x = if x = a then b else s.block x := rfl
@[simp] theorem set_block_page (a : Nat) (b : block_meta_data_t) :
    (set_block s a b).page = s.page := rfl
@[simp] theorem set_block_mapped (a : Nat) (b : block_meta_data_t) :
    (set_block s a b).mapped = s.mapped := rfl
@[simp] theorem set_block_size (a : Nat) (b : block_meta_data_t) :
    (set_block s a b).SYSTEM_PAGE_SIZE = s.SYSTEM_PAGE_SIZE := rfl
@[simp] theorem set_block_families (a : Nat) (b : block_meta_data_t) :
    (set_block s a b).first_vm_page_for_families = s.first_vm_page_for_families := rfl
@[simp] theorem set_block_kernel (a : Nat) (b : block_meta_data_t) :
    (set_block s a b).kernel = s.kernel := rfl
@[simp] theorem set_block_returned (a : Nat) (b : block_meta_data_t) :
    (set_block s a b).returned = s.returned := rfl

@[simp] theorem set_page_page (a : Nat) (v : vm_page_t) (x : Nat) :
    (set_page s a v).page x = if x = a then v else s.page x := rfl
@[simp] theorem set_page_block (a : Nat) (v : vm_page_t) :
    (set_page s a v).block = s.block := rfl
@[simp] theorem set_page_mapped (a : Nat) (v : vm_page_t) :
    (set_page s a v).mapped = s.mapped := rfl
@[simp] theorem set_page_size (a : Nat) (v : vm_page_t) :
    (set_page s a v).SYSTEM_PAGE_SIZE = s.SYSTEM_PAGE_SIZE := rfl
@[simp] theorem set_page_families (a : Nat) (v : vm_page_t) :
    (set_page s a v).first_vm_page_for_families = s.first_vm_page_for_families := rfl
@[simp] theorem set_page_kernel (a : Nat) (v : vm_page_t) :
    (set_page s a v).kernel = s.kernel := rfl
@[simp] theorem set_page_returned (a : Nat) (v : vm_page_t) :
    (set_page s a v).returned = s.returned := rfl

@[simp] theorem set_family_block (f : FamPtr) (v : vm_page_family_t) :
    (set_family s f v).block = s.block := rfl
@[simp] theorem set_family_page (f : FamPtr) (v : vm_page_family_t) :
    (set_family s f v).page = s.page := rfl
@[simp] theorem set_family_mapped (f : FamPtr) (v : vm_page_family_t) :
    (set_family s f v).mapped = s.mapped := rfl
@[simp] theorem set_family_size (f : FamPtr) (v : vm_page_family_t) :
    (set_family s f v).SYSTEM_PAGE_SIZE = s.SYSTEM_PAGE_SIZE := rfl
theorem set_family_families (f : FamPtr) (v : vm_page_family_t) :
    (set_family s f v).first_vm_page_for_families =
      set_family_in s.first_vm_page_for_families f v := rfl
@[simp] theorem set_family_kernel (f : FamPtr) (v : vm_page_family_t) :
    (set_family s f v).kernel = s.kernel := rfl
@[simp] theorem set_family_returned (f : FamPtr) (v : vm_page_family_t) :
    (set_family s f v).returned = s.returned := rfl

@[simp] theorem is_mapped_set_block (a : Nat) (b : block_meta_data_t) (x : Nat) :
    is_mapped (set_block s a b) x = is_mapped s x := rfl
@[simp] theorem is_mapped_set_page (a : Nat) (v : vm_page_t) (x : Nat) :
    is_mapped (set_page s a v) x = is_mapped s x := rfl
@[simp] theorem is_mapped_set_family (f : FamPtr) (v : vm_page_family_t) (x : Nat) :
    is_mapped (set_family s f v) x = is_mapped s x := rfl

@[simp] theorem get_family_set_block (a : Nat) (b : block_meta_data_t) (f : FamPtr) :
    get_family (set_block s a b) f = get_family s f := rfl
@[simp] theorem get_family_set_page (a : Nat) (v : vm_page_t) (f : FamPtr) :
    get_family (set_page s a v) f = get_family s f := rfl

end basics

section families

variable (s : mm_state)

theorem get_family_in_set_family_in (l : List vm_page_for_families_t) (f g : FamPtr)
    (v fam : vm_page_family_t) (h : get_family_in l f = some fam) :
    get_family_in (set_family_in l f v) g = if g = f then some v else get_family_in l g := by
  induction l with
  | nil => simp [get_family_in] at h
  | cons x xs ih =>
    unfold set_family_in
    by_cases hx : x.addr = f.1
    · simp only [hx, if_true]
      simp only [get_family_in, hx, if_true] at h
      have hlt : f.2 < x.vm_page_family.length := by
        by_contra hc
        rw [List.getElem?_eq_none (by omega)] at h
        cases h
      by_cases hg : g = f
      · subst hg
        simp [get_family_in, List.getElem?_set, hlt]
      · by_cases h1 : g.1 = f.1
        · have h2 : f.2 ≠ g.2 := fun hc => hg (Prod.ext h1 hc.symm)
          simp [get_family_in, hg, h1, hx, List.getElem?_set, h2]
        · have h1' : ¬ f.1 = g.1 := fun hc => h1 hc.symm
          simp [get_family_in, hg, h1', hx]
    · simp only [hx, if_false]
      simp only [get_family_in, hx, if_false] at h
      by_cases h1 : x.addr = g.1
      · have hg : g ≠ f := by
          intro hc
          subst hc
          exact hx h1
        simp [get_family_in, h1, hg]
      · simp [get_family_in, h1, ih h]

theorem get_family_set_family (f g : FamPtr) (v fam : vm_page_family_t)
    (h : get_family s f = some fam) :
    get_family (set_family s f v) g = if g = f then some v else get_family s g :=
  get_family_in_set_family_in s.first_vm_page_for_families f g v fam h

theorem set_family_in_get (l : List vm_page_for_families_t) (f : FamPtr)
    (fam : vm_page_family_t) (h : get_family_in l f = some fam) : set_family_in l f fam = l := by
  induction l with
  | nil => rfl
  | cons x xs ih =>
    unfold set_family_in
    by_cases hx : x.addr = f.1
    · simp only [hx, if_true]
      simp only [get_family_in, hx, if_true] at h
      have hset : x.vm_page_family.set f.2 fam = x.vm_page_family := by
        apply List.ext_getElem?
        intro i
        rw [List.getElem?_set]
        split
        · rename_i hi
          subst hi
          split
          · exact h.symm
          · rename_i hc
            rw [List.getElem?_eq_none (by omega)]
        · rfl
      rw [hset, ← hx]
    · simp only [hx, if_false]
      simp only [get_family_in, hx, if_false] at h
      rw [ih h]

theorem set_family_in_twice (l : List vm_page_for_families_t) (f : FamPtr)
    (v w : vm_page_family_t) :
    set_family_in (set_family_in l f v) f w = set_family_in l f w := by
  induction l with
  | nil => rfl
  | cons x xs ih =>
    unfold set_family_in
    by_cases hx : x.addr = f.1
    · simp [hx, set_family_in]
    · simp only [hx, if_false]
      rw [set_family_in]
      simp [hx, ih]

end families

/-! ## Lookup and the early exits of `xcalloc` -/

theorem lookup_in_page_none (L : Layout) (name : List Char) (pg : Nat)
    (slots : List vm_page_family_t) (i : Nat)
    (h : ∀ fam ∈ slots, strncmp_eq fam.struct_name name L.MM_MAX_STRUCT_NAME = false) :
    lookup_in_page L name pg slots i = none := by
  induction slots generalizing i with
  | nil => rfl
  | cons x xs ih =>
    unfold lookup_in_page
    rw [h x (List.mem_cons_self _ _)]
    simp only [Bool.false_eq_true, if_false]
    exact ih _ (fun fam hf => h fam (List.mem_cons_of_mem _ hf))

theorem lookup_none_of_not_registered (L : Layout) (s : mm_state) (name : List Char)
    (h : ¬ registered L s name) : lookup_page_family_by_name L s name = none := by
  unfold lookup_page_family_by_name
  unfold registered at h
  generalize s.first_vm_page_for_families = l at h
  induction l with
  | nil => rfl
  | cons x xs ih =>
    unfold lookup_in_pages
    have hx : lookup_in_page L name x.addr x.vm_page_family 0 = none := by
      apply lookup_in_page_none
      intro fam hf
      by_contra hc
      exact h ⟨x, List.mem_cons_self _ _, fam, hf, by simpa using hc⟩
    rw [hx]
    apply ih
    rintro ⟨pg, hpg, fam, hf, hc⟩
    exact h ⟨pg, List.mem_cons_of_mem _ hpg, fam, hf, hc⟩

/-- C10: for a name that no registry slot carries, `xcalloc` returns `NULL`
for every unit count and leaves the whole state as it was. -/
theorem xcalloc_unregistered_name (L : Layout) (s : mm_state) (name : List Char) (units : Int)
    (h : ¬ registered L s name) : xcalloc L s name units = Except.ok (none, s) := by
  unfold xcalloc
  rw [lookup_none_of_not_registered L s name h]
  rfl

theorem xcalloc_unregistered_name_witness :
    ¬ registered L40 registry_demo "Student".toList ∧
    xcalloc L40 registry_demo "Student".toList 5 = Except.ok (none, registry_demo) :=
  ⟨by simp [registered, registry_demo, boot, new_family, L40, strncmp_eq],
   xcalloc_unregistered_name L40 registry_demo "Student".toList 5
     (by simp [registered, registry_demo, boot, new_family, L40, strncmp_eq])⟩

/-- When the product of unit count and unit size does not wrap around in 32
bits and exceeds the capacity, `xcalloc` returns `NULL` and changes nothing. -/
theorem xcalloc_over_capacity_no_wrap (L : Layout) (s : mm_state) (name : List Char)
    (units : Int) (f : FamPtr) (fam : vm_page_family_t)
    (hl : lookup_page_family_by_name L s name = some f) (hf : get_family s f = some fam)
    (h0 : 0 ≤ units) (hw : units * (fam.struct_size : Int) < 4294967296)
    (hc : (mm_max_page_allocatable_memory L s 1 : Int) < units * (fam.struct_size : Int)) :
    xcalloc L s name units = Except.ok (none, s) := by
  unfold xcalloc
  rw [hl]
  simp only [read_family, hf, bind_ok_eq]
  have hpos : 0 ≤ units * (fam.struct_size : Int) := Int.mul_nonneg h0 (by omega)
  have hu : (u32 (units * (fam.struct_size : Int)) : Int) = units * (fam.struct_size : Int) := by
    unfold u32
    omega
  have : u32 (units * (fam.struct_size : Int)) > mm_max_page_allocatable_memory L s 1 := by
    omega
  simp [this]

/-- C8, at the failing input: a request of 67108864 units of 64 bytes, whose
product 2^32 wraps to 0, is served with a block of usable size 0 from a newly
mapped page instead of being refused. -/
theorem xcalloc_wrapped_product_is_served :
    scenario_wrapped_request = Except.ok (some 8232, 1, 2, 0) := by
  rfl

/-- C9, at the failing input: when the page source has no page to give,
`xcalloc` does not return `NULL`; it stops in the write through the null page
pointer in `allocate_vm_page`. -/
theorem xcalloc_null_page_is_dereferenced :
    scenario_page_source_fails = Except.error Fault.null_deref := by
  rfl

/-! ## Inversion of single memory accesses -/

theorem read_block_eq_ok (s : mm_state) (a : Nat) (v : block_meta_data_t) :
    read_block s a = Except.ok v ↔ is_mapped s a = true ∧ s.block a = v := by
  unfold read_block
  split <;> simp_all

theorem write_block_eq_ok (s s' : mm_state) (a : Nat) (v : block_meta_data_t) :
    write_block s a v = Except.ok s' ↔ is_mapped s a = true ∧ set_block s a v = s' := by
  unfold write_block
  split <;> simp_all

theorem read_page_eq_ok (s : mm_state) (a : Nat) (v : vm_page_t) :
    read_page s a = Except.ok v ↔ is_mapped s a = true ∧ s.page a = v := by
  unfold read_page
  split <;> simp_all

theorem write_page_eq_ok (s s' : mm_state) (a : Nat) (v : vm_page_t) :
    write_page s a v = Except.ok s' ↔ is_mapped s a = true ∧ set_page s a v = s' := by
  unfold write_page
  split <;> simp_all

theorem read_family_eq_ok (s : mm_state) (f : FamPtr) (v : vm_page_family_t) :
    read_family s f = Except.ok v ↔ get_family s f = some v := by
  unfold read_family
  split <;> simp_all

theorem write_family_eq_ok (s s' : mm_state) (f : FamPtr) (v : vm_page_family_t) :
    write_family s f v = Except.ok s' ↔
      (∃ old, get_family s f = some old) ∧ set_family s f v = s' := by
  unfold write_family
  split <;> simp_all

/-! ## What the list and page operations leave alone -/

theorem insert_list_frame (s s' : mm_state) (f : FamPtr) (b : Nat)
    (h : mm_add_free_block_meta_data_to_free_block_list s f b = Except.ok s') :
    ∃ v, s' = set_family s f v := by
  unfold mm_add_free_block_meta_data_to_free_block_list at h
  simp only [bind_eq_ok_iff, read_block_eq_ok, read_family_eq_ok] at h
  obtain ⟨bb, ⟨_, rfl⟩, h⟩ := h
  split at h
  · cases h
  · simp only [bind_eq_ok_iff, read_family_eq_ok, write_family_eq_ok] at h
    obtain ⟨fam, _, l, _, _, rfl⟩ := h
    exact ⟨_, rfl⟩

theorem delete_page_frame (s s' : mm_state) (p : Nat)
    (h : mm_vm_page_delete_and_free s p = Except.ok s') :
    s'.block = s.block ∧ s'.mapped = s.mapped.erase (p, 1 * s.SYSTEM_PAGE_SIZE) ∧
      s'.SYSTEM_PAGE_SIZE = s.SYSTEM_PAGE_SIZE := by
  unfold mm_vm_page_delete_and_free at h
  simp only [bind_eq_ok_iff, read_page_eq_ok] at h
  obtain ⟨pg, ⟨_, rfl⟩, h⟩ := h
  split at h
  · cases h
  · simp only [bind_eq_ok_iff, read_family_eq_ok] at h
    obtain ⟨fam, _, h⟩ := h
    split at h
    · simp only [bind_eq_ok_iff, read_page_eq_ok, write_page_eq_ok, write_family_eq_ok] at h
      obtain ⟨s1, ⟨_, rfl⟩, s2, h2, pg2, ⟨_, rfl⟩, s3, ⟨_, rfl⟩, h⟩ := h
      simp only [pure_eq_ok, Except.ok.injEq] at h
      subst h
      split at h2
      · simp only [bind_eq_ok_iff, read_page_eq_ok, write_page_eq_ok] at h2
        obtain ⟨np, ⟨_, rfl⟩, _, rfl⟩ := h2
        simp [mm_return_vm_page_to_kernel, unmap_region]
      · simp only [pure_eq_ok, Except.ok.injEq] at h2
        subst h2
        simp [mm_return_vm_page_to_kernel, unmap_region]
    · simp only [bind_eq_ok_iff, read_page_eq_ok] at h
      obtain ⟨s2, h2, pg2, ⟨_, rfl⟩, h⟩ := h
      split at h
      · cases h
      · simp only [bind_eq_ok_iff, read_page_eq_ok, write_page_eq_ok] at h
        obtain ⟨qp, ⟨_, rfl⟩, s3, ⟨_, rfl⟩, h⟩ := h
        simp only [pure_eq_ok, Except.ok.injEq] at h
        subst h
        split at h2
        · simp only [bind_eq_ok_iff, read_page_eq_ok, write_page_eq_ok] at h2
          obtain ⟨np, ⟨_, rfl⟩, _, rfl⟩ := h2
          simp [mm_return_vm_page_to_kernel, unmap_region]
        · simp only [pure_eq_ok, Except.ok.injEq] at h2
          subst h2
          simp [mm_return_vm_page_to_kernel, unmap_region]

theorem union_keeps_flag (L : Layout) (s s' : mm_state) (f g a : Nat)
    (h : mm_union_free_blocks L s f g = Except.ok s')
    (ha : (s.block a).is_free = true) :
    (s'.block a).is_free = true ∧ s'.mapped = s.mapped ∧
      s'.SYSTEM_PAGE_SIZE = s.SYSTEM_PAGE_SIZE := by
  unfold mm_union_free_blocks at h
  simp only [bind_eq_ok_iff, read_block_eq_ok, write_block_eq_ok] at h
  obtain ⟨fb, ⟨_, rfl⟩, sb, ⟨_, rfl⟩, h⟩ := h
  split at h
  · cases h
  · simp only [bind_eq_ok_iff, read_block_eq_ok, write_block_eq_ok] at h
    obtain ⟨s1, ⟨_, rfl⟩, sb2, ⟨_, rfl⟩, fb2, ⟨_, rfl⟩, s2, ⟨_, rfl⟩, sb3, ⟨_, rfl⟩, h⟩ := h
    split at h
    · simp only [bind_eq_ok_iff, read_block_eq_ok, write_block_eq_ok] at h
      obtain ⟨nb, ⟨_, rfl⟩, _, rfl⟩ := h
      refine ⟨?_, rfl, rfl⟩
      simp only [set_block_block]
      split_ifs <;> simp_all
    · simp only [pure_eq_ok, Except.ok.injEq] at h
      subst h
      refine ⟨?_, rfl, rfl⟩
      simp only [set_block_block]
      split_ifs <;> simp_all

theorem free_blocks_sets_flag (L : Layout) (s s' : mm_state) (a : Nat) (r : Option Nat)
    (h : mm_free_blocks L s a = Except.ok (r, s')) :
    (s'.block a).is_free = true := by
  unfold mm_free_blocks at h
  simp only [bind_eq_ok_iff, read_block_eq_ok] at h
  obtain ⟨b, ⟨hm, rfl⟩, h⟩ := h
  split at h
  · cases h
  · simp only [bind_eq_ok_iff, read_block_eq_ok, read_page_eq_ok, write_block_eq_ok] at h
    obtain ⟨_, _, s1, ⟨_, rfl⟩, b1, ⟨_, rfl⟩, s2, h2, s3, h3, b3, ⟨_, rfl⟩,
      ⟨rb, s4⟩, h4, empty, _, h⟩ := h
    have f1 : ((set_block s a { s.block a with is_free := true }).block a).is_free = true := by
      simp
    have f2 : (s2.block a).is_free = true := by
      split at h2
      · simp only [bind_eq_ok_iff, read_block_eq_ok, write_block_eq_ok,
          mm_get_hard_internal_memory_frag_size, pure_eq_ok, Except.ok.injEq] at h2
        obtain ⟨_, _, _, ⟨_, rfl⟩, _, rfl⟩ := h2
        simp
      · simp only [bind_eq_ok_iff, read_block_eq_ok, write_block_eq_ok] at h2
        obtain ⟨_, ⟨_, rfl⟩, _, rfl⟩ := h2
        simp
    have f3 : (s3.block a).is_free = true := by
      split at h3
      · simp only [bind_eq_ok_iff, read_block_eq_ok] at h3
        obtain ⟨nb, ⟨_, rfl⟩, h3⟩ := h3
        split at h3
        · exact (union_keeps_flag L _ _ _ _ a h3 f2).1
        · simp only [pure_eq_ok, Except.ok.injEq] at h3
          subst h3
          exact f2
      · simp only [pure_eq_ok, Except.ok.injEq] at h3
        subst h3
        exact f2
    have f4 : (s4.block a).is_free = true := by
      split at h4
      · simp only [bind_eq_ok_iff, read_block_eq_ok] at h4
        obtain ⟨pb, ⟨_, rfl⟩, h4⟩ := h4
        split at h4
        · simp only [bind_eq_ok_iff, pure_eq_ok, Except.ok.injEq, Prod.mk.injEq] at h4
          obtain ⟨s5, h5, _, rfl⟩ := h4
          exact (union_keeps_flag L _ _ _ _ a h5 f3).1
        · simp only [pure_eq_ok, Except.ok.injEq, Prod.mk.injEq] at h4
          obtain ⟨_, rfl⟩ := h4
          exact f3
      · simp only [pure_eq_ok, Except.ok.injEq, Prod.mk.injEq] at h4
        obtain ⟨_, rfl⟩ := h4
        exact f3
    simp only at h
    split at h
    · simp only [bind_eq_ok_iff, pure_eq_ok, Except.ok.injEq, Prod.mk.injEq] at h
      obtain ⟨s5, h5, _, rfl⟩ := h
      rw [(delete_page_frame _ _ _ h5).1]
      exact f4
    · simp only [bind_eq_ok_iff, read_page_eq_ok] at h
      obtain ⟨hp, _, h⟩ := h
      split at h
      · cases h
      · simp only [bind_eq_ok_iff, pure_eq_ok, Except.ok.injEq, Prod.mk.injEq] at h
        obtain ⟨s5, h5, _, rfl⟩ := h
        obtain ⟨v, rfl⟩ := insert_list_frame _ _ _ _ h5
        simpa using f4

/-- C6 as the code has it: once `xfree` has released `p`, a second `xfree` of
`p` never succeeds.  It stops at the `is_free` assertion when the header of
the block is still in mapped memory, and at the read of that header when the
first release has returned the page to the page source. -/
theorem xfree_twice_stops (L : Layout) (s s' : mm_state) (p : Nat)
    (h : xfree L s p = Except.ok s') :
    xfree L s' p =
      Except.error (if is_mapped s' (p - L.H) then Fault.assertion else Fault.unmapped) := by
  have hflag : (s'.block (p - L.H)).is_free = true := by
    unfold xfree at h
    simp only [bind_eq_ok_iff, read_block_eq_ok] at h
    obtain ⟨b, ⟨_, rfl⟩, h⟩ := h
    split at h
    · cases h
    · simp only [bind_eq_ok_iff, pure_eq_ok, Except.ok.injEq] at h
      obtain ⟨⟨r, s1⟩, h1, rfl⟩ := h
      exact free_blocks_sets_flag L _ _ _ _ h1
  unfold xfree read_block
  by_cases hm : is_mapped s' (p - L.H) = true
  · simp [hm, hflag]
  · simp [hm]

/-- C6, against the wording: when the first release has reclaimed the page,
the second release is not stopped by the assertion but by the read of a header
in memory that is no longer mapped. -/
theorem double_release_after_reclaim_not_assertion :
    scenario_double_release = Except.ok (some Fault.unmapped) := by
  rfl

theorem xfree_twice_stops_witness :
    xfree L40 two_allocated 8232 = Except.ok (the_state (xfree L40 two_allocated 8232)) ∧
    xfree L40 (the_state (xfree L40 two_allocated 8232)) 8232 =
      Except.error Fault.assertion :=
  ⟨rfl, xfree_twice_stops L40 two_allocated (the_state (xfree L40 two_allocated 8232)) 8232 rfl⟩

/-! ## Forward evaluation of single memory accesses -/

theorem read_block_of_mapped (s : mm_state) (a : Nat) (h : is_mapped s a = true) :
    read_block s a = Except.ok (s.block a) := by
  simp [read_block, h]

theorem write_block_of_mapped (s : mm_state) (a : Nat) (v : block_meta_data_t)
    (h : is_mapped s a = true) : write_block s a v = Except.ok (set_block s a v) := by
  simp [write_block, h]

theorem read_page_of_mapped (s : mm_state) (a : Nat) (h : is_mapped s a = true) :
    read_page s a = Except.ok (s.page a) := by
  simp [read_page, h]

theorem write_page_of_mapped (s : mm_state) (a : Nat) (v : vm_page_t)
    (h : is_mapped s a = true) : write_page s a v = Except.ok (set_page s a v) := by
  simp [write_page, h]

theorem get_family_set_family_some (s : mm_state) (f g : FamPtr) (v : vm_page_family_t)
    (h : (get_family s f).isSome = true) :
    get_family (set_family s f v) g = if g = f then some v else get_family s g := by
  obtain ⟨fam, hf⟩ := Option.isSome_iff_exists.mp h
  exact get_family_set_family s f g v fam hf

theorem read_family_of_some (s : mm_state) (f : FamPtr) (fam : vm_page_family_t)
    (h : get_family s f = some fam) : read_family s f = Except.ok fam := by
  simp [read_family, h]

theorem write_family_of_some (s : mm_state) (f : FamPtr) (v : vm_page_family_t)
    (h : (get_family s f).isSome = true) :
    write_family s f v = Except.ok (set_family s f v) := by
  obtain ⟨fam, hf⟩ := Option.isSome_iff_exists.mp h
  simp [write_family, hf]

@[simp] theorem map_region_block (s : mm_state) (r : Nat × Nat) (k : List (Option Nat))
    (x : Nat) :
    (map_region s r k).block x = if in_region x r then zero_block else s.block x := rfl
@[simp] theorem map_region_page (s : mm_state) (r : Nat × Nat) (k : List (Option Nat))
    (x : Nat) :
    (map_region s r k).page x = if in_region x r then zero_page else s.page x := rfl
@[simp] theorem map_region_mapped (s : mm_state) (r : Nat × Nat) (k : List (Option Nat)) :
    (map_region s r k).mapped = r :: s.mapped := rfl
@[simp] theorem map_region_kernel (s : mm_state) (r : Nat × Nat) (k : List (Option Nat)) :
    (map_region s r k).kernel = k := rfl
@[simp] theorem map_region_returned (s : mm_state) (r : Nat × Nat) (k : List (Option Nat)) :
    (map_region s r k).returned = s.returned := rfl
@[simp] theorem map_region_size (s : mm_state) (r : Nat × Nat) (k : List (Option Nat)) :
    (map_region s r k).SYSTEM_PAGE_SIZE = s.SYSTEM_PAGE_SIZE := rfl
@[simp] theorem map_region_families (s : mm_state) (r : Nat × Nat) (k : List (Option Nat)) :
    (map_region s r k).first_vm_page_for_families = s.first_vm_page_for_families := rfl
@[simp] theorem get_family_map_region (s : mm_state) (r : Nat × Nat) (k : List (Option Nat))
    (f : FamPtr) : get_family (map_region s r k) f = get_family s f := rfl
@[simp] theorem is_mapped_map_region (s : mm_state) (r : Nat × Nat) (k : List (Option Nat))
    (x : Nat) : is_mapped (map_region s r k) x = (in_region x r || is_mapped s x) := by
  simp [is_mapped, map_region]

@[simp] theorem unmap_region_block (s : mm_state) (p : Nat) (r : Nat × Nat) :
    (unmap_region s p r).block = s.block := rfl
@[simp] theorem unmap_region_page (s : mm_state) (p : Nat) (r : Nat × Nat) :
    (unmap_region s p r).page = s.page := rfl
@[simp] theorem unmap_region_mapped (s : mm_state) (p : Nat) (r : Nat × Nat) :
    (unmap_region s p r).mapped = s.mapped.erase r := rfl
@[simp] theorem unmap_region_kernel (s : mm_state) (p : Nat) (r : Nat × Nat) :
    (unmap_region s p r).kernel = s.kernel := rfl
@[simp] theorem unmap_region_returned (s : mm_state) (p : Nat) (r : Nat × Nat) :
    (unmap_region s p r).returned = p :: s.returned := rfl
@[simp] theorem unmap_region_size (s : mm_state) (p : Nat) (r : Nat × Nat) :
    (unmap_region s p r).SYSTEM_PAGE_SIZE = s.SYSTEM_PAGE_SIZE := rfl
@[simp] theorem unmap_region_families (s : mm_state) (p : Nat) (r : Nat × Nat) :
    (unmap_region s p r).first_vm_page_for_families = s.first_vm_page_for_families := rfl
@[simp] theorem get_family_unmap_region (s : mm_state) (p : Nat) (r : Nat × Nat)
    (f : FamPtr) : get_family (unmap_region s p r) f = get_family s f := rfl

@[simp] theorem set_block_set_block (s : mm_state) (a : Nat) (v w : block_meta_data_t) :
    set_block (set_block s a v) a w = set_block s a w := by
  simp only [set_block, mm_state.mk.injEq, true_and, and_true]
  funext x
  split <;> simp_all

@[simp] theorem set_page_set_page (s : mm_state) (a : Nat) (v w : vm_page_t) :
    set_page (set_page s a v) a w = set_page s a w := by
  simp only [set_page, mm_state.mk.injEq, true_and, and_true]
  funext x
  split <;> simp_all

theorem in_region_self (p n : Nat) (h : 0 < n) : in_region p (p, n) = true := by
  simp [in_region, h]

theorem in_region_add (p n b : Nat) (h : b < n) : in_region (p + b) (p, n) = true := by
  simp [in_region, h]

@[simp] theorem max_alloc_set_block (L : Layout) (s : mm_state) (a : Nat)
    (v : block_meta_data_t) (u : Int) :
    mm_max_page_allocatable_memory L (set_block s a v) u =
      mm_max_page_allocatable_memory L s u := rfl
@[simp] theorem max_alloc_set_page (L : Layout) (s : mm_state) (a : Nat)
    (v : vm_page_t) (u : Int) :
    mm_max_page_allocatable_memory L (set_page s a v) u =
      mm_max_page_allocatable_memory L s u := rfl
@[simp] theorem max_alloc_set_family (L : Layout) (s : mm_state) (f : FamPtr)
    (v : vm_page_family_t) (u : Int) :
    mm_max_page_allocatable_memory L (set_family s f v) u =
      mm_max_page_allocatable_memory L s u := rfl
@[simp] theorem max_alloc_map_region (L : Layout) (s : mm_state) (r : Nat × Nat)
    (k : List (Option Nat)) (u : Int) :
    mm_max_page_allocatable_memory L (map_region s r k) u =
      mm_max_page_allocatable_memory L s u := rfl

@[simp] theorem set_family_set_family (s : mm_state) (f : FamPtr) (v w : vm_page_family_t) :
    set_family (set_family s f v) f w = set_family s f w := by
  simp only [set_family, set_family_in_twice]

@[simp] theorem zero_fill_block (s : mm_state) (r : Nat × Nat) (x : Nat) :
    (zero_fill s r).block x = if in_region x r then zero_block else s.block x := rfl
@[simp] theorem zero_fill_page (s : mm_state) (r : Nat × Nat) (x : Nat) :
    (zero_fill s r).page x = if in_region x r then zero_page else s.page x := rfl
@[simp] theorem zero_fill_byte (s : mm_state) (r : Nat × Nat) (x : Nat) :
    (zero_fill s r).byte x = if in_region x r then 0 else s.byte x := rfl
@[simp] theorem zero_fill_mapped (s : mm_state) (r : Nat × Nat) :
    (zero_fill s r).mapped = s.mapped := rfl
@[simp] theorem zero_fill_kernel (s : mm_state) (r : Nat × Nat) :
    (zero_fill s r).kernel = s.kernel := rfl
@[simp] theorem zero_fill_returned (s : mm_state) (r : Nat × Nat) :
    (zero_fill s r).returned = s.returned := rfl
@[simp] theorem zero_fill_size (s : mm_state) (r : Nat × Nat) :
    (zero_fill s r).SYSTEM_PAGE_SIZE = s.SYSTEM_PAGE_SIZE := rfl
@[simp] theorem zero_fill_families (s : mm_state) (r : Nat × Nat) :
    (zero_fill s r).first_vm_page_for_families = s.first_vm_page_for_families := rfl
@[simp] theorem get_family_zero_fill (s : mm_state) (r : Nat × Nat) (f : FamPtr) :
    get_family (zero_fill s r) f = get_family s f := rfl
@[simp] theorem is_mapped_zero_fill (s : mm_state) (r : Nat × Nat) (x : Nat) :
    is_mapped (zero_fill s r) x = is_mapped s x := rfl
@[simp] theorem max_alloc_zero_fill (L : Layout) (s : mm_state) (r : Nat × Nat) (u : Int) :
    mm_max_page_allocatable_memory L (zero_fill s r) u =
      mm_max_page_allocatable_memory L s u := rfl

theorem in_region_below (x p n : Nat) (h : x < p) : in_region x (p, n) = false := by
  simp [in_region, h]

theorem in_region_above (x p n : Nat) (h : p + n ≤ x) : in_region x (p, n) = false := by
  simp only [in_region, Bool.and_eq_false_imp, decide_eq_true_eq, decide_eq_false_iff_not]
  intro _
  omega

theorem in_region_sub (x p n q m : Nat) (h : in_region x (p, n) = false) (h1 : p ≤ q)
    (h2 : q + m ≤ p + n) : in_region x (q, m) = false := by
  simp only [in_region, Bool.and_eq_false_imp, decide_eq_true_eq, decide_eq_false_iff_not] at h ⊢
  intro h3 h4
  exact h (by omega) (by omega)

theorem in_region_iff (x p n : Nat) : in_region x (p, n) = true ↔ p ≤ x ∧ x < p + n := by
  simp [in_region]

/-- A range inside one mapped region is mapped. -/
theorem range_mapped_of_region (s : mm_state) (p n : Nat) (r : Nat × Nat)
    (hr : r ∈ s.mapped) (h1 : r.1 ≤ p) (h2 : p + n ≤ r.1 + r.2) :
    range_mapped s p n = true := by
  unfold range_mapped
  rw [List.all_eq_true]
  intro i hi
  have hi' : i < n := List.mem_range.mp hi
  unfold is_mapped
  rw [List.any_eq_true]
  refine ⟨r, hr, ?_⟩
  simp only [in_region, Bool.and_eq_true, decide_eq_true_eq]
  omega

theorem range_mapped_zero (s : mm_state) (p : Nat) : range_mapped s p 0 = true := rfl

theorem memset_zero_of_range (s : mm_state) (p n : Nat) (h : range_mapped s p n = true) :
    memset_zero s p n = Except.ok (zero_fill s (p, n)) := by
  simp [memset_zero, h]

theorem memset_zero_eq_ok (s s' : mm_state) (p n : Nat) :
    memset_zero s p n = Except.ok s' ↔ range_mapped s p n = true ∧ zero_fill s (p, n) = s' := by
  unfold memset_zero
  split <;> simp_all

theorem max_alloc_one (L : Layout) (s : mm_state) (h : L.PMO ≤ s.SYSTEM_PAGE_SIZE)
    (hPS : s.SYSTEM_PAGE_SIZE < 2147483648) :
    mm_max_page_allocatable_memory L s 1 = s.SYSTEM_PAGE_SIZE - L.PMO := by
  unfold mm_max_page_allocatable_memory u32
  omega

theorem allocate_vm_page_new (L : Layout) (s : mm_state) (f : FamPtr) (fam : vm_page_family_t)
    (P : Nat) (k : List (Option Nat))
    (hf : get_family s f = some fam) (hk : s.kernel = some P :: k)
    (hB : L.BMO < s.SYSTEM_PAGE_SIZE)
    (hfirst : ∀ q, fam.first_page = some q → is_mapped s q = true) :
    allocate_vm_page L s f = Except.ok (P, with_new_page L s f fam P k) := by
  have hPAGE : 0 < s.SYSTEM_PAGE_SIZE := by omega
  unfold allocate_vm_page mm_get_new_vm_page_from_kernel MARK_VM_PAGE_EMPTY with_new_page
  simp only [hk, bind_ok_eq, one_mul]
  simp only [read_block_of_mapped, write_block_of_mapped, read_page_of_mapped,
    write_page_of_mapped, is_mapped_map_region, is_mapped_set_block, is_mapped_set_page,
    in_region_add _ _ _ hB, in_region_self _ _ hPAGE, Bool.true_or, bind_ok_eq,
    set_block_set_block, set_page_set_page, max_alloc_set_block, max_alloc_map_region,
    read_family, write_family, hf, get_family_set_block, get_family_set_page,
    get_family_map_region, set_block_block, set_page_page, if_true, map_region_block,
    map_region_page]
  cases hfp : fam.first_page with
  | none => rfl
  | some q =>
    have hq := hfirst q hfp
    simp only [read_page_of_mapped, write_page_of_mapped, is_mapped_map_region,
      is_mapped_set_block, is_mapped_set_page, bind_ok_eq, set_page_set_page,
      read_family, write_family, hf, get_family_set_block, get_family_set_page,
      get_family_map_region, hq, Bool.or_true, pure_eq_ok]
    rfl

theorem insert_at_head (s : mm_state) (a : Nat) (l : List Nat)
    (ha : is_mapped s a = true)
    (hl : ∀ x, l.head? = some x →
      is_mapped s x = true ∧ (s.block x).block_size < (s.block a).block_size) :
    glthread_priority_insert s a l = Except.ok (a :: l) := by
  cases l with
  | nil => rfl
  | cons x xs =>
    obtain ⟨hx, hlt⟩ := hl x rfl
    unfold glthread_priority_insert free_blocks_comparison_function
    simp [read_block_of_mapped, ha, hx, hlt]


@[simp] theorem set_block_set_family (s : mm_state) (f : FamPtr) (v : vm_page_family_t)
    (a : Nat) (b : block_meta_data_t) :
    set_block (set_family s f v) a b = set_family (set_block s a b) f v := rfl

@[simp] theorem set_page_set_family (s : mm_state) (f : FamPtr) (v : vm_page_family_t)
    (a : Nat) (b : vm_page_t) :
    set_page (set_family s f v) a b = set_family (set_page s a b) f v := rfl

@[simp] theorem unmap_region_set_family (s : mm_state) (f : FamPtr) (v : vm_page_family_t)
    (p : Nat) (r : Nat × Nat) :
    unmap_region (set_family s f v) p r = set_family (unmap_region s p r) f v := rfl

@[simp] theorem zero_fill_set_family (s : mm_state) (f : FamPtr) (v : vm_page_family_t)
    (r : Nat × Nat) :
    zero_fill (set_family s f v) r = set_family (zero_fill s r) f v := rfl

theorem split_no_remainder (L : Layout) (s : mm_state) (f : FamPtr) (fam : vm_page_family_t)
    (a : Nat) (size : Nat)
    (hm : is_mapped s a = true) (hfree : (s.block a).is_free = true)
    (hle : size ≤ (s.block a).block_size)
    (hrem : (s.block a).block_size - size = 0 ∨ (s.block a).block_size - size < L.H)
    (hf : get_family s f = some fam) :
    mm_split_free_data_block_for_allocation L s f a size =
      Except.ok (true,
        set_family (set_block s a { s.block a with is_free := false, block_size := size }) f
          { fam with free_block_priority_list_head :=
              remove_glthread a fam.free_block_priority_list_head }) := by
  unfold mm_split_free_data_block_for_allocation
  have hnlt : ¬ (s.block a).block_size < size := by omega
  have hnsoft : ¬ (L.H < (s.block a).block_size - size ∧
      (s.block a).block_size - size < L.H + fam.struct_size) := by omega
  simp only [read_block_of_mapped, write_block_of_mapped, hm, is_mapped_set_block,
    is_mapped_set_family, hfree, Bool.not_true, Bool.false_eq_true, if_false, hnlt,
    bind_ok_eq, set_block_block, if_true, set_block_set_block, read_family, write_family,
    get_family_set_block, hf, get_family_set_family_some, Option.isSome_some, pure_eq_ok,
    hnsoft]
  split
  · rfl
  · have : (s.block a).block_size - size < L.H := by omega
    simp [this]

theorem xcalloc_full_page (L : Layout) (s : mm_state) (name : List Char) (units : Int)
    (f : FamPtr) (fam : vm_page_family_t) (P : Nat) (k : List (Option Nat))
    (hl : lookup_page_family_by_name L s name = some f)
    (hf : get_family s f = some fam)
    (hsize : u32 (units * (fam.struct_size : Int)) = mm_max_page_allocatable_memory L s 1)
    (hk : s.kernel = some P :: k)
    (hB : L.BMO < s.SYSTEM_PAGE_SIZE)
    (hfresh : ∀ a, is_mapped s a = true → in_region a (P, s.SYSTEM_PAGE_SIZE) = false)
    (hlist : ∀ a ∈ fam.free_block_priority_list_head,
      is_mapped s a = true ∧ (s.block a).block_size < mm_max_page_allocatable_memory L s 1)
    (hfirst : ∀ q, fam.first_page = some q → is_mapped s q = true)
    (hcap : L.BMO + L.H + mm_max_page_allocatable_memory L s 1 ≤ s.SYSTEM_PAGE_SIZE) :
    xcalloc L s name units =
      Except.ok (some (P + L.BMO + L.H), with_full_page L s f fam P k) := by
  have hPAGE : 0 < s.SYSTEM_PAGE_SIZE := by omega
  have hPB : in_region (P + L.BMO) (P, s.SYSTEM_PAGE_SIZE) = true := in_region_add _ _ _ hB
  have hPP : in_region P (P, s.SYSTEM_PAGE_SIZE) = true := in_region_self _ _ hPAGE
  have hnotin : (P + L.BMO) ∉ fam.free_block_priority_list_head := by
    intro hc
    have := hfresh _ (hlist _ hc).1
    rw [hPB] at this
    cases this
  have hsmall : (match mm_get_biggest_free_block_page_family fam with
      | none => (pure true : Except Fault Bool)
      | some big => do
        let bb ← read_block s big
        pure (decide (bb.block_size < mm_max_page_allocatable_memory L s 1))) =
      Except.ok true := by
    unfold mm_get_biggest_free_block_page_family
    cases hh : fam.free_block_priority_list_head with
    | nil => rfl
    | cons x xs =>
      have hx := hlist x (by rw [hh]; exact List.mem_cons_self _ _)
      simp [read_block_of_mapped _ _ hx.1, hx.2]
  have hmB : is_mapped (with_new_page L s f fam P k) (P + L.BMO) = true := by
    unfold with_new_page
    cases fam.first_page <;> simp [hPB]
  have hbB : (with_new_page L s f fam P k).block (P + L.BMO) =
      { is_free := true, block_size := mm_max_page_allocatable_memory L s 1, offset := L.BMO,
        prev_block := none, next_block := none } := by
    unfold with_new_page
    cases fam.first_page <;> simp
  have hgf : get_family (with_new_page L s f fam P k) f =
      some { fam with first_page := some P } := by
    unfold with_new_page
    cases fam.first_page <;> simp [get_family_set_family_some, hf]
  have hins : glthread_priority_insert (with_new_page L s f fam P k) (P + L.BMO)
      fam.free_block_priority_list_head =
      Except.ok ((P + L.BMO) :: fam.free_block_priority_list_head) := by
    apply insert_at_head _ _ _ hmB
    intro x hx
    have hxm := hlist x (List.mem_of_mem_head? hx)
    have hxr := hfresh x hxm.1
    have hne : x ≠ P + L.BMO := by
      intro hc
      rw [hc, hPB] at hxr
      cases hxr
    refine ⟨?_, ?_⟩
    · unfold with_new_page
      cases fam.first_page <;> simp [hxm.1]
    · rw [hbB]
      unfold with_new_page
      cases fam.first_page <;> simp [hne, hxr, hxm.2]
  unfold xcalloc
  simp only [hl, read_family, hf, bind_ok_eq, hsize, gt_iff_lt, lt_self_iff_false, if_false]
  unfold mm_allocate_free_data_block
  simp only [read_family, hf, bind_ok_eq, hsmall, if_true]
  unfold mm_family_new_page_add
  rw [allocate_vm_page_new L s f fam P k hf hk hB hfirst]
  simp only [bind_ok_eq]
  unfold mm_add_free_block_meta_data_to_free_block_list
  simp only [read_block_of_mapped _ _ hmB, hbB, bind_ok_eq, Bool.not_true, Bool.false_eq_true,
    if_false, read_family, hgf, hins, write_family, pure_eq_ok]
  have hg2 : get_family (set_family (with_new_page L s f fam P k) f
      { fam with first_page := some P,
                 free_block_priority_list_head :=
                   (P + L.BMO) :: fam.free_block_priority_list_head }) f =
      some { fam with first_page := some P,
                      free_block_priority_list_head :=
                        (P + L.BMO) :: fam.free_block_priority_list_head } := by
    rw [get_family_set_family_some _ _ _ _ (by rw [hgf]; rfl)]
    simp
  rw [split_no_remainder L _ f _ (P + L.BMO) _ (by simpa using hmB) (by simp [hbB])
    (by simp [hbB]) (by simp [hbB]) hg2]
  have hrm : remove_glthread (P + L.BMO) ((P + L.BMO) :: fam.free_block_priority_list_head) =
      fam.free_block_priority_list_head := by
    unfold remove_glthread
    simp only [List.filter_cons, bne_self_eq_false, Bool.false_eq_true, if_false]
    rw [List.filter_eq_self]
    intro x hx
    have : x ≠ P + L.BMO := fun hc => hnotin (hc ▸ hx)
    simpa using this
  simp only [bind_ok_eq, if_true, pure_eq_ok, set_family_block, hbB, hrm,
    set_block_set_block, set_block_set_family, set_family_set_family]
  have hreg : (P, s.SYSTEM_PAGE_SIZE) ∈ (with_new_page L s f fam P k).mapped := by
    unfold with_new_page
    cases fam.first_page <;> simp
  rw [read_block_of_mapped _ _ (by simpa using hmB)]
  simp only [bind_ok_eq, set_family_block, set_block_block, if_true]
  rw [memset_zero_of_range _ _ _ (range_mapped_of_region _ _ _ (P, s.SYSTEM_PAGE_SIZE)
    (by simpa using hreg) (by simp only; omega) (by simp only; omega))]
  rfl

theorem family_pages_congr (s s' : mm_state)
    (hnext : ∀ x, is_mapped s x = true → (s'.page x).next = (s.page x).next)
    (n : Nat) (o : Option Nat)
    (hpages : ∀ q ∈ family_pages s n o, is_mapped s q = true) :
    family_pages s' n o = family_pages s n o := by
  induction n generalizing o with
  | zero => simp [family_pages]
  | succ m ih =>
    cases o with
    | none => simp [family_pages]
    | some p =>
      simp only [family_pages] at hpages ⊢
      have hp : is_mapped s p = true := hpages p (List.mem_cons_self _ _)
      rw [hnext p hp, ih _ (fun q hq => hpages q (List.mem_cons_of_mem _ hq))]

theorem with_full_page_next (L : Layout) (s : mm_state) (f : FamPtr) (fam : vm_page_family_t)
    (P : Nat) (k : List (Option Nat)) (x : Nat) (hPAGE : 0 < s.SYSTEM_PAGE_SIZE)
    (hcap : L.BMO + L.H + mm_max_page_allocatable_memory L s 1 ≤ s.SYSTEM_PAGE_SIZE)
    (hx : in_region x (P, s.SYSTEM_PAGE_SIZE) = false) :
    ((with_full_page L s f fam P k).page x).next = (s.page x).next := by
  have hne : x ≠ P := by
    intro hc
    rw [hc, in_region_self _ _ hPAGE] at hx
    cases hx
  have hz : in_region x (P + L.BMO + L.H, mm_max_page_allocatable_memory L s 1) = false :=
    in_region_sub _ _ _ _ _ hx (by omega) (by omega)
  unfold with_full_page with_new_page
  cases fam.first_page with
  | none => simp [hx, hne, hz]
  | some q =>
    simp only [set_family_page, set_block_page, set_page_page, map_region_page, hx, hne,
      if_false, Bool.false_eq_true, zero_fill_page, hz]
    split <;> simp_all

theorem xfree_full_page (L : Layout) (s : mm_state)
    (f : FamPtr) (fam : vm_page_family_t) (P : Nat) (k : List (Option Nat))
    (hf : get_family s f = some fam)
    (hB : L.BMO < s.SYSTEM_PAGE_SIZE)
    (hfresh : ∀ a, is_mapped s a = true → in_region a (P, s.SYSTEM_PAGE_SIZE) = false)
    (hfirst : ∀ q, fam.first_page = some q → is_mapped s q = true)
    (hH : 0 < L.H)
    (hcap : L.BMO + L.H + mm_max_page_allocatable_memory L s 1 ≤ s.SYSTEM_PAGE_SIZE) :
    ∃ s2, xfree L (with_full_page L s f fam P k) (P + L.BMO + L.H) = Except.ok s2 ∧
      s2.first_vm_page_for_families = s.first_vm_page_for_families ∧
      s2.mapped = s.mapped ∧ s2.returned = P :: s.returned ∧ s2.kernel = k ∧
      (∀ x, in_region x (P, s.SYSTEM_PAGE_SIZE) = false →
        (s2.page x).next = (s.page x).next) := by
  have hPAGE : 0 < s.SYSTEM_PAGE_SIZE := by omega
  have hPB : in_region (P + L.BMO) (P, s.SYSTEM_PAGE_SIZE) = true := in_region_add _ _ _ hB
  have hPP : in_region P (P, s.SYSTEM_PAGE_SIZE) = true := in_region_self _ _ hPAGE
  have hzB : in_region (P + L.BMO) (P + L.BMO + L.H, mm_max_page_allocatable_memory L s 1) =
      false := in_region_below _ _ _ (by omega)
  have hzP : in_region P (P + L.BMO + L.H, mm_max_page_allocatable_memory L s 1) = false :=
    in_region_below _ _ _ (by omega)
  have hreg : ∀ v, fam.first_page = v →
      set_family_in s.first_vm_page_for_families f
        { fam with first_page := v } = s.first_vm_page_for_families := by
    intro v hv
    subst hv
    exact set_family_in_get _ _ _ hf
  unfold xfree mm_free_blocks mm_is_vm_page_empty mm_vm_page_delete_and_free
    MM_GET_PAGE_FROM_META_BLOCK
  cases hfp : fam.first_page with
  | none =>
    simp only [with_full_page, with_new_page, hfp, Nat.add_sub_cancel,
      read_block_of_mapped, write_block_of_mapped, read_page_of_mapped,
      write_page_of_mapped, is_mapped_map_region, is_mapped_set_block, is_mapped_set_page,
      is_mapped_set_family, hPB, hPP, Bool.true_or, bind_ok_eq,
      set_block_set_block, set_page_set_page, set_family_block, set_family_page,
      set_block_block, set_page_page, set_block_page, set_page_block, if_true,
      Bool.false_eq_true, if_false, pure_eq_ok, set_family_size, set_block_size, set_page_size,
      map_region_size, Option.isNone_none, Bool.and_self, read_family, write_family,
      get_family_set_family_some, get_family_set_block, get_family_set_page,
      get_family_map_region, hf, Option.isSome_some, set_block_set_family,
      set_page_set_family, set_family_set_family, mm_return_vm_page_to_kernel,
      unmap_region_set_family, zero_fill_block, zero_fill_page, is_mapped_zero_fill,
      get_family_zero_fill, zero_fill_size, hzB, hzP, zero_fill_set_family]
    refine ⟨_, rfl, ?_, ?_, rfl, rfl, ?_⟩
    · exact hreg none hfp
    · simp
    · intro x hx
      have hne : x ≠ P := by
        intro hc
        rw [hc, hPP] at hx
        cases hx
      have hz : in_region x (P + L.BMO + L.H, mm_max_page_allocatable_memory L s 1) = false :=
        in_region_sub _ _ _ _ _ hx (by omega) (by omega)
      simp [hx, hne, hz]
  | some q =>
    have hq := hfirst q hfp
    have hqr := hfresh q hq
    have hqP : q ≠ P := by
      intro hc
      rw [hc, hPP] at hqr
      cases hqr
    have hPq : P ≠ q := fun hc => hqP hc.symm
    have hzq : in_region q (P + L.BMO + L.H, mm_max_page_allocatable_memory L s 1) = false :=
      in_region_sub _ _ _ _ _ hqr (by omega) (by omega)
    simp only [with_full_page, with_new_page, hfp, Nat.add_sub_cancel,
      read_block_of_mapped, write_block_of_mapped, read_page_of_mapped,
      write_page_of_mapped, is_mapped_map_region, is_mapped_set_block, is_mapped_set_page,
      is_mapped_set_family, hPB, hPP, Bool.true_or, bind_ok_eq,
      set_block_set_block, set_page_set_page, set_family_block, set_family_page,
      set_block_block, set_page_page, set_block_page, set_page_block, if_true,
      Bool.false_eq_true, if_false, pure_eq_ok, set_family_size, set_block_size, set_page_size,
      map_region_size, Option.isNone_none, Bool.and_self, read_family, write_family,
      get_family_set_family_some, get_family_set_block, get_family_set_page,
      get_family_map_region, hf, Option.isSome_some, set_block_set_family,
      set_page_set_family, set_family_set_family, mm_return_vm_page_to_kernel,
      unmap_region_set_family, hq, hqP, hPq, Bool.or_true, map_region_page, hqr,
      zero_fill_block, zero_fill_page, is_mapped_zero_fill,
      get_family_zero_fill, zero_fill_size, hzB, hzP, hzq, zero_fill_set_family]
    refine ⟨_, rfl, ?_, ?_, rfl, rfl, ?_⟩
    · simp only [set_family_families, unmap_region_families, set_page_families,
        set_block_families, zero_fill_families, map_region_families]
      exact hreg (some q) hfp
    · simp
    · intro x hx
      have hne : x ≠ P := by
        intro hc
        rw [hc, hPP] at hx
        cases hx
      have hz : in_region x (P + L.BMO + L.H, mm_max_page_allocatable_memory L s 1) = false :=
        in_region_sub _ _ _ _ _ hx (by omega) (by omega)
      simp only [set_family_page, unmap_region_page, set_page_page, set_block_page,
        map_region_page, hne, if_false, hx, Bool.false_eq_true, zero_fill_page, hz]
      split <;> simp_all

/-- The reclamation of a full page where the index is sound: a family whose
index entries lie in mapped memory and are all smaller than a page capacity asks
for a block of exactly that capacity and then releases it.  `xcalloc` takes a
new page `P` from the page source and puts it in front of the family's page
list; `xfree` then takes it out again, so that the page list and the whole
registry are what they were, and gives exactly the page `P` back to the page
source. -/
theorem full_page_block_is_reclaimed (L : Layout) (s : mm_state) (name : List Char)
    (units : Int) (f : FamPtr) (fam : vm_page_family_t) (P : Nat) (k : List (Option Nat))
    (hl : lookup_page_family_by_name L s name = some f)
    (hf : get_family s f = some fam)
    (hsize : u32 (units * (fam.struct_size : Int)) = mm_max_page_allocatable_memory L s 1)
    (hk : s.kernel = some P :: k)
    (hB : L.BMO < s.SYSTEM_PAGE_SIZE)
    (hfresh : ∀ a, is_mapped s a = true → in_region a (P, s.SYSTEM_PAGE_SIZE) = false)
    (hlist : ∀ a ∈ fam.free_block_priority_list_head,
      is_mapped s a = true ∧ (s.block a).block_size < mm_max_page_allocatable_memory L s 1)
    (hpages : ∀ n, ∀ q ∈ family_pages s n fam.first_page, is_mapped s q = true)
    (hH : 0 < L.H) (hlay : L.BMO + L.H ≤ L.PMO) (hfit : L.PMO ≤ s.SYSTEM_PAGE_SIZE)
    (hPS : s.SYSTEM_PAGE_SIZE < 2147483648) :
    ∃ s1 s2,
      xcalloc L s name units = Except.ok (some (P + L.BMO + L.H), s1) ∧
      (∀ n, family_pages s1 (n + 1) (first_page_of s1 f) =
        P :: family_pages s n fam.first_page) ∧
      s1.returned = s.returned ∧
      xfree L s1 (P + L.BMO + L.H) = Except.ok s2 ∧
      (∀ n, family_pages s2 n (first_page_of s2 f) = family_pages s n fam.first_page) ∧
      s2.first_vm_page_for_families = s.first_vm_page_for_families ∧
      s2.mapped = s.mapped ∧
      s2.returned = P :: s.returned := by
  have hPAGE : 0 < s.SYSTEM_PAGE_SIZE := by omega
  have hfirst : ∀ q, fam.first_page = some q → is_mapped s q = true := by
    intro q hq
    apply hpages 1 q
    rw [hq]
    simp [family_pages]
  have hcap : L.BMO + L.H + mm_max_page_allocatable_memory L s 1 ≤ s.SYSTEM_PAGE_SIZE := by
    rw [max_alloc_one L s hfit hPS]
    omega
  obtain ⟨s2, h2, hreg, hmap, hret, _, hnext⟩ :=
    xfree_full_page L s f fam P k hf hB hfresh hfirst hH hcap
  refine ⟨with_full_page L s f fam P k, s2,
    xcalloc_full_page L s name units f fam P k hl hf hsize hk hB hfresh hlist hfirst hcap,
    ?_, ?_, h2, ?_, hreg, hmap, hret⟩
  · intro n
    have hfp : first_page_of (with_full_page L s f fam P k) f = some P := by
      unfold first_page_of with_full_page with_new_page
      cases fam.first_page <;> simp [get_family_set_family_some, hf]
    have hzP : in_region P (P + L.BMO + L.H, mm_max_page_allocatable_memory L s 1) = false :=
      in_region_below _ _ _ (by omega)
    have hPn : ((with_full_page L s f fam P k).page P).next = fam.first_page := by
      unfold with_full_page with_new_page
      cases hfp' : fam.first_page with
      | none => simp [hzP]
      | some q =>
        have hq := hfresh q (hfirst q hfp')
        have hqP : P ≠ q := by
          intro hc
          rw [← hc, in_region_self _ _ hPAGE] at hq
          cases hq
        simp [hqP, hzP]
    rw [hfp]
    simp only [family_pages, hPn]
    rw [family_pages_congr s _ (fun x hx =>
      with_full_page_next L s f fam P k x hPAGE hcap (hfresh x hx)) n _ (hpages n)]
  · unfold with_full_page with_new_page
    cases fam.first_page <;> simp
  · intro n
    have hfp : first_page_of s2 f = fam.first_page := by
      unfold first_page_of get_family
      rw [hreg]
      have := hf
      unfold get_family at this
      rw [this]
    rw [hfp]
    exact family_pages_congr s s2 (fun x hx => hnext x (hfresh x hx)) n _ (hpages n)

theorem full_page_block_is_reclaimed_witness :
    ∃ s1 s2,
      xcalloc L40 row_registered "Row".toList 4 = Except.ok (some (8192 + L40.BMO + L40.H), s1) ∧
      (∀ n, family_pages s1 (n + 1) (first_page_of s1 (4096, 0)) =
        8192 :: family_pages row_registered n (new_family L40 "Row".toList 1014).first_page) ∧
      s1.returned = row_registered.returned ∧
      xfree L40 s1 (8192 + L40.BMO + L40.H) = Except.ok s2 ∧
      (∀ n, family_pages s2 n (first_page_of s2 (4096, 0)) =
        family_pages row_registered n (new_family L40 "Row".toList 1014).first_page) ∧
      s2.first_vm_page_for_families = row_registered.first_vm_page_for_families ∧
      s2.mapped = row_registered.mapped ∧
      s2.returned = 8192 :: row_registered.returned :=
  full_page_block_is_reclaimed L40 row_registered "Row".toList 4 (4096, 0)
    (new_family L40 "Row".toList 1014) 8192 [some 12288] rfl rfl rfl rfl (by decide)
    (by
      intro a ha
      have hm : row_registered.mapped = [(4096, 4096)] := rfl
      have hs : row_registered.SYSTEM_PAGE_SIZE = 4096 := rfl
      simp only [is_mapped, hm, List.any_cons, List.any_nil, Bool.or_false, in_region,
        Bool.and_eq_true, decide_eq_true_eq] at ha
      simp only [in_region, hs, Bool.and_eq_false_imp, decide_eq_true_eq, decide_eq_false_iff_not]
      intro h3 _
      exact absurd ha.2 (Nat.not_lt.mpr h3))
    (by
      intro a ha
      simp [new_family] at ha)
    (by
      intro n q hq
      cases n <;> simp [family_pages, new_family] at hq)
    (by decide) (by decide) (by decide) (by decide)

/-! ## The worked scenarios -/

set_option maxRecDepth 1000000 in
/-- C7, against the numbers of the claim: after the 63rd call the family
already has two pages, and the 64th call does not change that. -/
theorem employee_second_page_before_64th :
    (employee_page_counts 64).map (fun l => (l.get? 62, l.get? 63)) =
      Except.ok (some 2, some 2) := by
  rfl

set_option maxRecDepth 1000000 in
/-- C7 as the code has it: every block costs its 64 bytes and a header of 40,
so the first 39 calls are served from one page (39 × 104 = 4056) and the 40th
call is the first one that acquires a second page. -/
theorem employee_second_page_at_40th :
    employee_page_counts 64 = Except.ok (List.replicate 39 1 ++ List.replicate 25 2) := by
  rfl

theorem insert_ok (s : mm_state) (a : Nat) (l : List Nat)
    (ha : is_mapped s a = true) (hl : ∀ x ∈ l, is_mapped s x = true) :
    ∃ l', glthread_priority_insert s a l = Except.ok l' ∧ ∀ x, x ∈ l' ↔ (x = a ∨ x ∈ l) := by
  induction l with
  | nil => exact ⟨[a], rfl, by simp⟩
  | cons y ys ih =>
    have hy := hl y (List.mem_cons_self _ _)
    obtain ⟨l', hl', hmem⟩ := ih (fun x hx => hl x (List.mem_cons_of_mem _ hx))
    unfold glthread_priority_insert free_blocks_comparison_function
    simp only [read_block_of_mapped, ha, hy, bind_ok_eq]
    by_cases h1 : (s.block a).block_size > (s.block y).block_size
    · simp only [h1, if_true, bind_ok_eq, pure_eq_ok]
      exact ⟨_, rfl, by simp⟩
    · have hc : ∀ c : Int, c ≠ -1 →
          (if c = -1 then (pure (a :: y :: ys) : Except Fault (List Nat))
            else do
              let r ← glthread_priority_insert s a ys
              pure (y :: r)) = Except.ok (y :: l') := by
        intro c hc
        simp [hc, hl']
      refine ⟨y :: l', ?_, ?_⟩
      · by_cases h2 : (s.block a).block_size < (s.block y).block_size
        · simp only [h1, h2, if_true, if_false, bind_ok_eq, pure_eq_ok]
          exact hc 1 (by decide)
        · simp only [h1, h2, if_false, bind_ok_eq, pure_eq_ok]
          exact hc 0 (by decide)
      · intro x
        simp only [List.mem_cons, hmem]
        tauto

theorem u32_add3 (x y z : Nat) (h : x + y + z < 4294967296) :
    u32 ((x : Int) + (y : Int) + (z : Int)) = x + y + z := by
  unfold u32
  omega

theorem slack_size (size a n H : Nat) (hgap : a + H + size ≤ n) (hb : n < a + 2147483648) :
    u32 ((size : Int) + i32 ((n : Int) - ((a + H + size : Nat) : Int))) = n - a - H := by
  unfold u32 i32
  omega

/-- C2, at the failing input: after the release of `B`, which absorbs the free
block `R` at 8400, the chain of the page is `A`, `B`, and `R` is still in the
family's index although it is no block of the page any more. -/
theorem absorbed_block_stays_indexed :
    scenario_absorbed_block =
      Except.ok ([8296, 8400], [(8192, false, 64), (8296, true, 3952)]) := by
  rfl

set_option maxRecDepth 1000000 in
/-- C3, at the failing input: after the second page has been returned, the
head of the index is the header at 13328 inside that page, which is not
mapped any more, while the family's free block of 936 bytes at 11312 comes
second; the next `xcalloc` stops in the read of the head. -/
theorem index_head_in_returned_page :
    scenario_stale_head =
      Except.ok ([13328, 11312], some false,
        [(8192, false, 1000), (9232, false, 1000), (10272, false, 1000), (11312, true, 936)],
        some Fault.unmapped) := by
  rfl

/-! ## The chain of a page: order, traversal and the bytes it accounts for -/

theorem chain_ok_congr (L : Layout) (s s' : mm_state) (P hi : Nat) (prev : Option Nat)
    (l : List Nat) (h : ∀ x ∈ l, s'.block x = s.block x)
    (hc : chain_ok L s P hi prev l) : chain_ok L s' P hi prev l := by
  induction l generalizing prev with
  | nil => trivial
  | cons a rest ih =>
    obtain ⟨h1, h2, h3, h4, h5⟩ := hc
    have ha := h a (List.mem_cons_self _ _)
    refine ⟨by rw [ha]; exact h1, by rw [ha]; exact h2, by rw [ha]; exact h3,
      by rw [ha]; exact h4, ih _ (fun x hx => h x (List.mem_cons_of_mem _ hx)) h5⟩

theorem chain_ok_lt (L : Layout) (s : mm_state) (P hi : Nat) (prev : Option Nat)
    (a : Nat) (rest : List Nat) (hH : 0 < L.H)
    (hc : chain_ok L s P hi prev (a :: rest)) : ∀ x ∈ rest, a < x := by
  induction rest generalizing prev a with
  | nil =>
    intro x hx
    cases hx
  | cons b rest' ih =>
    obtain ⟨_, _, _, h4, h5⟩ := hc
    have hab : a < b := by
      simp only [List.head?_cons, Option.getD_some] at h4
      omega
    intro x hx
    rcases List.mem_cons.mp hx with hx | hx
    · rw [hx]
      exact hab
    · exact Nat.lt_trans hab (ih _ b h5 x hx)

theorem chain_ok_end (L : Layout) (s : mm_state) (P hi : Nat) (prev : Option Nat)
    (a : Nat) (rest : List Nat) (hH : 0 < L.H)
    (hc : chain_ok L s P hi prev (a :: rest)) : a + (rest.length + 1) ≤ hi := by
  induction rest generalizing prev a with
  | nil =>
    obtain ⟨_, _, _, h4, _⟩ := hc
    simp only [List.head?_nil, Option.getD_none] at h4
    simp only [List.length_nil]
    omega
  | cons b rest' ih =>
    obtain ⟨_, _, _, h4, h5⟩ := hc
    simp only [List.head?_cons, Option.getD_some] at h4
    have := ih _ b h5
    simp only [List.length_cons]
    omega

theorem chain_ok_mem_bound (L : Layout) (s : mm_state) (P hi : Nat) (prev : Option Nat)
    (l : List Nat) (hH : 0 < L.H) (hc : chain_ok L s P hi prev l) :
    ∀ x ∈ l, P ≤ x ∧ x + L.H + (s.block x).block_size ≤ hi := by
  induction l generalizing prev with
  | nil =>
    intro x hx
    cases hx
  | cons a rest ih =>
    obtain ⟨_, _, h3, h4, h5⟩ := hc
    intro x hx
    rcases List.mem_cons.mp hx with hx | hx
    · subst hx
      refine ⟨by omega, ?_⟩
      cases rest with
      | nil => simpa using h4
      | cons b rest' =>
        simp only [List.head?_cons, Option.getD_some] at h4
        have := chain_ok_end L s P hi _ b rest' hH h5
        omega
    · exact ih _ h5 x hx

theorem page_blocks_of_chain (L : Layout) (s : mm_state) (P hi : Nat) (prev : Option Nat)
    (l : List Nat) (hc : chain_ok L s P hi prev l) (fuel : Nat) (hf : l.length ≤ fuel) :
    page_blocks s fuel l.head? = l := by
  induction l generalizing prev fuel with
  | nil => cases fuel <;> simp [page_blocks]
  | cons a rest ih =>
    obtain ⟨_, h2, _, _, h5⟩ := hc
    cases fuel with
    | zero => simp at hf
    | succ m =>
      simp only [List.head?_cons, page_blocks, h2]
      rw [ih _ h5 m (by simpa using hf)]

theorem total_last (H size X a hi : Nat) (hhi : hi = X) (h4 : a + H + size ≤ hi) :
    H + size + (X - (a + H + size)) = hi - a := by
  omega

theorem total_step (H size a b hi R : Nat) (h4 : a + H + size ≤ b) (hb : R = hi - b)
    (hbe : b ≤ hi) : H + size + (b - (a + H + size)) + R = hi - a := by
  omega

theorem chain_total (L : Layout) (s : mm_state) (P hi : Nat) (prev : Option Nat)
    (a : Nat) (rest : List Nat) (hH : 0 < L.H) (hhi : hi = P + s.SYSTEM_PAGE_SIZE)
    (hc : chain_ok L s P hi prev (a :: rest)) :
    ((a :: rest).map (fun x => L.H + (s.block x).block_size + block_slack L s P x)).sum =
      hi - a := by
  induction rest generalizing prev a with
  | nil =>
    obtain ⟨_, h2, _, h4, _⟩ := hc
    simp only [List.head?_nil, Option.getD_none] at h4 h2
    simp only [List.map_cons, List.map_nil, List.sum_cons, List.sum_nil, block_slack, h2,
      add_zero]
    exact total_last _ _ _ _ _ hhi h4
  | cons b rest' ih =>
    obtain ⟨_, h2, _, h4, h5⟩ := hc
    simp only [List.head?_cons, Option.getD_some] at h4 h2
    have hb := ih _ b h5
    have hbe := chain_ok_end L s P hi _ b rest' hH h5
    rw [List.map_cons, List.sum_cons, hb]
    have hsl : block_slack L s P a = b - (a + L.H + (s.block a).block_size) := by
      simp only [block_slack, h2]
    rw [hsl]
    exact total_step _ _ _ _ _ _ h4 rfl (by omega)

theorem head_insert_after (a n : Nat) (l : List Nat) :
    (insert_after a n l).head? = l.head? := by
  cases l with
  | nil => rfl
  | cons x xs =>
    unfold insert_after
    split <;> rfl

theorem head_drop_after (x : Nat) (l : List Nat) : (drop_after x l).head? = l.head? := by
  cases l with
  | nil => rfl
  | cons h t =>
    unfold drop_after
    split <;> rfl

theorem chain_next_gt (L : Layout) (s : mm_state) (P hi : Nat) (prev : Option Nat)
    (l : List Nat) (hH : 0 < L.H) (hc : chain_ok L s P hi prev l) (a : Nat) (ha : a ∈ l)
    (c : Nat) (hn : (s.block a).next_block = some c) : a < c ∧ c ∈ l := by
  induction l generalizing prev with
  | nil => cases ha
  | cons x rest ih =>
    have hlt := chain_ok_lt L s P hi prev x rest hH hc
    obtain ⟨_, h2, _, _, h5⟩ := hc
    rcases List.mem_cons.mp ha with h | h
    · subst h
      rw [hn] at h2
      have hc' : c ∈ rest := List.mem_of_mem_head? h2.symm
      exact ⟨hlt c hc', List.mem_cons_of_mem _ hc'⟩
    · obtain ⟨h1, h2'⟩ := ih _ h5 h
      exact ⟨h1, List.mem_cons_of_mem _ h2'⟩

/-- A header of the chain may change its flag and its size, as long as the
block still ends before its successor. -/
theorem chain_ok_resize (L : Layout) (s s' : mm_state) (P hi : Nat) (a : Nat)
    (v : block_meta_data_t)
    (hs : ∀ x, s'.block x = if x = a then v else s.block x)
    (hv1 : v.prev_block = (s.block a).prev_block)
    (hv2 : v.next_block = (s.block a).next_block)
    (hv3 : v.offset = (s.block a).offset)
    (hv4 : a + L.H + v.block_size ≤ ((s.block a).next_block).getD hi)
    (prev : Option Nat) (l : List Nat)
    (hc : chain_ok L s P hi prev l) : chain_ok L s' P hi prev l := by
  induction l generalizing prev with
  | nil => trivial
  | cons x rest ih =>
    obtain ⟨h1, h2, h3, h4, h5⟩ := hc
    refine ⟨?_, ?_, ?_, ?_, ih _ h5⟩
    · rw [hs]
      split
      · rename_i hx
        rw [hv1, ← hx]
        exact h1
      · exact h1
    · rw [hs]
      split
      · rename_i hx
        rw [hv2, ← hx]
        exact h2
      · exact h2
    · rw [hs]
      split
      · rename_i hx
        rw [hv3, ← hx]
        exact h3
      · exact h3
    · rw [hs]
      split
      · rename_i hx
        subst hx
        rw [← h2]
        exact hv4
      · exact h4

/-- A split puts the new block `n` into the chain behind `a`. -/
theorem chain_ok_insert (L : Layout) (s s' : mm_state) (P hi : Nat) (a n : Nat)
    (va vn : block_meta_data_t) (hH : 0 < L.H)
    (hs : ∀ x, s'.block x = if x = a then va else if x = n then vn else
      if (s.block a).next_block = some x then { s.block x with prev_block := some n }
      else s.block x)
    (ha1 : va.prev_block = (s.block a).prev_block) (ha2 : va.next_block = some n)
    (ha3 : va.offset = (s.block a).offset) (ha4 : a + L.H + va.block_size ≤ n)
    (hn1 : vn.prev_block = some a) (hn2 : vn.next_block = (s.block a).next_block)
    (hn3 : n = P + vn.offset)
    (hn4 : n + L.H + vn.block_size ≤ ((s.block a).next_block).getD hi)
    (prev : Option Nat) (l : List Nat) (hmem : a ∈ l)
    (hc : chain_ok L s P hi prev l) : chain_ok L s' P hi prev (insert_after a n l) := by
  have han : a < n := by omega
  induction l generalizing prev with
  | nil => cases hmem
  | cons x rest ih =>
    have hlt := chain_ok_lt L s P hi prev x rest hH hc
    obtain ⟨h1, h2, h3, h4, h5⟩ := hc
    unfold insert_after
    by_cases hx : x = a
    · subst hx
      simp only [if_true]
      have hsa : s'.block x = va := by rw [hs]; simp
      have hsn : s'.block n = vn := by
        rw [hs]
        have : n ≠ x := by omega
        simp [this]
      refine ⟨by rw [hsa, ha1]; exact h1, by rw [hsa, ha2]; rfl, by rw [hsa, ha3]; exact h3,
        by rw [hsa]; simpa using ha4, ?_⟩
      refine ⟨by rw [hsn, hn1], by rw [hsn, hn2]; exact h2, by rw [hsn]; exact hn3,
        by rw [hsn, ← h2]; exact hn4, ?_⟩
      cases rest with
      | nil => trivial
      | cons c rest' =>
        have hlt2 := chain_ok_lt L s P hi _ c rest' hH h5
        obtain ⟨g1, g2, g3, g4, g5⟩ := h5
        simp only [List.head?_cons] at h2
        have hnc : n < c := by
          rw [h2] at hn4
          simp only [Option.getD_some] at hn4
          omega
        have hxc : x < c := hlt c (List.mem_cons_self _ _)
        have hsc : s'.block c = { s.block c with prev_block := some n } := by
          rw [hs]
          have h1' : c ≠ x := by omega
          have h2' : c ≠ n := by omega
          simp [h1', h2', h2]
        refine ⟨by rw [hsc], by rw [hsc]; exact g2, by rw [hsc]; exact g3,
          by rw [hsc]; exact g4, ?_⟩
        apply chain_ok_congr L s s' P hi _ rest' _ g5
        intro z hz
        have hcz : c < z := hlt2 z hz
        rw [hs]
        have h1' : z ≠ x := by omega
        have h2' : z ≠ n := by omega
        have h3' : ¬ (s.block x).next_block = some z := by
          rw [h2]
          intro hc
          have := Option.some.inj hc
          omega
        simp [h1', h2', h3']
    · simp only [hx, if_false]
      have hmem' : a ∈ rest := by
        rcases List.mem_cons.mp hmem with h | h
        · exact absurd h.symm hx
        · exact h
      have hxa : x < a := hlt a hmem'
      have hsx : s'.block x = s.block x := by
        rw [hs]
        have h1' : x ≠ n := by omega
        have h3' : ¬ (s.block a).next_block = some x := by
          intro hc
          have hb := (chain_next_gt L s P hi _ rest hH h5 a hmem' x hc).1
          omega
        simp [hx, h1', h3']
      refine ⟨by rw [hsx]; exact h1, by rw [hsx, head_insert_after]; exact h2,
        by rw [hsx]; exact h3, by rw [hsx, head_insert_after]; exact h4, ih _ hmem' h5⟩

/-- A merge takes the block behind `x` out of the chain. -/
theorem chain_ok_union (L : Layout) (s s' : mm_state) (P hi : Nat) (x y : Nat)
    (vx : block_meta_data_t) (hH : 0 < L.H)
    (hs : ∀ z, s'.block z = if z = x then vx else
      if (s.block y).next_block = some z then { s.block z with prev_block := some x }
      else s.block z)
    (hxy : (s.block x).next_block = some y)
    (hx1 : vx.prev_block = (s.block x).prev_block)
    (hx2 : vx.next_block = (s.block y).next_block)
    (hx3 : vx.offset = (s.block x).offset)
    (hx4 : x + L.H + vx.block_size ≤ ((s.block y).next_block).getD hi)
    (prev : Option Nat) (l : List Nat) (hmem : x ∈ l)
    (hc : chain_ok L s P hi prev l) : chain_ok L s' P hi prev (drop_after x l) := by
  induction l generalizing prev with
  | nil => cases hmem
  | cons h rest ih =>
    have hlt := chain_ok_lt L s P hi prev h rest hH hc
    obtain ⟨h1, h2, h3, h4, h5⟩ := hc
    unfold drop_after
    by_cases hx : h = x
    · subst hx
      simp only [if_true]
      rw [hxy] at h2
      cases rest with
      | nil => simp at h2
      | cons y' rest' =>
        simp only [List.head?_cons, Option.some.injEq] at h2
        subst h2
        have hlt2 := chain_ok_lt L s P hi _ y rest' hH h5
        obtain ⟨g1, g2, g3, g4, g5⟩ := h5
        have hhy : h < y := hlt y (List.mem_cons_self _ _)
        have hsx : s'.block h = vx := by rw [hs]; simp
        simp only [List.tail_cons]
        refine ⟨by rw [hsx, hx1]; exact h1, by rw [hsx, hx2]; exact g2,
          by rw [hsx, hx3]; exact h3, by rw [hsx, ← g2]; exact hx4, ?_⟩
        cases rest' with
        | nil => trivial
        | cons c rest'' =>
          have hlt3 := chain_ok_lt L s P hi _ c rest'' hH g5
          obtain ⟨k1, k2, k3, k4, k5⟩ := g5
          simp only [List.head?_cons] at g2
          have hyc : y < c := hlt2 c (List.mem_cons_self _ _)
          have hsc : s'.block c = { s.block c with prev_block := some h } := by
            rw [hs]
            have h1' : c ≠ h := by omega
            simp [h1', g2]
          refine ⟨by rw [hsc], by rw [hsc]; exact k2, by rw [hsc]; exact k3,
            by rw [hsc]; exact k4, ?_⟩
          apply chain_ok_congr L s s' P hi _ rest'' _ k5
          intro z hz
          have hcz : c < z := hlt3 z hz
          rw [hs]
          have h1' : z ≠ h := by omega
          have h3' : ¬ (s.block y).next_block = some z := by
            rw [g2]
            intro hc
            have := Option.some.inj hc
            omega
          simp [h1', h3']
    · simp only [hx, if_false]
      have hmem' : x ∈ rest := by
        rcases List.mem_cons.mp hmem with h' | h'
        · exact absurd h'.symm hx
        · exact h'
      have hymem := (chain_next_gt L s P hi _ rest hH h5 x hmem' y hxy).2
      have hsh : s'.block h = s.block h := by
        rw [hs]
        have h3' : ¬ (s.block y).next_block = some h := by
          intro hc
          have hb := (chain_next_gt L s P hi _ rest hH h5 y hymem h hc).2
          have := hlt h hb
          omega
        simp [hx, h3']
      refine ⟨by rw [hsh]; exact h1, by rw [hsh, head_drop_after]; exact h2,
        by rw [hsh]; exact h3, by rw [hsh, head_drop_after]; exact h4, ih _ hmem' h5⟩

/-- The block that a header of the chain names as its predecessor is the one
in front of it. -/
theorem chain_prev_mem (L : Layout) (s : mm_state) (P hi : Nat) (hH : 0 < L.H)
    (prev : Option Nat) (l : List Nat) (hc : chain_ok L s P hi prev l) (a : Nat) (ha : a ∈ l)
    (p : Nat) (hp : (s.block a).prev_block = some p) :
    (l.head? = some a ∧ prev = some p) ∨
      (p ∈ l ∧ (s.block p).next_block = some a ∧ p < a) := by
  induction l generalizing prev with
  | nil => cases ha
  | cons x rest ih =>
    have hlt := chain_ok_lt L s P hi prev x rest hH hc
    obtain ⟨h1, h2, _, _, h5⟩ := hc
    rcases List.mem_cons.mp ha with h | h
    · subst h
      left
      exact ⟨rfl, by rw [← h1, hp]⟩
    · right
      rcases ih _ h5 h with ⟨hh, hq⟩ | ⟨h1', h2', h3'⟩
      · have hpx : p = x := (Option.some.inj hq).symm
        subst hpx
        exact ⟨List.mem_cons_self _ _, by rw [h2, hh], hlt a h⟩
      · exact ⟨List.mem_cons_of_mem _ h1', h2', h3'⟩

/-! ## What the block operations write -/

theorem union_inv (L : Layout) (s s' : mm_state) (x y : Nat)
    (h : mm_union_free_blocks L s x y = Except.ok s') (hxy : x ≠ y)
    (hc : ∀ c : Nat, (s.block y).next_block = some c → c ≠ x) :
    s'.SYSTEM_PAGE_SIZE = s.SYSTEM_PAGE_SIZE ∧
    ∀ z, s'.block z =
      if z = x then
        { s.block x with
          block_size := u32 (((s.block x).block_size : Int) + (L.H : Int) +
            ((s.block y).block_size : Int)),
          next_block := (s.block y).next_block }
      else if (s.block y).next_block = some z then { s.block z with prev_block := some x }
      else s.block z := by
  have hyx : y ≠ x := fun hc => hxy hc.symm
  unfold mm_union_free_blocks at h
  simp only [bind_eq_ok_iff, read_block_eq_ok, write_block_eq_ok] at h
  obtain ⟨fb, ⟨_, rfl⟩, sb, ⟨_, rfl⟩, h⟩ := h
  split at h
  · cases h
  · simp only [bind_eq_ok_iff, read_block_eq_ok, write_block_eq_ok] at h
    obtain ⟨s1, ⟨_, rfl⟩, sb2, ⟨_, rfl⟩, fb2, ⟨_, rfl⟩, s2, ⟨_, rfl⟩, sb3, ⟨_, rfl⟩, h⟩ := h
    simp only [set_block_block, hyx, if_false, if_true, set_block_set_block] at h
    cases hn : (s.block y).next_block with
    | none =>
      simp only [hn, pure_eq_ok, Except.ok.injEq] at h
      subst h
      refine ⟨rfl, ?_⟩
      intro z
      simp only [set_block_block]
      split <;> simp
    | some c =>
      have hcx := hc c hn
      simp only [hn, bind_eq_ok_iff, read_block_eq_ok, write_block_eq_ok] at h
      obtain ⟨nb, ⟨_, rfl⟩, _, rfl⟩ := h
      refine ⟨rfl, ?_⟩
      intro z
      simp only [set_block_block, Option.some.injEq]
      by_cases hzx : z = x
      · subst hzx
        have : z ≠ c := fun hh => hcx hh.symm
        simp [this]
      · by_cases hzc : z = c
        · subst hzc
          simp [hzx]
        · have : ¬ c = z := fun hh => hzc hh.symm
          simp [hzx, hzc, this]

theorem bind_blocks_inv (s s' : mm_state) (a n : Nat)
    (h : mm_bind_blocks_for_allocation s a n = Except.ok s') (han : a ≠ n)
    (hc : ∀ c : Nat, (s.block a).next_block = some c → c ≠ a ∧ c ≠ n) :
    s'.SYSTEM_PAGE_SIZE = s.SYSTEM_PAGE_SIZE ∧
    ∀ z, s'.block z =
      if z = a then { s.block a with next_block := some n }
      else if z = n then
        { s.block n with prev_block := some a, next_block := (s.block a).next_block }
      else if (s.block a).next_block = some z then { s.block z with prev_block := some n }
      else s.block z := by
  have hna : n ≠ a := fun hc => han hc.symm
  unfold mm_bind_blocks_for_allocation at h
  simp only [bind_eq_ok_iff, read_block_eq_ok, write_block_eq_ok] at h
  obtain ⟨fb, ⟨_, rfl⟩, s1, ⟨_, rfl⟩, ab, ⟨_, rfl⟩, fb2, ⟨_, rfl⟩, s2, ⟨_, rfl⟩,
    ab2, ⟨_, rfl⟩, s3, ⟨_, rfl⟩, fb3, ⟨_, rfl⟩, h⟩ := h
  simp only [set_block_block, han, hna, if_false, if_true, set_block_set_block] at h
  cases hn : (s.block a).next_block with
  | none =>
    simp only [hn, pure_eq_ok, Except.ok.injEq] at h
    subst h
    refine ⟨rfl, ?_⟩
    intro z
    simp only [set_block_block]
    by_cases hza : z = a
    · simp [hza, han]
    · by_cases hzn : z = n
      · simp [hzn, hna]
      · simp [hza, hzn]
  | some c =>
    obtain ⟨hca, hcn⟩ := hc c hn
    simp only [hn, bind_eq_ok_iff, read_block_eq_ok, write_block_eq_ok] at h
    obtain ⟨nb, ⟨_, rfl⟩, _, rfl⟩ := h
    refine ⟨rfl, ?_⟩
    intro z
    simp only [set_block_block, Option.some.injEq]
    by_cases hza : z = a
    · subst hza
      have : z ≠ c := fun hh => hca hh.symm
      simp [this, han]
    · by_cases hzn : z = n
      · subst hzn
        have : z ≠ c := fun hh => hcn hh.symm
        simp [this, hna]
      · by_cases hzc : z = c
        · subst hzc
          simp [hza, hzn]
        · have : ¬ c = z := fun hh => hzc hh.symm
          simp [hza, hzn, hzc, this]

theorem carve_inv (L : Layout) (s s' : mm_state) (f : FamPtr) (a rem : Nat) (status : Bool)
    (h : (do
      let b ← read_block s a
      let next_block_meta_data := NEXT_META_BLOCK_BY_SIZE L a b
      let nb ← read_block s next_block_meta_data
      let s ← write_block s next_block_meta_data { nb with is_free := true }
      let nb ← read_block s next_block_meta_data
      let s ← write_block s next_block_meta_data
        { nb with block_size := u32 ((rem : Int) - (L.H : Int)) }
      let b ← read_block s a
      let nb ← read_block s next_block_meta_data
      let s ← write_block s next_block_meta_data
        { nb with offset := u32 ((b.offset : Int) + (L.H : Int) + (b.block_size : Int)) }
      let s ← mm_add_free_block_meta_data_to_free_block_list s f next_block_meta_data
      let s ← mm_bind_blocks_for_allocation s a next_block_meta_data
      pure (true, s) : Except Fault (Bool × mm_state)) = Except.ok (status, s'))
    (hH : 0 < L.H)
    (hc : ∀ c : Nat, (s.block a).next_block = some c →
      c ≠ a ∧ c ≠ a + L.H + (s.block a).block_size) :
    s'.SYSTEM_PAGE_SIZE = s.SYSTEM_PAGE_SIZE ∧
    ∀ z, s'.block z =
      if z = a then { s.block a with next_block := some (a + L.H + (s.block a).block_size) }
      else if z = a + L.H + (s.block a).block_size then
        { is_free := true, block_size := u32 ((rem : Int) - (L.H : Int)),
          offset := u32 (((s.block a).offset : Int) + (L.H : Int) +
            ((s.block a).block_size : Int)),
          prev_block := some a, next_block := (s.block a).next_block }
      else if (s.block a).next_block = some z then
        { s.block z with prev_block := some (a + L.H + (s.block a).block_size) }
      else s.block z := by
  have han : a ≠ a + L.H + (s.block a).block_size := by omega
  have hna : a + L.H + (s.block a).block_size ≠ a := by omega
  simp only [bind_eq_ok_iff, read_block_eq_ok, write_block_eq_ok, NEXT_META_BLOCK_BY_SIZE] at h
  obtain ⟨b, ⟨_, rfl⟩, nb, ⟨_, rfl⟩, s1, ⟨_, rfl⟩, nb2, ⟨_, rfl⟩, s2, ⟨_, rfl⟩,
    b2, ⟨_, rfl⟩, nb3, ⟨_, rfl⟩, s3, ⟨_, rfl⟩, s4, h4, s5, h5, h⟩ := h
  simp only [pure_eq_ok, Except.ok.injEq, Prod.mk.injEq] at h
  obtain ⟨_, rfl⟩ := h
  obtain ⟨v, rfl⟩ := insert_list_frame _ _ _ _ h4
  simp only [set_block_block, han, hna, if_false, if_true, set_block_set_block] at h5
  obtain ⟨hps, hb⟩ := bind_blocks_inv _ _ _ _ h5 han (by
    intro c hcn
    simp only [set_family_block, set_block_block, han, if_false] at hcn
    exact hc c hcn)
  refine ⟨by simpa using hps, ?_⟩
  intro z
  rw [hb z]
  simp only [set_family_block, set_block_block, han, hna, if_false, if_true]
  by_cases hza : z = a
  · simp [hza]
  · by_cases hzn : z = a + L.H + (s.block a).block_size
    · simp [hzn, hna]
    · simp [hza, hzn]

theorem chain_bound_at (L : Layout) (s : mm_state) (P hi : Nat) (prev : Option Nat)
    (l : List Nat) (hc : chain_ok L s P hi prev l) (a : Nat) (ha : a ∈ l) :
    a = P + (s.block a).offset ∧
      a + L.H + (s.block a).block_size ≤ ((s.block a).next_block).getD hi := by
  induction l generalizing prev with
  | nil => cases ha
  | cons x rest ih =>
    obtain ⟨_, h2, h3, h4, h5⟩ := hc
    rcases List.mem_cons.mp ha with h | h
    · subst h
      exact ⟨h3, by rw [h2]; exact h4⟩
    · exact ih _ h5 h

theorem getD_le_hi (L : Layout) (s : mm_state) (P hi : Nat) (prev : Option Nat)
    (l : List Nat) (hH : 0 < L.H) (hc : chain_ok L s P hi prev l) (a : Nat) (ha : a ∈ l) :
    ((s.block a).next_block).getD hi ≤ hi := by
  cases hn : (s.block a).next_block with
  | none => simp
  | some c =>
    have hcm := (chain_next_gt L s P hi prev l hH hc a ha c hn).2
    have := (chain_ok_mem_bound L s P hi prev l hH hc c hcm).2
    simp only [Option.getD_some]
    omega

theorem mem_chain_of_page_blocks (L : Layout) (s : mm_state) (P PS : Nat) (l : List Nat)
    (hH : 0 < L.H) (hhead : l.head? = some (P + L.BMO))
    (hc : chain_ok L s P (P + PS) none l) :
    page_blocks s PS (some (P + L.BMO)) = l := by
  cases l with
  | nil => simp at hhead
  | cons a rest =>
    simp only [List.head?_cons, Option.some.injEq] at hhead
    have he := chain_ok_end L s P (P + PS) none a rest hH hc
    have h3 := hc.2.2.1
    have := page_blocks_of_chain L s P (P + PS) none (a :: rest) hc PS
      (by simp only [List.length_cons]; omega)
    rw [← hhead]
    simpa using this

theorem u32_of_small (n : Nat) (h : n < 4294967296) : u32 (n : Int) = n := by
  unfold u32
  omega

theorem u32_sub_small (x y : Nat) (h : y ≤ x) (hx : x < 4294967296) :
    u32 ((x : Int) - (y : Int)) = x - y := by
  unfold u32
  omega

theorem carve_keeps_inv (L : Layout) (f : FamPtr) (P PS : Nat) (s S s' : mm_state)
    (a r rem : Nat) (status : Bool) (l : List Nat) (hH : 0 < L.H) (hPS : PS < 2147483648)
    (hps : s.SYSTEM_PAGE_SIZE = PS)
    (hhead : l.head? = some (P + L.BMO)) (hchain : chain_ok L s P (P + PS) none l)
    (ha : a ∈ l) (hoff : a = P + (s.block a).offset)
    (hbound : a + L.H + (s.block a).block_size ≤ P + PS)
    (hcgt : ∀ c : Nat, (s.block a).next_block = some c →
      a + L.H + (s.block a).block_size ≤ c)
    (hSps : S.SYSTEM_PAGE_SIZE = s.SYSTEM_PAGE_SIZE)
    (hS : ∀ z, S.block z =
      if z = a then { s.block a with is_free := false, block_size := r } else s.block z)
    (hrem : rem = (s.block a).block_size - r) (hle : r ≤ (s.block a).block_size)
    (hremH : L.H ≤ rem)
    (h : (do
      let b ← read_block S a
      let next_block_meta_data := NEXT_META_BLOCK_BY_SIZE L a b
      let nb ← read_block S next_block_meta_data
      let s ← write_block S next_block_meta_data { nb with is_free := true }
      let nb ← read_block s next_block_meta_data
      let s ← write_block s next_block_meta_data
        { nb with block_size := u32 ((rem : Int) - (L.H : Int)) }
      let b ← read_block s a
      let nb ← read_block s next_block_meta_data
      let s ← write_block s next_block_meta_data
        { nb with offset := u32 ((b.offset : Int) + (L.H : Int) + (b.block_size : Int)) }
      let s ← mm_add_free_block_meta_data_to_free_block_list s f next_block_meta_data
      let s ← mm_bind_blocks_for_allocation s a next_block_meta_data
      pure (true, s) : Except Fault (Bool × mm_state)) = Except.ok (status, s')) :
    page_inv L P PS s' := by
  have hSa : S.block a = { s.block a with is_free := false, block_size := r } := by
    rw [hS]
    simp
  obtain ⟨hps', hb⟩ := carve_inv L S s' f a rem status h hH (by
    intro c hc
    rw [hSa] at hc ⊢
    simp only at hc ⊢
    have := hcgt c hc
    omega)
  rw [hSa] at hb
  simp only at hb
  refine ⟨by rw [hps', hSps, hps], insert_after a (a + L.H + r) l,
    by rw [head_insert_after]; exact hhead, ?_⟩
  have hnext : a + L.H + (s.block a).block_size ≤ ((s.block a).next_block).getD (P + PS) := by
    cases hn : (s.block a).next_block with
    | none => simpa using hbound
    | some c => simpa using hcgt c hn
  have e1 : u32 ((rem : Int) - (L.H : Int)) = rem - L.H :=
    u32_sub_small rem L.H hremH (by omega)
  have e2 : u32 (((s.block a).offset : Int) + (L.H : Int) + (r : Int)) =
      (s.block a).offset + L.H + r := u32_add3 _ _ _ (by omega)
  rw [e1, e2] at hb
  have hb' : ∀ z, s'.block z =
      if z = a then
        { is_free := false, block_size := r, offset := (s.block a).offset,
          prev_block := (s.block a).prev_block, next_block := some (a + L.H + r) }
      else if z = a + L.H + r then
        { is_free := true, block_size := rem - L.H, offset := (s.block a).offset + L.H + r,
          prev_block := some a, next_block := (s.block a).next_block }
      else if (s.block a).next_block = some z then
        { s.block z with prev_block := some (a + L.H + r) }
      else s.block z := by
    intro z
    rw [hb z]
    by_cases hz : z = a
    · simp [hz]
    · rw [hS z]
      simp only [hz, if_false]
  exact chain_ok_insert L s s' P (P + PS) a (a + L.H + r)
    { is_free := false, block_size := r, offset := (s.block a).offset,
      prev_block := (s.block a).prev_block, next_block := some (a + L.H + r) }
    { is_free := true, block_size := rem - L.H, offset := (s.block a).offset + L.H + r,
      prev_block := some a, next_block := (s.block a).next_block }
    hH hb' rfl rfl rfl
    (Nat.le_refl _) rfl rfl (by simp only; omega) (by simp only; omega) none l ha hchain

theorem split_keeps_inv (L : Layout) (f : FamPtr) (P PS : Nat) (s s' : mm_state)
    (a r : Nat) (status : Bool) (hH : 0 < L.H) (hPS : PS < 2147483648)
    (hinv : page_inv L P PS s)
    (ha : a ∈ page_blocks s PS (some (P + L.BMO)))
    (h : mm_split_free_data_block_for_allocation L s f a r = Except.ok (status, s')) :
    page_inv L P PS s' := by
  obtain ⟨hps, l, hhead, hchain⟩ := hinv
  rw [mem_chain_of_page_blocks L s P PS l hH hhead hchain] at ha
  obtain ⟨hoff, hbound⟩ := chain_bound_at L s P (P + PS) none l hchain a ha
  have hhi := getD_le_hi L s P (P + PS) none l hH hchain a ha
  have hcgt : ∀ c : Nat, (s.block a).next_block = some c →
      a + L.H + (s.block a).block_size ≤ c := by
    intro c hc
    rw [hc] at hbound
    simpa using hbound
  unfold mm_split_free_data_block_for_allocation at h
  simp only [bind_eq_ok_iff, read_block_eq_ok] at h
  obtain ⟨b, ⟨_, rfl⟩, h⟩ := h
  split at h
  · cases h
  · split at h
    · simp only [pure_eq_ok, Except.ok.injEq, Prod.mk.injEq] at h
      obtain ⟨_, rfl⟩ := h
      exact ⟨hps, l, hhead, hchain⟩
    · rename_i hle
      simp only [bind_eq_ok_iff, read_block_eq_ok, write_block_eq_ok, read_family_eq_ok,
        write_family_eq_ok] at h
      obtain ⟨s1, ⟨_, rfl⟩, b1, ⟨_, rfl⟩, s2, ⟨_, rfl⟩, fam, _, s3, ⟨_, rfl⟩, fam2, _, h⟩ := h
      simp only [set_block_block, if_true, set_block_set_block] at h
      have hplain : page_inv L P PS (set_family
          (set_block s a { s.block a with is_free := false, block_size := r }) f
          { fam with free_block_priority_list_head :=
              remove_glthread a fam.free_block_priority_list_head }) := by
        refine ⟨hps, l, hhead, ?_⟩
        apply chain_ok_resize L s _ P (P + PS) a
          { s.block a with is_free := false, block_size := r } (fun x => rfl) rfl rfl rfl
          (by simp only; omega) none l hchain
      have hS : ∀ z, (set_family
          (set_block s a { s.block a with is_free := false, block_size := r }) f
          { fam with free_block_priority_list_head :=
              remove_glthread a fam.free_block_priority_list_head }).block z =
          if z = a then { s.block a with is_free := false, block_size := r }
          else s.block z := by
        intro z
        simp only [set_family_block, set_block_block]
      split at h
      · simp only [pure_eq_ok, Except.ok.injEq, Prod.mk.injEq] at h
        obtain ⟨_, rfl⟩ := h
        exact hplain
      · split at h
        · rename_i h0 hsoft
          exact carve_keeps_inv L f P PS s (set_family
            (set_block s a { s.block a with is_free := false, block_size := r }) f
            { fam with free_block_priority_list_head :=
                remove_glthread a fam.free_block_priority_list_head }) s' a r ((s.block a).block_size - r) status l hH
            hPS hps hhead hchain ha hoff (by omega) hcgt rfl hS rfl (by omega) (by omega) h
        · split at h
          · simp only [pure_eq_ok, Except.ok.injEq, Prod.mk.injEq] at h
            obtain ⟨_, rfl⟩ := h
            exact hplain
          · rename_i h0 hsoft hhard
            exact carve_keeps_inv L f P PS s (set_family
            (set_block s a { s.block a with is_free := false, block_size := r }) f
            { fam with free_block_priority_list_head :=
                remove_glthread a fam.free_block_priority_list_head }) s' a r ((s.block a).block_size - r) status l hH
              hPS hps hhead hchain ha hoff (by omega) hcgt rfl hS rfl (by omega) (by omega) h

theorem mem_drop_after (x : Nat) (l : List Nat) (hx : x ∈ l) : x ∈ drop_after x l := by
  induction l with
  | nil => cases hx
  | cons h t ih =>
    unfold drop_after
    by_cases hh : h = x
    · simp [hh]
    · simp only [hh, if_false]
      rcases List.mem_cons.mp hx with e | e
      · exact absurd e.symm hh
      · exact List.mem_cons_of_mem _ (ih e)

theorem union_keeps_chain (L : Layout) (s s' : mm_state) (P PS x y : Nat) (l : List Nat)
    (hH : 0 < L.H) (hPS : PS < 2147483648)
    (hchain : chain_ok L s P (P + PS) none l) (hx : x ∈ l)
    (hxy : (s.block x).next_block = some y)
    (h : mm_union_free_blocks L s x y = Except.ok s') :
    s'.SYSTEM_PAGE_SIZE = s.SYSTEM_PAGE_SIZE ∧
      chain_ok L s' P (P + PS) none (drop_after x l) := by
  obtain ⟨hlt, hy⟩ := chain_next_gt L s P (P + PS) none l hH hchain x hx y hxy
  obtain ⟨_, hbx⟩ := chain_bound_at L s P (P + PS) none l hchain x hx
  obtain ⟨_, hby⟩ := chain_bound_at L s P (P + PS) none l hchain y hy
  have hhi := getD_le_hi L s P (P + PS) none l hH hchain y hy
  have hPx := (chain_ok_mem_bound L s P (P + PS) none l hH hchain x hx).1
  rw [hxy] at hbx
  simp only [Option.getD_some] at hbx
  obtain ⟨hps, hb⟩ := union_inv L s s' x y h (by omega) (by
    intro c hc
    have := (chain_next_gt L s P (P + PS) none l hH hchain y hy c hc).1
    omega)
  rw [u32_add3 _ _ _ (by omega)] at hb
  exact ⟨hps, chain_ok_union L s s' P (P + PS) x y
    { s.block x with
      block_size := (s.block x).block_size + L.H + (s.block y).block_size,
      next_block := (s.block y).next_block }
    hH hb hxy rfl rfl rfl (by simp only; omega) none l hx hchain⟩

theorem free_keeps_inv (L : Layout) (P PS : Nat) (s s' : mm_state) (a r : Nat)
    (hH : 0 < L.H) (hPS : PS < 2147483648)
    (hinv : page_inv L P PS s)
    (ha : a ∈ page_blocks s PS (some (P + L.BMO)))
    (h : mm_free_blocks L s a = Except.ok (some r, s')) :
    page_inv L P PS s' := by
  obtain ⟨hps, l, hhead, hchain⟩ := hinv
  rw [mem_chain_of_page_blocks L s P PS l hH hhead hchain] at ha
  obtain ⟨hoff, hbound⟩ := chain_bound_at L s P (P + PS) none l hchain a ha
  have hhi := getD_le_hi L s P (P + PS) none l hH hchain a ha
  have hPa := (chain_ok_mem_bound L s P (P + PS) none l hH hchain a ha).1
  unfold mm_free_blocks at h
  simp only [bind_eq_ok_iff, read_block_eq_ok] at h
  obtain ⟨b, ⟨hm, rfl⟩, h⟩ := h
  split at h
  · cases h
  · simp only [bind_eq_ok_iff, read_block_eq_ok, read_page_eq_ok, write_block_eq_ok] at h
    obtain ⟨_, _, s1, ⟨_, rfl⟩, b1, ⟨_, rfl⟩, s2, h2, s3, h3, b3, ⟨_, rfl⟩,
      ⟨rb, s4⟩, h4, empty, _, h⟩ := h
    simp only [set_block_block, if_true, MM_GET_PAGE_FROM_META_BLOCK] at h2 h3
    have i2 : s2.SYSTEM_PAGE_SIZE = PS ∧ chain_ok L s2 P (P + PS) none l ∧
        (s2.block a).next_block = (s.block a).next_block := by
      split at h2
      · rename_i n hn
        simp only [bind_eq_ok_iff, read_block_eq_ok, write_block_eq_ok,
          mm_get_hard_internal_memory_frag_size, pure_eq_ok, Except.ok.injEq] at h2
        obtain ⟨w, ⟨b2, ⟨_, rfl⟩, rfl⟩, _, ⟨_, rfl⟩, _, rfl⟩ := h2
        rw [hn] at hbound hhi
        simp only [Option.getD_some] at hbound hhi
        have hsz := slack_size (s.block a).block_size a n L.H hbound (by omega)
        refine ⟨by simpa using hps, ?_, by simp⟩
        apply chain_ok_resize L s _ P (P + PS) a
          { is_free := true, block_size := n - a - L.H, offset := (s.block a).offset,
            prev_block := (s.block a).prev_block, next_block := (s.block a).next_block }
          ?_ rfl rfl rfl ?_ none l hchain
        · intro x
          by_cases hx : x = a
          · simp only [set_block_block, if_true, NEXT_META_BLOCK_BY_SIZE, hsz, hx]
          · simp only [set_block_block, if_false, hx]
        · simp only [hn, Option.getD_some]
          omega
      · rename_i hn
        simp only [bind_eq_ok_iff, read_block_eq_ok, write_block_eq_ok] at h2
        obtain ⟨_, ⟨_, rfl⟩, _, rfl⟩ := h2
        rw [hn] at hbound
        simp only [Option.getD_none] at hbound
        have hnP : a - (s.block a).offset + s.SYSTEM_PAGE_SIZE = P + PS := by omega
        have hsz := slack_size (s.block a).block_size a (P + PS) L.H hbound (by omega)
        refine ⟨by simpa using hps, ?_, by simp⟩
        apply chain_ok_resize L s _ P (P + PS) a
          { is_free := true, block_size := P + PS - a - L.H, offset := (s.block a).offset,
            prev_block := (s.block a).prev_block, next_block := (s.block a).next_block }
          ?_ rfl rfl rfl ?_ none l hchain
        · intro x
          by_cases hx : x = a
          · simp only [set_block_block, if_true, set_block_size, hnP, hsz, hx]
          · simp only [set_block_block, if_false, hx]
        · simp only [hn, Option.getD_none]
          omega
    obtain ⟨hps2, hchain2, hnext2⟩ := i2
    have i3 : s3.SYSTEM_PAGE_SIZE = PS ∧ ∃ l3 : List Nat, l3.head? = some (P + L.BMO) ∧
        chain_ok L s3 P (P + PS) none l3 ∧ a ∈ l3 := by
      split at h3
      · rename_i n hn
        simp only [bind_eq_ok_iff, read_block_eq_ok] at h3
        obtain ⟨nb, ⟨_, rfl⟩, h3⟩ := h3
        split at h3
        · obtain ⟨e, hc⟩ := union_keeps_chain L s2 s3 P PS a n l hH hPS hchain2 ha
            (hnext2.trans hn) h3
          exact ⟨e.trans hps2, drop_after a l, by rw [head_drop_after]; exact hhead, hc,
            mem_drop_after a l ha⟩
        · simp only [pure_eq_ok, Except.ok.injEq] at h3
          subst h3
          exact ⟨hps2, l, hhead, hchain2, ha⟩
      · simp only [pure_eq_ok, Except.ok.injEq] at h3
        subst h3
        exact ⟨hps2, l, hhead, hchain2, ha⟩
    obtain ⟨hps3, l3, hhead3, hchain3, ha3⟩ := i3
    have i4 : page_inv L P PS s4 := by
      split at h4
      · rename_i p hp
        simp only [bind_eq_ok_iff, read_block_eq_ok] at h4
        obtain ⟨pb, ⟨_, rfl⟩, h4⟩ := h4
        split at h4
        · simp only [bind_eq_ok_iff, pure_eq_ok, Except.ok.injEq, Prod.mk.injEq] at h4
          obtain ⟨s5, h5, _, rfl⟩ := h4
          rcases chain_prev_mem L s3 P (P + PS) hH none l3 hchain3 a ha3 p hp with hcase | hcase
          · exact Option.noConfusion hcase.2
          · obtain ⟨e, hc⟩ := union_keeps_chain L s3 s5 P PS p a l3 hH hPS hchain3 hcase.1
              hcase.2.1 h5
            exact ⟨e.trans hps3, drop_after p l3, by rw [head_drop_after]; exact hhead3, hc⟩
        · simp only [pure_eq_ok, Except.ok.injEq, Prod.mk.injEq] at h4
          obtain ⟨_, rfl⟩ := h4
          exact ⟨hps3, l3, hhead3, hchain3⟩
      · simp only [pure_eq_ok, Except.ok.injEq, Prod.mk.injEq] at h4
        obtain ⟨_, rfl⟩ := h4
        exact ⟨hps3, l3, hhead3, hchain3⟩
    simp only at h
    split at h
    · simp only [bind_eq_ok_iff, pure_eq_ok, Except.ok.injEq, Prod.mk.injEq] at h
      obtain ⟨s5, _, hcontra, _⟩ := h
      cases hcontra
    · simp only [bind_eq_ok_iff, read_page_eq_ok] at h
      obtain ⟨hp, _, h⟩ := h
      split at h
      · cases h
      · simp only [bind_eq_ok_iff, pure_eq_ok, Except.ok.injEq, Prod.mk.injEq] at h
        obtain ⟨s5, h5, _, rfl⟩ := h
        obtain ⟨v, rfl⟩ := insert_list_frame _ _ _ _ h5
        obtain ⟨e4, l4, hhead4, hchain4⟩ := i4
        exact ⟨e4, l4, hhead4, chain_ok_congr L s4 _ P (P + PS) none l4 (fun x _ => rfl) hchain4⟩

theorem allocate_vm_page_block (L : Layout) (s s' : mm_state) (f : FamPtr) (P : Nat)
    (h : allocate_vm_page L s f = Except.ok (P, s')) :
    s'.SYSTEM_PAGE_SIZE = s.SYSTEM_PAGE_SIZE ∧
      (s'.block (P + L.BMO)).prev_block = none ∧
      (s'.block (P + L.BMO)).next_block = none ∧
      (s'.block (P + L.BMO)).offset = L.BMO ∧
      (s'.block (P + L.BMO)).block_size = mm_max_page_allocatable_memory L s 1 := by
  unfold allocate_vm_page at h
  split at h
  · cases h
  · rename_i p s1 hk
    have hs1 : s1.SYSTEM_PAGE_SIZE = s.SYSTEM_PAGE_SIZE := by
      unfold mm_get_new_vm_page_from_kernel at hk
      split at hk
      · cases hk
      · cases hk
      · simp only [Prod.mk.injEq, Option.some.injEq] at hk
        obtain ⟨_, rfl⟩ := hk
        rfl
    simp only [bind_eq_ok_iff, read_block_eq_ok, write_block_eq_ok, read_page_eq_ok,
      write_page_eq_ok, read_family_eq_ok, MARK_VM_PAGE_EMPTY] at h
    obtain ⟨s2, ⟨b0, ⟨_, hb0⟩, _, e2⟩, b2, ⟨_, hb2⟩, s3, ⟨_, e3⟩, b3, ⟨_, hb3⟩, s4, ⟨_, e4⟩,
      pg, ⟨_, _⟩, s5, ⟨_, e5⟩, pg2, ⟨_, _⟩, s6, ⟨_, e6⟩, fam, _, h⟩ := h
    have F6 : s6.SYSTEM_PAGE_SIZE = s.SYSTEM_PAGE_SIZE ∧
        s6.block (p + L.BMO) =
          { is_free := true, block_size := mm_max_page_allocatable_memory L s 1,
            offset := L.BMO, prev_block := none, next_block := none } := by
      subst e6 e5 e4 hb3 e3 hb2 e2 hb0
      simp [mm_max_page_allocatable_memory, hs1]
    obtain ⟨F6a, F6b⟩ := F6
    split at h
    · simp only [bind_eq_ok_iff, write_family_eq_ok, pure_eq_ok, Except.ok.injEq,
        Prod.mk.injEq] at h
      obtain ⟨s7, ⟨_, rfl⟩, rfl, rfl⟩ := h
      simp [F6a, F6b]
    · simp only [bind_eq_ok_iff, write_family_eq_ok, read_page_eq_ok, write_page_eq_ok,
        read_family_eq_ok, pure_eq_ok, Except.ok.injEq, Prod.mk.injEq] at h
      obtain ⟨pg3, _, s7, ⟨_, rfl⟩, fp, _, s8, ⟨_, rfl⟩, fam2, _, s9, ⟨_, rfl⟩, rfl, rfl⟩ := h
      simp [F6a, F6b]

theorem fresh_keeps_inv (L : Layout) (f : FamPtr) (P PS : Nat) (s0 s : mm_state)
    (hlay : L.BMO + L.H ≤ L.PMO) (hfit : L.PMO ≤ PS) (hPS : PS < 2147483648)
    (hps : s0.SYSTEM_PAGE_SIZE = PS)
    (h : mm_family_new_page_add L s0 f = Except.ok (P, s)) : page_inv L P PS s := by
  unfold mm_family_new_page_add at h
  simp only [bind_eq_ok_iff, pure_eq_ok, Except.ok.injEq, Prod.mk.injEq] at h
  obtain ⟨⟨p, s1⟩, h1, s2, h2, rfl, rfl⟩ := h
  obtain ⟨v, rfl⟩ := insert_list_frame _ _ _ _ h2
  obtain ⟨e, b1, b2, b3, b4⟩ := allocate_vm_page_block L s0 s1 f p h1
  rw [max_alloc_one L s0 (by omega) (by omega)] at b4
  refine ⟨e.trans hps, [p + L.BMO], rfl, ?_⟩
  refine ⟨b1, b2, ?_, ?_, trivial⟩
  · simp only [set_family_block, b3]
  · simp only [set_family_block, b4, List.head?_nil, Option.getD_none]
    omega

theorem reachable_inv (L : Layout) (f : FamPtr) (P PS : Nat) (s : mm_state)
    (hH : 0 < L.H) (hlay : L.BMO + L.H ≤ L.PMO) (hfit : L.PMO ≤ PS) (hPS : PS < 2147483648)
    (hr : page_reachable L f P PS s) : page_inv L P PS s := by
  induction hr with
  | fresh s0 s hps h => exact fresh_keeps_inv L f P PS s0 s hlay hfit hPS hps h
  | alloc s s' a size status _ ha h ih =>
    exact split_keeps_inv L f P PS s s' a size status hH hPS ih ha h
  | release s s' a r _ ha h ih => exact free_keeps_inv L P PS s s' a r hH hPS ih ha h

theorem page_chain_total (L : Layout) (P PS : Nat) (s : mm_state) (hH : 0 < L.H)
    (hinv : page_inv L P PS s) :
    chain_footprint L s P + chain_slack L s P = PS - L.BMO := by
  obtain ⟨hps, l, hhead, hchain⟩ := hinv
  unfold chain_footprint chain_slack
  rw [hps, mem_chain_of_page_blocks L s P PS l hH hhead hchain, ← List.sum_map_add]
  cases l with
  | nil => simp at hhead
  | cons a rest =>
    simp only [List.head?_cons, Option.some.injEq] at hhead
    rw [chain_total L s P (P + PS) none a rest hH (by rw [hps]) hchain, hhead]
    omega

/-! ## C1: the footprint of a chain against the capacity of a page -/

set_option maxRecDepth 1000000 in
/-- C1, as stated, fails: after one allocation of 64 bytes the chain of the
page at 8192 has the footprint 4096, one header more than the usable capacity
4056 of a page; with a unit size of 2000 two allocations leave the footprint
4080, because the 16 bytes behind the second block are recorded nowhere; and
after the calls of `scenario_chain_overlap`, in which `xcalloc` splits a block
that the index has kept from a page given back, the footprint is 4264, more
than the page has bytes. -/
theorem chain_footprint_is_not_capacity :
    scenario_footprint 64 1 = Except.ok (4096, 0, 4056) ∧
    scenario_footprint 2000 2 = Except.ok (4080, 16, 4056) ∧
    scenario_footprint_after_stale_split = Except.ok (4264, 0, 4056) :=
  ⟨rfl, rfl, rfl⟩

/-! ## The registry: registration and lookup -/

theorem lookup_in_page_some (L : Layout) (name : List Char) (pg : Nat)
    (slots : List vm_page_family_t) (i : Nat)
    (h : ∃ fam ∈ slots, strncmp_eq fam.struct_name name L.MM_MAX_STRUCT_NAME = true) :
    ∃ f, lookup_in_page L name pg slots i = some f := by
  induction slots generalizing i with
  | nil =>
    obtain ⟨fam, hf, _⟩ := h
    cases hf
  | cons x xs ih =>
    unfold lookup_in_page
    by_cases hx : strncmp_eq x.struct_name name L.MM_MAX_STRUCT_NAME = true
    · exact ⟨(pg, i), by simp [hx]⟩
    · simp only [hx, if_false]
      apply ih
      obtain ⟨fam, hf, hc⟩ := h
      rcases List.mem_cons.mp hf with e | e
      · subst e
        exact absurd hc hx
      · exact ⟨fam, e, hc⟩

theorem lookup_some_of_registered (L : Layout) (s : mm_state) (name : List Char)
    (h : registered L s name) : ∃ f, lookup_page_family_by_name L s name = some f := by
  unfold lookup_page_family_by_name
  unfold registered at h
  generalize s.first_vm_page_for_families = l at h
  induction l with
  | nil =>
    obtain ⟨pg, hpg, _⟩ := h
    cases hpg
  | cons x xs ih =>
    unfold lookup_in_pages
    cases hx : lookup_in_page L name x.addr x.vm_page_family 0 with
    | some f => exact ⟨f, rfl⟩
    | none =>
      simp only
      apply ih
      obtain ⟨pg, hpg, fam, hf, hc⟩ := h
      rcases List.mem_cons.mp hpg with e | e
      · subst e
        obtain ⟨f, hf'⟩ := lookup_in_page_some L name pg.addr pg.vm_page_family 0 ⟨fam, hf, hc⟩
        rw [hf'] at hx
        cases hx
      · exact ⟨pg, e, fam, hf, hc⟩

/-- C12, as stated, fails: with pages of 4096 bytes and a usable capacity of
4056, the unit size 4080 is accepted; the family is found by the lookup
afterwards, and a request for one unit of it is refused. -/
theorem registration_above_capacity_is_accepted :
    scenario_oversized_family = Except.ok (4056, some 4080, none) := by
  rfl

/-- C12 as the code has it: a unit size that exceeds the system page size is
refused, whatever the name: `mm_instantiate_new_page_family` returns and the
whole state, the registry included, is what it was, so that every lookup
answers as before. -/
theorem registration_above_page_size_is_refused (L : Layout) (s : mm_state)
    (name : List Char) (struct_size : Nat) (h : s.SYSTEM_PAGE_SIZE < struct_size) :
    mm_instantiate_new_page_family L s name struct_size = Except.ok s := by
  unfold mm_instantiate_new_page_family
  have : struct_size > s.SYSTEM_PAGE_SIZE := h
  simp only [this, if_true]
  rfl

theorem registration_above_page_size_is_refused_witness :
    registry_demo.SYSTEM_PAGE_SIZE < 5000 ∧
    mm_instantiate_new_page_family L40 registry_demo "Student".toList 5000 =
      Except.ok registry_demo :=
  ⟨by decide,
    registration_above_page_size_is_refused L40 registry_demo "Student".toList 5000
      (by decide)⟩

/-- The fault of `mm_instantiate_new_page_family_at_stop`, and its result when
there is no fault, are those of `mm_instantiate_new_page_family`. -/
theorem registration_at_stop_agrees (L : Layout) (s : mm_state) (name : List Char)
    (struct_size : Nat) :
    Except.mapError Prod.fst (mm_instantiate_new_page_family_at_stop L s name struct_size) =
      mm_instantiate_new_page_family L s name struct_size := by
  unfold mm_instantiate_new_page_family_at_stop mm_instantiate_new_page_family
  by_cases h1 : struct_size > s.SYSTEM_PAGE_SIZE
  · simp only [h1, if_true]
    rfl
  · simp only [h1, if_false]
    cases hl : s.first_vm_page_for_families with
    | nil =>
      dsimp only
      cases hm : mm_get_new_vm_page_from_kernel s 1 with
      | mk a s1 =>
        cases a <;> rfl
    | cons first rest =>
      dsimp only
      cases hlk : lookup_page_family_by_name L s name with
      | some f => rfl
      | none =>
        dsimp only
        by_cases hc : first.vm_page_family.length = L.MAX_FAMILIES_PER_VM_PAGE
        · simp only [hc, if_true]
          cases hm : mm_get_new_vm_page_from_kernel s 1 with
          | mk a s1 =>
            cases a <;> rfl
        · simp only [hc, if_false]
          rfl

/-- C13: for a name that a slot of the registry carries, and a unit size that
passes the size check, `mm_instantiate_new_page_family` stops at its
`assert(0)`, and the state in which it stops is the state `s` of the call:
nothing has been written, so the unit size, the page list and the free list of
every family, the one of that name included, are what they were. -/
theorem duplicate_registration_asserts (L : Layout) (s : mm_state) (name : List Char)
    (struct_size : Nat) (hreg : registered L s name)
    (hsize : struct_size ≤ s.SYSTEM_PAGE_SIZE) :
    mm_instantiate_new_page_family L s name struct_size = Except.error Fault.assertion ∧
    mm_instantiate_new_page_family_at_stop L s name struct_size =
      Except.error (Fault.assertion, s) := by
  obtain ⟨f, hf⟩ := lookup_some_of_registered L s name hreg
  have h1 : ¬ struct_size > s.SYSTEM_PAGE_SIZE := by omega
  constructor
  · unfold mm_instantiate_new_page_family
    simp only [h1, if_false]
    cases hl : s.first_vm_page_for_families with
    | nil =>
      obtain ⟨pg, hpg, _⟩ := hreg
      rw [hl] at hpg
      cases hpg
    | cons first rest =>
      simp only [hf]
      rfl
  · unfold mm_instantiate_new_page_family_at_stop
    simp only [h1, if_false]
    cases hl : s.first_vm_page_for_families with
    | nil =>
      obtain ⟨pg, hpg, _⟩ := hreg
      rw [hl] at hpg
      cases hpg
    | cons first rest =>
      simp only [hf]
      rfl

theorem duplicate_registration_asserts_witness :
    registered L40 registry_demo "Employee".toList ∧
    mm_instantiate_new_page_family L40 registry_demo "Employee".toList 128 =
      Except.error Fault.assertion ∧
    mm_instantiate_new_page_family_at_stop L40 registry_demo "Employee".toList 128 =
      Except.error (Fault.assertion, registry_demo) :=
  ⟨by simp [registered, registry_demo, boot, new_family, L40, strncmp_eq],
    duplicate_registration_asserts L40 registry_demo "Employee".toList 128
      (by simp [registered, registry_demo, boot, new_family, L40, strncmp_eq]) (by decide)⟩

set_option maxRecDepth 1000000 in
/-- C14, at the failing input: when the first registry page holds as many
families as it has slots (64 here), the registration of a further, not yet
registered name does not end with that family registered; after linking a
new registry page the code writes the family behind the slot array of the old
page, which is where the model stops. -/
theorem registration_into_full_registry_page :
    scenario_full_registry = Except.ok (1, 64, false, some Fault.unmapped) := by
  rfl

theorem lookup_in_page_append (L : Layout) (name : List Char) (pg : Nat)
    (slots : List vm_page_family_t) (v : vm_page_family_t) (i : Nat) :
    lookup_in_page L name pg (slots ++ [v]) i =
      match lookup_in_page L name pg slots i with
      | some f => some f
      | none =>
        if strncmp_eq v.struct_name name L.MM_MAX_STRUCT_NAME then some (pg, i + slots.length)
        else none := by
  induction slots generalizing i with
  | nil => simp [lookup_in_page]
  | cons x xs ih =>
    simp only [List.cons_append, lookup_in_page]
    by_cases hx : strncmp_eq x.struct_name name L.MM_MAX_STRUCT_NAME = true
    · simp [hx]
    · simp only [hx, if_false, Bool.false_eq_true]
      have := ih (i + 1)
      simp only [List.length_cons]
      have e : i + 1 + xs.length = i + (xs.length + 1) := by omega
      rw [e] at this
      exact this

theorem registered_of_lookup (L : Layout) (s : mm_state) (name : List Char) (f : FamPtr)
    (h : lookup_page_family_by_name L s name = some f) : registered L s name := by
  by_contra hc
  rw [lookup_none_of_not_registered L s name hc] at h
  cases h

theorem strncmp_eq_new_family (L : Layout) (name : List Char) (struct_size : Nat) :
    strncmp_eq (new_family L name struct_size).struct_name name L.MM_MAX_STRUCT_NAME = true := by
  simp [strncmp_eq, new_family, List.take_take]

/-- The part of C14 that the code keeps: while the registry has a page and the
first one a free slot, the registration of a name that is not yet registered, with a unit
size that passes the size check, puts an empty family of that unit size into
the next slot, where the lookup of the name finds it, and the lookup of every
name registered before finds the same family as before. -/
theorem register_then_lookup (L : Layout) (s : mm_state) (name : List Char)
    (struct_size : Nat) (first : vm_page_for_families_t) (rest : List vm_page_for_families_t)
    (hl : s.first_vm_page_for_families = first :: rest)
    (hnot : ¬ registered L s name) (hsize : struct_size ≤ s.SYSTEM_PAGE_SIZE)
    (hroom : first.vm_page_family.length ≠ L.MAX_FAMILIES_PER_VM_PAGE) :
    ∃ s', mm_instantiate_new_page_family L s name struct_size = Except.ok s' ∧
      lookup_page_family_by_name L s' name =
        some (first.addr, first.vm_page_family.length) ∧
      get_family s' (first.addr, first.vm_page_family.length) =
        some { struct_name := name.take L.MM_MAX_STRUCT_NAME, struct_size := struct_size,
               first_page := none, free_block_priority_list_head := [] } ∧
      ∀ (other : List Char) (f : FamPtr) (fam : vm_page_family_t),
        lookup_page_family_by_name L s other = some f → get_family s f = some fam →
        lookup_page_family_by_name L s' other = some f ∧ get_family s' f = some fam := by
  have hnone := lookup_none_of_not_registered L s name hnot
  have h1 : ¬ struct_size > s.SYSTEM_PAGE_SIZE := by omega
  have hfirst : lookup_in_page L name first.addr first.vm_page_family 0 = none := by
    have := hnone
    unfold lookup_page_family_by_name at this
    rw [hl] at this
    unfold lookup_in_pages at this
    cases hx : lookup_in_page L name first.addr first.vm_page_family 0 with
    | none => rfl
    | some f =>
      rw [hx] at this
      cases this
  refine ⟨{ s with first_vm_page_for_families :=
      { first with vm_page_family :=
          first.vm_page_family ++ [new_family L name struct_size] } :: rest }, ?_, ?_, ?_, ?_⟩
  · unfold mm_instantiate_new_page_family
    simp only [h1, if_false, hl, hroom]
    rw [hnone]
    rfl
  · unfold lookup_page_family_by_name
    simp only [lookup_in_pages, lookup_in_page_append, hfirst, strncmp_eq_new_family, if_true,
      Nat.zero_add]
  · simp [get_family, get_family_in, new_family]
  · intro other f fam hlo hgf
    have hreg := registered_of_lookup L s other f hlo
    have hdiff : strncmp_eq (new_family L name struct_size).struct_name other
        L.MM_MAX_STRUCT_NAME = false := by
      cases hc : strncmp_eq (new_family L name struct_size).struct_name other
        L.MM_MAX_STRUCT_NAME with
      | false => rfl
      | true =>
        exfalso
        apply hnot
        obtain ⟨pg, hpg, slot, hslot, hm⟩ := hreg
        refine ⟨pg, hpg, slot, hslot, ?_⟩
        simp only [strncmp_eq, new_family, List.take_take, Nat.min_self, beq_iff_eq] at hc hm ⊢
        rw [hm, ← hc]
    constructor
    · unfold lookup_page_family_by_name at hlo ⊢
      rw [hl] at hlo
      simp only [lookup_in_pages, lookup_in_page_append, hdiff, Bool.false_eq_true,
        if_false] at hlo ⊢
      cases hx : lookup_in_page L other first.addr first.vm_page_family 0 with
      | some g =>
        rw [hx] at hlo
        exact hlo
      | none =>
        rw [hx] at hlo
        exact hlo
    · unfold get_family at hgf ⊢
      rw [hl] at hgf
      simp only [get_family_in] at hgf ⊢
      by_cases ha : first.addr = f.1
      · simp only [ha, if_true] at hgf ⊢
        rw [List.getElem?_append_left]
        · exact hgf
        · by_contra hge
          rw [List.getElem?_eq_none (by omega)] at hgf
          cases hgf
      · simp only [ha, if_false] at hgf ⊢
        exact hgf

/-! ## Forward evaluation of the split -/

theorem same_frame_refl (s : mm_state) : same_frame s s := ⟨rfl, rfl, rfl, rfl, rfl, rfl⟩

theorem same_frame_trans (s s' s'' : mm_state) (h1 : same_frame s s') (h2 : same_frame s' s'') :
    same_frame s s'' :=
  ⟨h2.1.trans h1.1, h2.2.1.trans h1.2.1, h2.2.2.1.trans h1.2.2.1,
    h2.2.2.2.1.trans h1.2.2.2.1, h2.2.2.2.2.1.trans h1.2.2.2.2.1,
    h2.2.2.2.2.2.trans h1.2.2.2.2.2⟩

theorem same_frame_set_block (s : mm_state) (a : Nat) (v : block_meta_data_t) :
    same_frame s (set_block s a v) := ⟨rfl, rfl, rfl, rfl, rfl, rfl⟩

theorem same_frame_set_family (s : mm_state) (f : FamPtr) (v : vm_page_family_t) :
    same_frame s (set_family s f v) := ⟨rfl, rfl, rfl, rfl, rfl, rfl⟩

theorem is_mapped_of_frame (s s' : mm_state) (h : same_frame s s') (x : Nat) :
    is_mapped s' x = is_mapped s x := by
  unfold is_mapped
  rw [h.2.1]

theorem add_free_block_forward (s : mm_state) (f : FamPtr) (b : Nat) (fam : vm_page_family_t)
    (hm : is_mapped s b = true) (hfree : (s.block b).is_free = true)
    (hf : get_family s f = some fam)
    (hl : ∀ x ∈ fam.free_block_priority_list_head, is_mapped s x = true) :
    ∃ l', mm_add_free_block_meta_data_to_free_block_list s f b =
        Except.ok (set_family s f { fam with free_block_priority_list_head := l' }) ∧
      ∀ x, x ∈ l' ↔ (x = b ∨ x ∈ fam.free_block_priority_list_head) := by
  obtain ⟨l', hins, hmem⟩ := insert_ok s b fam.free_block_priority_list_head hm hl
  refine ⟨l', ?_, hmem⟩
  unfold mm_add_free_block_meta_data_to_free_block_list
  simp only [read_block_of_mapped _ _ hm, bind_ok_eq, hfree, Bool.not_true, Bool.false_eq_true,
    if_false, read_family, hf, hins, write_family]

theorem bind_blocks_forward (s : mm_state) (a n : Nat)
    (hma : is_mapped s a = true) (hmn : is_mapped s n = true) (han : a ≠ n)
    (hc : ∀ c : Nat, (s.block a).next_block = some c →
      is_mapped s c = true ∧ c ≠ a ∧ c ≠ n) :
    ∃ s', mm_bind_blocks_for_allocation s a n = Except.ok s' ∧ same_frame s s' ∧
      s'.first_vm_page_for_families = s.first_vm_page_for_families ∧
      ∀ z, s'.block z =
        if z = a then { s.block a with next_block := some n }
        else if z = n then
          { s.block n with prev_block := some a, next_block := (s.block a).next_block }
        else if (s.block a).next_block = some z then { s.block z with prev_block := some n }
        else s.block z := by
  have hna : n ≠ a := fun h => han h.symm
  have hex : ∃ s', mm_bind_blocks_for_allocation s a n = Except.ok s' ∧ same_frame s s' ∧
      s'.first_vm_page_for_families = s.first_vm_page_for_families := by
    unfold mm_bind_blocks_for_allocation
    simp only [read_block_of_mapped, write_block_of_mapped, hma, hmn, is_mapped_set_block,
      bind_ok_eq, set_block_block, if_true, han, hna, if_false, set_block_set_block]
    cases hnx : (s.block a).next_block with
    | none => exact ⟨_, rfl, ⟨rfl, rfl, rfl, rfl, rfl, rfl⟩, rfl⟩
    | some c =>
      obtain ⟨hmc, hca, hcn⟩ := hc c hnx
      simp only [read_block_of_mapped, write_block_of_mapped, hmc, is_mapped_set_block,
        bind_ok_eq]
      exact ⟨_, rfl, ⟨rfl, rfl, rfl, rfl, rfl, rfl⟩, rfl⟩
  obtain ⟨s', hs', hfr, hfam⟩ := hex
  exact ⟨s', hs', hfr, hfam,
    (bind_blocks_inv s s' a n hs' han (fun c hn => ⟨(hc c hn).2.1, (hc c hn).2.2⟩)).2⟩

theorem carve_forward (L : Layout) (s : mm_state) (f : FamPtr) (fam : vm_page_family_t)
    (a rem : Nat) (hH : 0 < L.H)
    (hma : is_mapped s a = true)
    (hmn : is_mapped s (a + L.H + (s.block a).block_size) = true)
    (hf : get_family s f = some fam)
    (hl : ∀ x ∈ fam.free_block_priority_list_head, is_mapped s x = true)
    (hc : ∀ c : Nat, (s.block a).next_block = some c →
      is_mapped s c = true ∧ c ≠ a ∧ c ≠ a + L.H + (s.block a).block_size) :
    ∃ s' l', (do
      let b ← read_block s a
      let next_block_meta_data := NEXT_META_BLOCK_BY_SIZE L a b
      let nb ← read_block s next_block_meta_data
      let s ← write_block s next_block_meta_data { nb with is_free := true }
      let nb ← read_block s next_block_meta_data
      let s ← write_block s next_block_meta_data
        { nb with block_size := u32 ((rem : Int) - (L.H : Int)) }
      let b ← read_block s a
      let nb ← read_block s next_block_meta_data
      let s ← write_block s next_block_meta_data
        { nb with offset := u32 ((b.offset : Int) + (L.H : Int) + (b.block_size : Int)) }
      let s ← mm_add_free_block_meta_data_to_free_block_list s f next_block_meta_data
      let s ← mm_bind_blocks_for_allocation s a next_block_meta_data
      pure (true, s) : Except Fault (Bool × mm_state)) = Except.ok (true, s') ∧
      same_frame s s' ∧
      s'.first_vm_page_for_families =
        set_family_in s.first_vm_page_for_families f
          { fam with free_block_priority_list_head := l' } ∧
      (∀ x, x ∈ l' ↔ (x = a + L.H + (s.block a).block_size ∨
        x ∈ fam.free_block_priority_list_head)) ∧
      ∀ z, s'.block z =
        if z = a then { s.block a with next_block := some (a + L.H + (s.block a).block_size) }
        else if z = a + L.H + (s.block a).block_size then
          { is_free := true, block_size := u32 ((rem : Int) - (L.H : Int)),
            offset := u32 (((s.block a).offset : Int) + (L.H : Int) +
              ((s.block a).block_size : Int)),
            prev_block := some a, next_block := (s.block a).next_block }
        else if (s.block a).next_block = some z then
          { s.block z with prev_block := some (a + L.H + (s.block a).block_size) }
        else s.block z := by
  have han : a ≠ a + L.H + (s.block a).block_size := by omega
  have hna : a + L.H + (s.block a).block_size ≠ a := by omega
  let vn : block_meta_data_t :=
    { is_free := true, block_size := u32 ((rem : Int) - (L.H : Int)),
      offset := u32 (((s.block a).offset : Int) + (L.H : Int) + ((s.block a).block_size : Int)),
      prev_block := (s.block (a + L.H + (s.block a).block_size)).prev_block,
      next_block := (s.block (a + L.H + (s.block a).block_size)).next_block }
  let s3 : mm_state := set_block s (a + L.H + (s.block a).block_size) vn
  obtain ⟨l', hadd, hmem⟩ := add_free_block_forward s3 f (a + L.H + (s.block a).block_size) fam
    (by simpa [s3] using hmn) (by simp [s3, vn]) (by simpa [s3] using hf)
    (fun x hx => by simpa [s3] using hl x hx)
  have hs3a : s3.block a = s.block a := by simp [s3, han]
  obtain ⟨s5, hbind, hfr, hfam, hblk⟩ := bind_blocks_forward
    (set_family s3 f { fam with free_block_priority_list_head := l' }) a
    (a + L.H + (s.block a).block_size) (by simpa [s3] using hma) (by simpa [s3] using hmn) han
    (by
      intro c hcn
      simp only [set_family_block, hs3a] at hcn
      simpa [s3] using hc c hcn)
  refine ⟨s5, l', ?_, ?_, ?_, hmem, ?_⟩
  · simp only [NEXT_META_BLOCK_BY_SIZE, read_block_of_mapped, write_block_of_mapped, hma, hmn,
      is_mapped_set_block, bind_ok_eq, set_block_block, if_true, han, hna, if_false,
      set_block_set_block]
    show (mm_add_free_block_meta_data_to_free_block_list s3 f
      (a + L.H + (s.block a).block_size) >>= fun t =>
        mm_bind_blocks_for_allocation t a (a + L.H + (s.block a).block_size) >>= fun u =>
          pure (true, u)) = Except.ok (true, s5)
    rw [hadd]
    simp only [bind_ok_eq]
    rw [hbind]
    rfl
  · exact same_frame_trans _ _ _ (same_frame_trans _ _ _ (same_frame_set_block _ _ _)
      (same_frame_set_family _ _ _)) hfr
  · rw [hfam]
    rfl
  · intro z
    rw [hblk z]
    simp only [set_family_block, hs3a]
    by_cases hz : z = a
    · simp only [hz, if_true]
    · simp only [hz, if_false]
      by_cases hzn : z = a + L.H + (s.block a).block_size
      · simp only [hzn, if_true, s3, vn, set_block_block]
      · simp only [hzn, if_false, s3, set_block_block]

theorem mem_remove_glthread (a x : Nat) (l : List Nat) :
    x ∈ remove_glthread a l ↔ (x ∈ l ∧ x ≠ a) := by
  simp [remove_glthread]

/-- The split of a free block whose remainder holds a header: what the call
returns and what it leaves. -/
theorem split_carves (L : Layout) (s : mm_state) (f : FamPtr) (fam : vm_page_family_t)
    (a r : Nat) (hH : 0 < L.H)
    (hm : is_mapped s a = true) (hfree : (s.block a).is_free = true)
    (hle : r ≤ (s.block a).block_size) (hrem : L.H ≤ (s.block a).block_size - r)
    (hf : get_family s f = some fam)
    (hl : ∀ x ∈ fam.free_block_priority_list_head, is_mapped s x = true)
    (hmn : is_mapped s (a + L.H + r) = true)
    (hc : ∀ c : Nat, (s.block a).next_block = some c →
      is_mapped s c = true ∧ c ≠ a ∧ c ≠ a + L.H + r)
    (hoff : (s.block a).offset + L.H + r < 4294967296)
    (hsz : (s.block a).block_size < 4294967296) :
    ∃ s' l', mm_split_free_data_block_for_allocation L s f a r = Except.ok (true, s') ∧
      same_frame s s' ∧
      s'.first_vm_page_for_families =
        set_family_in s.first_vm_page_for_families f
          { fam with free_block_priority_list_head := l' } ∧
      (∀ x, x ∈ l' ↔ (x = a + L.H + r ∨ (x ∈ fam.free_block_priority_list_head ∧ x ≠ a))) ∧
      ∀ z, s'.block z =
        if z = a then
          { s.block a with is_free := false, block_size := r, next_block := some (a + L.H + r) }
        else if z = a + L.H + r then
          { is_free := true, block_size := (s.block a).block_size - r - L.H,
            offset := (s.block a).offset + L.H + r,
            prev_block := some a, next_block := (s.block a).next_block }
        else if (s.block a).next_block = some z then
          { s.block z with prev_block := some (a + L.H + r) }
        else s.block z := by
  let fam1 : vm_page_family_t :=
    { fam with
      free_block_priority_list_head := remove_glthread a fam.free_block_priority_list_head }
  let S : mm_state :=
    set_family (set_block s a { s.block a with is_free := false, block_size := r }) f fam1
  have hSa : S.block a = { s.block a with is_free := false, block_size := r } := by
    simp [S]
  have hSf : get_family S f = some fam1 := by
    simp only [S]
    rw [get_family_set_family_some _ _ _ _ (by simp [hf])]
    simp
  obtain ⟨s', l', hrun, hfr, hfam, hmem, hblk⟩ := carve_forward L S f fam1 a
    ((s.block a).block_size - r) hH (by simpa [S] using hm)
    (by rw [hSa]; simpa [S] using hmn) hSf
    (fun x hx => by
      have := (mem_remove_glthread a x _).mp hx
      simpa [S] using hl x this.1)
    (by
      intro c hcn
      rw [hSa] at hcn ⊢
      simpa [S] using hc c hcn)
  rw [hSa] at hblk hmem
  simp only at hblk hmem
  have e1 : u32 ((((s.block a).block_size - r : Nat) : Int) - (L.H : Int)) =
      (s.block a).block_size - r - L.H := by
    unfold u32
    omega
  have e2 : u32 (((s.block a).offset : Int) + (L.H : Int) + (r : Int)) =
      (s.block a).offset + L.H + r := by
    unfold u32
    omega
  refine ⟨s', l', ?_, ?_, ?_, ?_, ?_⟩
  · unfold mm_split_free_data_block_for_allocation
    have hnlt : ¬ (s.block a).block_size < r := by omega
    have hn0 : ¬ (s.block a).block_size - r = 0 := by omega
    have hnhard : ¬ (s.block a).block_size - r < L.H := by omega
    simp only [read_block_of_mapped, write_block_of_mapped, hm, is_mapped_set_block,
      is_mapped_set_family, hfree, Bool.not_true, Bool.false_eq_true, if_false, hnlt,
      bind_ok_eq, set_block_block, if_true, set_block_set_block, read_family, write_family,
      get_family_set_block, hf, get_family_set_family_some, Option.isSome_some, hn0, hnhard]
    simp only [S, fam1, read_block_of_mapped, write_block_of_mapped, hm, is_mapped_set_block,
      is_mapped_set_family, bind_ok_eq, set_block_block, if_true, set_block_set_block] at hrun
    split
    · exact hrun
    · exact hrun
  · exact same_frame_trans _ _ _ (same_frame_trans _ _ _ (same_frame_set_block _ _ _)
      (same_frame_set_family _ _ _)) hfr
  · rw [hfam]
    simp only [S, fam1, set_family_families, set_block_families, set_family_in_twice]
  · intro x
    rw [hmem x]
    simp only [fam1, mem_remove_glthread]
  · intro z
    rw [hblk z, e1, e2]
    by_cases hz : z = a
    · simp only [hz, if_true]
    · simp only [hz, if_false, S, set_family_block, set_block_block]

theorem get_family_of_families (s s' : mm_state) (f : FamPtr) (fam v : vm_page_family_t)
    (hf : get_family s f = some fam)
    (h : s'.first_vm_page_for_families = set_family_in s.first_vm_page_for_families f v) :
    get_family s' f = some v := by
  unfold get_family at hf ⊢
  rw [h, get_family_in_set_family_in _ f f v fam hf]
  simp

theorem add_free_block_inv (s s' : mm_state) (f : FamPtr) (b : Nat)
    (h : mm_add_free_block_meta_data_to_free_block_list s f b = Except.ok s') :
    ∃ fam l', get_family s f = some fam ∧
      s' = set_family s f { fam with free_block_priority_list_head := l' } := by
  unfold mm_add_free_block_meta_data_to_free_block_list at h
  simp only [bind_eq_ok_iff, read_block_eq_ok, read_family_eq_ok] at h
  obtain ⟨bb, ⟨_, rfl⟩, h⟩ := h
  split at h
  · cases h
  · simp only [bind_eq_ok_iff, read_family_eq_ok, write_family_eq_ok] at h
    obtain ⟨fam, hfam, l, _, _, rfl⟩ := h
    exact ⟨fam, l, hfam, rfl⟩

theorem bind_blocks_frame (s s' : mm_state) (a n : Nat)
    (h : mm_bind_blocks_for_allocation s a n = Except.ok s') :
    same_frame s s' ∧ s'.first_vm_page_for_families = s.first_vm_page_for_families := by
  unfold mm_bind_blocks_for_allocation at h
  simp only [bind_eq_ok_iff, read_block_eq_ok, write_block_eq_ok] at h
  obtain ⟨fb, ⟨_, rfl⟩, s1, ⟨_, rfl⟩, ab, ⟨_, rfl⟩, fb2, ⟨_, rfl⟩, s2, ⟨_, rfl⟩,
    ab2, ⟨_, rfl⟩, s3, ⟨_, rfl⟩, fb3, ⟨_, rfl⟩, h⟩ := h
  split at h
  · simp only [bind_eq_ok_iff, read_block_eq_ok, write_block_eq_ok] at h
    obtain ⟨nb, ⟨_, rfl⟩, _, rfl⟩ := h
    exact ⟨⟨rfl, rfl, rfl, rfl, rfl, rfl⟩, rfl⟩
  · simp only [pure_eq_ok, Except.ok.injEq] at h
    subst h
    exact ⟨⟨rfl, rfl, rfl, rfl, rfl, rfl⟩, rfl⟩

theorem carve_frame (L : Layout) (s s' : mm_state) (f : FamPtr) (fam : vm_page_family_t)
    (a rem : Nat) (status : Bool) (hf : get_family s f = some fam)
    (h : (do
      let b ← read_block s a
      let next_block_meta_data := NEXT_META_BLOCK_BY_SIZE L a b
      let nb ← read_block s next_block_meta_data
      let s ← write_block s next_block_meta_data { nb with is_free := true }
      let nb ← read_block s next_block_meta_data
      let s ← write_block s next_block_meta_data
        { nb with block_size := u32 ((rem : Int) - (L.H : Int)) }
      let b ← read_block s a
      let nb ← read_block s next_block_meta_data
      let s ← write_block s next_block_meta_data
        { nb with offset := u32 ((b.offset : Int) + (L.H : Int) + (b.block_size : Int)) }
      let s ← mm_add_free_block_meta_data_to_free_block_list s f next_block_meta_data
      let s ← mm_bind_blocks_for_allocation s a next_block_meta_data
      pure (true, s) : Except Fault (Bool × mm_state)) = Except.ok (status, s')) :
    same_frame s s' ∧ ∃ l', s'.first_vm_page_for_families =
      set_family_in s.first_vm_page_for_families f
        { fam with free_block_priority_list_head := l' } := by
  simp only [bind_eq_ok_iff, read_block_eq_ok, write_block_eq_ok, NEXT_META_BLOCK_BY_SIZE] at h
  obtain ⟨b, ⟨_, rfl⟩, nb, ⟨_, rfl⟩, s1, ⟨_, rfl⟩, nb2, ⟨_, rfl⟩, s2, ⟨_, rfl⟩,
    b2, ⟨_, rfl⟩, nb3, ⟨_, rfl⟩, s3, ⟨_, rfl⟩, s4, h4, s5, h5, h⟩ := h
  simp only [pure_eq_ok, Except.ok.injEq, Prod.mk.injEq] at h
  obtain ⟨_, rfl⟩ := h
  obtain ⟨fam', l', hfam', rfl⟩ := add_free_block_inv _ _ _ _ h4
  simp only [get_family_set_block, hf, Option.some.injEq] at hfam'
  subst hfam'
  obtain ⟨hfr, hfams⟩ := bind_blocks_frame _ _ _ _ h5
  refine ⟨?_, l', ?_⟩
  · exact same_frame_trans _ _ _ ⟨rfl, rfl, rfl, rfl, rfl, rfl⟩ hfr
  · rw [hfams]
    rfl

theorem split_frame (L : Layout) (s s' : mm_state) (f : FamPtr) (fam : vm_page_family_t)
    (a r : Nat) (status : Bool) (hf : get_family s f = some fam)
    (h : mm_split_free_data_block_for_allocation L s f a r = Except.ok (status, s')) :
    same_frame s s' ∧ ∃ l', s'.first_vm_page_for_families =
      set_family_in s.first_vm_page_for_families f
        { fam with free_block_priority_list_head := l' } := by
  unfold mm_split_free_data_block_for_allocation at h
  simp only [bind_eq_ok_iff, read_block_eq_ok] at h
  obtain ⟨b, ⟨_, rfl⟩, h⟩ := h
  split at h
  · cases h
  · split at h
    · simp only [pure_eq_ok, Except.ok.injEq, Prod.mk.injEq] at h
      obtain ⟨_, rfl⟩ := h
      refine ⟨same_frame_refl _, fam.free_block_priority_list_head, ?_⟩
      have := hf
      unfold get_family at this
      rw [set_family_in_get _ _ _ this]
    · simp only [bind_eq_ok_iff, read_block_eq_ok, write_block_eq_ok, read_family_eq_ok,
        write_family_eq_ok] at h
      obtain ⟨s1, ⟨_, rfl⟩, b1, ⟨_, rfl⟩, s2, ⟨_, rfl⟩, fam1, hfam1, s3, ⟨_, rfl⟩, fam2, hfam2,
        h⟩ := h
      simp only [get_family_set_block, hf, Option.some.injEq] at hfam1
      subst hfam1
      have hfam2e : fam2 = vm_page_family_t.mk fam.struct_name fam.struct_size fam.first_page
          (remove_glthread a fam.free_block_priority_list_head) := by
        have h2 := hfam2
        rw [get_family_set_family _ f f _ fam (by simp only [get_family_set_block]; exact hf),
          if_pos rfl] at h2
        exact (Option.some.inj h2).symm
      subst hfam2e
      have hplain : same_frame s (set_family (set_block (set_block s a
          { s.block a with is_free := false }) a
          { (set_block s a { s.block a with is_free := false }).block a with block_size := r })
          f { fam with free_block_priority_list_head :=
                remove_glthread a fam.free_block_priority_list_head }) ∧
          ∃ l', (set_family (set_block (set_block s a
          { s.block a with is_free := false }) a
          { (set_block s a { s.block a with is_free := false }).block a with block_size := r })
          f { fam with free_block_priority_list_head :=
                remove_glthread a fam.free_block_priority_list_head }).first_vm_page_for_families
            = set_family_in s.first_vm_page_for_families f
              { fam with free_block_priority_list_head := l' } :=
        ⟨⟨rfl, rfl, rfl, rfl, rfl, rfl⟩, _, rfl⟩
      have hcarve : ∀ (rem : Nat) (st : Bool) (t : mm_state), (do
          let b ← read_block (set_family (set_block (set_block s a
            { s.block a with is_free := false }) a
            { (set_block s a { s.block a with is_free := false }).block a with
              block_size := r })
            f { fam with free_block_priority_list_head :=
                  remove_glthread a fam.free_block_priority_list_head }) a
          let next_block_meta_data := NEXT_META_BLOCK_BY_SIZE L a b
          let nb ← read_block (set_family (set_block (set_block s a
            { s.block a with is_free := false }) a
            { (set_block s a { s.block a with is_free := false }).block a with
              block_size := r })
            f { fam with free_block_priority_list_head :=
                  remove_glthread a fam.free_block_priority_list_head }) next_block_meta_data
          let s ← write_block (set_family (set_block (set_block s a
            { s.block a with is_free := false }) a
            { (set_block s a { s.block a with is_free := false }).block a with
              block_size := r })
            f { fam with free_block_priority_list_head :=
                  remove_glthread a fam.free_block_priority_list_head }) next_block_meta_data
            { nb with is_free := true }
          let nb ← read_block s next_block_meta_data
          let s ← write_block s next_block_meta_data
            { nb with block_size := u32 ((rem : Int) - (L.H : Int)) }
          let b ← read_block s a
          let nb ← read_block s next_block_meta_data
          let s ← write_block s next_block_meta_data
            { nb with offset := u32 ((b.offset : Int) + (L.H : Int) + (b.block_size : Int)) }
          let s ← mm_add_free_block_meta_data_to_free_block_list s f next_block_meta_data
          let s ← mm_bind_blocks_for_allocation s a next_block_meta_data
          pure (true, s) : Except Fault (Bool × mm_state)) = Except.ok (st, t) →
          same_frame s t ∧ ∃ l', t.first_vm_page_for_families =
            set_family_in s.first_vm_page_for_families f
              { fam with free_block_priority_list_head := l' } := by
        intro rem st t ht
        obtain ⟨hfr, l', hl'⟩ := carve_frame L _ t f _ a rem st hfam2 ht
        refine ⟨same_frame_trans _ _ _ hplain.1 hfr, l', ?_⟩
        rw [hl']
        simp only [set_family_families, set_block_families, set_family_in_twice]
      split at h
      · simp only [pure_eq_ok, Except.ok.injEq, Prod.mk.injEq] at h
        obtain ⟨_, rfl⟩ := h
        exact hplain
      · split at h
        · exact hcarve _ _ _ h
        · split at h
          · simp only [pure_eq_ok, Except.ok.injEq, Prod.mk.injEq] at h
            obtain ⟨_, rfl⟩ := h
            exact hplain
          · exact hcarve _ _ _ h

/-! ## The page that `allocate_vm_page` adds -/

theorem with_new_page_block (L : Layout) (s : mm_state) (f : FamPtr) (fam : vm_page_family_t)
    (P : Nat) (k : List (Option Nat)) (x : Nat) :
    (with_new_page L s f fam P k).block x =
      if x = P + L.BMO then
        { is_free := true, block_size := mm_max_page_allocatable_memory L s 1, offset := L.BMO,
          prev_block := none, next_block := none }
      else if in_region x (P, s.SYSTEM_PAGE_SIZE) then zero_block else s.block x := by
  unfold with_new_page
  cases fam.first_page <;> simp

theorem with_new_page_frame (L : Layout) (s : mm_state) (f : FamPtr) (fam : vm_page_family_t)
    (P : Nat) (k : List (Option Nat)) :
    (with_new_page L s f fam P k).mapped = (P, s.SYSTEM_PAGE_SIZE) :: s.mapped ∧
      (with_new_page L s f fam P k).kernel = k ∧
      (with_new_page L s f fam P k).SYSTEM_PAGE_SIZE = s.SYSTEM_PAGE_SIZE ∧
      (with_new_page L s f fam P k).returned = s.returned := by
  unfold with_new_page
  cases fam.first_page <;> simp

theorem is_mapped_with_new_page (L : Layout) (s : mm_state) (f : FamPtr)
    (fam : vm_page_family_t) (P : Nat) (k : List (Option Nat)) (x : Nat) :
    is_mapped (with_new_page L s f fam P k) x =
      (in_region x (P, s.SYSTEM_PAGE_SIZE) || is_mapped s x) := by
  unfold is_mapped
  rw [(with_new_page_frame L s f fam P k).1]
  simp

theorem get_family_with_new_page (L : Layout) (s : mm_state) (f : FamPtr)
    (fam : vm_page_family_t) (P : Nat) (k : List (Option Nat))
    (hf : get_family s f = some fam) :
    get_family (with_new_page L s f fam P k) f = some { fam with first_page := some P } := by
  unfold with_new_page
  cases fam.first_page <;> simp [get_family_set_family_some, hf]

theorem with_new_page_next (L : Layout) (s : mm_state) (f : FamPtr) (fam : vm_page_family_t)
    (P : Nat) (k : List (Option Nat)) (x : Nat) (hPAGE : 0 < s.SYSTEM_PAGE_SIZE)
    (hx : in_region x (P, s.SYSTEM_PAGE_SIZE) = false) :
    ((with_new_page L s f fam P k).page x).next = (s.page x).next := by
  have hne : x ≠ P := by
    intro hc
    rw [hc, in_region_self _ _ hPAGE] at hx
    cases hx
  unfold with_new_page
  cases fam.first_page with
  | none => simp [hx, hne]
  | some q =>
    simp only [set_family_page, set_block_page, set_page_page, map_region_page, hx, hne,
      if_false, Bool.false_eq_true]
    split <;> simp_all

theorem with_new_page_head (L : Layout) (s : mm_state) (f : FamPtr) (fam : vm_page_family_t)
    (P : Nat) (k : List (Option Nat)) (hPAGE : 0 < s.SYSTEM_PAGE_SIZE)
    (hfirst : ∀ q, fam.first_page = some q → in_region q (P, s.SYSTEM_PAGE_SIZE) = false) :
    ((with_new_page L s f fam P k).page P).next = fam.first_page := by
  unfold with_new_page
  cases hfp : fam.first_page with
  | none => simp
  | some q =>
    have hq := hfirst q hfp
    have hqP : P ≠ q := by
      intro hc
      rw [← hc, in_region_self _ _ hPAGE] at hq
      cases hq
    simp [hqP]

/-- The call `mm_family_new_page_add` when the page source hands out `P`. -/
theorem new_page_add_forward (L : Layout) (s : mm_state) (f : FamPtr) (fam : vm_page_family_t)
    (P : Nat) (k : List (Option Nat))
    (hf : get_family s f = some fam) (hk : s.kernel = some P :: k)
    (hB : L.BMO < s.SYSTEM_PAGE_SIZE)
    (hfirst : ∀ q, fam.first_page = some q → is_mapped s q = true)
    (hl : ∀ x ∈ fam.free_block_priority_list_head, is_mapped s x = true) :
    ∃ l1, mm_family_new_page_add L s f =
        Except.ok (P, set_family (with_new_page L s f fam P k) f
          { first_page := some P, struct_name := fam.struct_name,
            struct_size := fam.struct_size, free_block_priority_list_head := l1 }) ∧
      ∀ x, x ∈ l1 ↔ (x = P + L.BMO ∨ x ∈ fam.free_block_priority_list_head) := by
  have hmP : is_mapped (with_new_page L s f fam P k) (P + L.BMO) = true := by
    rw [is_mapped_with_new_page, in_region_add _ _ _ hB]
    rfl
  have hfree : ((with_new_page L s f fam P k).block (P + L.BMO)).is_free = true := by
    rw [with_new_page_block, if_pos rfl]
  obtain ⟨l1, hadd, hmem⟩ := add_free_block_forward (with_new_page L s f fam P k) f (P + L.BMO)
    { fam with first_page := some P } hmP hfree (get_family_with_new_page L s f fam P k hf)
    (by
      intro x hx
      rw [is_mapped_with_new_page, hl x hx]
      simp)
  refine ⟨l1, ?_, hmem⟩
  unfold mm_family_new_page_add
  rw [allocate_vm_page_new L s f fam P k hf hk hB hfirst]
  simp only [bind_ok_eq]
  rw [hadd]
  rfl

/-- The split of a free block that is large enough returns `MM_TRUE`; what
it leaves of the block and of the family's index. -/
theorem split_forward (L : Layout) (s : mm_state) (f : FamPtr) (fam : vm_page_family_t)
    (a r : Nat) (hH : 0 < L.H)
    (hm : is_mapped s a = true) (hfree : (s.block a).is_free = true)
    (hle : r ≤ (s.block a).block_size)
    (hf : get_family s f = some fam)
    (hl : ∀ x ∈ fam.free_block_priority_list_head, is_mapped s x = true)
    (hcarve : L.H ≤ (s.block a).block_size - r →
      is_mapped s (a + L.H + r) = true ∧
      (∀ c : Nat, (s.block a).next_block = some c →
        is_mapped s c = true ∧ c ≠ a ∧ c ≠ a + L.H + r) ∧
      (s.block a).offset + L.H + r < 4294967296 ∧ (s.block a).block_size < 4294967296) :
    ∃ s' l', mm_split_free_data_block_for_allocation L s f a r = Except.ok (true, s') ∧
      same_frame s s' ∧
      s'.first_vm_page_for_families =
        set_family_in s.first_vm_page_for_families f
          { fam with free_block_priority_list_head := l' } ∧
      (∀ x ∈ l', x ≠ a) ∧ (s'.block a).is_free = false ∧ (s'.block a).block_size = r := by
  by_cases hr : L.H ≤ (s.block a).block_size - r
  · obtain ⟨hmn, hc, hoff, hsz⟩ := hcarve hr
    obtain ⟨s', l', hrun, hfr, hfam, hmem, hblk⟩ :=
      split_carves L s f fam a r hH hm hfree hle hr hf hl hmn hc hoff hsz
    refine ⟨s', l', hrun, hfr, hfam, ?_, ?_, ?_⟩
    · intro x hx
      rcases (hmem x).mp hx with h1 | h1
      · omega
      · exact h1.2
    · rw [hblk a, if_pos rfl]
    · rw [hblk a, if_pos rfl]
  · refine ⟨_, remove_glthread a fam.free_block_priority_list_head,
      split_no_remainder L s f fam a r hm hfree hle (Or.inr (by omega)) hf,
      ⟨rfl, rfl, rfl, rfl, rfl, rfl⟩, rfl, ?_, ?_, ?_⟩
    · intro x hx
      exact ((mem_remove_glthread a x _).mp hx).2
    · simp
    · simp

theorem with_new_page_families (L : Layout) (s : mm_state) (f : FamPtr)
    (fam : vm_page_family_t) (P : Nat) (k : List (Option Nat)) :
    (with_new_page L s f fam P k).first_vm_page_for_families =
      set_family_in s.first_vm_page_for_families f { fam with first_page := some P } := by
  unfold with_new_page
  cases fam.first_page <;> rfl

/-- The branch of `mm_allocate_free_data_block` that takes a new page `P`,
when the family's index is empty or its head is smaller than the request. -/
theorem allocate_from_new_page (L : Layout) (s : mm_state) (f : FamPtr)
    (fam : vm_page_family_t) (req P : Nat) (k : List (Option Nat))
    (hf : get_family s f = some fam) (hk : s.kernel = some P :: k)
    (hl : ∀ x ∈ fam.free_block_priority_list_head, is_mapped s x = true)
    (hfirst : ∀ q, fam.first_page = some q → is_mapped s q = true)
    (hH : 0 < L.H) (hlay : L.BMO + L.H ≤ L.PMO) (hfit : L.PMO ≤ s.SYSTEM_PAGE_SIZE)
    (hPS : s.SYSTEM_PAGE_SIZE < 2147483648)
    (hreq : req ≤ mm_max_page_allocatable_memory L s 1)
    (hsmall : ∀ big, fam.free_block_priority_list_head.head? = some big →
      (s.block big).block_size < req) :
    ∃ l1 s' l',
      mm_family_new_page_add L s f =
        Except.ok (P, set_family (with_new_page L s f fam P k) f
          { first_page := some P, struct_name := fam.struct_name,
            struct_size := fam.struct_size, free_block_priority_list_head := l1 }) ∧
      (∀ x, x ∈ l1 ↔ (x = P + L.BMO ∨ x ∈ fam.free_block_priority_list_head)) ∧
      mm_allocate_free_data_block L s f req = Except.ok (some (P + L.BMO), s') ∧
      same_frame (with_new_page L s f fam P k) s' ∧
      s'.first_vm_page_for_families =
        set_family_in s.first_vm_page_for_families f
          { first_page := some P, struct_name := fam.struct_name,
            struct_size := fam.struct_size, free_block_priority_list_head := l' } ∧
      (∀ x ∈ l', x ≠ P + L.BMO) ∧ (s'.block (P + L.BMO)).is_free = false ∧
      (s'.block (P + L.BMO)).block_size = req := by
  have hB : L.BMO < s.SYSTEM_PAGE_SIZE := by omega
  have hcapv := max_alloc_one L s hfit hPS
  obtain ⟨l1, hadd, hmem1⟩ := new_page_add_forward L s f fam P k hf hk hB hfirst hl
  have hblk : (set_family (with_new_page L s f fam P k) f
      { first_page := some P, struct_name := fam.struct_name,
        struct_size := fam.struct_size, free_block_priority_list_head := l1 }).block
        (P + L.BMO) =
      { is_free := true, block_size := mm_max_page_allocatable_memory L s 1, offset := L.BMO,
        prev_block := none, next_block := none } := by
    rw [set_family_block, with_new_page_block, if_pos rfl]
  obtain ⟨s', l', hsplit, hfr, hfam, hnot, hfree', hsize'⟩ :=
    split_forward L (set_family (with_new_page L s f fam P k) f
      { first_page := some P, struct_name := fam.struct_name,
        struct_size := fam.struct_size, free_block_priority_list_head := l1 }) f
      { first_page := some P, struct_name := fam.struct_name,
        struct_size := fam.struct_size, free_block_priority_list_head := l1 }
      (P + L.BMO) req hH
      (by
        rw [is_mapped_set_family, is_mapped_with_new_page, in_region_add _ _ _ hB]
        rfl)
      (by rw [hblk])
      (by rw [hblk]; exact hreq)
      (by
        rw [get_family_set_family_some _ _ _ _
          (by rw [get_family_with_new_page L s f fam P k hf]; rfl), if_pos rfl])
      (by
        intro x hx
        rw [is_mapped_set_family, is_mapped_with_new_page]
        rcases (hmem1 x).mp hx with h1 | h1
        · rw [h1, in_region_add _ _ _ hB]
          rfl
        · rw [hl x h1]
          simp)
      (by
        rw [hblk]
        intro hc
        simp only at hc
        refine ⟨?_, ?_, ?_, ?_⟩
        · rw [is_mapped_set_family, is_mapped_with_new_page]
          have : in_region (P + L.BMO + L.H + req) (P, s.SYSTEM_PAGE_SIZE) = true := by
            rw [in_region_iff]
            omega
          rw [this]
          rfl
        · intro c hcn
          cases hcn
        · simp only
          omega
        · simp only
          omega)
  refine ⟨l1, s', l', hadd, hmem1, ?_, ?_, ?_, hnot, hfree', hsize'⟩
  · unfold mm_allocate_free_data_block
    simp only [read_family, hf, bind_ok_eq, mm_get_biggest_free_block_page_family]
    cases hh : fam.free_block_priority_list_head.head? with
    | none =>
      simp only [pure_eq_ok, bind_ok_eq, if_true]
      rw [hadd]
      simp only [bind_ok_eq]
      rw [hsplit]
      rfl
    | some big =>
      have hmb : is_mapped s big = true := hl big (List.mem_of_mem_head? hh)
      simp only [read_block_of_mapped _ _ hmb, bind_ok_eq, hsmall big hh, decide_True,
        pure_eq_ok, if_true]
      rw [hadd]
      simp only [bind_ok_eq]
      rw [hsplit]
      rfl
  · exact same_frame_trans _ _ _ (same_frame_set_family _ _ _) hfr
  · rw [hfam, set_family_families, with_new_page_families, set_family_in_twice,
      set_family_in_twice]

/-- The branch of `mm_allocate_free_data_block` that serves the request from
the head `big` of the family's index. -/
theorem allocate_from_head (L : Layout) (s : mm_state) (f : FamPtr)
    (fam : vm_page_family_t) (req big : Nat)
    (hf : get_family s f = some fam)
    (hl : ∀ x ∈ fam.free_block_priority_list_head, is_mapped s x = true)
    (hH : 0 < L.H)
    (hhead : fam.free_block_priority_list_head.head? = some big)
    (hbig : req ≤ (s.block big).block_size)
    (hfree : (s.block big).is_free = true)
    (hcarve : L.H ≤ (s.block big).block_size - req →
      is_mapped s (big + L.H + req) = true ∧
      (∀ c : Nat, (s.block big).next_block = some c →
        is_mapped s c = true ∧ c ≠ big ∧ c ≠ big + L.H + req) ∧
      (s.block big).offset + L.H + req < 4294967296 ∧
      (s.block big).block_size < 4294967296) :
    ∃ s' l', mm_allocate_free_data_block L s f req = Except.ok (some big, s') ∧
      same_frame s s' ∧
      s'.first_vm_page_for_families =
        set_family_in s.first_vm_page_for_families f
          { fam with free_block_priority_list_head := l' } ∧
      (∀ x ∈ l', x ≠ big) ∧ (s'.block big).is_free = false ∧
      (s'.block big).block_size = req := by
  have hmb : is_mapped s big = true := hl big (List.mem_of_mem_head? hhead)
  obtain ⟨s', l', hsplit, hfr, hfam, hnot, hfree', hsize'⟩ :=
    split_forward L s f fam big req hH hmb hfree hbig hf hl hcarve
  refine ⟨s', l', ?_, hfr, hfam, hnot, hfree', hsize'⟩
  unfold mm_allocate_free_data_block
  have hnlt : ¬ (s.block big).block_size < req := by omega
  simp only [read_family, hf, bind_ok_eq, mm_get_biggest_free_block_page_family, hhead,
    read_block_of_mapped _ _ hmb, hnlt, decide_False, pure_eq_ok, Bool.false_eq_true, if_false]
  rw [hsplit]
  rfl

/-- Whatever `mm_allocate_free_data_block` returns when the head of the
family's index is large enough, no page was taken from the page source. -/
theorem allocate_head_frame (L : Layout) (s s' : mm_state) (f : FamPtr)
    (fam : vm_page_family_t) (req big : Nat) (r : Option Nat)
    (hf : get_family s f = some fam)
    (hhead : fam.free_block_priority_list_head.head? = some big)
    (hbig : req ≤ (s.block big).block_size)
    (h : mm_allocate_free_data_block L s f req = Except.ok (r, s')) :
    same_frame s s' ∧ ∃ l', s'.first_vm_page_for_families =
      set_family_in s.first_vm_page_for_families f
        { fam with free_block_priority_list_head := l' } := by
  unfold mm_allocate_free_data_block at h
  have hnlt : ¬ (s.block big).block_size < req := by omega
  simp only [read_family, hf, bind_ok_eq, mm_get_biggest_free_block_page_family, hhead,
    bind_eq_ok_iff, read_block_eq_ok, pure_eq_ok, Except.ok.injEq] at h
  obtain ⟨too, ⟨bb, ⟨_, rfl⟩, rfl⟩, h⟩ := h
  simp only [hnlt, decide_False, Bool.false_eq_true, if_false, bind_eq_ok_iff] at h
  obtain ⟨⟨st, t⟩, hsplit, h⟩ := h
  obtain ⟨hfr, l', hl'⟩ := split_frame L s t f fam big req st hf hsplit
  have ht : t = s' := by
    cases st <;> simp [pure, Except.pure] at h <;> exact h.2
  subst ht
  exact ⟨hfr, l', hl'⟩

/-- The capacity check where the index and the page list lie in mapped
memory: the family `fam` in the slot `f` asks `mm_allocate_free_data_block`
for `req` bytes, `req` within the capacity of a page, while the page source
is about to hand out the page `P`.  If the family's index is empty or its
head block is smaller than `req`, the call takes the page `P`: after
`mm_family_new_page_add` the page holds one free block of the full capacity,
without neighbours, which is in the family's index; the call then returns
this block, `P` is the first page of the family, and the pages the family had
follow it in their old order.  If the head block has at least `req` bytes, no
result of the call has taken a page: the mapped regions, the page source and
the family's page list are what they were; and the call does return the head
block when that block is free and, should a new block be carved from it,
lies with its successor in mapped memory. -/
theorem allocate_takes_page_iff_head_too_small (L : Layout) (s : mm_state) (f : FamPtr)
    (fam : vm_page_family_t) (req P : Nat) (k : List (Option Nat))
    (hf : get_family s f = some fam)
    (hreq : req ≤ mm_max_page_allocatable_memory L s 1)
    (hk : s.kernel = some P :: k)
    (hfresh : ∀ a, is_mapped s a = true → in_region a (P, s.SYSTEM_PAGE_SIZE) = false)
    (hl : ∀ x ∈ fam.free_block_priority_list_head, is_mapped s x = true)
    (hpages : ∀ n, ∀ q ∈ family_pages s n fam.first_page, is_mapped s q = true)
    (hH : 0 < L.H) (hlay : L.BMO + L.H ≤ L.PMO) (hfit : L.PMO ≤ s.SYSTEM_PAGE_SIZE)
    (hPS : s.SYSTEM_PAGE_SIZE < 2147483648) :
    ((fam.free_block_priority_list_head.head? = none ∨
        ∃ big, fam.free_block_priority_list_head.head? = some big ∧
          (s.block big).block_size < req) →
      ∃ s1 s', mm_family_new_page_add L s f = Except.ok (P, s1) ∧
        s1.block (P + L.BMO) =
          { is_free := true, block_size := mm_max_page_allocatable_memory L s 1,
            offset := L.BMO, prev_block := none, next_block := none } ∧
        P + L.BMO ∈ free_list_of s1 f ∧
        mm_allocate_free_data_block L s f req = Except.ok (some (P + L.BMO), s') ∧
        s'.mapped = (P, s.SYSTEM_PAGE_SIZE) :: s.mapped ∧ s'.kernel = k ∧
        first_page_of s' f = some P ∧
        ∀ n, family_pages s' (n + 1) (first_page_of s' f) =
          P :: family_pages s n fam.first_page) ∧
    (∀ big, fam.free_block_priority_list_head.head? = some big →
        req ≤ (s.block big).block_size →
      (∀ r s', mm_allocate_free_data_block L s f req = Except.ok (r, s') →
        s'.mapped = s.mapped ∧ s'.kernel = s.kernel ∧
        first_page_of s' f = fam.first_page ∧
        ∀ n, family_pages s' n (first_page_of s' f) = family_pages s n fam.first_page) ∧
      ((s.block big).is_free = true →
        (L.H ≤ (s.block big).block_size - req →
          is_mapped s (big + L.H + req) = true ∧
          (∀ c : Nat, (s.block big).next_block = some c →
            is_mapped s c = true ∧ c ≠ big ∧ c ≠ big + L.H + req) ∧
          (s.block big).offset + L.H + req < 4294967296 ∧
          (s.block big).block_size < 4294967296) →
        ∃ s', mm_allocate_free_data_block L s f req = Except.ok (some big, s'))) := by
  have hPAGE : 0 < s.SYSTEM_PAGE_SIZE := by omega
  have hfirst : ∀ q, fam.first_page = some q → is_mapped s q = true := by
    intro q hq
    apply hpages 1 q
    rw [hq]
    simp [family_pages]
  constructor
  · intro hcond
    have hsmall : ∀ big, fam.free_block_priority_list_head.head? = some big →
        (s.block big).block_size < req := by
      intro big hb
      rcases hcond with h0 | ⟨b, hb', hlt⟩
      · rw [h0] at hb
        cases hb
      · rw [hb'] at hb
        cases hb
        exact hlt
    obtain ⟨l1, s', l', hadd, hmem1, hrun, hfr, hfam, _, _, _⟩ :=
      allocate_from_new_page L s f fam req P k hf hk hl hfirst hH hlay hfit hPS hreq hsmall
    have hfp : first_page_of s' f = some P := by
      unfold first_page_of
      rw [get_family_of_families s s' f fam _ hf hfam]
    have hpage : s'.page = (with_new_page L s f fam P k).page := hfr.2.2.1
    refine ⟨_, s', hadd, ?_, ?_, hrun, ?_, ?_, hfp, ?_⟩
    · rw [set_family_block, with_new_page_block, if_pos rfl]
    · unfold free_list_of
      rw [get_family_set_family_some _ _ _ _
        (by rw [get_family_with_new_page L s f fam P k hf]; rfl), if_pos rfl]
      exact (hmem1 _).mpr (Or.inl rfl)
    · rw [hfr.2.1, (with_new_page_frame L s f fam P k).1]
    · rw [hfr.2.2.2.2.1, (with_new_page_frame L s f fam P k).2.1]
    · intro n
      rw [hfp]
      simp only [family_pages]
      rw [hpage, with_new_page_head L s f fam P k hPAGE
        (fun q hq => hfresh q (hfirst q hq))]
      rw [family_pages_congr s s' (fun x hx => by
        rw [hpage]
        exact with_new_page_next L s f fam P k x hPAGE (hfresh x hx)) n _ (hpages n)]
  · intro big hhead hbig
    constructor
    · intro r s' hrun
      obtain ⟨hfr, l', hfam⟩ := allocate_head_frame L s s' f fam req big r hf hhead hbig hrun
      have hfp : first_page_of s' f = fam.first_page := by
        unfold first_page_of
        rw [get_family_of_families s s' f fam _ hf hfam]
      refine ⟨hfr.2.1, hfr.2.2.2.2.1, hfp, ?_⟩
      intro n
      rw [hfp]
      exact family_pages_congr s s' (fun x _ => by rw [hfr.2.2.1]) n _ (hpages n)
    · intro hfree hcarve
      obtain ⟨s', _, hrun, _⟩ :=
        allocate_from_head L s f fam req big hf hl hH hhead hbig hfree hcarve
      exact ⟨s', hrun⟩

theorem allocate_takes_page_iff_head_too_small_witness :
    ∃ s1 s', mm_family_new_page_add L40 page_walk_2 (4096, 0) = Except.ok (12288, s1) ∧
      s1.block (12288 + L40.BMO) =
        { is_free := true, block_size := mm_max_page_allocatable_memory L40 page_walk_2 1,
          offset := L40.BMO, prev_block := none, next_block := none } ∧
      12288 + L40.BMO ∈ free_list_of s1 (4096, 0) ∧
      mm_allocate_free_data_block L40 page_walk_2 (4096, 0) 4000 =
        Except.ok (some (12288 + L40.BMO), s') ∧
      s'.mapped = (12288, page_walk_2.SYSTEM_PAGE_SIZE) :: page_walk_2.mapped ∧
      s'.kernel = [] ∧
      first_page_of s' (4096, 0) = some 12288 ∧
      ∀ n, family_pages s' (n + 1) (first_page_of s' (4096, 0)) =
        12288 :: family_pages page_walk_2 n (some 8192) :=
  (allocate_takes_page_iff_head_too_small L40 page_walk_2 (4096, 0)
    (vm_page_family_t.mk "Employee".toList 64 (some 8192) [8296]) 4000 12288 [] rfl
    (Nat.le_of_ble_eq_true rfl) rfl
    (by
      intro a ha
      have hm : page_walk_2.mapped = [(8192, 4096), (4096, 4096)] := rfl
      have hs : page_walk_2.SYSTEM_PAGE_SIZE = 4096 := rfl
      simp only [is_mapped, hm, List.any_cons, List.any_nil, Bool.or_false, in_region,
        Bool.and_eq_true, Bool.or_eq_true, decide_eq_true_eq] at ha
      simp only [in_region, hs, Bool.and_eq_false_imp, decide_eq_true_eq,
        decide_eq_false_iff_not]
      intro h3 _
      omega)
    (by
      intro x hx
      simp only [List.mem_singleton] at hx
      subst hx
      rfl)
    (by
      intro n q hq
      have hnext : (page_walk_2.page 8192).next = none := rfl
      cases n with
      | zero => simp [family_pages] at hq
      | succ m =>
        simp only [family_pages, hnext] at hq
        cases m <;> simp [family_pages] at hq <;> subst hq <;> rfl)
    (by decide) (by decide) (by decide) (by decide)).1
    (Or.inr ⟨8296, rfl,
      (Nat.le_of_ble_eq_true rfl : (page_walk_2.block 8296).block_size + 1 ≤ 4000)⟩)

/-! ## The result of `xcalloc` -/

theorem is_mapped_of_region (s : mm_state) (x : Nat) (r : Nat × Nat) (hr : r ∈ s.mapped)
    (h1 : r.1 ≤ x) (h2 : x < r.1 + r.2) : is_mapped s x = true := by
  unfold is_mapped
  rw [List.any_eq_true]
  exact ⟨r, hr, by simp [in_region, h1, h2]⟩

/-- What `xcalloc` makes of a block that `mm_allocate_free_data_block` hands
over: the bytes behind the header are set to zero and the pointer to them is
returned. -/
theorem xcalloc_serves (L : Layout) (s : mm_state) (name : List Char) (units : Int)
    (f : FamPtr) (fam v : vm_page_family_t) (b : Nat) (s1 : mm_state) (r : Nat × Nat)
    (hl : lookup_page_family_by_name L s name = some f)
    (hf : get_family s f = some fam)
    (hcap : u32 (units * (fam.struct_size : Int)) ≤ mm_max_page_allocatable_memory L s 1)
    (hrun : mm_allocate_free_data_block L s f (u32 (units * (fam.struct_size : Int))) =
      Except.ok (some b, s1))
    (hH : 0 < L.H)
    (hfree : (s1.block b).is_free = false)
    (hsize : (s1.block b).block_size = u32 (units * (fam.struct_size : Int)))
    (hr : r ∈ s1.mapped) (h1 : r.1 ≤ b)
    (h2 : b + L.H + u32 (units * (fam.struct_size : Int)) ≤ r.1 + r.2)
    (hfam : s1.first_vm_page_for_families = set_family_in s.first_vm_page_for_families f v)
    (hnot : ∀ x ∈ v.free_block_priority_list_head, x ≠ b) :
    ∃ s', xcalloc L s name units = Except.ok (some (b + L.H), s') ∧
      (s'.block b).is_free = false ∧
      (s'.block b).block_size = u32 (units * (fam.struct_size : Int)) ∧
      b ∉ free_list_of s' f ∧
      ∀ x, b + L.H ≤ x → x < b + L.H + u32 (units * (fam.struct_size : Int)) →
        s'.byte x = 0 := by
  have hmb : is_mapped s1 b = true := is_mapped_of_region s1 b r hr h1 (by omega)
  have hbelow : in_region b (b + L.H, u32 (units * (fam.struct_size : Int))) = false :=
    in_region_below _ _ _ (by omega)
  refine ⟨zero_fill s1 (b + L.H, u32 (units * (fam.struct_size : Int))), ?_, ?_, ?_, ?_, ?_⟩
  · unfold xcalloc
    have hng : ¬ u32 (units * (fam.struct_size : Int)) > mm_max_page_allocatable_memory L s 1 := by
      omega
    simp only [hl, read_family, hf, bind_ok_eq, hng, if_false]
    rw [hrun]
    simp only [bind_ok_eq, read_block_of_mapped _ _ hmb, hsize]
    rw [memset_zero_of_range _ _ _ (range_mapped_of_region _ _ _ r hr (by omega) (by omega))]
    rfl
  · rw [zero_fill_block, hbelow]
    exact hfree
  · rw [zero_fill_block, hbelow]
    exact hsize
  · unfold free_list_of
    rw [get_family_zero_fill, get_family_of_families s s1 f fam v hf hfam]
    intro hc
    exact hnot b hc rfl
  · intro x hx1 hx2
    rw [zero_fill_byte, (in_region_iff _ _ _).mpr ⟨hx1, hx2⟩]
    rfl

/-- The contract of `xcalloc` on a sound index: the name is registered,
`units` times the unit size is within the capacity of a page, the page source
is about to hand out the page `P`, the entries of the family's index lie in
mapped memory, and the head of the index, if it is large enough for the
request, is a free block that lies with its usable bytes in one mapped region
in front of its successor.  Then `xcalloc` returns the address `H` past a
header `b`; the block at `b` is marked allocated, is not in the family's
index, has the recorded size `units` times the unit size, and its bytes are
zero. -/
theorem xcalloc_result_of_sound_index (L : Layout) (s : mm_state) (name : List Char)
    (units : Int) (f : FamPtr) (fam : vm_page_family_t) (P : Nat) (k : List (Option Nat))
    (hl : lookup_page_family_by_name L s name = some f)
    (hf : get_family s f = some fam)
    (hu : 0 ≤ units)
    (hreq : units * (fam.struct_size : Int) ≤ (mm_max_page_allocatable_memory L s 1 : Int))
    (hk : s.kernel = some P :: k)
    (hidx : ∀ x ∈ fam.free_block_priority_list_head, is_mapped s x = true)
    (hfirst : ∀ q, fam.first_page = some q → is_mapped s q = true)
    (hH : 0 < L.H) (hlay : L.BMO + L.H ≤ L.PMO) (hfit : L.PMO ≤ s.SYSTEM_PAGE_SIZE)
    (hPS : s.SYSTEM_PAGE_SIZE < 2147483648)
    (hhead : ∀ big, fam.free_block_priority_list_head.head? = some big →
      (units * (fam.struct_size : Int)).toNat ≤ (s.block big).block_size →
      (s.block big).is_free = true ∧
      (∃ r ∈ s.mapped, r.1 ≤ big ∧ big + L.H + (s.block big).block_size ≤ r.1 + r.2) ∧
      (∀ c : Nat, (s.block big).next_block = some c →
        is_mapped s c = true ∧ big + L.H + (s.block big).block_size ≤ c) ∧
      (s.block big).offset + L.H + (s.block big).block_size < 4294967296) :
    ∃ b s', xcalloc L s name units = Except.ok (some (b + L.H), s') ∧
      (s'.block b).is_free = false ∧
      ((s'.block b).block_size : Int) = units * (fam.struct_size : Int) ∧
      b ∉ free_list_of s' f ∧
      ∀ x, b + L.H ≤ x → x < b + L.H + (s'.block b).block_size → s'.byte x = 0 := by
  have hcapv := max_alloc_one L s hfit hPS
  have hnn : 0 ≤ units * (fam.struct_size : Int) :=
    Int.mul_nonneg hu (Int.ofNat_nonneg _)
  have hu32 : u32 (units * (fam.struct_size : Int)) = (units * (fam.struct_size : Int)).toNat := by
    unfold u32
    rw [Int.emod_eq_of_lt hnn (by omega)]
  have hcast : (((units * (fam.struct_size : Int)).toNat : Nat) : Int) =
      units * (fam.struct_size : Int) := Int.toNat_of_nonneg hnn
  have hcap : u32 (units * (fam.struct_size : Int)) ≤ mm_max_page_allocatable_memory L s 1 := by
    rw [hu32]
    omega
  have hB : L.BMO < s.SYSTEM_PAGE_SIZE := by omega
  by_cases hsmall : ∀ big, fam.free_block_priority_list_head.head? = some big →
      (s.block big).block_size < u32 (units * (fam.struct_size : Int))
  · obtain ⟨l1, s1, l', _, _, hrun, hfr, hfam, hnot, hfree, hsize⟩ :=
      allocate_from_new_page L s f fam _ P k hf hk hidx hfirst hH hlay hfit hPS hcap hsmall
    obtain ⟨s', hx, h1, h2, h3, h4⟩ := xcalloc_serves L s name units f fam _ (P + L.BMO) s1
      (P, s.SYSTEM_PAGE_SIZE) hl hf hcap hrun hH hfree hsize
      (by
        rw [hfr.2.1, (with_new_page_frame L s f fam P k).1]
        exact List.mem_cons_self _ _)
      (by simp only; omega) (by simp only; omega) hfam hnot
    refine ⟨P + L.BMO, s', hx, h1, ?_, h3, ?_⟩
    · rw [h2, hu32, hcast]
    · rw [h2]
      exact h4
  · simp only [not_forall, not_lt] at hsmall
    obtain ⟨big, hhd, hbig⟩ := hsmall
    obtain ⟨hfree0, ⟨r, hr, hr1, hr2⟩, hnext, hoff⟩ := hhead big hhd (by rw [← hu32]; exact hbig)
    obtain ⟨s1, l', hrun, hfr, hfam, hnot, hfree, hsize⟩ :=
      allocate_from_head L s f fam _ big hf hidx hH hhd hbig hfree0
        (by
          intro hc
          refine ⟨is_mapped_of_region s _ r hr (by omega) (by omega), ?_, by omega, by omega⟩
          intro c hcn
          obtain ⟨hmc, hge⟩ := hnext c hcn
          exact ⟨hmc, by omega, by omega⟩)
    obtain ⟨s', hx, h1, h2, h3, h4⟩ := xcalloc_serves L s name units f fam _ big s1
      r hl hf hcap hrun hH hfree hsize
      (by rw [hfr.2.1]; exact hr) hr1 (by omega) hfam hnot
    refine ⟨big, s', hx, h1, ?_, h3, ?_⟩
    · rw [h2, hu32, hcast]
    · rw [h2]
      exact h4

theorem xcalloc_result_of_sound_index_witness :
    ∃ b s', xcalloc L40 page_walk_0 "Employee".toList 1 = Except.ok (some (b + L40.H), s') ∧
      (s'.block b).is_free = false ∧
      ((s'.block b).block_size : Int) =
        1 * ((new_family L40 "Employee".toList 64).struct_size : Int) ∧
      b ∉ free_list_of s' (4096, 0) ∧
      ∀ x, b + L40.H ≤ x → x < b + L40.H + (s'.block b).block_size → s'.byte x = 0 :=
  xcalloc_result_of_sound_index L40 page_walk_0 "Employee".toList 1 (4096, 0)
    (new_family L40 "Employee".toList 64) 8192 [some 12288] rfl rfl (by decide) (by decide)
    rfl
    (by
      intro x hx
      simp [new_family] at hx)
    (by
      intro q hq
      simp [new_family] at hq)
    (by decide) (by decide) (by decide) (by decide)
    (by
      intro big hb
      simp [new_family] at hb)

/-- C11, at the failing input: `Employee` is registered in the slot (4096, 0)
with unit size 64, a page has the capacity 4056, and the page source would
hand out the page 12288; but after one unit was allocated and released, the
family's index still holds the header at 8296 of the page that was given back,
and the next `xcalloc` of one unit stops in the read of that header instead of
returning a block. -/
theorem xcalloc_after_release_reads_returned_page :
    scenario_alloc_after_release =
      Except.ok (some (4096, 0), some 64, 4056, some (some 12288), [8296], some false,
        some Fault.unmapped) := by
  rfl

/-! ## The split: failure, and the two carving branches -/

/-- C21: for a free block in mapped memory, the split fails exactly when the
requested size exceeds the usable size of the block: then it returns
`MM_FALSE` and the state is the one before the call, so that the block is
still free, has its size and is still in the index; and whenever the call
returns for a request within the usable size, it returns `MM_TRUE`. -/
theorem split_failure_is_atomic (L : Layout) (s : mm_state) (f : FamPtr) (a r : Nat)
    (hm : is_mapped s a = true) (hfree : (s.block a).is_free = true) :
    ((s.block a).block_size < r →
      mm_split_free_data_block_for_allocation L s f a r = Except.ok (false, s)) ∧
    (∀ status s', mm_split_free_data_block_for_allocation L s f a r = Except.ok (status, s') →
      (status = false ↔ (s.block a).block_size < r)) := by
  have hsmall : (s.block a).block_size < r →
      mm_split_free_data_block_for_allocation L s f a r = Except.ok (false, s) := by
    intro hlt
    unfold mm_split_free_data_block_for_allocation
    simp only [read_block_of_mapped _ _ hm, bind_ok_eq, hfree, Bool.not_true,
      Bool.false_eq_true, if_false, hlt, if_true]
    rfl
  refine ⟨hsmall, ?_⟩
  intro status s' h
  constructor
  · intro hst
    by_contra hge
    have hle : r ≤ (s.block a).block_size := by omega
    subst hst
    unfold mm_split_free_data_block_for_allocation at h
    simp only [read_block_of_mapped _ _ hm, bind_ok_eq, hfree, Bool.not_true,
      Bool.false_eq_true, if_false, hge, bind_eq_ok_iff, pure_eq_ok, Except.ok.injEq,
      Prod.mk.injEq] at h
    obtain ⟨s1, _, b1, _, s2, _, fam1, _, s3, _, fam2, _, h⟩ := h
    split at h
    · simp only [pure_eq_ok, Except.ok.injEq, Prod.mk.injEq] at h
      exact absurd h.1 (by decide)
    · split at h
      · simp only [bind_eq_ok_iff, pure_eq_ok, Except.ok.injEq, Prod.mk.injEq] at h
        obtain ⟨_, _, _, _, _, _, _, _, _, _, _, _, _, _, _, _, _, _, _, _, h⟩ := h
        exact absurd h.1 (by decide)
      · split at h
        · simp only [pure_eq_ok, Except.ok.injEq, Prod.mk.injEq] at h
          exact absurd h.1 (by decide)
        · simp only [bind_eq_ok_iff, pure_eq_ok, Except.ok.injEq, Prod.mk.injEq] at h
          obtain ⟨_, _, _, _, _, _, _, _, _, _, _, _, _, _, _, _, _, _, _, _, h⟩ := h
          exact absurd h.1 (by decide)
  · intro hlt
    rw [hsmall hlt] at h
    cases h
    rfl

theorem split_failure_is_atomic_witness :
    ((page_walk_1.block 8192).block_size < 5000 →
      mm_split_free_data_block_for_allocation L40 page_walk_1 (4096, 0) 8192 5000 =
        Except.ok (false, page_walk_1)) ∧
    (∀ status s',
      mm_split_free_data_block_for_allocation L40 page_walk_1 (4096, 0) 8192 5000 =
        Except.ok (status, s') →
      (status = false ↔ (page_walk_1.block 8192).block_size < 5000)) :=
  split_failure_is_atomic L40 page_walk_1 (4096, 0) 8192 5000 rfl rfl

/-- C22: the split of `mm.c`, with its two carving branches, is the split
with the single carving rule, for every layout, state, family, block and
requested size: the branch for a remainder above one header and below one
header plus the unit size and the branch for the other remainders of at least
one header run the same steps. -/
theorem split_branches_are_one_rule (L : Layout) (s : mm_state) (f : FamPtr) (a size : Nat) :
    mm_split_free_data_block_for_allocation L s f a size = split_single_rule L s f a size := by
  unfold mm_split_free_data_block_for_allocation split_single_rule carve_remainder
  cases hb : read_block s a with
  | error e => rfl
  | ok b =>
    simp only [bind_ok_eq]
    split
    · rfl
    · split
      · rfl
      · refine bind_congr (fun s1 => ?_)
        refine bind_congr (fun b1 => ?_)
        refine bind_congr (fun s2 => ?_)
        refine bind_congr (fun fam1 => ?_)
        cases hw : write_family s2 f
            { fam1 with free_block_priority_list_head :=
                remove_glthread a fam1.free_block_priority_list_head } with
        | error e => rfl
        | ok s3 =>
          obtain ⟨⟨old, hold⟩, hs3⟩ := (write_family_eq_ok _ _ _ _).mp hw
          have hf2 : read_family s3 f = Except.ok
              { fam1 with free_block_priority_list_head :=
                  remove_glthread a fam1.free_block_priority_list_head } := by
            rw [← hs3]
            apply read_family_of_some
            rw [get_family_set_family s2 f f _ old hold, if_pos rfl]
          simp only [bind_ok_eq, hf2]
          by_cases h0 : b.block_size - size = 0
          · simp only [h0, if_true]
          · simp only [h0, if_false]
            by_cases h1 : b.block_size - size < L.H
            · have h2 : ¬ (L.H < b.block_size - size ∧
                  b.block_size - size < L.H + fam1.struct_size) := by omega
              simp only [h1, h2, if_true, if_false]
            · simp only [h1, if_false]
              split <;> rfl

/-! ## The release: what the index holds afterwards -/

set_option maxRecDepth 1000000 in
/-- C24, at the failing input: `A`, `B`, `C` are allocated, `B` is released
and is in the index ([8504, 8296]); then `A` is released, finds its chain
successor `B` free and absorbs it, the chain being `A`, `C`, rest; but `B`
(8296) is still a member of the index afterwards. -/
theorem forward_absorbed_block_stays_in_index :
    scenario_forward_absorbed =
      Except.ok ([8504, 8296], true, [8504, 8192, 8296],
        [(8192, true, 168), (8400, false, 64), (8504, true, 3744)]) := by
  rfl

set_option maxRecDepth 1000000 in
/-- C26, at the failing input: `A`, `B`, `C` are allocated and `A` is
released, which puts `A` into the index; the release of `B` then merges `B`
into its free predecessor `A`, returns `A` as the surviving block and inserts
it into the index once more, so that `A` (8192) occurs twice in the index,
the page being still in use. -/
theorem surviving_block_is_indexed_twice :
    scenario_backward_reinserted =
      Except.ok (some 8192, [8504, 8192, 8192], 2,
        [(8192, true, 168), (8400, false, 64), (8504, true, 3744)]) := by
  rfl

set_option maxRecDepth 1000000 in
/-- C25, as stated, fails: `B` (8296) has the free chain predecessor `A`
(8192), and its release merges the free rest of the page into `B` and `B`
into `A`; `A` is then the only block of the page, the page 8192 is given
back, and `mm_free_blocks` returns `NULL`, not `A`. -/
theorem backward_coalesce_can_return_null :
    scenario_backward_reclaims = Except.ok (some 8192, true, none, [8192]) := by
  rfl

set_option maxRecDepth 1000000 in
/-- C30, at the failing input: after the release of the second block, which
absorbed the rest of the page, the header at 8400 is still in the index; the
next `xcalloc` of two units returns 8336 for a block of 128 bytes, and these
bytes, from 8336 up to 8464, hold the indexed header at 8400. -/
theorem allocation_covers_indexed_header :
    scenario_allocation_over_indexed_header =
      Except.ok (some 8336, 128, [8400, 8464], [8400]) := by
  rfl

/-! ## The steps of the release -/

theorem free_blocks_steps (L : Layout) (s : mm_state) (a : Nat) :
    mm_free_blocks L s a = (do
      let b ← read_block s a
      if b.is_free then throw Fault.assertion
      else
        let hosting_page := MM_GET_PAGE_FROM_META_BLOCK a b
        let _ ← read_page s hosting_page
        let s ← write_block s a { b with is_free := true }
        let b ← read_block s a
        let s ← free_reclaim_slack L s a hosting_page b.next_block
        let s ← free_merge_forward L s a b.next_block
        let b ← read_block s a
        let (return_block, s) ← free_merge_backward L s a b.prev_block
        free_finish L s hosting_page return_block) := by
  rfl

/-! ## The page list: unlinking one page -/

theorem page_links_congr (s s' : mm_state) (f : FamPtr) (prev : Option Nat) (l : List Nat)
    (h : ∀ x ∈ l, s'.page x = s.page x) (hc : page_links s f prev l) :
    page_links s' f prev l := by
  induction l generalizing prev with
  | nil => trivial
  | cons p rest ih =>
    obtain ⟨h1, h2, h3, h4⟩ := hc
    have hp := h p (List.mem_cons_self _ _)
    exact ⟨by rw [hp]; exact h1, by rw [hp]; exact h2, by rw [hp]; exact h3,
      ih _ (fun x hx => h x (List.mem_cons_of_mem _ hx)) h4⟩

theorem family_pages_of_links (s : mm_state) (f : FamPtr) (prev : Option Nat) (l : List Nat)
    (n : Nat) (hc : page_links s f prev l) :
    family_pages s (n + l.length) l.head? = l := by
  induction l generalizing prev with
  | nil => cases n <;> rfl
  | cons p rest ih =>
    obtain ⟨_, h2, _, h4⟩ := hc
    simp only [List.length_cons, List.head?_cons]
    rw [show n + (rest.length + 1) = (n + rest.length) + 1 from by omega]
    simp only [family_pages]
    rw [h2, ih _ h4]

theorem links_at (s : mm_state) (f : FamPtr) (P : Nat) (l1 l2 : List Nat) (pv : Option Nat)
    (hc : page_links s f pv (l1 ++ P :: l2)) :
    (s.page P).next = l2.head? ∧ (s.page P).pg_family = some f ∧
      (l1 = [] → (s.page P).prev = pv) ∧ (l1 ≠ [] → ∃ y ∈ l1, (s.page P).prev = some y) := by
  induction l1 generalizing pv with
  | nil =>
    obtain ⟨h1, h2, h3, _⟩ := hc
    exact ⟨h2, h3, fun _ => h1, fun h => absurd rfl h⟩
  | cons p rest ih =>
    obtain ⟨_, _, _, h4⟩ := hc
    obtain ⟨i1, i2, i3, i4⟩ := ih (some p) h4
    refine ⟨i1, i2, fun h => List.noConfusion h, fun _ => ?_⟩
    cases rest with
    | nil => exact ⟨p, List.mem_cons_self _ _, i3 rfl⟩
    | cons q rest' =>
      obtain ⟨y, hy, hy'⟩ := i4 (by simp)
      exact ⟨y, List.mem_cons_of_mem _ hy, hy'⟩

/-- The links of a page list after the page `P` has been taken out of it. -/
theorem unlink_links (s s' : mm_state) (f : FamPtr) (P : Nat) (l1 l2 : List Nat)
    (pv : Option Nat)
    (hc : page_links s f pv (l1 ++ P :: l2)) (hnd : (l1 ++ P :: l2).Nodup)
    (hpv : ∀ x, pv = some x → x ∉ l1 ++ P :: l2)
    (hs : ∀ x, x ≠ P → s'.page x =
      if some x = (s.page P).prev then { s.page x with next := (s.page P).next }
      else if (s.page P).next = some x then { s.page x with prev := (s.page P).prev }
      else s.page x) :
    page_links s' f pv (l1 ++ l2) := by
  induction l1 generalizing pv with
  | nil =>
    obtain ⟨h1, h2, _, h4⟩ := hc
    simp only [List.nil_append] at hnd hpv ⊢
    cases l2 with
    | nil => trivial
    | cons r l2' =>
      obtain ⟨r1, r2, r3, r4⟩ := h4
      have hnd' := List.nodup_cons.mp hnd
      have hrP : r ≠ P := by
        intro hc'
        exact hnd'.1 (by rw [hc']; exact List.mem_cons_self _ _)
      have hrpv : ¬ (some r = (s.page P).prev) := by
        intro hc'
        rw [h1] at hc'
        exact hpv r hc'.symm (List.mem_cons_of_mem _ (List.mem_cons_self _ _))
      have h2' : (s.page P).next = some r := h2
      have hr : s'.page r = { s.page r with prev := pv } := by
        rw [hs r hrP, if_neg hrpv, if_pos h2', h1]
      refine ⟨by rw [hr], by rw [hr]; exact r2, by rw [hr]; exact r3, ?_⟩
      apply page_links_congr s s' f (some r) l2' _ r4
      intro x hx
      have hnd2 := List.nodup_cons.mp hnd'.2
      have hxP : x ≠ P := by
        intro hc'
        exact hnd'.1 (by rw [← hc']; exact List.mem_cons_of_mem _ hx)
      have hxr : x ≠ r := by
        intro hc'
        exact hnd2.1 (by rw [← hc']; exact hx)
      have hxpv : ¬ (some x = (s.page P).prev) := by
        intro hc'
        rw [h1] at hc'
        exact hpv x hc'.symm
          (List.mem_cons_of_mem _ (List.mem_cons_of_mem _ hx))
      have hxn : ¬ ((s.page P).next = some x) := by
        rw [h2]
        intro hc'
        simp only [List.head?_cons, Option.some.injEq] at hc'
        exact hxr hc'.symm
      rw [hs x hxP, if_neg hxpv, if_neg hxn]
  | cons p l1' ih =>
    have hat := links_at s f P l1' l2 (some p) hc.2.2.2
    obtain ⟨h1, h2, h3, h4⟩ := hc
    simp only [List.cons_append] at hnd hpv h2 ⊢
    have hnd' := List.nodup_cons.mp hnd
    have hpP : p ≠ P := by
      intro hc'
      exact hnd'.1 (by rw [hc']; simp)
    have hpl2 : p ∉ l2 := by
      intro hc'
      exact hnd'.1 (by simp [hc'])
    have hpn : ¬ ((s.page P).next = some p) := by
      rw [hat.1]
      intro hc'
      exact hpl2 (List.mem_of_mem_head? hc')
    have hrest : page_links s' f (some p) (l1' ++ l2) :=
      ih (some p) h4 hnd'.2 (by
        intro x hx
        cases hx
        exact hnd'.1)
    cases l1' with
    | nil =>
      have hpp : some p = (s.page P).prev := (hat.2.2.1 rfl).symm
      have hp : s'.page p = { s.page p with next := (s.page P).next } := by
        rw [hs p hpP, if_pos hpp]
      refine ⟨by rw [hp]; exact h1, ?_, by rw [hp]; exact h3, hrest⟩
      rw [hp]
      simp only [List.nil_append]
      exact hat.1
    | cons q l1'' =>
      obtain ⟨y, hy, hy'⟩ := hat.2.2.2 (by simp)
      have hpp : ¬ (some p = (s.page P).prev) := by
        rw [hy']
        intro hc'
        cases hc'
        exact hnd'.1 (by
          rw [List.mem_append]
          exact Or.inl hy)
      have hp : s'.page p = s.page p := by
        rw [hs p hpP, if_neg hpp, if_neg hpn]
      refine ⟨by rw [hp]; exact h1, ?_, by rw [hp]; exact h3, hrest⟩
      rw [hp, h2]
      rfl

/-- The run of `mm_vm_page_delete_and_free` on a page of a well-linked page
list, and the pages and the family slot it writes. -/
theorem page_delete_forward (s : mm_state) (f : FamPtr) (fam : vm_page_family_t)
    (l1 l2 : List Nat) (P : Nat)
    (hf : get_family s f = some fam)
    (hfirst : fam.first_page = (l1 ++ P :: l2).head?)
    (hlinks : page_links s f none (l1 ++ P :: l2))
    (hnd : (l1 ++ P :: l2).Nodup)
    (hmap : ∀ p ∈ l1 ++ P :: l2, is_mapped s p = true) :
    ∃ s', mm_vm_page_delete_and_free s P = Except.ok s' ∧
      (∀ x, x ≠ P → s'.page x =
        if some x = (s.page P).prev then { s.page x with next := (s.page P).next }
        else if (s.page P).next = some x then { s.page x with prev := (s.page P).prev }
        else s.page x) ∧
      s'.first_vm_page_for_families =
        set_family_in s.first_vm_page_for_families f
          { fam with first_page := (l1 ++ l2).head? } ∧
      s'.returned = P :: s.returned ∧
      s'.mapped = s.mapped.erase (P, 1 * s.SYSTEM_PAGE_SIZE) ∧ s'.block = s.block ∧
      s'.kernel = s.kernel ∧ s'.SYSTEM_PAGE_SIZE = s.SYSTEM_PAGE_SIZE := by
  obtain ⟨hnext, hfamP, hprev0, hprev1⟩ := links_at s f P l1 l2 none hlinks
  have hPm : is_mapped s P = true := hmap P (by simp)
  cases l1 with
  | nil =>
    have hpv : (s.page P).prev = none := hprev0 rfl
    simp only [List.nil_append, List.head?_cons] at hfirst hnd hmap ⊢
    cases l2 with
    | nil =>
      simp only [List.head?_nil] at hnext
      refine ⟨mm_return_vm_page_to_kernel (set_page (set_family s f
        { fam with first_page := none }) P
        { s.page P with next := none, prev := none }) P 1, ?_, ?_, rfl, rfl, rfl, rfl, rfl,
        rfl⟩
      · unfold mm_vm_page_delete_and_free
        simp only [read_page_of_mapped, bind_ok_eq, hfamP, read_family, hf, hfirst,
          if_true, write_family, hnext, pure_eq_ok, is_mapped_set_family, set_family_page,
          write_page_of_mapped, hPm]
      · intro x hx
        simp [mm_return_vm_page_to_kernel, hx, hpv, hnext]
    | cons r l2' =>
      simp only [List.head?_cons] at hnext
      have hrm : is_mapped s r = true := hmap r (by simp)
      have hrP : r ≠ P := by
        intro hc
        have := (List.nodup_cons.mp hnd).1
        exact this (by rw [hc]; exact List.mem_cons_self _ _)
      have hPr : P ≠ r := fun h => hrP h.symm
      refine ⟨mm_return_vm_page_to_kernel (set_page (set_page (set_family s f
        { fam with first_page := some r }) r { s.page r with prev := none }) P
        { s.page P with next := none, prev := none }) P 1, ?_, ?_, rfl, rfl, rfl, rfl, rfl,
        rfl⟩
      · unfold mm_vm_page_delete_and_free
        simp only [read_page_of_mapped _ _ hPm, bind_ok_eq, hfamP, read_family, hf, hfirst,
          if_true, write_family, hnext, pure_eq_ok, is_mapped_set_family, set_family_page,
          write_page_of_mapped, read_page_of_mapped, hrm, is_mapped_set_page, hPm,
          set_page_page, hPr, if_false]
      · intro x hx
        by_cases hxr : x = r
        · subst hxr
          simp [mm_return_vm_page_to_kernel, hx, hpv, hnext]
        · have : ¬ (r = x) := fun h => hxr h.symm
          simp [mm_return_vm_page_to_kernel, hx, hpv, hnext, hxr, this]
  | cons p l1' =>
    obtain ⟨y, hy, hpv⟩ := hprev1 (by simp)
    simp only [List.cons_append, List.head?_cons] at hfirst hnd hmap ⊢
    have hyl : y ∈ p :: (l1' ++ P :: l2) := by
      rw [← List.cons_append]
      exact List.mem_append_left _ hy
    have hym : is_mapped s y = true := hmap y hyl
    have hpP : ¬ (some p = some P) := by
      intro hc
      cases hc
      exact (List.nodup_cons.mp hnd).1 (by simp)
    have hfne : ¬ (fam.first_page = some P) := by
      rw [hfirst]
      exact hpP
    have hfamily : set_family_in s.first_vm_page_for_families f
        { fam with first_page := some p } = s.first_vm_page_for_families := by
      have : ({ fam with first_page := some p } : vm_page_family_t) = fam := by
        cases fam
        simp only at hfirst
        simp [hfirst]
      rw [this]
      exact set_family_in_get _ _ _ hf
    cases l2 with
    | nil =>
      simp only [List.head?_nil] at hnext
      refine ⟨mm_return_vm_page_to_kernel (set_page s y
        { s.page y with next := none }) P 1, ?_, ?_, ?_, rfl, rfl, rfl, rfl, rfl⟩
      · unfold mm_vm_page_delete_and_free
        simp only [read_page_of_mapped _ _ hPm, bind_ok_eq, hfamP, read_family, hf, hfne,
          if_false, hnext, pure_eq_ok, hpv, read_page_of_mapped _ _ hym,
          write_page_of_mapped _ _ _ hym]
      · intro x hx
        by_cases hxy : x = y
        · subst hxy
          simp [mm_return_vm_page_to_kernel, hpv, hnext]
        · have : ¬ (y = x) := fun h => hxy h.symm
          simp [mm_return_vm_page_to_kernel, hpv, hnext, hxy, this]
      · simp only [mm_return_vm_page_to_kernel, unmap_region_families, set_page_families]
        exact hfamily.symm
    | cons r l2' =>
      simp only [List.head?_cons] at hnext
      have hrm : is_mapped s r = true := hmap r (by simp)
      have hndl : (l1' ++ P :: r :: l2').Nodup := (List.nodup_cons.mp hnd).2
      have hrP : r ≠ P := by
        intro hc
        have h1 := (List.nodup_append.mp hndl).2.1
        exact (List.nodup_cons.mp h1).1 (by rw [hc]; exact List.mem_cons_self _ _)
      have hPr : P ≠ r := fun h => hrP h.symm
      have hyr : y ≠ r := by
        intro hc
        subst hc
        rcases List.mem_cons.mp hy with h1 | h1
        · subst h1
          exact (List.nodup_cons.mp hnd).1 (by simp)
        · exact (List.nodup_append.mp hndl).2.2 h1 (by simp)
      have hry : r ≠ y := fun h => hyr h.symm
      refine ⟨mm_return_vm_page_to_kernel (set_page (set_page s r
        { s.page r with prev := some y }) y { s.page y with next := some r }) P 1,
        ?_, ?_, ?_, rfl, rfl, rfl, rfl, rfl⟩
      · unfold mm_vm_page_delete_and_free
        simp only [read_page_of_mapped _ _ hPm, bind_ok_eq, hfamP, read_family, hf, hfne,
          if_false, hnext, pure_eq_ok, hpv, read_page_of_mapped, write_page_of_mapped, hym,
          hrm, is_mapped_set_page, hPm, set_page_page, hPr, hyr]
      · intro x hx
        by_cases hxy : x = y
        · subst hxy
          simp [mm_return_vm_page_to_kernel, hpv, hnext]
        · have h1 : ¬ (y = x) := fun h => hxy h.symm
          by_cases hxr : x = r
          · subst hxr
            simp [mm_return_vm_page_to_kernel, hpv, hnext, hxy, h1]
          · have h2 : ¬ (r = x) := fun h => hxr h.symm
            simp [mm_return_vm_page_to_kernel, hpv, hnext, hxy, h1, hxr, h2]
      · simp only [mm_return_vm_page_to_kernel, unmap_region_families, set_page_families]
        exact hfamily.symm

/-- C29: the pages `l1 ++ P :: l2` are the page list of a family, well linked
and without repetition, in mapped memory, whatever the position of `P` (the
head when `l1` is empty, the tail when `l2` is empty).  Then
`mm_vm_page_delete_and_free` returns; the page list is `l1 ++ l2`, that is
the old list without `P` and in the old order: the family's `first_page` is
the first page of `l1 ++ l2` or no page, the `next` and `prev` links of the
remaining pages agree with this list, and the walk from `first_page` yields
it; and exactly the page `P` is given back to the page source. -/
theorem page_delete_unlinks_exactly (s : mm_state) (f : FamPtr) (fam : vm_page_family_t)
    (l1 l2 : List Nat) (P : Nat)
    (hf : get_family s f = some fam)
    (hfirst : fam.first_page = (l1 ++ P :: l2).head?)
    (hlinks : page_links s f none (l1 ++ P :: l2))
    (hnd : (l1 ++ P :: l2).Nodup)
    (hmap : ∀ p ∈ l1 ++ P :: l2, is_mapped s p = true) :
    ∃ s', mm_vm_page_delete_and_free s P = Except.ok s' ∧
      first_page_of s' f = (l1 ++ l2).head? ∧
      page_links s' f none (l1 ++ l2) ∧
      (∀ n, family_pages s' (n + (l1 ++ l2).length) (first_page_of s' f) = l1 ++ l2) ∧
      s'.returned = P :: s.returned ∧
      s'.mapped = s.mapped.erase (P, 1 * s.SYSTEM_PAGE_SIZE) := by
  obtain ⟨s', hrun, hpage, hfam, hret, hmapd, _, _, _⟩ :=
    page_delete_forward s f fam l1 l2 P hf hfirst hlinks hnd hmap
  have hlinks' : page_links s' f none (l1 ++ l2) :=
    unlink_links s s' f P l1 l2 none hlinks hnd (fun x hx => Option.noConfusion hx) hpage
  have hfp : first_page_of s' f = (l1 ++ l2).head? := by
    unfold first_page_of
    rw [get_family_of_families s s' f fam _ hf hfam]
  refine ⟨s', hrun, hfp, hlinks', ?_, hret, hmapd⟩
  intro n
  rw [hfp]
  exact family_pages_of_links s' f none (l1 ++ l2) n hlinks'

theorem page_delete_unlinks_exactly_witness :
    ∃ s', mm_vm_page_delete_and_free three_pages 12288 = Except.ok s' ∧
      first_page_of s' (4096, 0) = ([8192] ++ [16384]).head? ∧
      page_links s' (4096, 0) none ([8192] ++ [16384]) ∧
      (∀ n, family_pages s' (n + ([8192] ++ [16384]).length) (first_page_of s' (4096, 0)) =
        [8192] ++ [16384]) ∧
      s'.returned = 12288 :: three_pages.returned ∧
      s'.mapped = three_pages.mapped.erase (12288, 1 * three_pages.SYSTEM_PAGE_SIZE) :=
  page_delete_unlinks_exactly three_pages (4096, 0)
    (vm_page_family_t.mk "Employee".toList 64 (some 8192) []) [8192] [16384] 12288
    rfl rfl
    ⟨rfl, rfl, rfl, rfl, rfl, rfl, rfl, rfl, rfl, trivial⟩
    (by decide)
    (by
      intro p hp
      simp only [List.singleton_append, List.mem_cons, List.mem_singleton, List.mem_nil_iff,
        or_false] at hp
      rcases hp with h | h | h <;> subst h <;> rfl)

/-! ## The release, step by step -/

theorem reclaim_slack_forward (L : Layout) (s : mm_state) (a P : Nat) (next : Option Nat)
    (hm : is_mapped s a = true)
    (hgap : a + L.H + (s.block a).block_size ≤ next.getD (P + s.SYSTEM_PAGE_SIZE))
    (hb : next.getD (P + s.SYSTEM_PAGE_SIZE) < a + 2147483648) :
    free_reclaim_slack L s a P next =
      Except.ok (set_block s a
        { s.block a with block_size := next.getD (P + s.SYSTEM_PAGE_SIZE) - a - L.H }) := by
  cases next with
  | some n =>
    simp only [Option.getD_some] at hgap hb ⊢
    have hsl := slack_size (s.block a).block_size a n L.H hgap hb
    unfold free_reclaim_slack mm_get_hard_internal_memory_frag_size NEXT_META_BLOCK_BY_SIZE
    simp only [read_block_of_mapped _ _ hm, write_block_of_mapped _ _ _ hm, bind_ok_eq,
      pure_eq_ok, hsl]
  | none =>
    simp only [Option.getD_none] at hgap hb ⊢
    have hsl := slack_size (s.block a).block_size a (P + s.SYSTEM_PAGE_SIZE) L.H hgap hb
    unfold free_reclaim_slack
    simp only [read_block_of_mapped _ _ hm, write_block_of_mapped _ _ _ hm, bind_ok_eq, hsl]

/-- The run of `mm_union_free_blocks` on two free blocks in mapped memory, and
the headers it writes. -/
theorem union_forward (L : Layout) (s : mm_state) (x y : Nat)
    (hxm : is_mapped s x = true) (hym : is_mapped s y = true)
    (hxf : (s.block x).is_free = true) (hyf : (s.block y).is_free = true)
    (hxy : x ≠ y)
    (hc : ∀ c : Nat, (s.block y).next_block = some c → is_mapped s c = true ∧ c ≠ x)
    (hsz : (s.block x).block_size + L.H + (s.block y).block_size < 4294967296) :
    ∃ s', mm_union_free_blocks L s x y = Except.ok s' ∧ same_frame s s' ∧
      s'.first_vm_page_for_families = s.first_vm_page_for_families ∧
      ∀ z, s'.block z =
        if z = x then
          { s.block x with
            block_size := (s.block x).block_size + L.H + (s.block y).block_size,
            next_block := (s.block y).next_block }
        else if (s.block y).next_block = some z then { s.block z with prev_block := some x }
        else s.block z := by
  have hyx : y ≠ x := fun h => hxy h.symm
  have hex : ∃ s', mm_union_free_blocks L s x y = Except.ok s' ∧ same_frame s s' ∧
      s'.first_vm_page_for_families = s.first_vm_page_for_families := by
    unfold mm_union_free_blocks
    simp only [read_block_of_mapped, write_block_of_mapped, hxm, hym, is_mapped_set_block,
      bind_ok_eq, hxf, hyf, Bool.and_self, Bool.not_true, Bool.false_eq_true, if_false,
      set_block_block, hyx, if_true]
    cases hn : (s.block y).next_block with
    | none => exact ⟨_, rfl, ⟨rfl, rfl, rfl, rfl, rfl, rfl⟩, rfl⟩
    | some c =>
      simp only [read_block_of_mapped, write_block_of_mapped, (hc c hn).1,
        is_mapped_set_block, bind_ok_eq]
      exact ⟨_, rfl, ⟨rfl, rfl, rfl, rfl, rfl, rfl⟩, rfl⟩
  obtain ⟨s', hrun, hfr, hfam⟩ := hex
  refine ⟨s', hrun, hfr, hfam, ?_⟩
  have hinv := (union_inv L s s' x y hrun hxy (fun c hn => (hc c hn).2)).2
  rw [u32_add3 _ _ _ hsz] at hinv
  exact hinv

theorem finish_in_use (L : Layout) (s : mm_state) (P ret : Nat) (f : FamPtr)
    (fam : vm_page_family_t)
    (hFm : is_mapped s (P + L.BMO) = true)
    (huse : (s.block (P + L.BMO)).next_block ≠ none ∨ (s.block (P + L.BMO)).prev_block ≠ none ∨
      (s.block (P + L.BMO)).is_free = false)
    (hP : is_mapped s P = true) (hPf : (s.page P).pg_family = some f)
    (hf : get_family s f = some fam)
    (hl : ∀ x ∈ fam.free_block_priority_list_head, is_mapped s x = true)
    (hrm : is_mapped s ret = true) (hrf : (s.block ret).is_free = true) :
    ∃ l', free_finish L s P ret =
        Except.ok (some ret, set_family s f { fam with free_block_priority_list_head := l' }) ∧
      ∀ x, x ∈ l' ↔ (x = ret ∨ x ∈ fam.free_block_priority_list_head) := by
  obtain ⟨l', hadd, hmem⟩ := add_free_block_forward s f ret fam hrm hrf hf hl
  refine ⟨l', ?_, hmem⟩
  have hempty : ((s.block (P + L.BMO)).next_block.isNone &&
      (s.block (P + L.BMO)).prev_block.isNone && (s.block (P + L.BMO)).is_free) = false := by
    rcases huse with h | h | h
    · cases hn : (s.block (P + L.BMO)).next_block with
      | none => exact absurd hn h
      | some _ => rfl
    · cases hn : (s.block (P + L.BMO)).prev_block with
      | none => exact absurd hn h
      | some _ => simp
    · simp [h]
  unfold free_finish mm_is_vm_page_empty
  simp only [read_block_of_mapped _ _ hFm, bind_ok_eq, pure_eq_ok, hempty, Bool.false_eq_true,
    if_false, read_page_of_mapped _ _ hP, hPf, hadd]

theorem finish_frame (L : Layout) (s s' : mm_state) (P ret : Nat) (r : Option Nat)
    (h : free_finish L s P ret = Except.ok (r, s')) :
    s'.block = s.block ∧ (r = none ∨ r = some ret) := by
  unfold free_finish at h
  simp only [bind_eq_ok_iff] at h
  obtain ⟨empty, _, h⟩ := h
  split at h
  · simp only [bind_eq_ok_iff, pure_eq_ok, Except.ok.injEq, Prod.mk.injEq] at h
    obtain ⟨s5, h5, hr, rfl⟩ := h
    exact ⟨(delete_page_frame _ _ _ h5).1, Or.inl hr.symm⟩
  · simp only [bind_eq_ok_iff, read_page_eq_ok] at h
    obtain ⟨hp, _, h⟩ := h
    split at h
    · cases h
    · simp only [bind_eq_ok_iff, pure_eq_ok, Except.ok.injEq, Prod.mk.injEq] at h
      obtain ⟨s5, h5, hr, rfl⟩ := h
      obtain ⟨v, rfl⟩ := insert_list_frame _ _ _ _ h5
      exact ⟨rfl, Or.inr hr.symm⟩

/-- The first steps of `mm_free_blocks` on an allocated block `a` of the page
`P`: the block is marked free, takes up the slack behind it, and absorbs its
chain successor when that one is free.  What remains to be run is the merge
into the predecessor and the last step. -/
theorem release_front (L : Layout) (s : mm_state) (a P : Nat) (hH : 0 < L.H)
    (hAm : is_mapped s a = true) (hAf : (s.block a).is_free = false)
    (hAo : a - (s.block a).offset = P) (hP : is_mapped s P = true)
    (hPS : s.SYSTEM_PAGE_SIZE < 2147483648)
    (hgap : a + L.H + (s.block a).block_size ≤
      ((s.block a).next_block).getD (P + s.SYSTEM_PAGE_SIZE))
    (hend : ((s.block a).next_block).getD (P + s.SYSTEM_PAGE_SIZE) ≤ P + s.SYSTEM_PAGE_SIZE)
    (hN : ∀ n : Nat, (s.block a).next_block = some n → is_mapped s n = true ∧
      ((s.block n).is_free = true →
        n + L.H + (s.block n).block_size ≤ P + s.SYSTEM_PAGE_SIZE ∧
        ∀ c : Nat, (s.block n).next_block = some c → is_mapped s c = true ∧ n < c)) :
    ∃ s2 s3,
      free_reclaim_slack L (set_block s a { s.block a with is_free := true }) a P
        (s.block a).next_block = Except.ok s2 ∧
      free_merge_forward L s2 a (s.block a).next_block = Except.ok s3 ∧
      mm_free_blocks L s a = (do
        let (return_block, s4) ← free_merge_backward L s3 a (s.block a).prev_block
        free_finish L s4 P return_block) ∧
      same_frame s s3 ∧ s3.first_vm_page_for_families = s.first_vm_page_for_families ∧
      (∀ n : Nat, (s.block a).next_block = some n → (s.block n).is_free = true →
        ∀ z, s3.block z =
          if z = a then
            { is_free := true,
              block_size := n - a - L.H + L.H + (s.block n).block_size,
              offset := (s.block a).offset, prev_block := (s.block a).prev_block,
              next_block := (s.block n).next_block }
          else if (s.block n).next_block = some z then { s.block z with prev_block := some a }
          else s.block z) ∧
      ((∀ n : Nat, (s.block a).next_block = some n → (s.block n).is_free = false) →
        ∀ z, s3.block z =
          if z = a then
            { is_free := true,
              block_size := ((s.block a).next_block).getD (P + s.SYSTEM_PAGE_SIZE) - a - L.H,
              offset := (s.block a).offset, prev_block := (s.block a).prev_block,
              next_block := (s.block a).next_block }
          else s.block z) := by
  have hPa : P ≤ a := by omega
  have hb : ((s.block a).next_block).getD (P + s.SYSTEM_PAGE_SIZE) < a + 2147483648 := by omega
  have hslack := reclaim_slack_forward L (set_block s a { s.block a with is_free := true }) a P
    (s.block a).next_block (by simpa using hAm) (by simpa using hgap) (by simpa using hb)
  simp only [set_block_block, if_true, set_block_set_block, set_block_size] at hslack
  have hstart : ∀ s3 : mm_state, is_mapped s3 a = true →
      (s3.block a).prev_block = (s.block a).prev_block →
      free_merge_forward L (set_block s a
        { is_free := true,
          block_size := ((s.block a).next_block).getD (P + s.SYSTEM_PAGE_SIZE) - a - L.H,
          offset := (s.block a).offset, prev_block := (s.block a).prev_block,
          next_block := (s.block a).next_block }) a (s.block a).next_block = Except.ok s3 →
      mm_free_blocks L s a = (do
        let (return_block, s4) ← free_merge_backward L s3 a (s.block a).prev_block
        free_finish L s4 P return_block) := by
    intro s3 hm3 hp3 hrun
    rw [free_blocks_steps]
    simp only [read_block_of_mapped, bind_ok_eq, hAf, Bool.false_eq_true, if_false,
      MM_GET_PAGE_FROM_META_BLOCK, hAo, read_page_of_mapped, hP, hAm, hm3,
      write_block_of_mapped, is_mapped_set_block, set_block_block, if_true, hslack,
      hrun, hp3]
  cases hn : (s.block a).next_block with
  | none =>
    rw [hn] at hstart hslack
    simp only [Option.getD_none] at hstart hslack ⊢
    refine ⟨set_block s a
      { is_free := true, block_size := P + s.SYSTEM_PAGE_SIZE - a - L.H,
        offset := (s.block a).offset, prev_block := (s.block a).prev_block,
        next_block := none }, set_block s a
      { is_free := true, block_size := P + s.SYSTEM_PAGE_SIZE - a - L.H,
        offset := (s.block a).offset, prev_block := (s.block a).prev_block,
        next_block := none }, by simp only [hn]; exact hslack, rfl, hstart _ (by simpa using hAm) (by simp) rfl,
      ⟨rfl, rfl, rfl, rfl, rfl, rfl⟩, rfl, fun n hc => Option.noConfusion hc, fun _ z => ?_⟩
    simp only [set_block_block]
  | some n =>
    obtain ⟨hNm, hNfree⟩ := hN n hn
    rw [hn] at hgap hend hstart hslack
    simp only [Option.getD_some] at hgap hend hstart hslack ⊢
    have han : a ≠ n := by omega
    have hna : n ≠ a := fun h => han h.symm
    cases hnf : (s.block n).is_free with
    | false =>
      have hskip : free_merge_forward L (set_block s a
          { is_free := true, block_size := n - a - L.H, offset := (s.block a).offset,
            prev_block := (s.block a).prev_block, next_block := some n }) a (some n) =
          Except.ok (set_block s a
            { is_free := true, block_size := n - a - L.H, offset := (s.block a).offset,
              prev_block := (s.block a).prev_block, next_block := some n }) := by
        unfold free_merge_forward
        simp only [read_block_of_mapped, is_mapped_set_block, hNm, bind_ok_eq, set_block_block,
          hna, if_false, hnf, Bool.false_eq_true, pure_eq_ok]
      refine ⟨set_block s a
        { is_free := true, block_size := n - a - L.H, offset := (s.block a).offset,
          prev_block := (s.block a).prev_block, next_block := some n }, set_block s a
        { is_free := true, block_size := n - a - L.H, offset := (s.block a).offset,
          prev_block := (s.block a).prev_block, next_block := some n },
        by simp only [hn]; exact hslack, hskip,
        hstart _ (by simpa using hAm) (by simp) hskip, ⟨rfl, rfl, rfl, rfl, rfl, rfl⟩,
        rfl, ?_, fun _ z => ?_⟩
      · intro m hm hmf
        cases hm
        rw [hnf] at hmf
        cases hmf
      · simp only [set_block_block]
    | true =>
      obtain ⟨hNend, hNn⟩ := hNfree hnf
      obtain ⟨s3, hrun, hfr, hfam, hblk⟩ := union_forward L (set_block s a
        { is_free := true, block_size := n - a - L.H, offset := (s.block a).offset,
          prev_block := (s.block a).prev_block, next_block := some n }) a n
        (by simpa using hAm) (by simpa using hNm) (by simp) (by simp [hna, hnf]) han
        (by
          intro c hc
          simp only [set_block_block, hna, if_false] at hc
          obtain ⟨h1, h2⟩ := hNn c hc
          exact ⟨by simpa using h1, by omega⟩)
        (by
          simp only [set_block_block, if_true, hna, if_false]
          omega)
      simp only [set_block_block, if_true, hna, if_false] at hblk
      have hm3 : is_mapped s3 a = true := by
        rw [is_mapped_of_frame _ _ hfr]
        simpa using hAm
      have hmerge : free_merge_forward L (set_block s a
          { is_free := true, block_size := n - a - L.H, offset := (s.block a).offset,
            prev_block := (s.block a).prev_block, next_block := some n }) a (some n) =
          Except.ok s3 := by
        unfold free_merge_forward
        simp only [read_block_of_mapped, is_mapped_set_block, hNm, bind_ok_eq, set_block_block,
          hna, if_false, hnf, if_true]
        exact hrun
      refine ⟨set_block s a
        { is_free := true, block_size := n - a - L.H, offset := (s.block a).offset,
          prev_block := (s.block a).prev_block, next_block := some n }, s3,
        by simp only [hn]; exact hslack, hmerge, hstart s3 hm3 (by rw [hblk a, if_pos rfl]) hmerge,
        same_frame_trans _ _ _ (same_frame_set_block _ _ _) hfr, hfam, ?_, ?_⟩
      · intro m hm _ z
        cases hm
        rw [hblk z]
        by_cases hz : z = a
        · simp only [hz, if_true]
        · simp only [hz, if_false]
      · intro hall
        have := hall n rfl
        rw [hnf] at this
        cases this

theorem merge_backward_skip (L : Layout) (s : mm_state) (a : Nat) (prev : Option Nat)
    (h : ∀ p : Nat, prev = some p → is_mapped s p = true ∧ (s.block p).is_free = false) :
    free_merge_backward L s a prev = Except.ok (a, s) := by
  cases prev with
  | none => rfl
  | some p =>
    obtain ⟨hm, hf⟩ := h p rfl
    unfold free_merge_backward
    simp only [read_block_of_mapped _ _ hm, bind_ok_eq, hf, Bool.false_eq_true, if_false,
      pure_eq_ok]

theorem merge_backward_union (L : Layout) (s : mm_state) (a p : Nat)
    (hpm : is_mapped s p = true) (ham : is_mapped s a = true)
    (hpf : (s.block p).is_free = true) (haf : (s.block a).is_free = true)
    (hpa : p ≠ a)
    (hc : ∀ c : Nat, (s.block a).next_block = some c → is_mapped s c = true ∧ c ≠ p)
    (hsz : (s.block p).block_size + L.H + (s.block a).block_size < 4294967296) :
    ∃ s', free_merge_backward L s a (some p) = Except.ok (p, s') ∧ same_frame s s' ∧
      s'.first_vm_page_for_families = s.first_vm_page_for_families ∧
      ∀ z, s'.block z =
        if z = p then
          { s.block p with
            block_size := (s.block p).block_size + L.H + (s.block a).block_size,
            next_block := (s.block a).next_block }
        else if (s.block a).next_block = some z then { s.block z with prev_block := some p }
        else s.block z := by
  obtain ⟨s', hrun, hfr, hfam, hblk⟩ := union_forward L s p a hpm ham hpf haf hpa hc hsz
  refine ⟨s', ?_, hfr, hfam, hblk⟩
  unfold free_merge_backward
  simp only [read_block_of_mapped _ _ hpm, bind_ok_eq, hpf, if_true, hrun]
  rfl

/-- C23: the allocated block `a` of the page `P`, of recorded size `s` and
with `g` bytes of slack in front of its chain successor `n`, is released
while `n` is a free block of usable size `t` and the chain predecessor of `a`
is absent or allocated.  Whatever `mm_free_blocks` returns, the header of `a`
is then free with the usable size `s + g + H + t`, its successor link is the
former successor of `n`, and that block points back to `a`.  When the page
stays in use (the first block of the page still has a chain neighbour), the
call does return, with `a` as the surviving block. -/
theorem forward_coalesce_arithmetic (L : Layout) (s : mm_state) (a n P : Nat) (f : FamPtr)
    (fam : vm_page_family_t) (hH : 0 < L.H)
    (hAm : is_mapped s a = true) (hAf : (s.block a).is_free = false)
    (hAo : a - (s.block a).offset = P) (hP : is_mapped s P = true)
    (hPS : s.SYSTEM_PAGE_SIZE < 2147483648)
    (hAn : (s.block a).next_block = some n)
    (hgap : a + L.H + (s.block a).block_size ≤ n)
    (hNm : is_mapped s n = true) (hNf : (s.block n).is_free = true)
    (hNend : n + L.H + (s.block n).block_size ≤ P + s.SYSTEM_PAGE_SIZE)
    (hNn : ∀ c : Nat, (s.block n).next_block = some c → is_mapped s c = true ∧ n < c)
    (hAp : ∀ p : Nat, (s.block a).prev_block = some p →
      is_mapped s p = true ∧ (s.block p).is_free = false ∧ p < a) :
    (∀ r s', mm_free_blocks L s a = Except.ok (r, s') →
      s'.block a =
        { is_free := true,
          block_size := (s.block a).block_size + (n - (a + L.H + (s.block a).block_size)) +
            L.H + (s.block n).block_size,
          offset := (s.block a).offset, prev_block := (s.block a).prev_block,
          next_block := (s.block n).next_block } ∧
      ∀ c : Nat, (s.block n).next_block = some c → (s'.block c).prev_block = some a) ∧
    (is_mapped s (P + L.BMO) = true →
      (P + L.BMO = a →
        (s.block n).next_block ≠ none ∨ (s.block a).prev_block ≠ none) →
      (P + L.BMO ≠ a → (s.block (P + L.BMO)).next_block ≠ none) →
      (s.page P).pg_family = some f → get_family s f = some fam →
      (∀ x ∈ fam.free_block_priority_list_head, is_mapped s x = true) →
      ∃ s', mm_free_blocks L s a = Except.ok (some a, s')) := by
  have hnP : n ≤ P + s.SYSTEM_PAGE_SIZE := by omega
  obtain ⟨s2, s3, _, _, hrun, hfr, hfam, hfwd, _⟩ := release_front L s a P hH hAm hAf hAo hP hPS
    (by rw [hAn]; exact hgap) (by rw [hAn]; exact hnP)
    (by
      intro m hm
      rw [hAn] at hm
      cases hm
      exact ⟨hNm, fun _ => ⟨hNend, hNn⟩⟩)
  have hblk := hfwd n hAn hNf
  have hskip := merge_backward_skip L s3 a (s.block a).prev_block (by
    intro p hp
    obtain ⟨h1, h2, h3⟩ := hAp p hp
    refine ⟨by rw [is_mapped_of_frame _ _ hfr]; exact h1, ?_⟩
    rw [hblk p]
    have hpa : p ≠ a := by omega
    simp only [hpa, if_false]
    split
    · exact h2
    · exact h2)
  rw [hskip] at hrun
  simp only [bind_ok_eq] at hrun
  have hsize : n - a - L.H + L.H + (s.block n).block_size =
      (s.block a).block_size + (n - (a + L.H + (s.block a).block_size)) + L.H +
        (s.block n).block_size := by omega
  constructor
  · intro r s' h
    rw [hrun] at h
    obtain ⟨hb, _⟩ := finish_frame L s3 s' P a r h
    rw [hb]
    constructor
    · rw [hblk a, if_pos rfl, hsize]
    · intro c hc
      obtain ⟨_, hnc⟩ := hNn c hc
      have hca : c ≠ a := by omega
      rw [hblk c, if_neg hca, if_pos hc]
  · intro hFm hFa hFn hPf hf hl
    obtain ⟨l', hfin, _⟩ := finish_in_use L s3 P a f fam
      (by rw [is_mapped_of_frame _ _ hfr]; exact hFm)
      (by
        by_cases hc : P + L.BMO = a
        · rw [hc, hblk a, if_pos rfl]
          simp only
          rcases hFa hc with h | h
          · exact Or.inl h
          · exact Or.inr (Or.inl h)
        · rw [hblk (P + L.BMO), if_neg hc]
          split
          · exact Or.inr (Or.inl (by simp))
          · exact Or.inl (hFn hc))
      (by rw [is_mapped_of_frame _ _ hfr]; exact hP)
      (by rw [hfr.2.2.1]; exact hPf)
      (by
        unfold get_family at hf ⊢
        rw [hfam]
        exact hf)
      (by
        intro x hx
        rw [is_mapped_of_frame _ _ hfr]
        exact hl x hx)
      (by rw [is_mapped_of_frame _ _ hfr]; exact hAm)
      (by rw [hblk a, if_pos rfl])
    exact ⟨_, hrun.trans hfin⟩

theorem forward_coalesce_arithmetic_witness :
    (∀ r s', mm_free_blocks L40 page_walk_3 8296 = Except.ok (r, s') →
      s'.block 8296 =
        { is_free := true,
          block_size := (page_walk_3.block 8296).block_size +
            (8400 - (8296 + L40.H + (page_walk_3.block 8296).block_size)) +
            L40.H + (page_walk_3.block 8400).block_size,
          offset := (page_walk_3.block 8296).offset,
          prev_block := (page_walk_3.block 8296).prev_block,
          next_block := (page_walk_3.block 8400).next_block } ∧
      ∀ c : Nat, (page_walk_3.block 8400).next_block = some c →
        (s'.block c).prev_block = some 8296) ∧
    ∃ s', mm_free_blocks L40 page_walk_3 8296 = Except.ok (some 8296, s') :=
  have h := forward_coalesce_arithmetic L40 page_walk_3 8296 8400 8192 (4096, 0)
    (vm_page_family_t.mk "Employee".toList 64 (some 8192) [8400])
    (by decide) rfl rfl rfl rfl (by decide) rfl (by decide) rfl rfl (by decide)
    (fun c h => Option.noConfusion
      ((show (page_walk_3.block 8400).next_block = none from rfl).symm.trans h))
    (fun p h => by
      have hp : p = 8192 :=
        (Option.some.inj ((show (page_walk_3.block 8296).prev_block = some 8192
          from rfl).symm.trans h)).symm
      subst hp
      exact ⟨rfl, rfl, by decide⟩)
  ⟨h.1, h.2 rfl (fun hc => absurd hc (by decide)) (fun _ => by decide) rfl rfl
    (by
      intro x hx
      simp only [List.mem_singleton] at hx
      subst hx
      rfl)⟩

theorem delete_page_returned (s s' : mm_state) (p : Nat)
    (h : mm_vm_page_delete_and_free s p = Except.ok s') : s'.returned = p :: s.returned := by
  unfold mm_vm_page_delete_and_free at h
  simp only [bind_eq_ok_iff, read_page_eq_ok] at h
  obtain ⟨pg, ⟨_, rfl⟩, h⟩ := h
  split at h
  · cases h
  · simp only [bind_eq_ok_iff, read_family_eq_ok] at h
    obtain ⟨fam, _, h⟩ := h
    split at h
    · simp only [bind_eq_ok_iff, write_family_eq_ok, read_page_eq_ok, write_page_eq_ok,
        pure_eq_ok, Except.ok.injEq] at h
      obtain ⟨s1, ⟨_, rfl⟩, s2, h2, pg2, _, s3, ⟨_, rfl⟩, rfl⟩ := h
      have : s2.returned = s.returned := by
        split at h2
        · simp only [bind_eq_ok_iff, read_page_eq_ok, write_page_eq_ok] at h2
          obtain ⟨_, _, _, rfl⟩ := h2
          rfl
        · simp only [pure_eq_ok, Except.ok.injEq] at h2
          subst h2
          rfl
      simp [mm_return_vm_page_to_kernel, this]
    · simp only [bind_eq_ok_iff, read_page_eq_ok] at h
      obtain ⟨s2, h2, pg2, _, h⟩ := h
      have : s2.returned = s.returned := by
        split at h2
        · simp only [bind_eq_ok_iff, read_page_eq_ok, write_page_eq_ok] at h2
          obtain ⟨_, _, _, rfl⟩ := h2
          rfl
        · simp only [pure_eq_ok, Except.ok.injEq] at h2
          subst h2
          rfl
      split at h
      · cases h
      · simp only [bind_eq_ok_iff, read_page_eq_ok, write_page_eq_ok, pure_eq_ok,
          Except.ok.injEq] at h
        obtain ⟨_, _, s3, ⟨_, rfl⟩, rfl⟩ := h
        simp [mm_return_vm_page_to_kernel, this]

/-- The last step of `mm_free_blocks` returns `NULL` exactly when it has given
the page back. -/
theorem finish_result (L : Layout) (s s' : mm_state) (P ret : Nat) (r : Option Nat)
    (h : free_finish L s P ret = Except.ok (r, s')) :
    (r = none ∧ s'.returned = P :: s.returned) ∨ (r = some ret ∧ s'.returned = s.returned) := by
  unfold free_finish at h
  simp only [bind_eq_ok_iff] at h
  obtain ⟨empty, _, h⟩ := h
  split at h
  · simp only [bind_eq_ok_iff, pure_eq_ok, Except.ok.injEq, Prod.mk.injEq] at h
    obtain ⟨s5, h5, hr, rfl⟩ := h
    exact Or.inl ⟨hr.symm, delete_page_returned _ _ _ h5⟩
  · simp only [bind_eq_ok_iff, read_page_eq_ok] at h
    obtain ⟨hp, _, h⟩ := h
    split at h
    · cases h
    · simp only [bind_eq_ok_iff, pure_eq_ok, Except.ok.injEq, Prod.mk.injEq] at h
      obtain ⟨s5, h5, hr, rfl⟩ := h
      obtain ⟨v, rfl⟩ := insert_list_frame _ _ _ _ h5
      exact Or.inr ⟨hr.symm, rfl⟩

/-- What the first steps of `mm_free_blocks` leave of the released block and
of the blocks in front of it, whether or not the successor was absorbed. -/
theorem release_front_facts (L : Layout) (s : mm_state) (a P : Nat) (hH : 0 < L.H)
    (hAm : is_mapped s a = true) (hAf : (s.block a).is_free = false)
    (hAo : a - (s.block a).offset = P) (hP : is_mapped s P = true)
    (hPS : s.SYSTEM_PAGE_SIZE < 2147483648)
    (hgap : a + L.H + (s.block a).block_size ≤
      ((s.block a).next_block).getD (P + s.SYSTEM_PAGE_SIZE))
    (hend : ((s.block a).next_block).getD (P + s.SYSTEM_PAGE_SIZE) ≤ P + s.SYSTEM_PAGE_SIZE)
    (hN : ∀ n : Nat, (s.block a).next_block = some n → is_mapped s n = true ∧
      ((s.block n).is_free = true →
        n + L.H + (s.block n).block_size ≤ P + s.SYSTEM_PAGE_SIZE ∧
        ∀ c : Nat, (s.block n).next_block = some c → is_mapped s c = true ∧ n < c)) :
    ∃ s2 s3,
      free_reclaim_slack L (set_block s a { s.block a with is_free := true }) a P
        (s.block a).next_block = Except.ok s2 ∧
      free_merge_forward L s2 a (s.block a).next_block = Except.ok s3 ∧
      mm_free_blocks L s a = (do
        let (return_block, s4) ← free_merge_backward L s3 a (s.block a).prev_block
        free_finish L s4 P return_block) ∧
      same_frame s s3 ∧ s3.first_vm_page_for_families = s.first_vm_page_for_families ∧
      (s3.block a).is_free = true ∧ (s3.block a).prev_block = (s.block a).prev_block ∧
      (s3.block a).offset = (s.block a).offset ∧
      a + L.H + (s3.block a).block_size ≤ P + s.SYSTEM_PAGE_SIZE ∧
      (∀ c : Nat, (s3.block a).next_block = some c → is_mapped s c = true ∧ a < c) ∧
      (∀ z, z < a → s3.block z = s.block z) ∧
      (∀ z, (s3.block z).next_block = none → z ≠ a → (s.block z).next_block = none) ∧
      ((∀ n : Nat, (s.block a).next_block = some n → (s.block n).is_free = false) →
        ∀ z, s3.block z =
          if z = a then
            { is_free := true,
              block_size := ((s.block a).next_block).getD (P + s.SYSTEM_PAGE_SIZE) - a - L.H,
              offset := (s.block a).offset, prev_block := (s.block a).prev_block,
              next_block := (s.block a).next_block }
          else s.block z) ∧
      (∀ n : Nat, (s.block a).next_block = some n → (s.block n).is_free = true →
        ∀ z, s3.block z =
          if z = a then
            { is_free := true,
              block_size := n - a - L.H + L.H + (s.block n).block_size,
              offset := (s.block a).offset, prev_block := (s.block a).prev_block,
              next_block := (s.block n).next_block }
          else if (s.block n).next_block = some z then { s.block z with prev_block := some a }
          else s.block z) := by
  obtain ⟨s2, s3, h1, h2, hrun, hfr, hfam, hfwd, hplain⟩ :=
    release_front L s a P hH hAm hAf hAo hP hPS hgap hend hN
  refine ⟨s2, s3, h1, h2, hrun, hfr, hfam, ?_⟩
  suffices hmain : (s3.block a).is_free = true ∧
      (s3.block a).prev_block = (s.block a).prev_block ∧
      (s3.block a).offset = (s.block a).offset ∧
      a + L.H + (s3.block a).block_size ≤ P + s.SYSTEM_PAGE_SIZE ∧
      (∀ c : Nat, (s3.block a).next_block = some c → is_mapped s c = true ∧ a < c) ∧
      (∀ z, z < a → s3.block z = s.block z) ∧
      (∀ z, (s3.block z).next_block = none → z ≠ a → (s.block z).next_block = none) ∧
      ((∀ n : Nat, (s.block a).next_block = some n → (s.block n).is_free = false) →
        ∀ z, s3.block z =
          if z = a then
            { is_free := true,
              block_size := ((s.block a).next_block).getD (P + s.SYSTEM_PAGE_SIZE) - a - L.H,
              offset := (s.block a).offset, prev_block := (s.block a).prev_block,
              next_block := (s.block a).next_block }
          else s.block z) by
    obtain ⟨m1, m2, m3, m4, m5, m6, m7, m8⟩ := hmain
    exact ⟨m1, m2, m3, m4, m5, m6, m7, m8, hfwd⟩
  by_cases hcase : ∀ n : Nat, (s.block a).next_block = some n → (s.block n).is_free = false
  · have hb := hplain hcase
    refine ⟨by rw [hb a, if_pos rfl], by rw [hb a, if_pos rfl], by rw [hb a, if_pos rfl], ?_,
      ?_, ?_, ?_, fun _ => hb⟩
    · rw [hb a, if_pos rfl]
      simp only
      omega
    · intro c hc
      rw [hb a, if_pos rfl] at hc
      simp only at hc
      rw [hc] at hgap
      simp only [Option.getD_some] at hgap
      exact ⟨(hN c hc).1, by omega⟩
    · intro z hz
      rw [hb z, if_neg (by omega)]
    · intro z hz hza
      rw [hb z, if_neg hza] at hz
      exact hz
  · simp only [not_forall] at hcase
    obtain ⟨n, hn, hnf'⟩ := hcase
    have hnf : (s.block n).is_free = true := by
      cases h : (s.block n).is_free with
      | true => rfl
      | false => exact absurd h hnf'
    obtain ⟨hNm, hNfree⟩ := hN n hn
    obtain ⟨hNend, hNn⟩ := hNfree hnf
    have hb := hfwd n hn hnf
    rw [hn] at hgap
    simp only [Option.getD_some] at hgap
    refine ⟨by rw [hb a, if_pos rfl], by rw [hb a, if_pos rfl], by rw [hb a, if_pos rfl], ?_,
      ?_, ?_, ?_, ?_⟩
    · rw [hb a, if_pos rfl]
      simp only
      omega
    · intro c hc
      rw [hb a, if_pos rfl] at hc
      simp only at hc
      obtain ⟨hcm, hnc⟩ := hNn c hc
      exact ⟨hcm, by omega⟩
    · intro z hz
      rw [hb z, if_neg (by omega)]
      split
      · rename_i hc
        have := (hNn z hc).2
        omega
      · rfl
    · intro z hz hza
      rw [hb z, if_neg hza] at hz
      split at hz
      · exact hz
      · exact hz
    · intro hall
      have := hall n hn
      rw [hnf] at this
      cases this

/-- C25 as the code has it: the allocated block `a` of the page `P` is
released while its chain predecessor `p` is a free block of usable size `u`.
Let `s3` be the state after the slack step and the merge of `a` with a free
successor.  Then, whatever `mm_free_blocks` returns, `p` has the usable size
`u + H +` the size of `a` in `s3`, and its successor link is that of `a` in
`s3`; the call returns `p` when it has not given the page back, and `NULL`
when it has; and it does return `p` when the page stays in use. -/
theorem backward_coalesce_survivor (L : Layout) (s : mm_state) (a p P : Nat) (f : FamPtr)
    (fam : vm_page_family_t) (hH : 0 < L.H)
    (hAm : is_mapped s a = true) (hAf : (s.block a).is_free = false)
    (hAo : a - (s.block a).offset = P) (hP : is_mapped s P = true)
    (hPS : s.SYSTEM_PAGE_SIZE < 2147483648)
    (hgap : a + L.H + (s.block a).block_size ≤
      ((s.block a).next_block).getD (P + s.SYSTEM_PAGE_SIZE))
    (hend : ((s.block a).next_block).getD (P + s.SYSTEM_PAGE_SIZE) ≤ P + s.SYSTEM_PAGE_SIZE)
    (hN : ∀ n : Nat, (s.block a).next_block = some n → is_mapped s n = true ∧
      ((s.block n).is_free = true →
        n + L.H + (s.block n).block_size ≤ P + s.SYSTEM_PAGE_SIZE ∧
        ∀ c : Nat, (s.block n).next_block = some c → is_mapped s c = true ∧ n < c))
    (hAp : (s.block a).prev_block = some p) (hpm : is_mapped s p = true)
    (hpf : (s.block p).is_free = true) (hPp : P ≤ p)
    (hpa : p + L.H + (s.block p).block_size ≤ a) :
    ∃ s2 s3,
      free_reclaim_slack L (set_block s a { s.block a with is_free := true }) a P
        (s.block a).next_block = Except.ok s2 ∧
      free_merge_forward L s2 a (s.block a).next_block = Except.ok s3 ∧
      (∀ r s', mm_free_blocks L s a = Except.ok (r, s') →
        s'.block p =
          { s.block p with
            block_size := (s.block p).block_size + L.H + (s3.block a).block_size,
            next_block := (s3.block a).next_block } ∧
        ((r = some p ∧ s'.returned = s.returned) ∨
          (r = none ∧ s'.returned = P :: s.returned))) ∧
      (is_mapped s (P + L.BMO) = true →
        (P + L.BMO = p → (s.block p).prev_block ≠ none ∨
          ∃ n : Nat, (s.block a).next_block = some n ∧
            ((s.block n).is_free = false ∨ (s.block n).next_block ≠ none)) →
        (P + L.BMO ≠ p → (s.block (P + L.BMO)).next_block ≠ none) →
        (s.page P).pg_family = some f → get_family s f = some fam →
        (∀ x ∈ fam.free_block_priority_list_head, is_mapped s x = true) →
        ∃ s', mm_free_blocks L s a = Except.ok (some p, s')) := by
  obtain ⟨s2, s3, h1, h2, hrun, hfr, hfam, f1, f2, f3, f4, f5, f6, f7, f8, f9⟩ :=
    release_front_facts L s a P hH hAm hAf hAo hP hPS hgap hend hN
  have hpa' : p < a := by omega
  have hpne : p ≠ a := by omega
  have hp3 : s3.block p = s.block p := f6 p hpa'
  obtain ⟨s4, hback, hfr4, hfam4, hblk⟩ := merge_backward_union L s3 a p
    (by rw [is_mapped_of_frame _ _ hfr]; exact hpm)
    (by rw [is_mapped_of_frame _ _ hfr]; exact hAm)
    (by rw [hp3]; exact hpf) f1 hpne
    (by
      intro c hc
      obtain ⟨hcm, hac⟩ := f5 c hc
      exact ⟨by rw [is_mapped_of_frame _ _ hfr]; exact hcm, by omega⟩)
    (by
      rw [hp3]
      omega)
  rw [hAp, hback] at hrun
  simp only [bind_ok_eq] at hrun
  rw [hp3] at hblk
  refine ⟨s2, s3, h1, h2, ?_, ?_⟩
  · intro r s' h
    rw [hrun] at h
    obtain ⟨hb, _⟩ := finish_frame L s4 s' P p r h
    refine ⟨by rw [hb, hblk p, if_pos rfl], ?_⟩
    rcases finish_result L s4 s' P p r h with ⟨hr, hret⟩ | ⟨hr, hret⟩
    · exact Or.inr ⟨hr, by rw [hret, hfr4.2.2.2.2.2, hfr.2.2.2.2.2]⟩
    · exact Or.inl ⟨hr, by rw [hret, hfr4.2.2.2.2.2, hfr.2.2.2.2.2]⟩
  · intro hFm hFp hFn hPf hf hl
    have hfr' := same_frame_trans _ _ _ hfr hfr4
    obtain ⟨l', hfin, _⟩ := finish_in_use L s4 P p f fam
      (by rw [is_mapped_of_frame _ _ hfr']; exact hFm)
      (by
        by_cases hc : P + L.BMO = p
        · rw [hc, hblk p, if_pos rfl]
          simp only
          rcases hFp hc with h | ⟨n, hn, hq⟩
          · exact Or.inr (Or.inl h)
          · refine Or.inl ?_
            cases hnf : (s.block n).is_free with
            | true =>
              rw [f9 n hn hnf a, if_pos rfl]
              rcases hq with hq | hq
              · rw [hnf] at hq
                cases hq
              · exact hq
            | false =>
              rw [f8 (fun m hm => by
                rw [hn] at hm
                cases hm
                exact hnf) a, if_pos rfl, hn]
              simp
        · rw [hblk (P + L.BMO), if_neg hc]
          split
          · exact Or.inr (Or.inl (by simp))
          · by_cases hFa : P + L.BMO = a
            · rw [hFa, f2, hAp]
              exact Or.inr (Or.inl (by simp))
            · refine Or.inl ?_
              intro hnone
              exact hFn hc (f7 _ hnone hFa))
      (by rw [is_mapped_of_frame _ _ hfr']; exact hP)
      (by rw [hfr'.2.2.1]; exact hPf)
      (by
        unfold get_family at hf ⊢
        rw [hfam4, hfam]
        exact hf)
      (by
        intro x hx
        rw [is_mapped_of_frame _ _ hfr']
        exact hl x hx)
      (by rw [is_mapped_of_frame _ _ hfr']; exact hpm)
      (by rw [hblk p, if_pos rfl]; exact hpf)
    exact ⟨_, hrun.trans hfin⟩

theorem backward_coalesce_survivor_witness :
    ∃ s', mm_free_blocks L40 first_released 8296 = Except.ok (some 8192, s') ∧
      (s'.block 8192).block_size = 64 + 40 + 64 ∧
      (s'.block 8192).next_block = some 8400 := by
  obtain ⟨s2, s3, h1, h2, hA, hB⟩ := backward_coalesce_survivor L40 first_released 8296 8192
    8192 (4096, 0) (vm_page_family_t.mk "Employee".toList 64 (some 8192) [8504, 8192])
    (by decide) rfl rfl rfl rfl (by decide) (by decide) (by decide)
    (fun n h => by
      have hn : n = 8400 :=
        (Option.some.inj ((show (first_released.block 8296).next_block = some 8400
          from rfl).symm.trans h)).symm
      subst hn
      exact ⟨rfl, fun hc => Bool.noConfusion hc⟩)
    rfl rfl rfl (by decide) (by decide)
  obtain ⟨s', hs'⟩ := hB rfl (fun _ => Or.inr ⟨8400, rfl, Or.inl rfl⟩)
    (fun hc => absurd hc (by decide)) rfl rfl (by
      intro x hx
      simp only [List.mem_cons, List.mem_singleton, List.mem_nil_iff, or_false] at hx
      rcases hx with h | h <;> subst h <;> rfl)
  have hp := (hA _ _ hs').1
  have e3 : s3.block 8296 =
      { is_free := true, block_size := 64, offset := 104, prev_block := some 8192,
        next_block := some 8400 } := by
    have e2 := Except.ok.inj (h1.symm.trans (reclaim_slack_forward L40 _ 8296 8192 _ rfl
      (by decide) (by decide)))
    subst e2
    have e3 := Except.ok.inj (h2.symm.trans (show free_merge_forward L40 _ 8296 _ =
      Except.ok _ from rfl))
    subst e3
    rfl
  rw [e3] at hp
  exact ⟨s', hs', by rw [hp]; rfl, by rw [hp]⟩

theorem tight_congr (L : Layout) (s s' : mm_state) (hi x : Nat)
    (h1 : (s'.block x).is_free = (s.block x).is_free)
    (h2 : (s'.block x).block_size = (s.block x).block_size)
    (h3 : (s'.block x).next_block = (s.block x).next_block)
    (ht : tight L s hi x) : tight L s' hi x := by
  unfold tight at ht ⊢
  rw [h1, h2, h3]
  exact ht

theorem mem_insert_after (a n x : Nat) (l : List Nat) (hx : x ∈ insert_after a n l) :
    x = n ∨ x ∈ l := by
  induction l with
  | nil => cases hx
  | cons y ys ih =>
    unfold insert_after at hx
    split at hx
    · rcases List.mem_cons.mp hx with h | h
      · exact Or.inr (by rw [h]; exact List.mem_cons_self _ _)
      · rcases List.mem_cons.mp h with h | h
        · exact Or.inl h
        · exact Or.inr (List.mem_cons_of_mem _ h)
    · rcases List.mem_cons.mp hx with h | h
      · exact Or.inr (by rw [h]; exact List.mem_cons_self _ _)
      · rcases ih h with h | h
        · exact Or.inl h
        · exact Or.inr (List.mem_cons_of_mem _ h)

theorem mem_of_mem_drop_after (y x : Nat) (l : List Nat) (hx : x ∈ drop_after y l) :
    x ∈ l := by
  induction l with
  | nil => cases hx
  | cons h t ih =>
    unfold drop_after at hx
    split at hx
    · rcases List.mem_cons.mp hx with h1 | h1
      · rw [h1]
        exact List.mem_cons_self _ _
      · exact List.mem_cons_of_mem _ (List.mem_of_mem_tail h1)
    · rcases List.mem_cons.mp hx with h1 | h1
      · rw [h1]
        exact List.mem_cons_self _ _
      · exact List.mem_cons_of_mem _ (ih h1)

theorem gapless_resize (L : Layout) (s s' : mm_state) (hi a : Nat) (v : block_meta_data_t)
    (l : List Nat)
    (hs : ∀ x, s'.block x = if x = a then v else s.block x)
    (hv : (v.is_free = true → a + L.H + v.block_size = v.next_block.getD hi) ∧
      (v.is_free = false → v.next_block.getD hi < a + L.H + v.block_size + L.H))
    (ht : ∀ x ∈ l, tight L s hi x) : ∀ x ∈ l, tight L s' hi x := by
  intro x hx
  by_cases hxa : x = a
  · subst hxa
    unfold tight
    rw [hs x, if_pos rfl]
    exact hv
  · exact tight_congr L s s' hi x (by rw [hs x, if_neg hxa]) (by rw [hs x, if_neg hxa])
      (by rw [hs x, if_neg hxa]) (ht x hx)

theorem gapless_insert (L : Layout) (s s' : mm_state) (hi a n : Nat)
    (va vn : block_meta_data_t) (l : List Nat)
    (hs : ∀ x, s'.block x = if x = a then va else if x = n then vn else
      if (s.block a).next_block = some x then { s.block x with prev_block := some n }
      else s.block x)
    (hva : (va.is_free = true → a + L.H + va.block_size = va.next_block.getD hi) ∧
      (va.is_free = false → va.next_block.getD hi < a + L.H + va.block_size + L.H))
    (hvn : (vn.is_free = true → n + L.H + vn.block_size = vn.next_block.getD hi) ∧
      (vn.is_free = false → vn.next_block.getD hi < n + L.H + vn.block_size + L.H))
    (ht : ∀ x ∈ l, tight L s hi x) : ∀ x ∈ insert_after a n l, tight L s' hi x := by
  intro x hx
  by_cases hxa : x = a
  · subst hxa
    unfold tight
    rw [hs x, if_pos rfl]
    exact hva
  · by_cases hxn : x = n
    · subst hxn
      unfold tight
      rw [hs x, if_neg hxa, if_pos rfl]
      exact hvn
    · have hxl : x ∈ l := by
        rcases mem_insert_after a n x l hx with h | h
        · exact absurd h hxn
        · exact h
      apply tight_congr L s s' hi x _ _ _ (ht x hxl)
      · rw [hs x, if_neg hxa, if_neg hxn]
        split <;> rfl
      · rw [hs x, if_neg hxa, if_neg hxn]
        split <;> rfl
      · rw [hs x, if_neg hxa, if_neg hxn]
        split <;> rfl

theorem gapless_union (L : Layout) (s s' : mm_state) (hi x y : Nat)
    (vx : block_meta_data_t) (l : List Nat)
    (hs : ∀ z, s'.block z = if z = x then vx else
      if (s.block y).next_block = some z then { s.block z with prev_block := some x }
      else s.block z)
    (hvx : (vx.is_free = true → x + L.H + vx.block_size = vx.next_block.getD hi) ∧
      (vx.is_free = false → vx.next_block.getD hi < x + L.H + vx.block_size + L.H))
    (ht : ∀ z ∈ l, tight L s hi z) : ∀ z ∈ drop_after x l, tight L s' hi z := by
  intro z hz
  have hzl := mem_of_mem_drop_after x z l hz
  by_cases hzx : z = x
  · subst hzx
    unfold tight
    rw [hs z, if_pos rfl]
    exact hvx
  · apply tight_congr L s s' hi z _ _ _ (ht z hzl)
    · rw [hs z, if_neg hzx]
      split <;> rfl
    · rw [hs z, if_neg hzx]
      split <;> rfl
    · rw [hs z, if_neg hzx]
      split <;> rfl

theorem fresh_keeps_gapless (L : Layout) (f : FamPtr) (P PS : Nat) (s0 s : mm_state)
    (hH : 0 < L.H) (hlay : L.PMO = L.BMO + L.H) (hfit : L.PMO ≤ PS) (hPS : PS < 2147483648)
    (hps : s0.SYSTEM_PAGE_SIZE = PS)
    (h : mm_family_new_page_add L s0 f = Except.ok (P, s)) : page_gapless L P PS s := by
  unfold mm_family_new_page_add at h
  simp only [bind_eq_ok_iff, pure_eq_ok, Except.ok.injEq, Prod.mk.injEq] at h
  obtain ⟨⟨p, s1⟩, h1, s2, h2, rfl, rfl⟩ := h
  obtain ⟨v, rfl⟩ := insert_list_frame _ _ _ _ h2
  obtain ⟨e, b1, b2, b3, b4⟩ := allocate_vm_page_block L s0 s1 f p h1
  rw [max_alloc_one L s0 (by omega) (by omega)] at b4
  refine ⟨e.trans hps, [p + L.BMO], rfl, ?_, ?_⟩
  · refine ⟨b1, b2, ?_, ?_, trivial⟩
    · simp only [set_family_block, b3]
    · simp only [set_family_block, b4, List.head?_nil, Option.getD_none]
      omega
  · intro a ha
    rw [List.mem_singleton] at ha
    subst ha
    unfold tight
    simp only [set_family_block, b2, b4, Option.getD_none]
    constructor
    · intro _
      omega
    · intro _
      omega

theorem carve_keeps_gapless (L : Layout) (f : FamPtr) (P PS : Nat) (s S s' : mm_state)
    (a r rem : Nat) (status : Bool) (l : List Nat) (hH : 0 < L.H) (hPS : PS < 2147483648)
    (hps : s.SYSTEM_PAGE_SIZE = PS)
    (hhead : l.head? = some (P + L.BMO)) (hchain : chain_ok L s P (P + PS) none l)
    (htl : ∀ x ∈ l, tight L s (P + PS) x)
    (ha : a ∈ l) (hoff : a = P + (s.block a).offset)
    (hend : a + L.H + (s.block a).block_size = ((s.block a).next_block).getD (P + PS))
    (hbound : a + L.H + (s.block a).block_size ≤ P + PS)
    (hcgt : ∀ c : Nat, (s.block a).next_block = some c →
      a + L.H + (s.block a).block_size ≤ c)
    (hSps : S.SYSTEM_PAGE_SIZE = s.SYSTEM_PAGE_SIZE)
    (hS : ∀ z, S.block z =
      if z = a then { s.block a with is_free := false, block_size := r } else s.block z)
    (hrem : rem = (s.block a).block_size - r) (hle : r ≤ (s.block a).block_size)
    (hremH : L.H ≤ rem)
    (h : (do
      let b ← read_block S a
      let next_block_meta_data := NEXT_META_BLOCK_BY_SIZE L a b
      let nb ← read_block S next_block_meta_data
      let s ← write_block S next_block_meta_data { nb with is_free := true }
      let nb ← read_block s next_block_meta_data
      let s ← write_block s next_block_meta_data
        { nb with block_size := u32 ((rem : Int) - (L.H : Int)) }
      let b ← read_block s a
      let nb ← read_block s next_block_meta_data
      let s ← write_block s next_block_meta_data
        { nb with offset := u32 ((b.offset : Int) + (L.H : Int) + (b.block_size : Int)) }
      let s ← mm_add_free_block_meta_data_to_free_block_list s f next_block_meta_data
      let s ← mm_bind_blocks_for_allocation s a next_block_meta_data
      pure (true, s) : Except Fault (Bool × mm_state)) = Except.ok (status, s')) :
    page_gapless L P PS s' := by
  have hSa : S.block a = { s.block a with is_free := false, block_size := r } := by
    rw [hS]
    simp
  obtain ⟨hps', hb⟩ := carve_inv L S s' f a rem status h hH (by
    intro c hc
    rw [hSa] at hc ⊢
    simp only at hc ⊢
    have := hcgt c hc
    omega)
  rw [hSa] at hb
  simp only at hb
  have e1 : u32 ((rem : Int) - (L.H : Int)) = rem - L.H :=
    u32_sub_small rem L.H hremH (by omega)
  have e2 : u32 (((s.block a).offset : Int) + (L.H : Int) + (r : Int)) =
      (s.block a).offset + L.H + r := u32_add3 _ _ _ (by omega)
  rw [e1, e2] at hb
  have hb' : ∀ z, s'.block z =
      if z = a then
        block_meta_data_t.mk false r (s.block a).offset (s.block a).prev_block
          (some (a + L.H + r))
      else if z = a + L.H + r then
        block_meta_data_t.mk true (rem - L.H) ((s.block a).offset + L.H + r) (some a)
          (s.block a).next_block
      else if (s.block a).next_block = some z then
        { s.block z with prev_block := some (a + L.H + r) }
      else s.block z := by
    intro z
    rw [hb z]
    by_cases hz : z = a
    · simp [hz]
    · rw [hS z]
      simp only [hz, if_false]
  refine ⟨by rw [hps', hSps, hps], insert_after a (a + L.H + r) l,
    by rw [head_insert_after]; exact hhead, ?_, ?_⟩
  · exact chain_ok_insert L s s' P (P + PS) a (a + L.H + r) _ _
      hH hb' rfl rfl rfl
      (Nat.le_refl _) rfl rfl (by simp only; omega) (by simp only; omega) none l ha hchain
  · apply gapless_insert L s s' (P + PS) a (a + L.H + r) _ _ l hb' _ _ htl
    · constructor
      · intro hc
        cases hc
      · intro _
        simp only [Option.getD_some]
        omega
    · constructor
      · intro _
        simp only
        omega
      · intro hc
        cases hc

theorem split_keeps_gapless (L : Layout) (f : FamPtr) (P PS : Nat) (s s' : mm_state)
    (a r : Nat) (status : Bool) (hH : 0 < L.H) (hPS : PS < 2147483648)
    (hinv : page_gapless L P PS s)
    (ha : a ∈ page_blocks s PS (some (P + L.BMO)))
    (h : mm_split_free_data_block_for_allocation L s f a r = Except.ok (status, s')) :
    page_gapless L P PS s' := by
  obtain ⟨hps, l, hhead, hchain, htl⟩ := hinv
  rw [mem_chain_of_page_blocks L s P PS l hH hhead hchain] at ha
  obtain ⟨hoff, hbound⟩ := chain_bound_at L s P (P + PS) none l hchain a ha
  have hhi := getD_le_hi L s P (P + PS) none l hH hchain a ha
  have hcgt : ∀ c : Nat, (s.block a).next_block = some c →
      a + L.H + (s.block a).block_size ≤ c := by
    intro c hc
    rw [hc] at hbound
    simpa using hbound
  unfold mm_split_free_data_block_for_allocation at h
  simp only [bind_eq_ok_iff, read_block_eq_ok] at h
  obtain ⟨b, ⟨_, rfl⟩, h⟩ := h
  split at h
  · cases h
  · rename_i hfree
    have hfree' : (s.block a).is_free = true := by
      cases hv : (s.block a).is_free with
      | true => rfl
      | false => simp [hv] at hfree
    have hend := (htl a ha).1 hfree'
    split at h
    · simp only [pure_eq_ok, Except.ok.injEq, Prod.mk.injEq] at h
      obtain ⟨_, rfl⟩ := h
      exact ⟨hps, l, hhead, hchain, htl⟩
    · rename_i hle
      simp only [bind_eq_ok_iff, read_block_eq_ok, write_block_eq_ok, read_family_eq_ok,
        write_family_eq_ok] at h
      obtain ⟨s1, ⟨_, rfl⟩, b1, ⟨_, rfl⟩, s2, ⟨_, rfl⟩, fam, _, s3, ⟨_, rfl⟩, fam2, _, h⟩ := h
      simp only [set_block_block, if_true, set_block_set_block] at h
      have hplain : (s.block a).block_size - r < L.H → page_gapless L P PS (set_family
          (set_block s a { s.block a with is_free := false, block_size := r }) f
          { fam with free_block_priority_list_head :=
              remove_glthread a fam.free_block_priority_list_head }) := by
        intro hsmall
        refine ⟨hps, l, hhead, ?_, ?_⟩
        · apply chain_ok_resize L s _ P (P + PS) a
            { s.block a with is_free := false, block_size := r } (fun x => rfl) rfl rfl rfl
            (by simp only; omega) none l hchain
        · apply gapless_resize L s _ (P + PS) a
            { s.block a with is_free := false, block_size := r } l (fun x => rfl) _ htl
          constructor
          · intro hc
            cases hc
          · intro _
            simp only
            omega
      have hS : ∀ z, (set_family
          (set_block s a { s.block a with is_free := false, block_size := r }) f
          { fam with free_block_priority_list_head :=
              remove_glthread a fam.free_block_priority_list_head }).block z =
          if z = a then { s.block a with is_free := false, block_size := r }
          else s.block z := by
        intro z
        simp only [set_family_block, set_block_block]
      split at h
      · rename_i h0
        simp only [pure_eq_ok, Except.ok.injEq, Prod.mk.injEq] at h
        obtain ⟨_, rfl⟩ := h
        exact hplain (by omega)
      · split at h
        · rename_i h0 hsoft
          exact carve_keeps_gapless L f P PS s (set_family
            (set_block s a { s.block a with is_free := false, block_size := r }) f
            { fam with free_block_priority_list_head :=
                remove_glthread a fam.free_block_priority_list_head }) s' a r
            ((s.block a).block_size - r) status l hH
            hPS hps hhead hchain htl ha hoff hend (by omega) hcgt rfl hS rfl (by omega)
            (by omega) h
        · split at h
          · rename_i h0 hsoft hhard
            simp only [pure_eq_ok, Except.ok.injEq, Prod.mk.injEq] at h
            obtain ⟨_, rfl⟩ := h
            exact hplain hhard
          · rename_i h0 hsoft hhard
            exact carve_keeps_gapless L f P PS s (set_family
              (set_block s a { s.block a with is_free := false, block_size := r }) f
              { fam with free_block_priority_list_head :=
                  remove_glthread a fam.free_block_priority_list_head }) s' a r
              ((s.block a).block_size - r) status l hH
              hPS hps hhead hchain htl ha hoff hend (by omega) hcgt rfl hS rfl (by omega)
              (by omega) h

theorem union_keeps_gapless (L : Layout) (s s' : mm_state) (P PS x y : Nat) (l : List Nat)
    (hH : 0 < L.H) (hPS : PS < 2147483648)
    (hchain : chain_ok L s P (P + PS) none l) (htl : ∀ z ∈ l, tight L s (P + PS) z)
    (hx : x ∈ l) (hxy : (s.block x).next_block = some y)
    (hex : x + L.H + (s.block x).block_size = y)
    (hey : y + L.H + (s.block y).block_size = ((s.block y).next_block).getD (P + PS))
    (h : mm_union_free_blocks L s x y = Except.ok s') :
    s'.SYSTEM_PAGE_SIZE = s.SYSTEM_PAGE_SIZE ∧
      chain_ok L s' P (P + PS) none (drop_after x l) ∧
      (∀ z ∈ drop_after x l, tight L s' (P + PS) z) ∧
      x + L.H + (s'.block x).block_size = ((s'.block x).next_block).getD (P + PS) := by
  obtain ⟨hlt, hy⟩ := chain_next_gt L s P (P + PS) none l hH hchain x hx y hxy
  obtain ⟨_, hbx⟩ := chain_bound_at L s P (P + PS) none l hchain x hx
  obtain ⟨_, hby⟩ := chain_bound_at L s P (P + PS) none l hchain y hy
  have hhi := getD_le_hi L s P (P + PS) none l hH hchain y hy
  have hPx := (chain_ok_mem_bound L s P (P + PS) none l hH hchain x hx).1
  rw [hxy] at hbx
  simp only [Option.getD_some] at hbx
  obtain ⟨hps, hb⟩ := union_inv L s s' x y h (by omega) (by
    intro c hc
    have := (chain_next_gt L s P (P + PS) none l hH hchain y hy c hc).1
    omega)
  rw [u32_add3 _ _ _ (by omega)] at hb
  refine ⟨hps, ?_, ?_, ?_⟩
  · exact chain_ok_union L s s' P (P + PS) x y
      { s.block x with
        block_size := (s.block x).block_size + L.H + (s.block y).block_size,
        next_block := (s.block y).next_block }
      hH hb hxy rfl rfl rfl (by simp only; omega) none l hx hchain
  · apply gapless_union L s s' (P + PS) x y
      { s.block x with
        block_size := (s.block x).block_size + L.H + (s.block y).block_size,
        next_block := (s.block y).next_block } l hb _ htl
    constructor
    · intro _
      simp only
      omega
    · intro _
      simp only
      omega
  · rw [hb x, if_pos rfl]
    simp only
    omega

theorem free_keeps_gapless (L : Layout) (P PS : Nat) (s s' : mm_state) (a r : Nat)
    (hH : 0 < L.H) (hPS : PS < 2147483648)
    (hinv : page_gapless L P PS s)
    (ha : a ∈ page_blocks s PS (some (P + L.BMO)))
    (h : mm_free_blocks L s a = Except.ok (some r, s')) :
    page_gapless L P PS s' := by
  obtain ⟨hps, l, hhead, hchain, htl⟩ := hinv
  rw [mem_chain_of_page_blocks L s P PS l hH hhead hchain] at ha
  obtain ⟨hoff, hbound⟩ := chain_bound_at L s P (P + PS) none l hchain a ha
  have hhi := getD_le_hi L s P (P + PS) none l hH hchain a ha
  have hPa := (chain_ok_mem_bound L s P (P + PS) none l hH hchain a ha).1
  unfold mm_free_blocks at h
  simp only [bind_eq_ok_iff, read_block_eq_ok] at h
  obtain ⟨b, ⟨hm, rfl⟩, h⟩ := h
  split at h
  · cases h
  · simp only [bind_eq_ok_iff, read_block_eq_ok, read_page_eq_ok, write_block_eq_ok] at h
    obtain ⟨_, _, s1, ⟨_, rfl⟩, b1, ⟨_, rfl⟩, s2, h2, s3, h3, b3, ⟨_, rfl⟩,
      ⟨rb, s4⟩, h4, empty, _, h⟩ := h
    simp only [set_block_block, if_true, MM_GET_PAGE_FROM_META_BLOCK] at h2 h3
    have i2 : s2.SYSTEM_PAGE_SIZE = PS ∧ chain_ok L s2 P (P + PS) none l ∧
        (s2.block a).next_block = (s.block a).next_block ∧
        (∀ x ∈ l, tight L s2 (P + PS) x) ∧
        a + L.H + (s2.block a).block_size = ((s2.block a).next_block).getD (P + PS) := by
      split at h2
      · rename_i n hn
        simp only [bind_eq_ok_iff, read_block_eq_ok, write_block_eq_ok,
          mm_get_hard_internal_memory_frag_size, pure_eq_ok, Except.ok.injEq] at h2
        obtain ⟨w, ⟨b2, ⟨_, rfl⟩, rfl⟩, _, ⟨_, rfl⟩, _, rfl⟩ := h2
        rw [hn] at hbound hhi
        simp only [Option.getD_some] at hbound hhi
        have hsz := slack_size (s.block a).block_size a n L.H hbound (by omega)
        have hs : ∀ x, (set_block (set_block s a { s.block a with is_free := true }) a
            { (set_block s a { s.block a with is_free := true }).block a with
              block_size := u32 ((((set_block s a { s.block a with is_free := true }).block
                a).block_size : Int) +
                i32 ((n : Int) - (NEXT_META_BLOCK_BY_SIZE L a
                  ((set_block s a { s.block a with is_free := true }).block a) : Int))) }).block
              x =
            if x = a then block_meta_data_t.mk true (n - a - L.H) (s.block a).offset
              (s.block a).prev_block (s.block a).next_block else s.block x := by
          intro x
          by_cases hx : x = a
          · simp only [set_block_block, if_true, NEXT_META_BLOCK_BY_SIZE, hsz, hx]
          · simp only [set_block_block, if_false, hx]
        refine ⟨by simpa using hps, ?_, by simp, ?_, ?_⟩
        · apply chain_ok_resize L s _ P (P + PS) a _ hs rfl rfl rfl ?_ none l hchain
          simp only [hn, Option.getD_some]
          omega
        · apply gapless_resize L s _ (P + PS) a _ l hs _ htl
          simp only [hn, Option.getD_some]
          constructor
          · intro _
            omega
          · intro _
            omega
        · rw [hs a, if_pos rfl]
          simp only [hn, Option.getD_some]
          omega
      · rename_i hn
        simp only [bind_eq_ok_iff, read_block_eq_ok, write_block_eq_ok] at h2
        obtain ⟨_, ⟨_, rfl⟩, _, rfl⟩ := h2
        rw [hn] at hbound
        simp only [Option.getD_none] at hbound
        have hnP : a - (s.block a).offset + s.SYSTEM_PAGE_SIZE = P + PS := by omega
        have hsz := slack_size (s.block a).block_size a (P + PS) L.H hbound (by omega)
        have hs : ∀ x, (set_block (set_block s a { s.block a with is_free := true }) a
            { (set_block s a { s.block a with is_free := true }).block a with
              block_size := u32 ((((set_block s a { s.block a with is_free := true }).block
                a).block_size : Int) +
                i32 (((a - (s.block a).offset +
                  (set_block s a { s.block a with is_free := true }).SYSTEM_PAGE_SIZE : Nat) :
                    Int) -
                  ((a + L.H + ((set_block s a { s.block a with is_free := true }).block
                    a).block_size : Nat) : Int))) }).block x =
            if x = a then block_meta_data_t.mk true (P + PS - a - L.H) (s.block a).offset
              (s.block a).prev_block (s.block a).next_block else s.block x := by
          intro x
          by_cases hx : x = a
          · simp only [set_block_block, if_true, set_block_size, hnP, hsz, hx]
          · simp only [set_block_block, if_false, hx]
        refine ⟨by simpa using hps, ?_, by simp, ?_, ?_⟩
        · apply chain_ok_resize L s _ P (P + PS) a _ hs rfl rfl rfl ?_ none l hchain
          simp only [hn, Option.getD_none]
          omega
        · apply gapless_resize L s _ (P + PS) a _ l hs _ htl
          simp only [hn, Option.getD_none]
          constructor
          · intro _
            omega
          · intro _
            omega
        · rw [hs a, if_pos rfl]
          simp only [hn, Option.getD_none]
          omega
    obtain ⟨hps2, hchain2, hnext2, htl2, hend2⟩ := i2
    have i3 : s3.SYSTEM_PAGE_SIZE = PS ∧ ∃ l3 : List Nat, l3.head? = some (P + L.BMO) ∧
        chain_ok L s3 P (P + PS) none l3 ∧ a ∈ l3 ∧ (∀ x ∈ l3, tight L s3 (P + PS) x) ∧
        a + L.H + (s3.block a).block_size = ((s3.block a).next_block).getD (P + PS) := by
      split at h3
      · rename_i n hn
        simp only [bind_eq_ok_iff, read_block_eq_ok] at h3
        obtain ⟨nb, ⟨_, rfl⟩, h3⟩ := h3
        split at h3
        · rename_i hnf
          have hn2 : (s2.block a).next_block = some n := hnext2.trans hn
          have hnl := (chain_next_gt L s2 P (P + PS) none l hH hchain2 a ha n hn2).2
          have hea : a + L.H + (s2.block a).block_size = n := by
            rw [hend2, hn2]
            rfl
          obtain ⟨e, hc, ht, he⟩ := union_keeps_gapless L s2 s3 P PS a n l hH hPS hchain2 htl2
            ha hn2 hea ((htl2 n hnl).1 hnf) h3
          exact ⟨e.trans hps2, drop_after a l, by rw [head_drop_after]; exact hhead, hc,
            mem_drop_after a l ha, ht, he⟩
        · simp only [pure_eq_ok, Except.ok.injEq] at h3
          subst h3
          exact ⟨hps2, l, hhead, hchain2, ha, htl2, hend2⟩
      · simp only [pure_eq_ok, Except.ok.injEq] at h3
        subst h3
        exact ⟨hps2, l, hhead, hchain2, ha, htl2, hend2⟩
    obtain ⟨hps3, l3, hhead3, hchain3, ha3, htl3, hend3⟩ := i3
    have i4 : page_gapless L P PS s4 := by
      split at h4
      · rename_i p hp
        simp only [bind_eq_ok_iff, read_block_eq_ok] at h4
        obtain ⟨pb, ⟨_, rfl⟩, h4⟩ := h4
        split at h4
        · rename_i hpf
          simp only [bind_eq_ok_iff, pure_eq_ok, Except.ok.injEq, Prod.mk.injEq] at h4
          obtain ⟨s5, h5, _, rfl⟩ := h4
          rcases chain_prev_mem L s3 P (P + PS) hH none l3 hchain3 a ha3 p hp with hcase | hcase
          · exact Option.noConfusion hcase.2
          · have hep : p + L.H + (s3.block p).block_size = a := by
              rw [(htl3 p hcase.1).1 hpf, hcase.2.1]
              rfl
            obtain ⟨e, hc, ht, _⟩ := union_keeps_gapless L s3 s5 P PS p a l3 hH hPS hchain3
              htl3 hcase.1 hcase.2.1 hep hend3 h5
            exact ⟨e.trans hps3, drop_after p l3, by rw [head_drop_after]; exact hhead3, hc,
              ht⟩
        · simp only [pure_eq_ok, Except.ok.injEq, Prod.mk.injEq] at h4
          obtain ⟨_, rfl⟩ := h4
          exact ⟨hps3, l3, hhead3, hchain3, htl3⟩
      · simp only [pure_eq_ok, Except.ok.injEq, Prod.mk.injEq] at h4
        obtain ⟨_, rfl⟩ := h4
        exact ⟨hps3, l3, hhead3, hchain3, htl3⟩
    simp only at h
    split at h
    · simp only [bind_eq_ok_iff, pure_eq_ok, Except.ok.injEq, Prod.mk.injEq] at h
      obtain ⟨s5, _, hcontra, _⟩ := h
      cases hcontra
    · simp only [bind_eq_ok_iff, read_page_eq_ok] at h
      obtain ⟨hp, _, h⟩ := h
      split at h
      · cases h
      · simp only [bind_eq_ok_iff, pure_eq_ok, Except.ok.injEq, Prod.mk.injEq] at h
        obtain ⟨s5, h5, _, rfl⟩ := h
        obtain ⟨v, rfl⟩ := insert_list_frame _ _ _ _ h5
        obtain ⟨e4, l4, hhead4, hchain4, htl4⟩ := i4
        exact ⟨e4, l4, hhead4, chain_ok_congr L s4 _ P (P + PS) none l4 (fun x _ => rfl) hchain4,
          fun x hx => tight_congr L s4 _ (P + PS) x rfl rfl rfl (htl4 x hx)⟩

theorem reachable_gapless (L : Layout) (f : FamPtr) (P PS : Nat) (s : mm_state)
    (hH : 0 < L.H) (hlay : L.PMO = L.BMO + L.H) (hfit : L.PMO ≤ PS) (hPS : PS < 2147483648)
    (hr : page_reachable L f P PS s) : page_gapless L P PS s := by
  induction hr with
  | fresh s0 s hps h => exact fresh_keeps_gapless L f P PS s0 s hH hlay hfit hPS hps h
  | alloc s s' a size status _ ha h ih =>
    exact split_keeps_gapless L f P PS s s' a size status hH hPS ih ha h
  | release s s' a r _ ha h ih => exact free_keeps_gapless L P PS s s' a r hH hPS ih ha h

/-! ## Splits and releases of chain blocks leave no gaps -/

/-- The gaps of a chain whose blocks alone are split and released: in every
state reached from a page as `mm_family_new_page_add`
creates it, by splits for an allocation and releases applied to blocks of the
page's chain that leave the page in use, every block `a` of the chain has this
gap behind it, measured from the recorded offsets up to the offset of its
chain successor, or up to the page size when it is the last block: 0 when `a`
is free, and at least 0 and less than a header size when `a` is allocated. -/
theorem chain_is_gapless (L : Layout) (f : FamPtr) (P PS : Nat) (s : mm_state)
    (hH : 0 < L.H) (hlay : L.PMO = L.BMO + L.H) (hfit : L.PMO ≤ PS) (hPS : PS < 2147483648)
    (hr : page_reachable L f P PS s) :
    ∀ a ∈ page_blocks s PS (some (P + L.BMO)),
      ((s.block a).is_free = true → gap_behind L s a = 0) ∧
      ((s.block a).is_free = false →
        0 ≤ gap_behind L s a ∧ gap_behind L s a < (L.H : Int)) := by
  obtain ⟨hps, l, hhead, hchain, htl⟩ := reachable_gapless L f P PS s hH hlay hfit hPS hr
  rw [mem_chain_of_page_blocks L s P PS l hH hhead hchain]
  intro a ha
  obtain ⟨hoff, hbound⟩ := chain_bound_at L s P (P + PS) none l hchain a ha
  obtain ⟨ht1, ht2⟩ := htl a ha
  unfold gap_behind
  cases hn : (s.block a).next_block with
  | none =>
    rw [hn] at hbound ht1 ht2
    simp only [Option.getD_none] at hbound ht1 ht2
    simp only [hps]
    constructor
    · intro hf
      have := ht1 hf
      omega
    · intro hf
      have := ht2 hf
      omega
  | some n =>
    have hnl := (chain_next_gt L s P (P + PS) none l hH hchain a ha n hn).2
    have hoffn := (chain_bound_at L s P (P + PS) none l hchain n hnl).1
    rw [hn] at hbound ht1 ht2
    simp only [Option.getD_some] at hbound ht1 ht2
    simp only
    constructor
    · intro hf
      have := ht1 hf
      omega
    · intro hf
      have := ht2 hf
      omega

theorem chain_is_gapless_witness :
    page_reachable L40 (4096, 0) 8192 4096 page_walk_4 ∧
    ∀ a ∈ page_blocks page_walk_4 4096 (some (8192 + L40.BMO)),
      ((page_walk_4.block a).is_free = true → gap_behind L40 page_walk_4 a = 0) ∧
      ((page_walk_4.block a).is_free = false →
        0 ≤ gap_behind L40 page_walk_4 a ∧ gap_behind L40 page_walk_4 a < (L40.H : Int)) :=
  have hr : page_reachable L40 (4096, 0) 8192 4096 page_walk_4 :=
    page_reachable.release page_walk_3 page_walk_4 8192 8192
      (page_reachable.alloc page_walk_2 page_walk_3 8296 64 true
        (page_reachable.alloc page_walk_1 page_walk_2 8192 64 true
          (page_reachable.fresh page_walk_0 page_walk_1 rfl rfl)
          (by decide) rfl)
        (by decide) rfl)
      (by decide) rfl
  ⟨hr, chain_is_gapless L40 (4096, 0) 8192 4096 page_walk_4 (by decide) rfl
    (by decide) (by decide) hr⟩

/-! ## The index after a page has been given back -/

set_option maxRecDepth 1000000 in
/-- C32, at the failing input: one unit is allocated from the fresh page 8192
and released; the release merges the free rest of the page into the block and
gives the page 8192 back, but the header of the rest at 8296, a block of the
page given back, is still in the family's index. -/
theorem reclaimed_page_stays_indexed :
    scenario_reclaimed_page_indexed = Except.ok ([8192], [8296], [8296]) := by
  rfl

/-! ## Free neighbours: what the operations keep -/

theorem chain_next_prev (L : Layout) (s : mm_state) (P hi : Nat) (prev : Option Nat)
    (l : List Nat) (hc : chain_ok L s P hi prev l) (x : Nat) (hx : x ∈ l)
    (y : Nat) (hn : (s.block x).next_block = some y) : (s.block y).prev_block = some x := by
  induction l generalizing prev with
  | nil => cases hx
  | cons h rest ih =>
    obtain ⟨_, h2, _, _, h5⟩ := hc
    rcases List.mem_cons.mp hx with e | e
    · subst e
      rw [hn] at h2
      cases rest with
      | nil => cases h2
      | cons b rest' =>
        simp only [List.head?_cons, Option.some.injEq] at h2
        subst h2
        exact h5.1
    · exact ih _ h5 e

theorem chain_successor_le (L : Layout) (s : mm_state) (P hi : Nat) (prev : Option Nat)
    (l : List Nat) (hH : 0 < L.H) (hc : chain_ok L s P hi prev l) (a : Nat) (ha : a ∈ l)
    (y : Nat) (hy : y ∈ l) (hlt : a < y) :
    ∃ c : Nat, (s.block a).next_block = some c ∧ c ≤ y := by
  induction l generalizing prev with
  | nil => cases ha
  | cons x rest ih =>
    have hxlt := chain_ok_lt L s P hi prev x rest hH hc
    obtain ⟨_, h2, _, _, h5⟩ := hc
    rcases List.mem_cons.mp ha with e | e
    · subst e
      rcases List.mem_cons.mp hy with e' | e'
      · omega
      · cases rest with
        | nil => cases e'
        | cons b rest' =>
          refine ⟨b, by rw [h2]; rfl, ?_⟩
          rcases List.mem_cons.mp e' with e2 | e2
          · omega
          · have := chain_ok_lt L s P hi _ b rest' hH h5 y e2
            omega
    · rcases List.mem_cons.mp hy with e' | e'
      · subst e'
        have := hxlt a e
        omega
      · exact ih _ h5 e e'

theorem separated_congr (s s' : mm_state) (x : Nat)
    (hf : ∀ z, (s'.block z).is_free = true → (s.block z).is_free = true)
    (hn : (s'.block x).next_block = (s.block x).next_block)
    (h : separated s x) : separated s' x := by
  intro n hxn hboth
  rw [hn] at hxn
  exact h n hxn ⟨hf x hboth.1, hf n hboth.2⟩

theorem fresh_keeps_separated (L : Layout) (f : FamPtr) (P PS : Nat) (s0 s : mm_state)
    (hlay : L.BMO + L.H ≤ L.PMO) (hfit : L.PMO ≤ PS) (hPS : PS < 2147483648)
    (hps : s0.SYSTEM_PAGE_SIZE = PS)
    (h : mm_family_new_page_add L s0 f = Except.ok (P, s)) : page_separated L P PS s := by
  unfold mm_family_new_page_add at h
  simp only [bind_eq_ok_iff, pure_eq_ok, Except.ok.injEq, Prod.mk.injEq] at h
  obtain ⟨⟨p, s1⟩, h1, s2, h2, rfl, rfl⟩ := h
  obtain ⟨v, rfl⟩ := insert_list_frame _ _ _ _ h2
  obtain ⟨e, b1, b2, b3, b4⟩ := allocate_vm_page_block L s0 s1 f p h1
  rw [max_alloc_one L s0 (by omega) (by omega)] at b4
  refine ⟨e.trans hps, [p + L.BMO], rfl, ?_, ?_⟩
  · refine ⟨b1, b2, ?_, ?_, trivial⟩
    · simp only [set_family_block, b3]
    · simp only [set_family_block, b4, List.head?_nil, Option.getD_none]
      omega
  · intro a ha
    rw [List.mem_singleton] at ha
    subst ha
    intro n hn
    simp only [set_family_block, b2] at hn
    cases hn

theorem carve_keeps_separated (L : Layout) (f : FamPtr) (P PS : Nat) (s S s' : mm_state)
    (a r rem : Nat) (status : Bool) (l : List Nat) (hH : 0 < L.H) (hPS : PS < 2147483648)
    (hps : s.SYSTEM_PAGE_SIZE = PS)
    (hhead : l.head? = some (P + L.BMO)) (hchain : chain_ok L s P (P + PS) none l)
    (hsl : ∀ x ∈ l, separated s x) (hfree : (s.block a).is_free = true)
    (ha : a ∈ l) (hoff : a = P + (s.block a).offset)
    (hbound : a + L.H + (s.block a).block_size ≤ P + PS)
    (hcgt : ∀ c : Nat, (s.block a).next_block = some c →
      a + L.H + (s.block a).block_size ≤ c)
    (hSps : S.SYSTEM_PAGE_SIZE = s.SYSTEM_PAGE_SIZE)
    (hS : ∀ z, S.block z =
      if z = a then { s.block a with is_free := false, block_size := r } else s.block z)
    (hrem : rem = (s.block a).block_size - r) (hle : r ≤ (s.block a).block_size)
    (hremH : L.H ≤ rem)
    (h : (do
      let b ← read_block S a
      let next_block_meta_data := NEXT_META_BLOCK_BY_SIZE L a b
      let nb ← read_block S next_block_meta_data
      let s ← write_block S next_block_meta_data { nb with is_free := true }
      let nb ← read_block s next_block_meta_data
      let s ← write_block s next_block_meta_data
        { nb with block_size := u32 ((rem : Int) - (L.H : Int)) }
      let b ← read_block s a
      let nb ← read_block s next_block_meta_data
      let s ← write_block s next_block_meta_data
        { nb with offset := u32 ((b.offset : Int) + (L.H : Int) + (b.block_size : Int)) }
      let s ← mm_add_free_block_meta_data_to_free_block_list s f next_block_meta_data
      let s ← mm_bind_blocks_for_allocation s a next_block_meta_data
      pure (true, s) : Except Fault (Bool × mm_state)) = Except.ok (status, s')) :
    page_separated L P PS s' := by
  have hSa : S.block a = { s.block a with is_free := false, block_size := r } := by
    rw [hS]
    simp
  obtain ⟨hps', hb⟩ := carve_inv L S s' f a rem status h hH (by
    intro c hc
    rw [hSa] at hc ⊢
    simp only at hc ⊢
    have := hcgt c hc
    omega)
  rw [hSa] at hb
  simp only at hb
  have e1 : u32 ((rem : Int) - (L.H : Int)) = rem - L.H :=
    u32_sub_small rem L.H hremH (by omega)
  have e2 : u32 (((s.block a).offset : Int) + (L.H : Int) + (r : Int)) =
      (s.block a).offset + L.H + r := u32_add3 _ _ _ (by omega)
  rw [e1, e2] at hb
  have hb' : ∀ z, s'.block z =
      if z = a then
        block_meta_data_t.mk false r (s.block a).offset (s.block a).prev_block
          (some (a + L.H + r))
      else if z = a + L.H + r then
        block_meta_data_t.mk true (rem - L.H) ((s.block a).offset + L.H + r) (some a)
          (s.block a).next_block
      else if (s.block a).next_block = some z then
        { s.block z with prev_block := some (a + L.H + r) }
      else s.block z := by
    intro z
    rw [hb z]
    by_cases hz : z = a
    · simp [hz]
    · rw [hS z]
      simp only [hz, if_false]
  have hnext : a + L.H + (s.block a).block_size ≤ ((s.block a).next_block).getD (P + PS) := by
    cases hn : (s.block a).next_block with
    | none => simpa using hbound
    | some c => simpa using hcgt c hn
  have hna : a + L.H + r ≠ a := by omega
  have hrest : ∀ z, z ≠ a → z ≠ a + L.H + r →
      (s'.block z).is_free = (s.block z).is_free ∧
        (s'.block z).next_block = (s.block z).next_block := by
    intro z h1 h2
    rw [hb' z, if_neg h1, if_neg h2]
    split <;> exact ⟨rfl, rfl⟩
  have hnl : a + L.H + r ∉ l := by
    intro hmem
    obtain ⟨c, hc, hcle⟩ := chain_successor_le L s P (P + PS) none l hH hchain a ha
      (a + L.H + r) hmem (by omega)
    have := hcgt c hc
    omega
  refine ⟨by rw [hps', hSps, hps], insert_after a (a + L.H + r) l,
    by rw [head_insert_after]; exact hhead, ?_, ?_⟩
  · exact chain_ok_insert L s s' P (P + PS) a (a + L.H + r) _ _
      hH hb' rfl rfl rfl
      (Nat.le_refl _) rfl rfl (by simp only; omega) (by simp only; omega) none l ha hchain
  · intro x hx m hxm hboth
    by_cases hxa : x = a
    · subst hxa
      have hfa := hboth.1
      rw [hb' x, if_pos rfl] at hfa
      cases hfa
    · by_cases hxn : x = a + L.H + r
      · subst hxn
        rw [hb' (a + L.H + r), if_neg hna, if_pos rfl] at hxm
        simp only at hxm
        have hcm := hcgt m hxm
        have hfm := hboth.2
        rw [(hrest m (by omega) (by omega)).1] at hfm
        exact hsl a ha m hxm ⟨hfree, hfm⟩
      · have hxl : x ∈ l := by
          rcases mem_insert_after a (a + L.H + r) x l hx with e | e
          · exact absurd e hxn
          · exact e
        obtain ⟨hxf, hxnext⟩ := hrest x hxa hxn
        rw [hxnext] at hxm
        have hml := (chain_next_gt L s P (P + PS) none l hH hchain x hxl m hxm).2
        have hmn : m ≠ a + L.H + r := fun e => hnl (e ▸ hml)
        by_cases hma : m = a
        · subst hma
          have hfm := hboth.2
          rw [hb' m, if_pos rfl] at hfm
          cases hfm
        · have hf1 := hboth.1
          have hf2 := hboth.2
          rw [hxf] at hf1
          rw [(hrest m hma hmn).1] at hf2
          exact hsl x hxl m hxm ⟨hf1, hf2⟩

theorem split_keeps_separated (L : Layout) (f : FamPtr) (P PS : Nat) (s s' : mm_state)
    (a r : Nat) (status : Bool) (hH : 0 < L.H) (hPS : PS < 2147483648)
    (hinv : page_separated L P PS s)
    (ha : a ∈ page_blocks s PS (some (P + L.BMO)))
    (h : mm_split_free_data_block_for_allocation L s f a r = Except.ok (status, s')) :
    page_separated L P PS s' := by
  obtain ⟨hps, l, hhead, hchain, hsl⟩ := hinv
  rw [mem_chain_of_page_blocks L s P PS l hH hhead hchain] at ha
  obtain ⟨hoff, hbound⟩ := chain_bound_at L s P (P + PS) none l hchain a ha
  have hhi := getD_le_hi L s P (P + PS) none l hH hchain a ha
  have hcgt : ∀ c : Nat, (s.block a).next_block = some c →
      a + L.H + (s.block a).block_size ≤ c := by
    intro c hc
    rw [hc] at hbound
    simpa using hbound
  unfold mm_split_free_data_block_for_allocation at h
  simp only [bind_eq_ok_iff, read_block_eq_ok] at h
  obtain ⟨b, ⟨_, rfl⟩, h⟩ := h
  split at h
  · cases h
  · rename_i hfree
    have hfree' : (s.block a).is_free = true := by
      cases hv : (s.block a).is_free with
      | true => rfl
      | false => simp [hv] at hfree
    split at h
    · simp only [pure_eq_ok, Except.ok.injEq, Prod.mk.injEq] at h
      obtain ⟨_, rfl⟩ := h
      exact ⟨hps, l, hhead, hchain, hsl⟩
    · rename_i hle
      simp only [bind_eq_ok_iff, read_block_eq_ok, write_block_eq_ok, read_family_eq_ok,
        write_family_eq_ok] at h
      obtain ⟨s1, ⟨_, rfl⟩, b1, ⟨_, rfl⟩, s2, ⟨_, rfl⟩, fam, _, s3, ⟨_, rfl⟩, fam2, _, h⟩ := h
      simp only [set_block_block, if_true, set_block_set_block] at h
      have hplain : page_separated L P PS (set_family
          (set_block s a { s.block a with is_free := false, block_size := r }) f
          { fam with free_block_priority_list_head :=
              remove_glthread a fam.free_block_priority_list_head }) := by
        refine ⟨hps, l, hhead, ?_, ?_⟩
        · apply chain_ok_resize L s _ P (P + PS) a
            { s.block a with is_free := false, block_size := r } (fun x => rfl) rfl rfl rfl
            (by simp only; omega) none l hchain
        · intro x hx
          apply separated_congr s _ x _ _ (hsl x hx)
          · intro z hz
            simp only [set_family_block, set_block_block] at hz
            by_cases hza : z = a
            · simp [hza] at hz
            · simpa [hza] using hz
          · simp only [set_family_block, set_block_block]
            split
            · rename_i hxa
              rw [hxa]
            · rfl
      have hS : ∀ z, (set_family
          (set_block s a { s.block a with is_free := false, block_size := r }) f
          { fam with free_block_priority_list_head :=
              remove_glthread a fam.free_block_priority_list_head }).block z =
          if z = a then { s.block a with is_free := false, block_size := r }
          else s.block z := by
        intro z
        simp only [set_family_block, set_block_block]
      split at h
      · simp only [pure_eq_ok, Except.ok.injEq, Prod.mk.injEq] at h
        obtain ⟨_, rfl⟩ := h
        exact hplain
      · split at h
        · rename_i h0 hsoft
          exact carve_keeps_separated L f P PS s (set_family
            (set_block s a { s.block a with is_free := false, block_size := r }) f
            { fam with free_block_priority_list_head :=
                remove_glthread a fam.free_block_priority_list_head }) s' a r
            ((s.block a).block_size - r) status l hH
            hPS hps hhead hchain hsl hfree' ha hoff (by omega) hcgt rfl hS rfl (by omega)
            (by omega) h
        · split at h
          · simp only [pure_eq_ok, Except.ok.injEq, Prod.mk.injEq] at h
            obtain ⟨_, rfl⟩ := h
            exact hplain
          · rename_i h0 hsoft hhard
            exact carve_keeps_separated L f P PS s (set_family
              (set_block s a { s.block a with is_free := false, block_size := r }) f
              { fam with free_block_priority_list_head :=
                  remove_glthread a fam.free_block_priority_list_head }) s' a r
              ((s.block a).block_size - r) status l hH
              hPS hps hhead hchain hsl hfree' ha hoff (by omega) hcgt rfl hS rfl (by omega)
              (by omega) h

theorem separated_of_flags (s s' : mm_state) (x : Nat)
    (hx : (s'.block x).is_free = true → (s.block x).is_free = true)
    (hn : (s'.block x).next_block = (s.block x).next_block)
    (hm : ∀ m : Nat, (s.block x).next_block = some m →
      (s'.block m).is_free = true → (s.block m).is_free = true)
    (h : separated s x) : separated s' x := by
  intro n hxn hboth
  rw [hn] at hxn
  exact h n hxn ⟨hx hboth.1, hm n hxn hboth.2⟩

theorem union_chain_facts (L : Layout) (s s' : mm_state) (P PS x y : Nat) (l : List Nat)
    (hH : 0 < L.H) (hPS : PS < 2147483648)
    (hchain : chain_ok L s P (P + PS) none l) (hx : x ∈ l)
    (hxy : (s.block x).next_block = some y)
    (h : mm_union_free_blocks L s x y = Except.ok s') :
    s'.SYSTEM_PAGE_SIZE = s.SYSTEM_PAGE_SIZE ∧
      chain_ok L s' P (P + PS) none (drop_after x l) ∧
      (∀ z, (s'.block z).is_free = (s.block z).is_free) ∧
      (∀ z, z ≠ x → (s'.block z).next_block = (s.block z).next_block) ∧
      (s'.block x).next_block = (s.block y).next_block := by
  obtain ⟨hlt, hy⟩ := chain_next_gt L s P (P + PS) none l hH hchain x hx y hxy
  obtain ⟨_, hbx⟩ := chain_bound_at L s P (P + PS) none l hchain x hx
  obtain ⟨_, hby⟩ := chain_bound_at L s P (P + PS) none l hchain y hy
  have hhi := getD_le_hi L s P (P + PS) none l hH hchain y hy
  have hPx := (chain_ok_mem_bound L s P (P + PS) none l hH hchain x hx).1
  rw [hxy] at hbx
  simp only [Option.getD_some] at hbx
  obtain ⟨hps, hb⟩ := union_inv L s s' x y h (by omega) (by
    intro c hc
    have := (chain_next_gt L s P (P + PS) none l hH hchain y hy c hc).1
    omega)
  rw [u32_add3 _ _ _ (by omega)] at hb
  refine ⟨hps, ?_, ?_, ?_, ?_⟩
  · exact chain_ok_union L s s' P (P + PS) x y
      { s.block x with
        block_size := (s.block x).block_size + L.H + (s.block y).block_size,
        next_block := (s.block y).next_block }
      hH hb hxy rfl rfl rfl (by simp only; omega) none l hx hchain
  · intro z
    rw [hb z]
    split
    · rename_i hzx
      rw [hzx]
    · split <;> rfl
  · intro z hz
    rw [hb z, if_neg hz]
    split <;> rfl
  · rw [hb x, if_pos rfl]

theorem free_keeps_separated (L : Layout) (P PS : Nat) (s s' : mm_state) (a r : Nat)
    (hH : 0 < L.H) (hPS : PS < 2147483648)
    (hinv : page_separated L P PS s)
    (ha : a ∈ page_blocks s PS (some (P + L.BMO)))
    (h : mm_free_blocks L s a = Except.ok (some r, s')) :
    page_separated L P PS s' := by
  obtain ⟨hps, l, hhead, hchain, hsl⟩ := hinv
  rw [mem_chain_of_page_blocks L s P PS l hH hhead hchain] at ha
  obtain ⟨hoff, hbound⟩ := chain_bound_at L s P (P + PS) none l hchain a ha
  have hhi := getD_le_hi L s P (P + PS) none l hH hchain a ha
  have hPa := (chain_ok_mem_bound L s P (P + PS) none l hH hchain a ha).1
  unfold mm_free_blocks at h
  simp only [bind_eq_ok_iff, read_block_eq_ok] at h
  obtain ⟨b, ⟨hm, rfl⟩, h⟩ := h
  split at h
  · cases h
  · simp only [bind_eq_ok_iff, read_block_eq_ok, read_page_eq_ok, write_block_eq_ok] at h
    obtain ⟨_, _, s1, ⟨_, rfl⟩, b1, ⟨_, rfl⟩, s2, h2, s3, h3, b3, ⟨_, rfl⟩,
      ⟨rb, s4⟩, h4, empty, _, h⟩ := h
    simp only [set_block_block, if_true, MM_GET_PAGE_FROM_META_BLOCK] at h2 h3
    have i2 : s2.SYSTEM_PAGE_SIZE = PS ∧ chain_ok L s2 P (P + PS) none l ∧
        (s2.block a).next_block = (s.block a).next_block ∧
        (s2.block a).is_free = true ∧ (∀ z, z ≠ a → s2.block z = s.block z) := by
      split at h2
      · rename_i n hn
        simp only [bind_eq_ok_iff, read_block_eq_ok, write_block_eq_ok,
          mm_get_hard_internal_memory_frag_size, pure_eq_ok, Except.ok.injEq] at h2
        obtain ⟨w, ⟨b2, ⟨_, rfl⟩, rfl⟩, _, ⟨_, rfl⟩, _, rfl⟩ := h2
        rw [hn] at hbound hhi
        simp only [Option.getD_some] at hbound hhi
        have hsz := slack_size (s.block a).block_size a n L.H hbound (by omega)
        refine ⟨by simpa using hps, ?_, by simp, by simp, ?_⟩
        · apply chain_ok_resize L s _ P (P + PS) a
            { is_free := true, block_size := n - a - L.H, offset := (s.block a).offset,
              prev_block := (s.block a).prev_block, next_block := (s.block a).next_block }
            ?_ rfl rfl rfl ?_ none l hchain
          · intro x
            by_cases hx : x = a
            · simp only [set_block_block, if_true, NEXT_META_BLOCK_BY_SIZE, hsz, hx]
            · simp only [set_block_block, if_false, hx]
          · simp only [hn, Option.getD_some]
            omega
        · intro z hz
          simp only [set_block_block, if_false, hz]
      · rename_i hn
        simp only [bind_eq_ok_iff, read_block_eq_ok, write_block_eq_ok] at h2
        obtain ⟨_, ⟨_, rfl⟩, _, rfl⟩ := h2
        rw [hn] at hbound
        simp only [Option.getD_none] at hbound
        have hnP : a - (s.block a).offset + s.SYSTEM_PAGE_SIZE = P + PS := by omega
        have hsz := slack_size (s.block a).block_size a (P + PS) L.H hbound (by omega)
        refine ⟨by simpa using hps, ?_, by simp, by simp, ?_⟩
        · apply chain_ok_resize L s _ P (P + PS) a
            { is_free := true, block_size := P + PS - a - L.H, offset := (s.block a).offset,
              prev_block := (s.block a).prev_block, next_block := (s.block a).next_block }
            ?_ rfl rfl rfl ?_ none l hchain
          · intro x
            by_cases hx : x = a
            · simp only [set_block_block, if_true, set_block_size, hnP, hsz, hx]
            · simp only [set_block_block, if_false, hx]
          · simp only [hn, Option.getD_none]
            omega
        · intro z hz
          simp only [set_block_block, if_false, hz]
    obtain ⟨hps2, hchain2, hnext2, hfree2, hsame2⟩ := i2
    have hstep : ∀ x ∈ l, x ≠ a → (s.block x).next_block ≠ some a → separated s2 x := by
      intro x hx hxa hxn
      apply separated_of_flags s s2 x _ _ _ (hsl x hx)
      · rw [hsame2 x hxa]
        exact fun e => e
      · rw [hsame2 x hxa]
      · intro m hxm
        have hma : m ≠ a := fun e => hxn (e ▸ hxm)
        rw [hsame2 m hma]
        exact fun e => e
    have i3 : s3.SYSTEM_PAGE_SIZE = PS ∧ ∃ l3 : List Nat, l3.head? = some (P + L.BMO) ∧
        chain_ok L s3 P (P + PS) none l3 ∧ a ∈ l3 ∧ (s3.block a).is_free = true ∧
        ∀ x ∈ l3, (s3.block x).next_block ≠ some a → separated s3 x := by
      split at h3
      · rename_i n hn
        simp only [bind_eq_ok_iff, read_block_eq_ok] at h3
        obtain ⟨nb, ⟨_, rfl⟩, h3⟩ := h3
        have hn2 : (s2.block a).next_block = some n := hnext2.trans hn
        obtain ⟨han, hnl⟩ := chain_next_gt L s P (P + PS) none l hH hchain a ha n hn
        have hna : n ≠ a := by omega
        split at h3
        · rename_i hnf
          rw [hsame2 n hna] at hnf
          obtain ⟨e, hc, hfl, hnx, hnxa⟩ := union_chain_facts L s2 s3 P PS a n l hH hPS hchain2
            ha hn2 h3
          refine ⟨e.trans hps2, drop_after a l, by rw [head_drop_after]; exact hhead, hc,
            mem_drop_after a l ha, by rw [hfl a]; exact hfree2, ?_⟩
          intro x hx hxn
          have hxl := mem_of_mem_drop_after a x l hx
          by_cases hxa : x = a
          · subst hxa
            intro m hxm hboth
            rw [hnxa, hsame2 n hna] at hxm
            have hnm := (chain_next_gt L s P (P + PS) none l hH hchain n hnl m hxm).1
            have hfm := hboth.2
            rw [hfl m, hsame2 m (by omega)] at hfm
            exact hsl n hnl m hxm ⟨hnf, hfm⟩
          · rw [hnx x hxa, hsame2 x hxa] at hxn
            apply separated_of_flags s2 s3 x _ (hnx x hxa) _ (hstep x hxl hxa hxn)
            · rw [hfl x]
              exact fun e => e
            · intro m _
              rw [hfl m]
              exact fun e => e
        · rename_i hnf
          simp only [pure_eq_ok, Except.ok.injEq] at h3
          subst h3
          refine ⟨hps2, l, hhead, hchain2, ha, hfree2, ?_⟩
          intro x hx hxn
          by_cases hxa : x = a
          · subst hxa
            intro m hxm hboth
            rw [hn2] at hxm
            have hmn : n = m := Option.some.inj hxm
            subst hmn
            exact hnf hboth.2
          · rw [hsame2 x hxa] at hxn
            exact hstep x hx hxa hxn
      · rename_i hn
        simp only [pure_eq_ok, Except.ok.injEq] at h3
        subst h3
        refine ⟨hps2, l, hhead, hchain2, ha, hfree2, ?_⟩
        intro x hx hxn
        by_cases hxa : x = a
        · subst hxa
          intro m hxm
          rw [hnext2] at hxm
          rw [hn] at hxm
          cases hxm
        · rw [hsame2 x hxa] at hxn
          exact hstep x hx hxa hxn
    obtain ⟨hps3, l3, hhead3, hchain3, ha3, hfree3, hsl3⟩ := i3
    have hself : ∀ m : Nat, (s3.block a).next_block = some m → some m ≠ some a := by
      intro m hm e
      have := (chain_next_gt L s3 P (P + PS) none l3 hH hchain3 a ha3 m hm).1
      have hma : m = a := Option.some.inj e
      omega
    have i4 : page_separated L P PS s4 := by
      split at h4
      · rename_i p hp
        simp only [bind_eq_ok_iff, read_block_eq_ok] at h4
        obtain ⟨pb, ⟨_, rfl⟩, h4⟩ := h4
        split at h4
        · rename_i hpf
          simp only [bind_eq_ok_iff, pure_eq_ok, Except.ok.injEq, Prod.mk.injEq] at h4
          obtain ⟨s5, h5, _, rfl⟩ := h4
          rcases chain_prev_mem L s3 P (P + PS) hH none l3 hchain3 a ha3 p hp with hcase | hcase
          · exact Option.noConfusion hcase.2
          · obtain ⟨e, hc, hfl, hnx, hnxp⟩ := union_chain_facts L s3 s5 P PS p a l3 hH hPS
              hchain3 hcase.1 hcase.2.1 h5
            refine ⟨e.trans hps3, drop_after p l3, by rw [head_drop_after]; exact hhead3, hc,
              ?_⟩
            intro x hx
            have hxl := mem_of_mem_drop_after p x l3 hx
            by_cases hxp : x = p
            · subst hxp
              intro m hxm hboth
              rw [hnxp] at hxm
              have hfm := hboth.2
              rw [hfl m] at hfm
              have hsa : separated s3 a := hsl3 a ha3 (by
                rw [hxm]
                exact hself m hxm)
              exact hsa m hxm ⟨hfree3, hfm⟩
            · have hxn : (s3.block x).next_block ≠ some a := by
                intro hxa
                have := chain_next_prev L s3 P (P + PS) none l3 hchain3 x hxl a hxa
                rw [hp] at this
                exact hxp (Option.some.inj this).symm
              apply separated_of_flags s3 s5 x _ (hnx x hxp) _ (hsl3 x hxl hxn)
              · rw [hfl x]
                exact fun e => e
              · intro m _
                rw [hfl m]
                exact fun e => e
        · rename_i hpf
          simp only [pure_eq_ok, Except.ok.injEq, Prod.mk.injEq] at h4
          obtain ⟨_, rfl⟩ := h4
          refine ⟨hps3, l3, hhead3, hchain3, ?_⟩
          intro x hx
          by_cases hxn : (s3.block x).next_block = some a
          · have hpx := chain_next_prev L s3 P (P + PS) none l3 hchain3 x hx a hxn
            rw [hp] at hpx
            have hpe : p = x := Option.some.inj hpx
            subst hpe
            intro m _ hboth
            exact hpf hboth.1
          · exact hsl3 x hx hxn
      · rename_i hp
        simp only [pure_eq_ok, Except.ok.injEq, Prod.mk.injEq] at h4
        obtain ⟨_, rfl⟩ := h4
        refine ⟨hps3, l3, hhead3, hchain3, ?_⟩
        intro x hx
        by_cases hxn : (s3.block x).next_block = some a
        · have hpx := chain_next_prev L s3 P (P + PS) none l3 hchain3 x hx a hxn
          rw [hp] at hpx
          cases hpx
        · exact hsl3 x hx hxn
    simp only at h
    split at h
    · simp only [bind_eq_ok_iff, pure_eq_ok, Except.ok.injEq, Prod.mk.injEq] at h
      obtain ⟨s5, _, hcontra, _⟩ := h
      cases hcontra
    · simp only [bind_eq_ok_iff, read_page_eq_ok] at h
      obtain ⟨hp, _, h⟩ := h
      split at h
      · cases h
      · simp only [bind_eq_ok_iff, pure_eq_ok, Except.ok.injEq, Prod.mk.injEq] at h
        obtain ⟨s5, h5, _, rfl⟩ := h
        obtain ⟨v, rfl⟩ := insert_list_frame _ _ _ _ h5
        obtain ⟨e4, l4, hhead4, hchain4, hsl4⟩ := i4
        exact ⟨e4, l4, hhead4, chain_ok_congr L s4 _ P (P + PS) none l4 (fun x _ => rfl) hchain4,
          fun x hx => separated_congr s4 _ x (fun z hz => hz) rfl (hsl4 x hx)⟩

theorem reachable_separated (L : Layout) (f : FamPtr) (P PS : Nat) (s : mm_state)
    (hH : 0 < L.H) (hlay : L.BMO + L.H ≤ L.PMO) (hfit : L.PMO ≤ PS) (hPS : PS < 2147483648)
    (hr : page_reachable L f P PS s) : page_separated L P PS s := by
  induction hr with
  | fresh s0 s hps h => exact fresh_keeps_separated L f P PS s0 s hlay hfit hPS hps h
  | alloc s s' a size status _ ha h ih =>
    exact split_keeps_separated L f P PS s s' a size status hH hPS ih ha h
  | release s s' a r _ ha h ih => exact free_keeps_separated L P PS s s' a r hH hPS ih ha h

/-! ## Splits and releases of chain blocks leave no free neighbours -/

/-- Free neighbours in a chain whose blocks alone are split and released: in
every state reached from a page as `mm_family_new_page_add`
creates it, by splits for an allocation and releases applied to blocks of the
page's chain that leave the page in use, no block of the chain is free
together with its chain successor. -/
theorem no_adjacent_free_blocks (L : Layout) (f : FamPtr) (P PS : Nat) (s : mm_state)
    (hH : 0 < L.H) (hlay : L.BMO + L.H ≤ L.PMO) (hfit : L.PMO ≤ PS) (hPS : PS < 2147483648)
    (hr : page_reachable L f P PS s) :
    ∀ a ∈ page_blocks s PS (some (P + L.BMO)), ∀ n : Nat,
      (s.block a).next_block = some n →
        ¬ ((s.block a).is_free = true ∧ (s.block n).is_free = true) := by
  obtain ⟨_, l, hhead, hchain, hsl⟩ := reachable_separated L f P PS s hH hlay hfit hPS hr
  rw [mem_chain_of_page_blocks L s P PS l hH hhead hchain]
  intro a ha n hn
  exact hsl a ha n hn

set_option maxRecDepth 1000000 in
theorem no_adjacent_free_blocks_witness :
    page_reachable L40 (4096, 0) 8192 4096 (state_after (mm_free_blocks L40 page_walk_3 8296)) ∧
    ∀ a ∈ page_blocks (state_after (mm_free_blocks L40 page_walk_3 8296)) 4096
        (some (8192 + L40.BMO)), ∀ n : Nat,
      ((state_after (mm_free_blocks L40 page_walk_3 8296)).block a).next_block = some n →
        ¬ (((state_after (mm_free_blocks L40 page_walk_3 8296)).block a).is_free = true ∧
          ((state_after (mm_free_blocks L40 page_walk_3 8296)).block n).is_free = true) :=
  have hr : page_reachable L40 (4096, 0) 8192 4096
      (state_after (mm_free_blocks L40 page_walk_3 8296)) :=
    page_reachable.release page_walk_3 _ 8296 8296
      (page_reachable.alloc page_walk_2 page_walk_3 8296 64 true
        (page_reachable.alloc page_walk_1 page_walk_2 8192 64 true
          (page_reachable.fresh page_walk_0 page_walk_1 rfl rfl)
          (by decide) rfl)
        (by decide) rfl)
      (by decide) rfl
  ⟨hr, no_adjacent_free_blocks L40 (4096, 0) 8192 4096 _ (by decide) (by decide)
    (by decide) (by decide) hr⟩

/-! ## C1: what the chain of a page adds up to -/

theorem chain_block_fits (L : Layout) (s : mm_state) (P hi : Nat) (prev : Option Nat)
    (l : List Nat) (hc : chain_ok L s P hi prev l) (a : Nat) (ha : a ∈ l) :
    a + L.H + (s.block a).block_size ≤ ((s.block a).next_block).getD hi := by
  induction l generalizing prev with
  | nil => cases ha
  | cons x rest ih =>
    obtain ⟨_, h2, _, h4, h5⟩ := hc
    rcases List.mem_cons.mp ha with e | e
    · subst e
      rw [h2]
      exact h4
    · exact ih (some x) h5 e

theorem block_slack_eq (L : Layout) (s : mm_state) (P a : Nat) :
    block_slack L s P a =
      ((s.block a).next_block).getD (P + s.SYSTEM_PAGE_SIZE) -
        (a + L.H + (s.block a).block_size) := by
  unfold block_slack
  cases (s.block a).next_block <;> rfl

/-- C1 as the code has it: in every state reached from a page as
`mm_family_new_page_add` creates it, by splits for an allocation and releases
applied to blocks of the page's chain that leave the page in use, the sum over
the chain of header size plus recorded usable size, plus the slack behind the
allocated blocks of the chain, is one header size plus the usable capacity
`mm_max_page_allocatable_memory 1` of a page.  The slack of a block is the
distance from the end of its usable bytes to the next header, or to the page
end behind the last block; it is 0 behind a free block and less than a header
size behind an allocated one. -/
theorem page_chain_accounts_for_page (L : Layout) (f : FamPtr) (P PS : Nat) (s : mm_state)
    (hH : 0 < L.H) (hlay : L.PMO = L.BMO + L.H) (hfit : L.PMO ≤ PS) (hPS : PS < 2147483648)
    (hr : page_reachable L f P PS s) :
    chain_footprint L s P + allocated_slack L s P =
      L.H + mm_max_page_allocatable_memory L s 1 ∧
    ∀ a ∈ page_blocks s PS (some (P + L.BMO)),
      a + L.H + (s.block a).block_size + block_slack L s P a =
        ((s.block a).next_block).getD (P + PS) ∧
      ((s.block a).is_free = true → block_slack L s P a = 0) ∧
      ((s.block a).is_free = false → block_slack L s P a < L.H) := by
  have hinv := reachable_inv L f P PS s hH (by omega) hfit hPS hr
  obtain ⟨hps, l, hhead, hchain, htight⟩ := reachable_gapless L f P PS s hH hlay hfit hPS hr
  have hblocks := mem_chain_of_page_blocks L s P PS l hH hhead hchain
  have hper : ∀ a ∈ l,
      a + L.H + (s.block a).block_size + block_slack L s P a =
        ((s.block a).next_block).getD (P + PS) ∧
      ((s.block a).is_free = true → block_slack L s P a = 0) ∧
      ((s.block a).is_free = false → block_slack L s P a < L.H) := by
    intro a ha
    have hle := chain_block_fits L s P (P + PS) none l hchain a ha
    have ht := htight a ha
    rw [block_slack_eq, hps]
    refine ⟨by omega, ?_, ?_⟩
    · intro hf
      have := ht.1 hf
      omega
    · intro hf
      have := ht.2 hf
      omega
  have hsl : allocated_slack L s P = chain_slack L s P := by
    unfold allocated_slack chain_slack
    rw [hps, hblocks]
    apply congrArg List.sum
    apply List.map_congr_left
    intro a ha
    cases hf : (s.block a).is_free with
    | true => simp [(hper a ha).2.1 hf]
    | false => simp
  refine ⟨?_, by rw [hblocks]; exact hper⟩
  rw [hsl, page_chain_total L P PS s hH hinv, max_alloc_one L s (by rw [hinv.1]; exact hfit)
    (by rw [hinv.1]; exact hPS), hinv.1]
  omega

set_option maxRecDepth 1000000 in
theorem page_chain_accounts_for_page_witness :
    page_reachable L40 (4096, 0) 8192 4096 slack_walk_3 ∧
    (chain_footprint L40 slack_walk_3 8192 + allocated_slack L40 slack_walk_3 8192 =
      L40.H + mm_max_page_allocatable_memory L40 slack_walk_3 1 ∧
    ∀ a ∈ page_blocks slack_walk_3 4096 (some (8192 + L40.BMO)),
      a + L40.H + (slack_walk_3.block a).block_size + block_slack L40 slack_walk_3 8192 a =
        ((slack_walk_3.block a).next_block).getD (8192 + 4096) ∧
      ((slack_walk_3.block a).is_free = true → block_slack L40 slack_walk_3 8192 a = 0) ∧
      ((slack_walk_3.block a).is_free = false →
        block_slack L40 slack_walk_3 8192 a < L40.H)) :=
  have hr : page_reachable L40 (4096, 0) 8192 4096 slack_walk_3 :=
    page_reachable.alloc slack_walk_2 slack_walk_3 10232 2000 true
      (page_reachable.alloc slack_walk_1 slack_walk_2 8192 2000 true
        (page_reachable.fresh slack_walk_0 slack_walk_1 rfl rfl)
        (by decide) rfl)
      (by decide) rfl
  ⟨hr, page_chain_accounts_for_page L40 (4096, 0) 8192 4096 slack_walk_3 (by decide) rfl
    (by decide) (by decide) hr⟩

/-! ## C5: a full page asked for through an index entry that outlived its page -/

set_option maxRecDepth 1000000 in
/-- C5, at the failing input: `Row` is registered with the unit size 1014, one
unit is allocated from the fresh page 8192 and released, which gives the page
back and leaves the rest block 9246 in the family's index.  The family has no
page, the page source would hand out 12288, and four units are exactly the
capacity 4056 of a page; but `xcalloc` for four units reads the size of the
index head 9246 in memory that is no longer mapped, and stops there: no page
is taken and none is to be given back. -/
theorem full_page_request_reads_returned_page :
    scenario_full_page_after_release =
      Except.ok (4056, 4056, [8192], none, some (some 12288), [9246], some false,
        some Fault.unmapped) := by
  rfl

/-! ## C18: the capacity check on an index entry that outlived its page -/

set_option maxRecDepth 1000000 in
/-- C18, at the failing input: one unit of `Employee` is allocated from the
fresh page 8192 and released, which gives the page back and leaves the rest
block 8296 in the family's index.  The family has no page and the page source
would hand out 12288; `mm_allocate_free_data_block` for 64 bytes, which are
within the capacity 4056, reads the size of the index head 8296 in memory that
is no longer mapped and stops there: it neither takes a new page nor serves
the request from the head. -/
theorem capacity_check_reads_returned_page :
    scenario_capacity_check_after_release =
      Except.ok (4056, none, some (some 12288), [8296], some false, some Fault.unmapped) := by
  rfl

/-! ## C27 and C31: a split through an index entry that outlived its page -/

set_option maxRecDepth 1000000 in
/-- C27, at the failing input: `Employee` allocates one unit from the fresh
page 8192 and releases it; the page 8192 goes back to the page source while
the index of `Employee` keeps the block 8296.  `Badge` is given the page 8192
again, allocates 8, 16 and 8 units and releases the second and the first
block.  `Employee` allocates one unit, which comes from the block 8296 of its
index, now a part of the free block 8192 of `Badge`, and releases it again
(pointer 8336).  In the chain of the page 8192, the first page of `Badge`,
the free block 8192 has the size 400 and is followed by the allocated block
8464: the gap behind the free block is -168. -/
theorem stale_split_overlaps_chain :
    scenario_chain_overlap =
      Except.ok ([8192], [8296], 8336, some 8192,
        [(8192, true, 400), (8464, false, 64), (8568, true, 3680)], [-168, 0, 0]) := by
  rfl

set_option maxRecDepth 1000000 in
/-- C31, at the failing input: `Employee` allocates one unit from the fresh
page 8192 and releases it; the page 8192 goes back to the page source while
the index of `Employee` keeps the block 8296.  `Badge` is given the page 8192
again, allocates 8, 16 and 8 units and releases the second and the first
block.  `Employee` allocates one unit (pointer 8336), which comes from the
block 8296 of its index, now a part of the free block 8192 of `Badge`; the
split makes the new block 8400 the predecessor of the block 8464 of `Badge`.
When `Badge` releases its third block (pointer 8504), the block 8464 is
merged into 8400 and not into 8192: in the chain of the page 8192, the first
page of `Badge`, the free block 8192 is followed by the free block 8464. -/
theorem stale_split_leaves_free_neighbours :
    scenario_free_neighbours =
      Except.ok ([8192], [8296], 8336, 8504, some 8192,
        [(8192, true, 232), (8464, false, 64), (8568, true, 3680)],
        [(8192, true, 232), (8464, true, 3784)]) := by
  rfl

end MM

/-! # The page-protection checker: result codes -/

namespace MemProt

theorem land_one_bit_nat (m k : Nat) : m &&& 2 ^ k = 2 ^ k ↔ m.testBit k = true := by
  rw [Nat.and_two_pow]
  have hpos : 0 < 2 ^ k := Nat.two_pow_pos k
  cases m.testBit k with
  | true => simp
  | false =>
    simp only [Bool.toNat_false, zero_mul, Bool.false_eq_true, iff_false]
    omega

theorem ldiff_one_bit_nat (m k : Nat) : Nat.ldiff (2 ^ k) m = 2 ^ k ↔ m.testBit k = false := by
  constructor
  · intro h
    have := Nat.testBit_ldiff (2 ^ k) m k
    rw [h, Nat.testBit_two_pow] at this
    simpa using this
  · intro h
    apply Nat.eq_of_testBit_eq
    intro i
    rw [Nat.testBit_ldiff, Nat.testBit_two_pow]
    by_cases hi : k = i
    · subst hi
      simp [h]
    · simp [hi]

/-- The test `(permissions & bit) != bit` of the C code fails exactly when the
bit is set in `permissions`, read as a two's complement number. -/
theorem land_one_bit (p : Int) (k : Nat) :
    Int.land p ((2 ^ k : Nat) : Int) = ((2 ^ k : Nat) : Int) ↔ p.testBit k = true := by
  cases p with
  | ofNat m =>
    show ((m &&& 2 ^ k : Nat) : Int) = ((2 ^ k : Nat) : Int) ↔ m.testBit k = true
    rw [Int.ofNat_inj]
    exact land_one_bit_nat m k
  | negSucc m =>
    show ((Nat.ldiff (2 ^ k) m : Nat) : Int) = ((2 ^ k : Nat) : Int) ↔ (!m.testBit k) = true
    rw [Int.ofNat_inj, ldiff_one_bit_nat]
    cases m.testBit k <;> simp

/-- C15: the result of `check_permissions` is -1 when the page number, the
address divided by 4096 with C's truncating division, is outside [0, 1024);
otherwise -2 when the valid bit of the page is clear; otherwise -3 when the
access type is none of 1, 2, 4; otherwise -4 when the bit of the access type
is not set in the permissions of the page; and 0 in the remaining case.  The
page table is left as it was. -/
theorem check_permissions_codes (s : kernel_state) (virtual_address access_type : Int) :
    (check_permissions s virtual_address access_type).2 = s ∧
    (check_permissions s virtual_address access_type).1 =
      if Int.tdiv virtual_address 4096 < 0 ∨ 1024 ≤ Int.tdiv virtual_address 4096 then -1
      else if (s.page_table (Int.tdiv virtual_address 4096).toNat).valid_bit = false then -2
      else if access_type ≠ 1 ∧ access_type ≠ 2 ∧ access_type ≠ 4 then -3
      else if (s.page_table (Int.tdiv virtual_address 4096).toNat).permissions.testBit
          (access_bit access_type) = false then -4
      else 0 := by
  have h1 := land_one_bit (s.page_table (Int.tdiv virtual_address 4096).toNat).permissions 0
  have h2 := land_one_bit (s.page_table (Int.tdiv virtual_address 4096).toNat).permissions 1
  have h4 := land_one_bit (s.page_table (Int.tdiv virtual_address 4096).toNat).permissions 2
  simp only [pow_zero, pow_one, Nat.cast_one, Nat.cast_ofNat, show (2 : Nat) ^ 2 = 4 from rfl]
    at h1 h2 h4
  unfold check_permissions
  simp only [PAGE_SIZE, NUM_PAGES, PERMISSION_READ, PERMISSION_WRITE, PERMISSION_EXECUTE, ge_iff_le]
  by_cases hr : Int.tdiv virtual_address 4096 < 0 ∨ 1024 ≤ Int.tdiv virtual_address 4096
  · simp [hr]
  · simp only [hr, if_false]
    cases hv : (s.page_table (Int.tdiv virtual_address 4096).toNat).valid_bit with
    | false => simp
    | true =>
      simp only [Bool.not_true, Bool.false_eq_true, if_false]
      by_cases a1 : access_type = 1
      · subst a1
        cases hb : (s.page_table (Int.tdiv virtual_address 4096).toNat).permissions.testBit 0 with
        | true => simp [access_bit, h1.mpr hb, hb]
        | false =>
          have : ¬ Int.land (s.page_table (Int.tdiv virtual_address 4096).toNat).permissions 1
              = 1 := fun hc => by rw [h1.mp hc] at hb; cases hb
          simp [access_bit, this, hb]
      · by_cases a2 : access_type = 2
        · subst a2
          cases hb : (s.page_table (Int.tdiv virtual_address 4096).toNat).permissions.testBit 1
            with
          | true => simp [access_bit, h2.mpr hb, hb]
          | false =>
            have : ¬ Int.land (s.page_table (Int.tdiv virtual_address 4096).toNat).permissions 2
                = 2 := fun hc => by rw [h2.mp hc] at hb; cases hb
            simp [access_bit, this, hb]
        · by_cases a4 : access_type = 4
          · subst a4
            cases hb : (s.page_table (Int.tdiv virtual_address 4096).toNat).permissions.testBit 2
              with
            | true => simp [access_bit, h4.mpr hb, hb]
            | false =>
              have : ¬ Int.land
                  (s.page_table (Int.tdiv virtual_address 4096).toNat).permissions 4 = 4 :=
                fun hc => by rw [h4.mp hc] at hb; cases hb
              simp [access_bit, this, hb]
          · simp [a1, a2, a4]

end MemProt

/-! # The address translator: the translation of one address -/

namespace AddrTranslate

/-- For a page number in range `get_page_table_entry` returns the entry of
that page, through the TLB or not, and leaves the page table alone. -/
theorem get_page_table_entry_in_range (s : vm_state) (n : Int) (h0 : 0 ≤ n) (h1 : n < 256) :
    ∃ s', get_page_table_entry s n = (some n.toNat, s') ∧ s'.page_table = s.page_table := by
  unfold get_page_table_entry
  have hr : ¬ (n < 0 ∨ n ≥ NUM_PAGES) := by
    simp only [NUM_PAGES]
    omega
  simp only [hr, if_false]
  cases ht : get_tlb_entry s n with
  | none => exact ⟨s, rfl, rfl⟩
  | some t =>
    have := List.find?_some ht
    simp only [decide_eq_true_eq] at this
    simp only [this]
    exact ⟨_, rfl, rfl⟩

theorem get_page_table_entry_out_of_range (s : vm_state) (n : Int) (h : n < 0 ∨ 256 ≤ n) :
    get_page_table_entry s n = (none, s) := by
  unfold get_page_table_entry
  have hr : n < 0 ∨ n ≥ NUM_PAGES := by
    simp only [NUM_PAGES]
    omega
  simp only [hr, if_true]

theorem frame_address_fits (f off : Int) (h0 : -8388608 ≤ f) (h1 : f < 8388608)
    (h2 : 0 ≤ off) (h3 : off < 256) : MM.i32 (f * 256 + off) = f * 256 + off := by
  unfold MM.i32
  omega

/-- C16: for an address `va` in [0, 65536) whose page `va / 256` is valid with
a frame number `f` for which `f × 256 + 255` is an `int`, `translate_address`
returns `f × 256 + (va mod 256)`, whose low 8 bits are those of `va`, and
leaves the page table alone; and for an address whose page number, by C's
truncating division, lies outside [0, 256), it returns -1 and changes
nothing. -/
theorem translate_address_result (s : vm_state) (va : Int) :
    (0 ≤ va → va < 65536 →
      (s.page_table (va / 256).toNat).valid_bit ≠ 0 →
      -8388608 ≤ (s.page_table (va / 256).toNat).frame_number →
      (s.page_table (va / 256).toNat).frame_number < 8388608 →
      ∃ s', translate_address s va =
          Except.ok ((s.page_table (va / 256).toNat).frame_number * 256 + va % 256, s') ∧
        ((s.page_table (va / 256).toNat).frame_number * 256 + va % 256) % 256 = va % 256 ∧
        s'.page_table = s.page_table) ∧
    (Int.tdiv va 256 < 0 ∨ 256 ≤ Int.tdiv va 256 →
      translate_address s va = Except.ok (-1, s)) := by
  constructor
  · intro h0 h1 hv hf0 hf1
    have hd : Int.tdiv va 256 = va / 256 := Int.tdiv_eq_ediv h0 (by decide)
    have hm : Int.tmod va 256 = va % 256 := Int.tmod_eq_emod h0 (by decide)
    obtain ⟨s', he, hp⟩ := get_page_table_entry_in_range s (va / 256) (by omega) (by omega)
    refine ⟨s', ?_, by omega, hp⟩
    unfold translate_address
    simp only [PAGE_SIZE, hd, hm, he, hp, hv, if_false]
    rw [frame_address_fits _ _ hf0 hf1 (by omega) (by omega)]
    rfl
  · intro h
    unfold translate_address
    simp only [PAGE_SIZE, get_page_table_entry_out_of_range s _ h]
    rfl

theorem translate_address_result_witness :
    (∃ s', translate_address one_page_loaded 800 = Except.ok (7 * 256 + 800 % 256, s') ∧
      (7 * 256 + 800 % 256 : Int) % 256 = 800 % 256 ∧
      s'.page_table = one_page_loaded.page_table) ∧
    translate_address one_page_loaded 70000 = Except.ok (-1, one_page_loaded) :=
  ⟨(translate_address_result one_page_loaded 800).1 (by decide) (by decide) (by decide)
      (by decide) (by decide),
    (translate_address_result one_page_loaded 70000).2 (Or.inr (by decide))⟩

end AddrTranslate

/-! # The storage manager: a freed block is the next one handed out -/

namespace SM

theorem bind_ok {α β : Type} (a : α) (f : α → Except Stop β) :
    (Except.ok a >>= f) = f a := rfl

theorem pure_ok {α : Type} (a : α) : (pure a : Except Stop α) = Except.ok a := rfl

theorem map_find_map_set_self (m : List (Nat × PoolData_t)) (key : Nat) (v : PoolData_t) :
    map_find (map_set m key v) key = some v := by
  induction m with
  | nil => simp [map_set, map_find]
  | cons e rest ih =>
    unfold map_set
    by_cases h1 : e.1 = key
    · simp [h1, map_find]
    · simp only [h1, if_false]
      by_cases h2 : key < e.1
      · simp [h2, map_find]
      · simp only [h2, if_false]
        unfold map_find at ih ⊢
        simp only [List.find?_cons, h1, decide_False]
        exact ih

theorem findPoolFromAddress_of_only (s : sm_state) (p size : Nat)
    (hin : ∃ e ∈ s.m_PoolMap, e.2.startAddress ≤ p ∧ p ≤ e.2.endAddress)
    (honly : ∀ e ∈ s.m_PoolMap, e.2.startAddress ≤ p → p ≤ e.2.endAddress →
      e.2.poolSize = size) :
    findPoolFromAddress s p = Except.ok size := by
  unfold findPoolFromAddress
  cases hf : s.m_PoolMap.find?
      (fun e => decide (p ≥ e.2.startAddress) && decide (p ≤ e.2.endAddress)) with
  | none =>
    obtain ⟨e, he, h1, h2⟩ := hin
    have := List.find?_eq_none.mp hf e he
    simp [h1, h2] at this
  | some e =>
    have hmem := List.mem_of_find?_eq_some hf
    have hp := List.find?_some hf
    simp only [ge_iff_le, Bool.and_eq_true, decide_eq_true_eq] at hp
    simp only [honly e hmem hp.1 hp.2]
    rfl

theorem to_unsigned_of_lt (n : Nat) (h : n < 4294967296) : to_unsigned (n : Int) = n := by
  unfold to_unsigned
  omega

theorem to_int_of_lt (n : Nat) (h : n < 2147483648) : to_int (n : Int) = n := by
  unfold to_int
  omega

theorem to_ptrdiff_of_lt (n : Nat) (h : n < 9223372036854775808) : to_ptrdiff (n : Int) = n := by
  unfold to_ptrdiff
  omega

theorem block_of_address (start k size : Nat) (hpos : 0 < size)
    (hk : k * size < 9223372036854775808) :
    Int.tdiv (to_ptrdiff (((start + k * size : Nat) : Int) - (start : Int))) (size : Int) = k := by
  have h : (((start + k * size : Nat) : Int) - (start : Int)) = ((k * size : Nat) : Int) := by
    push_cast
    ring
  rw [h, to_ptrdiff_of_lt _ hk,
    Int.tdiv_eq_ediv (by exact_mod_cast Nat.zero_le _) (by exact_mod_cast Nat.zero_le _)]
  norm_cast
  exact Nat.mul_div_cancel k hpos

/-- The reuse of a released block where `SM_dealloc` finds its pool: let `p`
be the address of block `k` of the pool of block size
`size`, not the null pointer, such that `SM_dealloc` attributes `p` to this
pool (every pool whose address range, bounds included, holds `p` has this block
size).  Then `SM_dealloc(p)` followed by `SM_alloc(size)` returns exactly `p`,
and the pool's freed-block marker is clear afterwards.  The block offset
`k × size` is an `unsigned int`, the block number an `int`, and the counter
of free blocks does not wrap around. -/
theorem dealloc_then_alloc_reuses (s : sm_state) (size k p : Nat) (pd : PoolData_t)
    (hkey : size < 4294967296) (hpos : 0 < size)
    (hpool : map_find s.m_PoolMap size = some pd) (hsz : pd.poolSize = size)
    (hk : k * size < 4294967296) (hk31 : k < 2147483648)
    (hp : p = pd.startAddress + k * size) (hnn : p ≠ 0)
    (hin : ∃ e ∈ s.m_PoolMap, e.2.startAddress ≤ p ∧ p ≤ e.2.endAddress)
    (honly : ∀ e ∈ s.m_PoolMap, e.2.startAddress ≤ p → p ≤ e.2.endAddress →
      e.2.poolSize = size)
    (hfree : pd.freeBlocks + 1 < 4294967296) :
    ∃ s1 s2 pd2, SM_dealloc s p = Except.ok s1 ∧
      SM_alloc s1 size = Except.ok (p, s2) ∧
      map_find s2.m_PoolMap size = some pd2 ∧
      pd2.isFreedBlockBlockAvailable = false ∧ pd2.nextFreeBlock = -1 := by
  have hfind := findPoolFromAddress_of_only s p size hin honly
  have hne : pd.poolSize ≠ 0 := by omega
  have hblock : findBlockFromAddress p pd = Except.ok k := by
    unfold findBlockFromAddress
    simp only [hne, if_false]
    rw [hp, hsz, block_of_address _ _ _ hpos (by omega), to_unsigned_of_lt k (by omega)]
    rfl
  have hfb : to_unsigned ((pd.freeBlocks : Int) + 1) = pd.freeBlocks + 1 := by
    unfold to_unsigned
    omega
  let pd1 : PoolData_t :=
    { pd with
      freeBlocks := to_unsigned ((pd.freeBlocks : Int) + 1)
      usedBlocks := to_unsigned ((pd.usedBlocks : Int) - 1)
      nextFreeBlock := to_int k
      isFreedBlockBlockAvailable := true
      remainingSpace := to_unsigned ((pd.remainingSpace : Int) + (size : Int)) }
  let s1 : sm_state := { s with m_PoolMap := map_set s.m_PoolMap size pd1 }
  let pd2 : PoolData_t :=
    { pd1 with
      isFreedBlockBlockAvailable := false
      nextFreeBlock := -1
      freeBlocks := to_unsigned ((pd1.freeBlocks : Int) - 1)
      usedBlocks := to_unsigned ((pd1.usedBlocks : Int) + 1)
      remainingSpace := to_unsigned ((pd1.remainingSpace : Int) - (size : Int))
      totalAllocationsFromThisPool :=
        to_unsigned ((pd1.totalAllocationsFromThisPool : Int) + 1) }
  let s2 : sm_state := { s1 with m_PoolMap := map_set s1.m_PoolMap size pd2 }
  refine ⟨s1, s2, pd2, ?_, ?_, map_find_map_set_self _ _ _, rfl, rfl⟩
  · unfold SM_dealloc
    simp only [hnn, if_false, hfind, hpool, hblock, bind_ok]
    rfl
  · show SM_alloc { s with m_PoolMap := map_set s.m_PoolMap size pd1 } size = _
    unfold SM_alloc
    have hk0 : decide ((k : Int) ≥ 0) = true := by simp
    have hks : to_unsigned ((k : Int) * (size : Int)) = k * size := by
      unfold to_unsigned
      have : ((k : Int) * (size : Int)) = ((k * size : Nat) : Int) := by push_cast; ring
      rw [this]
      omega
    have hptr : findAddressFromBlock (to_unsigned (to_int (k : Int))) pd1 = p := by
      simp only [findAddressFromBlock, to_int_of_lt k hk31, to_unsigned_of_lt k (by omega),
        pd1, hsz, hks, hp]
    simp only [to_unsigned_of_lt size hkey, map_find_map_set_self, pure_ok, bind_ok]
    have hfb1 : pd1.freeBlocks ≠ 0 := by
      show to_unsigned ((pd.freeBlocks : Int) + 1) ≠ 0
      rw [hfb]
      omega
    have hcond : (pd1.isFreedBlockBlockAvailable && decide (pd1.nextFreeBlock ≥ 0)) = true := by
      show (true && decide (to_int (k : Int) ≥ 0)) = true
      rw [to_int_of_lt k hk31, hk0]
      rfl
    simp only [hfb1, if_false, pure_ok, bind_ok, map_find_map_set_self, hcond, if_true, hptr]

theorem dealloc_then_alloc_reuses_witness :
    ∃ s1 s2 pd2, SM_dealloc two_in_use 1008 = Except.ok s1 ∧
      SM_alloc s1 8 = Except.ok (1008, s2) ∧
      map_find s2.m_PoolMap 8 = some pd2 ∧
      pd2.isFreedBlockBlockAvailable = false ∧ pd2.nextFreeBlock = -1 :=
  dealloc_then_alloc_reuses two_in_use 8 1 1008
    { poolSize := 8, startAddress := 1000, endAddress := 1032, totalSize := 32,
      remainingSpace := 16, totalBlocks := 4, freeBlocks := 2, usedBlocks := 2,
      nextFreeBlockInSequence := 2, nextFreeBlock := -1, isFreedBlockBlockAvailable := false,
      totalAllocationsFromThisPool := 2 }
    (by decide) (by decide) (by decide) rfl (by decide) (by decide) rfl (by decide)
    (by decide) (by decide) (by decide)

end SM

/-! # The page-protection checker: addresses out of range, and set then check -/

namespace MemProt

theorem page_number_negative (va : Int) : Int.tdiv va 4096 < 0 ↔ va ≤ -4096 := by
  rcases Int.le_total 0 va with h | h
  · rw [Int.tdiv_eq_ediv h (by decide)]
    omega
  · have hneg : Int.tdiv va 4096 = -((-va) / 4096) := by
      rw [← Int.tdiv_eq_ediv (by omega) (by decide), Int.neg_tdiv, Int.neg_neg]
    rw [hneg]
    omega

theorem page_number_large (va : Int) : 1024 ≤ Int.tdiv va 4096 ↔ 4194304 ≤ va := by
  rcases Int.le_total 0 va with h | h
  · rw [Int.tdiv_eq_ediv h (by decide)]
    omega
  · have hneg : Int.tdiv va 4096 = -((-va) / 4096) := by
      rw [← Int.tdiv_eq_ediv (by omega) (by decide), Int.neg_tdiv, Int.neg_neg]
    rw [hneg]
    omega

/-- C33, at the failing input: the addresses -1 and -4095 lie outside
[0, 1024 × 4096), but C's truncating division gives them the page number 0;
in the page table of `main`, where page 0 is read-only, the read of address
-1 is allowed (0) and the write of address -4095 is a protection violation
(-4), neither is rejected with -1. -/
theorem negative_address_is_checked_as_page_zero :
    (check_permissions main_table (-1) PERMISSION_READ).1 = 0 ∧
    (check_permissions main_table (-4095) PERMISSION_WRITE).1 = -4 := by
  constructor <;> rfl

/-- The addresses that `check_permissions` rejects: it returns -1 exactly for
the addresses `va ≤ -4096` and `va ≥ 1024 × 4096`, those whose page number by
C's truncating division is outside [0, 1024); the page table is left as it
was. -/
theorem check_permissions_rejects_iff (s : kernel_state) (virtual_address access_type : Int) :
    ((check_permissions s virtual_address access_type).1 = -1 ↔
      (virtual_address ≤ -4096 ∨ 1024 * 4096 ≤ virtual_address)) ∧
    (check_permissions s virtual_address access_type).2 = s := by
  have hneg := page_number_negative virtual_address
  have hbig := page_number_large virtual_address
  unfold check_permissions
  simp only [PAGE_SIZE, NUM_PAGES, PERMISSION_READ, PERMISSION_WRITE, PERMISSION_EXECUTE, ge_iff_le]
  by_cases hr : Int.tdiv virtual_address 4096 < 0 ∨ 1024 ≤ Int.tdiv virtual_address 4096
  · have hout : virtual_address ≤ -4096 ∨ 1024 * 4096 ≤ virtual_address := by
      rcases hr with h | h
      · exact Or.inl (hneg.mp h)
      · exact Or.inr (by have := hbig.mp h; omega)
    simp only [hr, if_true, hout]
    exact ⟨by simp, trivial⟩
  · have hin : ¬ (virtual_address ≤ -4096 ∨ 1024 * 4096 ≤ virtual_address) := by
      intro h
      apply hr
      rcases h with h | h
      · exact Or.inl (hneg.mpr h)
      · exact Or.inr (hbig.mpr (by omega))
    simp only [hr, if_false, hin, iff_false]
    cases (s.page_table (Int.tdiv virtual_address 4096).toNat).valid_bit with
    | false => simp
    | true =>
      simp only [Bool.not_true, Bool.false_eq_true, if_false]
      by_cases a1 : access_type = 1
      · subst a1
        by_cases hl :
          Int.land (s.page_table (Int.tdiv virtual_address 4096).toNat).permissions 1 = 1 <;>
          simp [hl]
      · by_cases a2 : access_type = 2
        · subst a2
          by_cases hl :
            Int.land (s.page_table (Int.tdiv virtual_address 4096).toNat).permissions 2 = 2 <;>
            simp [hl]
        · by_cases a4 : access_type = 4
          · subst a4
            by_cases hl :
              Int.land (s.page_table (Int.tdiv virtual_address 4096).toNat).permissions 4 = 4 <;>
              simp [hl]
          · simp [a1, a2, a4]

theorem page_number_of_offset (p off : Int) (h0 : 0 ≤ p) (h2 : 0 ≤ off) (h3 : off < 4096) :
    Int.tdiv (p * 4096 + off) 4096 = p := by
  rw [Int.tdiv_eq_ediv (by omega) (by decide)]
  omega

/-- C34: after `set_page_permissions(p, m)` with `p` in [0, 1024), the check
of an address of page `p` (offset in [0, 4096)) for an access type `a` among
1, 2, 4 gives 0 when `(m & a) = a` and -4 otherwise.  With `p` outside
[0, 1024) `set_page_permissions` leaves the page table as it was; with `p` in
range the entry `p` gets the permissions `m` and a set valid bit, keeps its
other fields, and every other entry is unchanged. -/
theorem set_then_check_permissions (s : kernel_state) (p m off a : Int) :
    (0 ≤ p → p < 1024 → 0 ≤ off → off < 4096 → (a = 1 ∨ a = 2 ∨ a = 4) →
      (check_permissions (set_page_permissions s p m) (p * 4096 + off) a).1 =
        if Int.land m a = a then 0 else -4) ∧
    ((p < 0 ∨ 1024 ≤ p) → set_page_permissions s p m = s) ∧
    (0 ≤ p → p < 1024 → ∀ i : Nat,
      (set_page_permissions s p m).page_table i =
        if i = p.toNat then
          { valid_bit := true, dirty_bit := (s.page_table i).dirty_bit,
            frame_number := (s.page_table i).frame_number,
            last_accessed_time := (s.page_table i).last_accessed_time, permissions := m }
        else s.page_table i) := by
  refine ⟨?_, ?_, ?_⟩
  · intro h0 h1 h2 h3 ha
    have hin : p ≥ 0 ∧ p < NUM_PAGES := ⟨h0, h1⟩
    have hr : ¬ (p < 0 ∨ p ≥ 1024) := by omega
    unfold check_permissions set_page_permissions
    simp only [PAGE_SIZE, NUM_PAGES, PERMISSION_READ, PERMISSION_WRITE, PERMISSION_EXECUTE,
      page_number_of_offset p off h0 h2 h3, hr, if_false]
    have hin2 : p ≥ 0 ∧ p < 1024 := ⟨h0, h1⟩
    simp only [hin2, and_self, if_true, Bool.not_true, Bool.false_eq_true, if_false]
    rcases ha with ha | ha | ha
    · subst ha
      by_cases hl : Int.land m 1 = 1 <;> simp [hl]
    · subst ha
      by_cases hl : Int.land m 2 = 2 <;> simp [hl]
    · subst ha
      by_cases hl : Int.land m 4 = 4 <;> simp [hl]
  · intro hout
    have hr : ¬ (p ≥ 0 ∧ p < NUM_PAGES) := by
      simp only [NUM_PAGES]
      omega
    unfold set_page_permissions
    simp only [hr, if_false]
  · intro h0 h1 i
    have hin : p ≥ 0 ∧ p < NUM_PAGES := ⟨h0, h1⟩
    unfold set_page_permissions
    simp only [hin, and_self, if_true]

theorem set_then_check_permissions_witness :
    (check_permissions (set_page_permissions main_table 0 1) (0 * 4096 + 0) 2).1 =
        (if Int.land 1 2 = 2 then 0 else -4) ∧
    set_page_permissions main_table 1024 7 = main_table ∧
    (∀ i : Nat, (set_page_permissions main_table 5 3).page_table i =
      if i = (5 : Int).toNat then
        { valid_bit := true, dirty_bit := (main_table.page_table i).dirty_bit,
          frame_number := (main_table.page_table i).frame_number,
          last_accessed_time := (main_table.page_table i).last_accessed_time, permissions := 3 }
      else main_table.page_table i) :=
  ⟨(set_then_check_permissions main_table 0 1 0 2).1 (by decide) (by decide) (by decide)
      (by decide) (Or.inr (Or.inl rfl)),
    (set_then_check_permissions main_table 1024 7 0 1).2.1 (Or.inr (by decide)),
    (set_then_check_permissions main_table 5 3 0 1).2.2 (by decide) (by decide)⟩

end MemProt

/-! # The address translator: the frame that `findLRUFrame` picks -/

namespace AddrTranslate

/-- The scan of `findLRUFrame` and of `add_tlb_entry` over the indices
1, ..., `n`: it ends at the first index among 0, ..., `n` whose value is
minimal. -/
theorem scan_first_minimum (t : Nat → Int) (n : Nat) :
    ((List.range' 1 n).foldl
        (fun (acc : Nat × Int) i => if t i < acc.2 then (i, t i) else acc) (0, t 0)).2 =
      t ((List.range' 1 n).foldl
        (fun (acc : Nat × Int) i => if t i < acc.2 then (i, t i) else acc) (0, t 0)).1 ∧
    ((List.range' 1 n).foldl
        (fun (acc : Nat × Int) i => if t i < acc.2 then (i, t i) else acc) (0, t 0)).1 ≤ n ∧
    (∀ j, j ≤ n → t ((List.range' 1 n).foldl
        (fun (acc : Nat × Int) i => if t i < acc.2 then (i, t i) else acc) (0, t 0)).1 ≤ t j) ∧
    (∀ j, j < ((List.range' 1 n).foldl
        (fun (acc : Nat × Int) i => if t i < acc.2 then (i, t i) else acc) (0, t 0)).1 →
      t ((List.range' 1 n).foldl
        (fun (acc : Nat × Int) i => if t i < acc.2 then (i, t i) else acc) (0, t 0)).1 < t j) := by
  induction n with
  | zero =>
    refine ⟨rfl, Nat.le_refl _, ?_, ?_⟩
    · intro j hj
      have : j = 0 := by omega
      rw [this]
      exact Int.le_refl _
    · intro j hj
      exact absurd hj (Nat.not_lt_zero j)
  | succ n ih =>
    rw [List.range'_concat, List.foldl_append]
    simp only [List.foldl_cons, List.foldl_nil, Nat.one_mul]
    generalize (List.range' 1 n).foldl
      (fun (acc : Nat × Int) i => if t i < acc.2 then (i, t i) else acc) (0, t 0) = r at ih ⊢
    obtain ⟨h1, h2, h3, h4⟩ := ih
    by_cases hlt : t (1 + n) < r.2
    · simp only [hlt, if_true]
      refine ⟨trivial, by omega, ?_, ?_⟩
      · intro j hj
        by_cases hjn : j ≤ n
        · have := h3 j hjn
          omega
        · have : j = 1 + n := by omega
          rw [this]
      · intro j hj
        have := h3 j (by omega)
        omega
    · simp only [hlt, if_false]
      refine ⟨h1, by omega, ?_, h4⟩
      intro j hj
      by_cases hjn : j ≤ n
      · exact h3 j hjn
      · have : j = 1 + n := by omega
        rw [this]
        omega

theorem findLRUFrame_scan (s : vm_state) :
    ∃ k : Nat, k < 256 ∧
      (∀ j, j < 256 → s.memory_access_times k ≤ s.memory_access_times j) ∧
      (∀ j, j < k → s.memory_access_times k < s.memory_access_times j) ∧
      findLRUFrame s = ((k : Int),
        { s with memory_access_times := fun i => if i = k then MM.i32 (s.memory_access_times i + 1) else s.memory_access_times i }) := by
  obtain ⟨_, h2, h3, h4⟩ := scan_first_minimum s.memory_access_times 255
  exact ⟨_, by omega, fun j hj => h3 j (by omega), h4, rfl⟩

theorem count_plus_one (x : Int) (h0 : -2147483648 ≤ x) (h1 : x < 2147483647) :
    MM.i32 (x + 1) = x + 1 := by
  unfold MM.i32
  omega

/-- C35: the entries of `memory_access_times` are `int` values, not all of
them `INT_MAX`.  Then `findLRUFrame` returns the smallest index `k` in
[0, 256) whose count is minimal, adds one to the entry `k` and leaves every
other entry and the rest of the state as they were; its result is not -1, and
`handle_page_fault` returns whenever the backing store can be opened and
positioned. -/
theorem findLRUFrame_first_minimum (s : vm_state)
    (hint : ∀ i, i < 256 →
      -2147483648 ≤ s.memory_access_times i ∧ s.memory_access_times i ≤ 2147483647)
    (hroom : ∃ i, i < 256 ∧ s.memory_access_times i < 2147483647) :
    ∃ k : Nat, k < 256 ∧ (findLRUFrame s).1 = (k : Int) ∧
      (∀ j, j < 256 → s.memory_access_times k ≤ s.memory_access_times j) ∧
      (∀ j, j < k → s.memory_access_times k < s.memory_access_times j) ∧
      (findLRUFrame s).2 =
        { s with memory_access_times := fun i => if i = k then s.memory_access_times i + 1 else s.memory_access_times i } ∧
      (findLRUFrame s).1 ≠ -1 ∧
      (∀ virtual_page_number : Int, s.fopen_ok = true → s.fseek_ok = true →
        ∃ s', handle_page_fault s virtual_page_number = Except.ok s') := by
  obtain ⟨k, hk, hmin, hfirst, hrun⟩ := findLRUFrame_scan s
  obtain ⟨i, hi, hlt⟩ := hroom
  have hsmall : s.memory_access_times k < 2147483647 := by
    have := hmin i hi
    omega
  have hinc := count_plus_one (s.memory_access_times k) (hint k hk).1 hsmall
  refine ⟨k, hk, by rw [hrun], hmin, hfirst, ?_, ?_, ?_⟩
  · rw [hrun]
    show ({ s with memory_access_times := _ } : vm_state) = _
    congr 1
    funext j
    by_cases hj : j = k
    · subst hj
      simp only [if_true]
      exact hinc
    · simp only [hj, if_false]
  · rw [hrun]
    show (k : Int) ≠ -1
    omega
  · intro vpn ho hk'
    unfold handle_page_fault
    have hne : ¬ ((k : Int) = -1) := by omega
    simp only [ho, hk', Bool.not_true, Bool.false_eq_true, if_false, hrun, hne]
    exact ⟨_, rfl⟩

theorem findLRUFrame_first_minimum_witness :
    ∃ k : Nat, k < 256 ∧ (findLRUFrame counted).1 = (k : Int) ∧
      (∀ j, j < 256 → counted.memory_access_times k ≤ counted.memory_access_times j) ∧
      (∀ j, j < k → counted.memory_access_times k < counted.memory_access_times j) ∧
      (findLRUFrame counted).2 =
        { counted with memory_access_times := fun i => if i = k then counted.memory_access_times i + 1 else counted.memory_access_times i } ∧
      (findLRUFrame counted).1 ≠ -1 ∧
      (∀ virtual_page_number : Int, counted.fopen_ok = true → counted.fseek_ok = true →
        ∃ s', handle_page_fault counted virtual_page_number = Except.ok s') :=
  findLRUFrame_first_minimum counted
    (by
      intro i _
      simp only [counted]
      split
      · decide
      · split <;> decide)
    ⟨3, by decide, by decide⟩

/-! ## The frames of the valid pages -/

theorem same_tables_refl (s : vm_state) : same_tables s s := ⟨rfl, rfl, rfl, rfl⟩

theorem same_tables_trans (s s1 s2 : vm_state) (h1 : same_tables s s1)
    (h2 : same_tables s1 s2) : same_tables s s2 :=
  ⟨h2.1.trans h1.1, h2.2.1.trans h1.2.1, h2.2.2.1.trans h1.2.2.1, h2.2.2.2.trans h1.2.2.2⟩

theorem loaded_of_same_tables (s s' : vm_state) (order : List Nat) (h : same_tables s s')
    (hl : loaded_in_order s order) : loaded_in_order s' order := by
  obtain ⟨e1, e2, e3, e4⟩ := h
  unfold loaded_in_order
  rw [e1, e2, e3, e4]
  exact hl

theorem get_page_table_entry_tables (s : vm_state) (n : Int) (h0 : 0 ≤ n) (h1 : n < 256) :
    ∃ s', get_page_table_entry s n = (some n.toNat, s') ∧ same_tables s s' := by
  unfold get_page_table_entry
  have hr : ¬ (n < 0 ∨ n ≥ NUM_PAGES) := by
    simp only [NUM_PAGES]
    omega
  simp only [hr, if_false]
  cases ht : get_tlb_entry s n with
  | none => exact ⟨s, rfl, same_tables_refl s⟩
  | some t =>
    have := List.find?_some ht
    simp only [decide_eq_true_eq] at this
    simp only [this]
    exact ⟨_, rfl, rfl, rfl, rfl, rfl⟩

theorem set_page_table_entry_tables (s : vm_state) (n valid_bit dirty_bit frame_number : Int)
    (h0 : 0 ≤ n) (h1 : n < 256) :
    ∃ t : Int,
      (set_page_table_entry s n valid_bit dirty_bit frame_number).page_table =
        (fun i => if i = n.toNat then PageTableEntry.mk valid_bit dirty_bit frame_number t
          else s.page_table i) ∧
      (set_page_table_entry s n valid_bit dirty_bit frame_number).memory_access_times =
        s.memory_access_times ∧
      (set_page_table_entry s n valid_bit dirty_bit frame_number).fopen_ok = s.fopen_ok ∧
      (set_page_table_entry s n valid_bit dirty_bit frame_number).fseek_ok = s.fseek_ok := by
  obtain ⟨s', he, e1, e2, e3, e4⟩ := get_page_table_entry_tables s n h0 h1
  unfold set_page_table_entry
  simp only [he]
  refine ⟨s'.clock s'.ticks, ?_, e2, e3, e4⟩
  show (fun i => if i = n.toNat then _ else s'.page_table i) = _
  rw [e1]
  rfl

theorem add_tlb_entry_tables (s : vm_state) (n f : Int) : same_tables s (add_tlb_entry s n f) :=
  ⟨rfl, rfl, rfl, rfl⟩

theorem loaded_room (order : List Nat) (v : Nat) (hnd : order.Nodup)
    (hlt : ∀ p ∈ order, p < 256) (hv : v < 256) (hnot : v ∉ order) : order.length < 256 := by
  have hnd' : (v :: order).Nodup := List.nodup_cons.mpr ⟨hnot, hnd⟩
  have hsub : v :: order ⊆ List.range 256 := by
    intro x hx
    rcases List.mem_cons.mp hx with e | e
    · rw [e]
      exact List.mem_range.mpr hv
    · exact List.mem_range.mpr (hlt x e)
  have := (List.subperm_of_subset hnd' hsub).length_le
  simp only [List.length_cons, List.length_range] at this
  omega

theorem page_fault_loads_next_frame (s : vm_state) (order : List Nat) (v : Nat)
    (hl : loaded_in_order s order) (hv : v < 256) (hinv : (s.page_table v).valid_bit = 0) :
    ∃ s', handle_page_fault s (v : Int) = Except.ok s' ∧ loaded_in_order s' (order ++ [v]) := by
  obtain ⟨hnd, hlt, hvalid, hframe, hcount, hopen, hseek⟩ := hl
  have hnot : v ∉ order := fun hm => (hvalid v).mpr hm hinv
  have hroom := loaded_room order v hnd hlt hv hnot
  obtain ⟨k, hk, hmin, hfirst, hrun⟩ := findLRUFrame_scan s
  have hkn : k = order.length := by
    have h1 := hmin order.length hroom
    rw [hcount k hk, hcount order.length hroom] at h1
    simp only [Nat.lt_irrefl, if_false] at h1
    by_cases hlow : k < order.length
    · simp only [hlow, if_true] at h1
      omega
    · by_cases hhigh : order.length < k
      · have h2 := hfirst order.length hhigh
        rw [hcount k hk, hcount order.length hroom] at h2
        simp only [Nat.lt_irrefl, if_false, hlow] at h2
        omega
      · omega
  subst hkn
  generalize hs1 : ({ s with memory_access_times := fun i =>
    if i = order.length then MM.i32 (s.memory_access_times i + 1)
    else s.memory_access_times i } : vm_state) = s1 at hrun
  have f1 : s1.page_table = s.page_table := by rw [← hs1]
  have f2 : s1.memory_access_times = fun i =>
      if i = order.length then MM.i32 (s.memory_access_times i + 1)
      else s.memory_access_times i := by rw [← hs1]
  have f3 : s1.fopen_ok = s.fopen_ok := by rw [← hs1]
  have f4 : s1.fseek_ok = s.fseek_ok := by rw [← hs1]
  obtain ⟨t, hpt, hmt, hfo, hfs⟩ := set_page_table_entry_tables s1 (v : Int) 1 0
    (order.length : Int) (by omega) (by omega)
  have hne : ¬ ((order.length : Int) = -1) := by omega
  refine ⟨add_tlb_entry (set_page_table_entry s1 (v : Int) 1 0 (order.length : Int)) (v : Int)
    (order.length : Int), ?_, ?_⟩
  · unfold handle_page_fault
    simp only [hopen, hseek, Bool.not_true, Bool.false_eq_true, if_false, hrun, hne]
    rfl
  · obtain ⟨a1, a2, a3, a4⟩ := add_tlb_entry_tables
      (set_page_table_entry s1 (v : Int) 1 0 (order.length : Int)) (v : Int) (order.length : Int)
    unfold loaded_in_order
    rw [a1, a2, a3, a4, hpt, hmt, hfo, hfs, f1, f2, f3, f4]
    simp only [Int.toNat_ofNat]
    refine ⟨?_, ?_, ?_, ?_, ?_, hopen, hseek⟩
    · rw [← List.concat_eq_append]
      exact List.Nodup.concat hnot hnd
    · intro p hp
      rcases List.mem_append.mp hp with e | e
      · exact hlt p e
      · rw [List.mem_singleton.mp e]
        exact hv
    · intro i
      by_cases hi : i = v
      · subst hi
        simp
      · simp only [hi, if_false, List.mem_append, List.mem_singleton, or_false]
        exact hvalid i
    · intro i hi
      by_cases hiv : i = v
      · subst hiv
        simp only [if_true]
        rw [List.indexOf_append_of_not_mem hnot, List.indexOf_cons_self]
        simp
      · simp only [hiv, if_false]
        have him : i ∈ order := by
          rcases List.mem_append.mp hi with e | e
          · exact e
          · exact absurd (List.mem_singleton.mp e) hiv
        rw [List.indexOf_append_of_mem him]
        exact hframe i him
    · intro i hi
      simp only [List.length_append, List.length_singleton]
      by_cases hin : i = order.length
      · subst hin
        simp only [if_true, hcount order.length hi, Nat.lt_irrefl, if_false, Nat.lt_succ_self]
        rfl
      · simp only [hin, if_false, hcount i hi]
        by_cases hlow : i < order.length
        · have : i < order.length + 1 := by omega
          simp only [hlow, this, if_true]
        · have : ¬ i < order.length + 1 := by omega
          simp only [hlow, this, if_false]

theorem translate_keeps_loaded (s : vm_state) (order : List Nat) (va : Int)
    (hl : loaded_in_order s order) :
    ∃ r s' order', translate_address s va = Except.ok (r, s') ∧ loaded_in_order s' order' := by
  by_cases hr : Int.tdiv va 256 < 0 ∨ 256 ≤ Int.tdiv va 256
  · refine ⟨-1, s, order, ?_, hl⟩
    unfold translate_address
    simp only [PAGE_SIZE, get_page_table_entry_out_of_range s _ hr]
    rfl
  · have h0 : 0 ≤ Int.tdiv va 256 := by omega
    have h1 : Int.tdiv va 256 < 256 := by omega
    obtain ⟨s1, he1, ht1⟩ := get_page_table_entry_tables s (Int.tdiv va 256) h0 h1
    have hl1 := loaded_of_same_tables s s1 order ht1 hl
    by_cases hv : (s1.page_table (Int.tdiv va 256).toNat).valid_bit = 0
    · have hcast : (((Int.tdiv va 256).toNat : Nat) : Int) = Int.tdiv va 256 :=
        Int.toNat_of_nonneg h0
      have hlt : (Int.tdiv va 256).toNat < 256 := by omega
      have hl2 : loaded_in_order { s1 with page_faults := MM.i32 (s1.page_faults + 1) } order :=
        loaded_of_same_tables s1 _ order ⟨rfl, rfl, rfl, rfl⟩ hl1
      obtain ⟨s3, hf, hl3⟩ := page_fault_loads_next_frame
        { s1 with page_faults := MM.i32 (s1.page_faults + 1) } order (Int.tdiv va 256).toNat
        hl2 hlt hv
      rw [hcast] at hf
      obtain ⟨s4, he4, ht4⟩ := get_page_table_entry_tables s3 (Int.tdiv va 256) h0 h1
      refine ⟨MM.i32 ((s4.page_table (Int.tdiv va 256).toNat).frame_number * 256 +
        Int.tmod va 256), s4, order ++ [(Int.tdiv va 256).toNat], ?_,
        loaded_of_same_tables s3 s4 _ ht4 hl3⟩
      unfold translate_address
      simp only [PAGE_SIZE, he1, hv, if_true, hf, he4]
      rfl
    · refine ⟨MM.i32 ((s1.page_table (Int.tdiv va 256).toNat).frame_number * 256 +
        Int.tmod va 256), s1, order, ?_, hl1⟩
      unfold translate_address
      simp only [PAGE_SIZE, he1, hv, if_false]
      rfl

theorem translate_all_keeps_loaded (addresses : List Int) (s : vm_state) (order : List Nat)
    (hl : loaded_in_order s order) :
    ∃ s' order', translate_all s addresses = Except.ok s' ∧ loaded_in_order s' order' := by
  induction addresses generalizing s order with
  | nil => exact ⟨s, order, rfl, hl⟩
  | cons va rest ih =>
    obtain ⟨r, s1, order1, h1, hl1⟩ := translate_keeps_loaded s order va hl
    obtain ⟨s2, order2, h2, hl2⟩ := ih s1 order1 hl1
    refine ⟨s2, order2, ?_, hl2⟩
    unfold translate_all
    simp only [h1]
    exact h2

theorem loaded_at_start (s0 : vm_state) (hcount : ∀ i, i < 256 → s0.memory_access_times i = 0)
    (hopen : s0.fopen_ok = true) (hseek : s0.fseek_ok = true) :
    loaded_in_order (initialize_tlb (initialize_page_table s0)) [] := by
  refine ⟨List.nodup_nil, ?_, ?_, ?_, ?_, hopen, hseek⟩
  · intro p hp
    cases hp
  · intro i
    simp [initialize_tlb, initialize_page_table]
  · intro i hi
    cases hi
  · intro i hi
    simp only [List.length_nil, Nat.not_lt_zero, if_false]
    exact hcount i hi

/-! # C36: valid pages hold distinct frames -/

/-- C36: the access counts are zero and the backing store can be opened and
positioned.  After `initialize_page_table` and `initialize_tlb`, every
sequence of `translate_address` calls runs through, and afterwards no two
page-table entries with the valid bit set hold the same frame number, and the
frame number of every valid entry lies in [0, 256). -/
theorem valid_pages_hold_distinct_frames (s0 : vm_state) (addresses : List Int)
    (hcount : ∀ i, i < 256 → s0.memory_access_times i = 0)
    (hopen : s0.fopen_ok = true) (hseek : s0.fseek_ok = true) :
    ∃ s, translate_all (initialize_tlb (initialize_page_table s0)) addresses = Except.ok s ∧
      (∀ i j : Nat, (s.page_table i).valid_bit ≠ 0 → (s.page_table j).valid_bit ≠ 0 →
        (s.page_table i).frame_number = (s.page_table j).frame_number → i = j) ∧
      (∀ i : Nat, (s.page_table i).valid_bit ≠ 0 →
        0 ≤ (s.page_table i).frame_number ∧ (s.page_table i).frame_number < 256) := by
  obtain ⟨s, order, hrun, hnd, hlt, hvalid, hframe, _, _, _⟩ :=
    translate_all_keeps_loaded addresses _ [] (loaded_at_start s0 hcount hopen hseek)
  refine ⟨s, hrun, ?_, ?_⟩
  · intro i j hi hj he
    have hio := (hvalid i).mp hi
    have hjo := (hvalid j).mp hj
    rw [hframe i hio, hframe j hjo] at he
    exact (List.indexOf_inj hio hjo).mp (by exact_mod_cast he)
  · intro i hi
    have hio := (hvalid i).mp hi
    have hidx := List.indexOf_lt_length.mpr hio
    have hroom : order.length ≤ 256 := by
      have hsub : order ⊆ List.range 256 := fun x hx => List.mem_range.mpr (hlt x hx)
      have := (List.subperm_of_subset hnd hsub).length_le
      simpa using this
    rw [hframe i hio]
    omega

theorem valid_pages_hold_distinct_frames_witness :
    ∃ s, translate_all (initialize_tlb (initialize_page_table at_start))
        [0, 256, 0, 700, 65535, -5, 70000] = Except.ok s ∧
      (∀ i j : Nat, (s.page_table i).valid_bit ≠ 0 → (s.page_table j).valid_bit ≠ 0 →
        (s.page_table i).frame_number = (s.page_table j).frame_number → i = j) ∧
      (∀ i : Nat, (s.page_table i).valid_bit ≠ 0 →
        0 ≤ (s.page_table i).frame_number ∧ (s.page_table i).frame_number < 256) :=
  valid_pages_hold_distinct_frames at_start [0, 256, 0, 700, 65535, -5, 70000]
    (fun _ _ => rfl) rfl rfl

end AddrTranslate

/-! # The storage manager: the counters of a pool -/

namespace SM

theorem mem_map_set (m : List (Nat × PoolData_t)) (key : Nat) (v : PoolData_t)
    (e : Nat × PoolData_t) (he : e ∈ map_set m key v) : e = (key, v) ∨ e ∈ m := by
  induction m with
  | nil =>
    simp only [map_set, List.mem_singleton] at he
    exact Or.inl he
  | cons x rest ih =>
    unfold map_set at he
    split at he
    · rcases List.mem_cons.mp he with h | h
      · exact Or.inl h
      · exact Or.inr (List.mem_cons_of_mem _ h)
    · split at he
      · rcases List.mem_cons.mp he with h | h
        · exact Or.inl h
        · exact Or.inr h
      · rcases List.mem_cons.mp he with h | h
        · exact Or.inr (by rw [h]; exact List.mem_cons_self _ _)
        · rcases ih h with h' | h'
          · exact Or.inl h'
          · exact Or.inr (List.mem_cons_of_mem _ h')

theorem map_find_mem (m : List (Nat × PoolData_t)) (key : Nat) (pd : PoolData_t)
    (h : map_find m key = some pd) : (key, pd) ∈ m := by
  unfold map_find at h
  cases hf : m.find? (fun e => decide (e.1 = key)) with
  | none =>
    rw [hf] at h
    cases h
  | some e =>
    rw [hf] at h
    simp only [Option.map_some', Option.some.injEq] at h
    have hmem := List.mem_of_find?_eq_some hf
    have hk := List.find?_some hf
    simp only [decide_eq_true_eq] at hk
    have : e = (key, pd) := by
      rw [← hk, ← h]
    rw [← this]
    exact hmem

theorem to_unsigned_of_mod (z : Int) (n : Nat)
    (h : (n : Int) % 4294967296 = z % 4294967296) : to_unsigned z = n % 4294967296 := by
  unfold to_unsigned
  omega

theorem remaining_after_alloc (free ps size rem : Nat)
    (hrem : rem = (free * ps) % 4294967296) (hps : ps = size % 4294967296) :
    to_unsigned ((rem : Int) - (size : Int)) =
      (to_unsigned ((free : Int) - 1) * ps) % 4294967296 := by
  apply to_unsigned_of_mod
  have hf : ((to_unsigned ((free : Int) - 1) : Nat) : Int) = ((free : Int) - 1) % 4294967296 := by
    unfold to_unsigned
    omega
  have h1 : Int.ModEq 4294967296 ((((free : Int) - 1) % 4294967296) * (ps : Int))
      (((free : Int) - 1) * (ps : Int)) := (Int.mod_modEq _ _).mul_right _
  have h2 : Int.ModEq 4294967296 (rem : Int) ((free : Int) * (ps : Int)) := by
    rw [hrem]
    push_cast
    exact Int.mod_modEq _ _
  have h3 : Int.ModEq 4294967296 (size : Int) (ps : Int) := by
    rw [hps]
    push_cast
    exact (Int.mod_modEq _ _).symm
  have h4 := h2.sub h3
  have h5 : ((free : Int) - 1) * (ps : Int) = (free : Int) * (ps : Int) - (ps : Int) := by ring
  rw [h5] at h1
  push_cast
  rw [hf]
  exact h1.trans h4.symm

theorem remaining_after_dealloc (free ps rem : Nat)
    (hrem : rem = (free * ps) % 4294967296) :
    to_unsigned ((rem : Int) + (ps : Int)) =
      (to_unsigned ((free : Int) + 1) * ps) % 4294967296 := by
  apply to_unsigned_of_mod
  have hf : ((to_unsigned ((free : Int) + 1) : Nat) : Int) = ((free : Int) + 1) % 4294967296 := by
    unfold to_unsigned
    omega
  have h1 : Int.ModEq 4294967296 ((((free : Int) + 1) % 4294967296) * (ps : Int))
      (((free : Int) + 1) * (ps : Int)) := (Int.mod_modEq _ _).mul_right _
  have h2 : Int.ModEq 4294967296 (rem : Int) ((free : Int) * (ps : Int)) := by
    rw [hrem]
    push_cast
    exact Int.mod_modEq _ _
  have h4 := h2.add (Int.ModEq.refl (ps : Int))
  have h5 : ((free : Int) + 1) * (ps : Int) = (free : Int) * (ps : Int) + (ps : Int) := by ring
  rw [h5] at h1
  push_cast
  rw [hf]
  exact h1.trans h4.symm

theorem blocks_after_alloc (free used total : Nat)
    (h : (free + used) % 4294967296 = total) :
    (to_unsigned ((free : Int) - 1) + to_unsigned ((used : Int) + 1)) % 4294967296 = total := by
  unfold to_unsigned
  omega

theorem blocks_after_dealloc (free used total : Nat)
    (h : (free + used) % 4294967296 = total) :
    (to_unsigned ((free : Int) + 1) + to_unsigned ((used : Int) - 1)) % 4294967296 = total := by
  unfold to_unsigned
  omega

theorem pool_bytes (sizeId n : Nat) (hn : n < 4294967296) (hid : sizeId < 4294967296) :
    to_size_t ((sizeId : Int) * 1 * (n : Int)) = n * sizeId := by
  have hprod : n * sizeId < 4294967296 * 4294967296 := Nat.mul_lt_mul'' hn hid
  have hcast : (sizeId : Int) * 1 * (n : Int) = ((n * sizeId : Nat) : Int) := by
    push_cast
    ring
  rw [hcast]
  unfold to_size_t
  omega

theorem malloc_keeps (s s' : sm_state) (a : Option Nat) (h : malloc s = (a, s')) :
    s'.m_initialPoolSize = s.m_initialPoolSize ∧ s'.m_PoolMap = s.m_PoolMap := by
  unfold malloc at h
  split at h
  · simp only [Prod.mk.injEq] at h
    obtain ⟨_, rfl⟩ := h
    exact ⟨rfl, rfl⟩
  · simp only [Prod.mk.injEq] at h
    obtain ⟨_, rfl⟩ := h
    exact ⟨rfl, rfl⟩

theorem pool_of_size_accounted (s s' : sm_state) (sizeId n ptr : Nat)
    (hacc : pools_accounted s) (hn : n < 2147483648) (hid : sizeId < 4294967296)
    (h : initializePoolData s (to_size_t ((sizeId : Int) * 1 * (n : Int))) ptr sizeId =
      Except.ok s') :
    pools_accounted s' ∧ s'.m_initialPoolSize = s.m_initialPoolSize := by
  have hn32 : n < 4294967296 := by omega
  have hbytes : n * sizeId < 9223372036854775808 :=
    Nat.mul_lt_mul'' hn hid
  rw [pool_bytes sizeId n hn32 hid] at h
  unfold initializePoolData at h
  split at h
  · cases h
  · rename_i hne
    have hpos : 0 < sizeId := Nat.pos_of_ne_zero hne
    simp only [pure_ok, Except.ok.injEq] at h
    subst h
    refine ⟨⟨hacc.1, ?_⟩, rfl⟩
    intro e he
    rcases mem_map_set _ _ _ e he with h1 | h1
    · subst h1
      refine ⟨rfl, ?_, ?_⟩
      · simp only [block_of_address ptr n sizeId hpos hbytes, to_unsigned_of_lt n hn32]
        omega
      · simp only [block_of_address ptr n sizeId hpos hbytes, to_unsigned_of_lt n hn32]
        exact to_unsigned_of_mod _ _ rfl
    · exact hacc.2 e h1

theorem createNewPool_accounted (s s' : sm_state) (sizeId : Nat)
    (hacc : pools_accounted s) (hid : sizeId < 4294967296)
    (h : createNewPool s sizeId = Except.ok s') : pools_accounted s' := by
  unfold createNewPool at h
  split at h
  · cases h
  · rename_i a s1 hm1
    obtain ⟨e1, e2⟩ := malloc_keeps s s1 _ hm1
    split at h
    rename_i ptr s2 hm2
    obtain ⟨e3, e4⟩ := malloc_keeps s1 s2 _ hm2
    have hacc2 : pools_accounted s2 := by
      unfold pools_accounted
      rw [e3, e4, e1, e2]
      exact hacc
    have hn : s1.m_initialPoolSize < 2147483648 := by
      rw [e1]
      exact hacc.1
    exact (pool_of_size_accounted s2 s' sizeId s1.m_initialPoolSize (ptr.getD 0) hacc2 hn hid h).1

theorem to_unsigned_lt (z : Int) : to_unsigned z < 4294967296 := by
  unfold to_unsigned
  omega

theorem to_unsigned_nat (n : Nat) : to_unsigned (n : Int) = n % 4294967296 := by
  unfold to_unsigned
  omega

theorem bind_error {α β : Type} (e : Stop) (f : α → Except Stop β) :
    (Except.error e >>= f) = Except.error e := rfl

theorem throw_error {α : Type} (e : Stop) : (throw e : Except Stop α) = Except.error e := rfl

theorem alloc_from_pool_accounted (s1 s' : sm_state) (size p : Nat) (pd : PoolData_t)
    (hacc1 : pools_accounted s1)
    (hfind : map_find s1.m_PoolMap (to_unsigned (size : Int)) = some pd)
    (h : SM_alloc s1 size = Except.ok (p, s')) (hfree : pd.freeBlocks ≠ 0) :
    pools_accounted s' := by
  obtain ⟨hkey, hb, hr⟩ := hacc1.2 _ (map_find_mem _ _ _ hfind)
  simp only at hkey
  have hps : pd.poolSize = size % 4294967296 := by
    rw [hkey]
    exact to_unsigned_nat size
  unfold SM_alloc at h
  simp only [hfind, hfree, if_false, pure_ok, bind_ok] at h
  by_cases hc : (pd.isFreedBlockBlockAvailable && decide (pd.nextFreeBlock ≥ 0)) = true
  · simp only [hc, if_true, Except.ok.injEq, Prod.mk.injEq] at h
    obtain ⟨_, rfl⟩ := h
    refine ⟨hacc1.1, ?_⟩
    intro e he
    rcases mem_map_set _ _ _ e he with h2 | h2
    · subst h2
      exact ⟨hkey, blocks_after_alloc _ _ _ hb,
        remaining_after_alloc pd.freeBlocks pd.poolSize size pd.remainingSpace hr hps⟩
    · exact hacc1.2 e h2
  · simp only [hc, if_false, Except.ok.injEq, Prod.mk.injEq] at h
    obtain ⟨_, rfl⟩ := h
    refine ⟨hacc1.1, ?_⟩
    intro e he
    rcases mem_map_set _ _ _ e he with h2 | h2
    · subst h2
      exact ⟨hkey, blocks_after_alloc _ _ _ hb,
        remaining_after_alloc pd.freeBlocks pd.poolSize size pd.remainingSpace hr hps⟩
    · exact hacc1.2 e h2

theorem SM_alloc_accounted (s s' : sm_state) (size p : Nat) (hacc : pools_accounted s)
    (h : SM_alloc s size = Except.ok (p, s')) : pools_accounted s' := by
  cases hfind0 : map_find s.m_PoolMap (to_unsigned (size : Int)) with
  | some pd0 =>
    by_cases hz : pd0.freeBlocks = 0
    · unfold SM_alloc at h
      simp only [hfind0, hz, if_true, throw_error, bind_error] at h
      cases h
    · exact alloc_from_pool_accounted s s' size p pd0 hacc hfind0 h hz
  | none =>
    unfold SM_alloc at h
    simp only [hfind0] at h
    cases h1 : createNewPool s (to_unsigned (size : Int)) with
    | error e =>
      simp only [h1, bind_error] at h
      cases h
    | ok s1 =>
      have hacc1 := createNewPool_accounted s s1 _ hacc (to_unsigned_lt _) h1
      simp only [h1, bind_ok] at h
      cases hfind : map_find s1.m_PoolMap (to_unsigned (size : Int)) with
      | none =>
        simp only [hfind, throw_error] at h
        cases h
      | some pd =>
        obtain ⟨hkey, hb, hr⟩ := hacc1.2 _ (map_find_mem _ _ _ hfind)
        simp only at hkey
        have hps : pd.poolSize = size % 4294967296 := by
          rw [hkey]
          exact to_unsigned_nat size
        simp only [hfind, pure_ok] at h
        by_cases hc : (pd.isFreedBlockBlockAvailable && decide (pd.nextFreeBlock ≥ 0)) = true
        · simp only [hc, if_true, Except.ok.injEq, Prod.mk.injEq] at h
          obtain ⟨_, rfl⟩ := h
          refine ⟨hacc1.1, ?_⟩
          intro e he
          rcases mem_map_set _ _ _ e he with h2 | h2
          · subst h2
            exact ⟨hkey, blocks_after_alloc _ _ _ hb,
              remaining_after_alloc pd.freeBlocks pd.poolSize size pd.remainingSpace hr hps⟩
          · exact hacc1.2 e h2
        · simp only [hc, if_false, Except.ok.injEq, Prod.mk.injEq] at h
          obtain ⟨_, rfl⟩ := h
          refine ⟨hacc1.1, ?_⟩
          intro e he
          rcases mem_map_set _ _ _ e he with h2 | h2
          · subst h2
            exact ⟨hkey, blocks_after_alloc _ _ _ hb,
              remaining_after_alloc pd.freeBlocks pd.poolSize size pd.remainingSpace hr hps⟩
          · exact hacc1.2 e h2

theorem SM_dealloc_accounted (s s' : sm_state) (ptr : Nat) (hacc : pools_accounted s)
    (h : SM_dealloc s ptr = Except.ok s') : pools_accounted s' := by
  unfold SM_dealloc at h
  split at h
  · simp only [pure_ok, Except.ok.injEq] at h
    rw [← h]
    exact hacc
  · cases h1 : findPoolFromAddress s ptr with
    | error e =>
      rw [h1] at h
      cases h
    | ok poolSize =>
      rw [h1] at h
      simp only [bind_ok] at h
      split at h
      · cases h
      · rename_i pd hfind
        obtain ⟨hkey, hb, hr⟩ := hacc.2 _ (map_find_mem _ _ _ hfind)
        simp only at hkey
        cases h2 : findBlockFromAddress ptr pd with
        | error e =>
          rw [h2] at h
          cases h
        | ok block =>
          rw [h2] at h
          simp only [bind_ok, pure_ok, Except.ok.injEq] at h
          subst h
          refine ⟨hacc.1, ?_⟩
          intro e he
          rcases mem_map_set _ _ _ e he with h3 | h3
          · subst h3
            refine ⟨hkey, blocks_after_dealloc _ _ _ hb, ?_⟩
            have := remaining_after_dealloc pd.freeBlocks pd.poolSize pd.remainingSpace hr
            rw [hkey] at this ⊢
            exact this
          · exact hacc.2 e h3

theorem init_pools_accounted (n : Nat) (pools : List Nat) (s s' : sm_state)
    (hacc : pools_accounted s) (hn : n < 2147483648) (hpools : ∀ p ∈ pools, p < 4294967296)
    (h : init_pools n s pools = Except.ok s') : pools_accounted s' := by
  induction pools generalizing s with
  | nil =>
    simp only [init_pools, pure_ok, Except.ok.injEq] at h
    rw [← h]
    exact hacc
  | cons pool_i rest ih =>
    unfold init_pools at h
    split at h
    · cases h
    · rename_i a s1 hm1
      obtain ⟨e1, e2⟩ := malloc_keeps s s1 _ hm1
      split at h
      rename_i ptr s2 hm2
      obtain ⟨e3, e4⟩ := malloc_keeps s1 s2 _ hm2
      have hacc2 : pools_accounted s2 := by
        unfold pools_accounted
        rw [e3, e4, e1, e2]
        exact hacc
      dsimp only at h
      split at h
      · cases h
      · rename_i s3 h3
        have hacc3 := (pool_of_size_accounted s2 s3 pool_i n (ptr.getD 0) hacc2 hn
          (hpools pool_i (List.mem_cons_self _ _)) h3).1
        exact ih s3 hacc3 (fun q hq => hpools q (List.mem_cons_of_mem _ hq)) h

theorem run_calls_accounted (calls : List Call) (s s' : sm_state)
    (hacc : pools_accounted s) (h : run_calls s calls = Except.ok s') : pools_accounted s' := by
  induction calls generalizing s with
  | nil =>
    simp only [run_calls, pure_ok, Except.ok.injEq] at h
    rw [← h]
    exact hacc
  | cons c rest ih =>
    cases c with
    | alloc size =>
      unfold run_calls at h
      split at h
      · cases h
      · rename_i p s1 h1
        exact ih s1 (SM_alloc_accounted s s1 size p hacc h1) h
    | dealloc ptr =>
      unfold run_calls at h
      split at h
      · cases h
      · rename_i s1 h1
        exact ih s1 (SM_dealloc_accounted s s1 ptr hacc h1) h

/-! # The counters of the pools -/

/-- The counters where every pool has fewer than 2^63 bytes: the storage
manager is started by `initStorageManager` with an empty pool map and an
initial pool size below 2^31, and any sequence of `SM_alloc` and `SM_dealloc`
calls follows that does not abort.  Then for every pool of the map, as `unsigned int` values,
`freeBlocks + usedBlocks` is `totalBlocks` and `remainingSpace` is
`freeBlocks × poolSize`. -/
theorem pool_counters_agree (s0 s1 s : sm_state) (initialPoolSize : Nat) (pools : List Nat)
    (calls : List Call) (hmap : s0.m_PoolMap = []) (hn : initialPoolSize < 2147483648)
    (hpools : ∀ p ∈ pools, p < 4294967296)
    (hinit : initStorageManager s0 initialPoolSize pools = Except.ok s1)
    (hrun : run_calls s1 calls = Except.ok s) :
    ∀ e ∈ s.m_PoolMap,
      (e.2.freeBlocks + e.2.usedBlocks) % 4294967296 = e.2.totalBlocks ∧
      e.2.remainingSpace = (e.2.freeBlocks * e.2.poolSize) % 4294967296 := by
  have h0 : pools_accounted { s0 with m_initialPoolSize := initialPoolSize } := by
    refine ⟨hn, ?_⟩
    intro e he
    rw [show ({ s0 with m_initialPoolSize := initialPoolSize } : sm_state).m_PoolMap =
      s0.m_PoolMap from rfl, hmap] at he
    cases he
  have h1 := init_pools_accounted initialPoolSize pools _ s1 h0 hn hpools hinit
  have h2 := run_calls_accounted calls s1 s h1 hrun
  intro e he
  exact (h2.2 e he).2

theorem pool_counters_agree_witness :
    run_calls pool_started calls_past_the_pool =
      Except.ok (state_of (run_calls pool_started calls_past_the_pool)) ∧
    ∀ e ∈ (state_of (run_calls pool_started calls_past_the_pool)).m_PoolMap,
      (e.2.freeBlocks + e.2.usedBlocks) % 4294967296 = e.2.totalBlocks ∧
      e.2.remainingSpace = (e.2.freeBlocks * e.2.poolSize) % 4294967296 :=
  ⟨rfl, pool_counters_agree
    { m_initialPoolSize := 0, m_PoolMap := [], heap := [some 100, some 1000] }
    pool_started (state_of (run_calls pool_started calls_past_the_pool)) 2 [8]
    calls_past_the_pool rfl (by decide) (by decide) rfl rfl⟩

/-! # C38: an allocation past the end of the pool -/

/-- C38, at the failing input: in a pool of two 8-byte blocks at 1000 the
blocks 1000 and 1008 are allocated and given back, 1000 first; the next
allocation returns 1008 again, and the one after it, made while the pool
counts one free block, returns 1016, the end address of the pool: the block
index 2 is not below the two blocks of the pool, and the block 1000 stays
unused. -/
theorem allocation_past_the_pool :
    scenario_past_the_pool = Except.ok ([1000, 1008, 1008, 1016], 1000, 1016, 2, 1) := by
  rfl

/-! # C17: a released block that the neighbouring pool takes -/

/-- C17, at the failing input: the pool of 8-byte blocks lies at 1000 and
ends at 1016, where the pool of 16-byte blocks begins.  `SM_alloc(16)` returns
1016; `SM_dealloc(1016)` finds the pool of 8-byte blocks first, whose range
test includes its end address, and marks the block 2 of that pool as freed,
the pool of 16-byte blocks is left without a freed block; the next
`SM_alloc(16)` returns 1032 and not 1016. -/
theorem released_block_goes_to_neighbour_pool :
    scenario_adjacent_pools =
      Except.ok (1016, 1032, [(8, 1000, 1016, 2, true), (16, 1016, 1048, -1, false)]) := by
  rfl

/-! # C37: a pool whose size is no `ptrdiff_t` -/

/-- C37, at the failing input: `initStorageManager(2147483649, 1, {4294967295})`
asks for a pool of 9223372039002259455 bytes, which `malloc` cannot give; the
pool is set up all the same, and the difference of its end and its start
address is negative as a `ptrdiff_t`.  The pool gets 2147483648 blocks, all
free, and 2147483647 bytes of remaining space, while free blocks times block
size is 2147483648 as an `unsigned int`; after one `SM_alloc(4294967295)` the
remaining space is 2147483648 and the product 2147483649. -/
theorem giant_pool_counters_disagree :
    scenario_giant_pool =
      Except.ok (9223372039002259455,
        [(2147483648, 2147483648, 0, 2147483647, 2147483648)],
        [(2147483648, 2147483647, 1, 2147483648, 2147483649)]) := by
  rfl

end SM
